import Mathlib

/-!
# itbit-exc: a verification development

A shallow embedding of the exchange adapter (`index.js`, `lib/currency.js`,
`lib/helper.js`) together with theorems about it.

## Numbers

JavaScript numbers are IEEE-754 binary64 values.  A finite number is carried
by the exact rational it denotes; every arithmetic operation computes the exact
rational result and rounds it to the nearest binary64 value, ties to even
(`roundDouble`), overflowing to an infinity.  The two zeros are identified:
no code path modelled here can tell them apart.
-/

namespace ItBit

/-! ## JavaScript numbers -/

/-- A JavaScript number: a finite binary64 value (carried as the rational it
denotes), `NaN`, or one of the two infinities. -/
inductive JsNumber where
  | finite (q : ℚ)
  | nan
  | posInf
  | negInf
  deriving DecidableEq, Repr

/-- Round a rational to the nearest integer, ties to the even neighbour. -/
def roundHalfEven (r : ℚ) : ℤ :=
  let f := ⌊r⌋
  if r - f < 1 / 2 then f
  else if 1 / 2 < r - f then f + 1
  else if f % 2 = 0 then f else f + 1

/-- The number of halvings that bring `n` below 2, at most `fuel` of them. -/
def log2Fuel : ℕ → ℕ → ℕ
  | 0, _ => 0
  | fuel + 1, n => if n < 2 then 0 else log2Fuel fuel (n / 2) + 1

/-- The binary logarithm of a positive natural number, rounded down. -/
def natLog2 (n : ℕ) : ℕ := log2Fuel n n

/-- The binary logarithm of `|q|` rounded down, for `q ≠ 0`: the quotient of numerator and
denominator lies within one binade of the difference of their logarithms. -/
def floorLog2 (q : ℚ) : ℤ :=
  let k : ℤ := (natLog2 q.num.natAbs : ℤ) - (natLog2 q.den : ℤ)
  if (2 : ℚ) ^ k ≤ |q| then k else k - 1

/-- The binary exponent used to round `q`: `⌊log₂ |q|⌋`, but never below the
exponent `-1022` of the subnormal range. -/
def binaryExponent (q : ℚ) : ℤ := max (floorLog2 q) (-1022)

/-- The unit in the last place of the binade of `q` (53-bit significand). -/
def ulp (q : ℚ) : ℚ := (2 : ℚ) ^ (binaryExponent q - 52)

/-- The exact rational `q` rounded to binary64, round-to-nearest, ties-to-even,
before the overflow test. -/
def roundFinite (q : ℚ) : ℚ := (roundHalfEven (q / ulp q) : ℚ) * ulp q

/-- The exact rational `q` rounded to a JavaScript number: a rounded magnitude
of `2^1024` or more overflows to an infinity. -/
def roundDouble (q : ℚ) : JsNumber :=
  let r := roundFinite q
  if (2 : ℚ) ^ (1024 : ℕ) ≤ r then .posInf
  else if r ≤ -(2 : ℚ) ^ (1024 : ℕ) then .negInf
  else .finite r

namespace JsNumber

/-- An infinity of the given sign (`true` for the negative one). -/
def inf (neg : Bool) : JsNumber := if neg then negInf else posInf

/-- The sign of a non-NaN number as used by `*` and `/` with an infinite or zero
operand: `true` when negative. -/
def isNeg : JsNumber → Bool
  | finite q => decide (q < 0)
  | negInf => true
  | _ => false

/-- The JavaScript `*` operator on numbers. -/
def mul : JsNumber → JsNumber → JsNumber
  | nan, _ => nan
  | _, nan => nan
  | finite a, finite b => roundDouble (a * b)
  | finite a, y => if a = 0 then nan else inf (xor (decide (a < 0)) y.isNeg)
  | x, finite b => if b = 0 then nan else inf (xor x.isNeg (decide (b < 0)))
  | x, y => inf (xor x.isNeg y.isNeg)

/-- The JavaScript `/` operator on numbers. -/
def div : JsNumber → JsNumber → JsNumber
  | nan, _ => nan
  | _, nan => nan
  | finite a, finite b =>
      if b = 0 then (if a = 0 then nan else inf (decide (a < 0)))
      else roundDouble (a / b)
  | finite _, _ => finite 0
  | x, finite b => inf (xor x.isNeg (decide (b < 0)))
  | _, _ => nan

/-- The JavaScript `+` operator on numbers. -/
def add : JsNumber → JsNumber → JsNumber
  | nan, _ => nan
  | _, nan => nan
  | finite a, finite b => roundDouble (a + b)
  | finite _, y => y
  | x, finite _ => x
  | posInf, posInf => posInf
  | negInf, negInf => negInf
  | _, _ => nan

/-- The JavaScript unary `-` operator. -/
def neg : JsNumber → JsNumber
  | finite q => finite (-q)
  | nan => nan
  | posInf => negInf
  | negInf => posInf

/-- The function `Math.abs`. -/
def abs : JsNumber → JsNumber
  | finite q => finite |q|
  | nan => nan
  | _ => posInf

/-- The JavaScript `<` operator on numbers: false as soon as an operand is `NaN`. -/
def lt : JsNumber → JsNumber → Bool
  | nan, _ => false
  | _, nan => false
  | finite a, finite b => decide (a < b)
  | posInf, _ => false
  | _, negInf => false
  | _, _ => true

/-- The JavaScript `===` operator on numbers: `NaN` equals nothing. -/
def strictEq : JsNumber → JsNumber → Bool
  | nan, _ => false
  | _, nan => false
  | x, y => decide (x = y)

/-- The JavaScript `<=` operator on numbers: false as soon as an operand is `NaN`. -/
def le (x y : JsNumber) : Bool := lt x y || strictEq x y

/-- The JavaScript `>` operator on numbers. -/
def gt (x y : JsNumber) : Bool := lt y x

/-- The function `Math.round`: the nearest integer, a tie going to the larger one. -/
def round : JsNumber → JsNumber
  | finite q => finite (⌊q + 1 / 2⌋ : ℤ)
  | x => x

/-- The function `Math.pow(10, n)` for a small non-negative integer `n`: powers of ten up
to `10^22` are binary64 values, so the result is exact. -/
def pow10 (n : ℕ) : JsNumber := finite ((10 : ℚ) ^ n)

end JsNumber

/-! ## Strings read as numbers

The two ways in which the adapter turns a string into a number: the conversion `ToNumber`,
applied by the arithmetic operators, which reads the whole string, and the function
`parseFloat`, which reads the longest decimal literal at its start.  The value of a literal
is rounded to the nearest number. -/

/-- Is the character white space or a line terminator: tab, line feed, vertical tab, form
feed, carriage return, the space separators of Unicode, the line and the paragraph
separator and the byte order mark. -/
def isStrWhiteSpaceChar (c : Char) : Bool :=
  [9, 10, 11, 12, 13, 32, 160, 5760, 8232, 8233, 8239, 8287, 12288, 65279].contains c.toNat
    || (decide (8192 ≤ c.toNat) && decide (c.toNat ≤ 8202))

/-- The decimal digits at the start of a list of characters, and the rest of the list. -/
def spanDigits : List Char → List Char × List Char
  | [] => ([], [])
  | c :: cs => if c.isDigit then (c :: (spanDigits cs).1, (spanDigits cs).2) else ([], c :: cs)

/-- The value of a list of decimal digits. -/
def digitsNat (cs : List Char) : ℕ := cs.foldl (fun n c => 10 * n + (c.toNat - 48)) 0

/-- The value of a character as a digit of the given radix, at most 16. -/
def digitOf (radix : ℕ) (c : Char) : Option ℕ :=
  let v : Option ℕ :=
    if c.isDigit then some (c.toNat - 48)
    else if 97 ≤ c.toNat ∧ c.toNat ≤ 102 then some (c.toNat - 87)
    else if 65 ≤ c.toNat ∧ c.toNat ≤ 70 then some (c.toNat - 55)
    else none
  match v with
  | some n => if n < radix then some n else none
  | none => none

/-- The value of a list of digits of the given radix, `none` when a character is not such
a digit. -/
def radixValue (radix : ℕ) (cs : List Char) : Option ℕ :=
  cs.foldl (fun acc c =>
    match acc, digitOf radix c with
    | some n, some v => some (radix * n + v)
    | _, _ => none) (some 0)

/-- The exponent part at the start of a list of characters: `e` or `E`, an optional sign
and at least one digit.  Gives the exponent and the rest of the list; where no exponent
part starts, the exponent is 0 and nothing is consumed. -/
def readExponent (cs : List Char) : ℤ × List Char :=
  match cs with
  | [] => (0, [])
  | e :: r =>
    if e = 'e' ∨ e = 'E' then
      let signed : Bool × List Char :=
        match r with
        | '-' :: r1 => (true, r1)
        | '+' :: r1 => (false, r1)
        | _ => (false, r)
      let digits := spanDigits signed.2
      if digits.1 = [] then (0, cs)
      else ((if signed.1 then -1 else 1) * (digitsNat digits.1 : ℤ), digits.2)
    else (0, cs)

/-- The mathematical value `m * 10^e`. -/
def scaleDecimal (m : ℕ) (e : ℤ) : ℚ :=
  if 0 ≤ e then (m : ℚ) * (10 : ℚ) ^ e.toNat else (m : ℚ) / (10 : ℚ) ^ (-e).toNat

/-- The longest unsigned decimal literal (`StrUnsignedDecimalLiteral`) at the start of a
list of characters: `Infinity`, or digits with an optional fraction and an optional
exponent part, one digit at least.  Gives its value as a number and the rest of the list,
`none` when no such literal starts there. -/
def readUnsigned (cs : List Char) : Option (JsNumber × List Char) :=
  if "Infinity".toList.isPrefixOf cs then some (.posInf, cs.drop 8)
  else
    let whole := spanDigits cs
    match whole.2 with
    | '.' :: r =>
      let fraction := spanDigits r
      if whole.1 = [] ∧ fraction.1 = [] then none
      else
        let exponent := readExponent fraction.2
        some (roundDouble (scaleDecimal (digitsNat (whole.1 ++ fraction.1))
          (exponent.1 - (fraction.1.length : ℤ))), exponent.2)
    | _ =>
      if whole.1 = [] then none
      else
        let exponent := readExponent whole.2
        some (roundDouble (scaleDecimal (digitsNat whole.1) exponent.1), exponent.2)

/-- The longest decimal literal with an optional sign (`StrDecimalLiteral`) at the start
of a list of characters. -/
def readSigned (cs : List Char) : Option (JsNumber × List Char) :=
  match cs with
  | '-' :: r => (readUnsigned r).map (fun p => (p.1.neg, p.2))
  | '+' :: r => readUnsigned r
  | _ => readUnsigned cs

/-- The function `parseFloat` on a string: white space at the start is skipped, and the
longest decimal literal that starts there is read; what follows it is ignored.  `NaN` when
no literal starts there. -/
def parseFloatString (s : String) : JsNumber :=
  match readSigned (s.toList.dropWhile isStrWhiteSpaceChar) with
  | some p => p.1
  | none => .nan

/-- The radix announced by the second character of a literal that starts with `0`: 16 for
`x`, 8 for `o`, 2 for `b`, in either case; 0 when the character announces none. -/
def radixOf (c : Char) : ℕ :=
  if c = 'x' ∨ c = 'X' then 16
  else if c = 'o' ∨ c = 'O' then 8
  else if c = 'b' ∨ c = 'B' then 2
  else 0

/-- The value of a string that is a literal from end to end, white space removed. -/
def readLiteral (cs : List Char) : JsNumber :=
  match readSigned cs with
  | some (x, []) => x
  | _ => .nan

/-- The abstract operation `StringToNumber`: white space at both ends is removed; the empty
string is 0; a hexadecimal, octal or binary integer literal, or a decimal literal, that
makes up the whole string is its value; every other string is `NaN`. -/
def stringToNumber (s : String) : JsNumber :=
  let cs := ((s.toList.dropWhile isStrWhiteSpaceChar).reverse.dropWhile
    isStrWhiteSpaceChar).reverse
  match cs with
  | [] => .finite 0
  | '0' :: c :: ds =>
    if radixOf c = 0 then readLiteral cs
    else if ds = [] then .nan
    else
      match radixValue (radixOf c) ds with
      | some n => roundDouble n
      | none => .nan
  | _ => readLiteral cs

/-! ## Strings that denote numbers, and values

The strings produced by `Number.prototype.toFixed` and by the conversion of a number to
a string are kept in parsed form: sign, digits and number of decimals, or the number.  Every
other string is kept by its characters. -/

/-- A string that is a numeric literal. -/
inductive NumericString where
  /-- The decimal literal with an optional minus sign and exactly `d` digits after the
  point, denoting `± n / 10^d`: what `toFixed(d)` produces below `10^21`. -/
  | fixed (neg : Bool) (n : ℕ) (d : ℕ)
  /-- The string `String(x)` of a number `x`, which reads back as `x`. -/
  | ofNumber (x : JsNumber)
  deriving DecidableEq, Repr

/-- A JavaScript value, as far as the adapter looks at it. -/
inductive JsValue where
  | undefined
  | null
  | number (x : JsNumber)
  /-- A string that is a numeric literal, in parsed form. -/
  | numeric (s : NumericString)
  /-- A string, by its characters. -/
  | text (s : String)
  deriving DecidableEq, Repr

namespace NumericString

/-- The mathematical value of a decimal literal. -/
def decimalValue (neg : Bool) (n d : ℕ) : ℚ :=
  (if neg then -1 else 1) * (n : ℚ) / (10 : ℚ) ^ d

/-- The abstract operation `StringToNumber`: the literal's mathematical value rounded to a
number. -/
def toNumber : NumericString → JsNumber
  | fixed neg n d => roundDouble (decimalValue neg n d)
  | ofNumber x => x

end NumericString

namespace JsValue

/-- The abstract operation `ToNumber`. -/
def toNumber : JsValue → JsNumber
  | undefined => .nan
  | null => .finite 0
  | number x => x
  | numeric s => s.toNumber
  | text s => stringToNumber s

end JsValue

/-- The method `Number.prototype.toFixed(d)`: below `10^21` the integer `n` for which
`n / 10^d` is closest to `|x|` (the larger one on a tie), printed with `d` decimals and the
sign of `x`; otherwise `String(x)`. -/
def JsNumber.toFixed (x : JsNumber) (d : ℕ) : NumericString :=
  match x with
  | .finite q =>
      if (10 : ℚ) ^ (21 : ℕ) ≤ |q| then .ofNumber x
      else .fixed (decide (q < 0)) ⌊|q| * (10 : ℚ) ^ d + 1 / 2⌋.toNat d
  | _ => .ofNumber x

/-! ## Strings and dates -/

/-- The UTF-16 code units of a character. -/
def utf16Units (c : Char) : List ℕ :=
  if c.toNat < 65536 then [c.toNat]
  else [55296 + (c.toNat - 65536) / 1024, 56320 + (c.toNat - 65536) % 1024]

/-- The UTF-16 code units of a string: what JavaScript compares strings by. -/
def utf16 (s : String) : List ℕ := s.toList.foldr (fun c acc => utf16Units c ++ acc) []

/-- The JavaScript `>` operator on two strings: lexicographic on code units. -/
def stringGt (a b : String) : Bool := decide (utf16 b < utf16 a)

/-- Is a string value truthy: present and not empty. -/
def truthy : Option String → Bool
  | some s => s != ""
  | none => false

/-- The decimal digits of `n` on at least `width` places, zero padded. -/
def padDigits : ℕ → ℕ → List Char
  | 0, n => if n = 0 then [] else (Nat.toDigits 10 n)
  | width + 1, n =>
      if n < 10 ^ width then '0' :: padDigits width n else Nat.toDigits 10 n

/-- Civil date `(year, month, day)` of a number of days since 1970-01-01, in the proleptic
Gregorian calendar. -/
def civilFromDays (z : ℤ) : ℤ × ℤ × ℤ :=
  let z := z + 719468
  let era := z / 146097
  let doe := z % 146097
  let yoe := (doe - doe / 1460 + doe / 36524 - doe / 146096) / 365
  let doy := doe - (365 * yoe + yoe / 4 - yoe / 100)
  let mp := (5 * doy + 2) / 153
  let d := doy - (153 * mp + 2) / 5 + 1
  let m := if mp < 10 then mp + 3 else mp - 9
  let y := yoe + era * 400 + (if m ≤ 2 then 1 else 0)
  (y, m, d)

/-- The method `Date.prototype.toISOString` of the date with time value `t` (milliseconds
since the epoch): `none` stands for the `RangeError` of a time value outside
`±8.64e15`.  Years outside `0..9999` are written with a sign and six digits. -/
def toISOString (t : ℤ) : Option String :=
  if t < -8640000000000000 ∨ 8640000000000000 < t then none
  else
    let (y, m, d) := civilFromDays (t / 86400000)
    let ms := (t % 86400000).toNat
    let year : List Char :=
      if 0 ≤ y ∧ y ≤ 9999 then padDigits 4 y.toNat
      else (if y < 0 then '-' else '+') :: padDigits 6 y.natAbs
    some (String.mk (year ++ '-' :: padDigits 2 m.toNat ++ '-' :: padDigits 2 d.toNat
      ++ 'T' :: padDigits 2 (ms / 3600000) ++ ':' :: padDigits 2 (ms / 60000 % 60)
      ++ ':' :: padDigits 2 (ms / 1000 % 60) ++ '.' :: padDigits 3 (ms % 1000) ++ ['Z']))

/-- Days since 1970-01-01 of a civil date in the proleptic Gregorian calendar. -/
def daysFromCivil (y m d : ℤ) : ℤ :=
  let y := if m ≤ 2 then y - 1 else y
  let era := y / 400
  let yoe := y % 400
  let doy := (153 * (if m > 2 then m - 3 else m + 9) + 2) / 5 + d - 1
  let doe := yoe * 365 + yoe / 4 - yoe / 100 + doy
  era * 146097 + doe - 719468

/-- The number of days of a month. -/
def daysInMonth (y m : ℤ) : ℤ :=
  if m = 2 then (if y % 4 = 0 ∧ (y % 100 ≠ 0 ∨ y % 400 = 0) then 29 else 28)
  else if m = 4 ∨ m = 6 ∨ m = 9 ∨ m = 11 then 30 else 31

/-- The value of a list of decimal digits, `none` when a character is not a digit. -/
def digitsValue : List Char → Option ℕ
  | [] => some 0
  | cs => cs.foldl (fun acc c =>
      match acc with
      | some n => if c.isDigit then some (10 * n + (c.toNat - 48)) else none
      | none => none) (some 0)

/-- Time value of the fields of a date-time, `none` when a field is out of range. -/
def utcTime (y mo d h mi s ms : ℕ) : Option ℤ :=
  if 1 ≤ mo ∧ mo ≤ 12 ∧ 1 ≤ d ∧ (d : ℤ) ≤ daysInMonth y mo
      ∧ (h < 24 ∨ (h = 24 ∧ mi = 0 ∧ s = 0 ∧ ms = 0)) ∧ mi < 60 ∧ s < 60 then
    some (daysFromCivil y mo d * 86400000 + h * 3600000 + mi * 60000 + s * 1000 + ms)
  else none

/-- The part of `Date.parse` that the language fixes and that the adapter meets: the
date-time forms `YYYY-MM-DDTHH:mm:ssZ` and `YYYY-MM-DDTHH:mm:ss.sssZ` in UTC.  `none`
means the string has another form. -/
def parseIsoUtc (s : String) : Option ℤ :=
  match s.toList with
  | [y1, y2, y3, y4, '-', m1, m2, '-', d1, d2, 'T', h1, h2, ':', n1, n2, ':', s1, s2, 'Z'] =>
      match digitsValue [y1, y2, y3, y4], digitsValue [m1, m2], digitsValue [d1, d2],
        digitsValue [h1, h2], digitsValue [n1, n2], digitsValue [s1, s2] with
      | some y, some mo, some d, some h, some mi, some sec => utcTime y mo d h mi sec 0
      | _, _, _, _, _, _ => none
  | [y1, y2, y3, y4, '-', m1, m2, '-', d1, d2, 'T', h1, h2, ':', n1, n2, ':', s1, s2, '.',
      f1, f2, f3, 'Z'] =>
      match digitsValue [y1, y2, y3, y4], digitsValue [m1, m2], digitsValue [d1, d2],
        digitsValue [h1, h2], digitsValue [n1, n2], digitsValue [s1, s2],
        digitsValue [f1, f2, f3] with
      | some y, some mo, some d, some h, some mi, some sec, some ms =>
          utcTime y mo d h mi sec ms
      | _, _, _, _, _, _, _ => none
  | _ => none

/-- What the JavaScript engine contributes beyond the language definition. -/
structure Engine where
  /-- The hexadecimal SHA-256 digest of a string (`crypto.createHash`). -/
  sha256 : String → String
  /-- The time value `Date.parse` gives to a string that is not in one of the forms of
  `parseIsoUtc`: implementation-defined (`none` for an invalid date). -/
  dateFallback : String → Option ℤ
  /-- The first significant digit of `String(x)` for a number printed in exponent
  form. -/
  leadingDigit : ℚ → ℕ

/-- The time value of `new Date(s)` for a string `s`; `none` is the invalid date, whose
time value is `NaN`. -/
def Engine.dateParse (E : Engine) (s : String) : Option ℤ :=
  match parseIsoUtc s with
  | some t => some t
  | none => E.dateFallback s

/-! ## lib/currency.js -/

/-- The number of decimals of a currency: 8 for `BTC`, 2 for every other code. -/
def getDecimalsForCurrency (currency : String) : ℕ :=
  if currency = "BTC" then 8 else 2

/-- Convert an amount in sub-units to the main unit, as a string with the currency's
number of decimals. -/
def fromSmallestSubUnit (amount : JsValue) (currency : String) : NumericString :=
  let decimals := getDecimalsForCurrency currency
  let number := JsNumber.div amount.toNumber (JsNumber.pow10 decimals)
  number.toFixed decimals

/-- Convert an amount in the main unit to an integer number of sub-units. -/
def toSmallestSubUnit (amount : JsValue) (currency : String) : JsNumber :=
  let decimals := getDecimalsForCurrency currency
  JsNumber.round (JsNumber.mul amount.toNumber (JsNumber.pow10 decimals))

/-! ## Errors

An error value: what a transport hands to its callback, or what a `throw` raises.  The
message of an error raised by the engine itself is engine-specific and is left empty. -/

/-- An error value. -/
structure JsError where
  name : String
  message : String
  deriving DecidableEq, Repr

/-- The `TypeError` the engine raises when a property of `undefined` is read. -/
def engineTypeError : JsError := ⟨"TypeError", ""⟩

/-- The `RangeError` the engine raises when an invalid date is printed. -/
def engineRangeError : JsError := ⟨"RangeError", ""⟩

/-- The function `parseFloat`: the number read at the start of the string form of a value.
The string of a number reads back as the number; the strings `undefined` and `null` start
with no literal. -/
def parseFloat : JsValue → JsNumber
  | .number x => x
  | .numeric s => s.toNumber
  | .text s => parseFloatString s
  | _ => .nan

/-! ## lib/helper.js -/

/-- An order as the exchange returns it.  A field that is absent is `none` (or
`JsValue.undefined`). -/
structure RawOrder where
  id : Option String
  type : Option String
  side : Option String
  instrument : Option String
  amount : JsValue
  price : JsValue
  status : Option String
  createdTime : Option String
  deriving DecidableEq, Repr

/-- A trade execution of the wallet-trade listing. -/
structure RawExecution where
  orderId : Option String
  currency2Amount : JsValue
  commissionPaid : JsValue
  commissionCurrency : Option String
  deriving DecidableEq, Repr

/-- An order in the interface format.  The last three fields exist on closed orders only. -/
structure Order where
  externalId : Option String
  type : Option String
  state : String
  baseAmount : JsNumber
  baseCurrency : String
  quoteCurrency : String
  limitPrice : JsNumber
  raw : RawOrder
  quoteAmount : Option JsNumber
  feeAmount : Option JsNumber
  feeCurrency : Option String
  deriving DecidableEq, Repr

/-- Normalizes the exchange code `XBT` to `BTC`. -/
def normalizeCurrency (currency : String) : String :=
  if currency = "XBT" then "BTC" else currency

/-- Normalizes `BTC` to the exchange code `XBT`. -/
def normalizeCurrencyItBit (currency : String) : String :=
  if currency = "BTC" then "XBT" else currency

/-- The method `String.prototype.slice(from, to)` for `0 ≤ from ≤ to`, on strings of the
Basic Multilingual Plane. -/
def slice (s : String) (start stop : ℕ) : String :=
  String.mk ((s.toList.drop start).take (stop - start))

/-- A currency code as the argument of `getDecimalsForCurrency`: an absent code compares
unequal to `BTC`, as the empty code does. -/
def codeOf (currency : Option String) : String := currency.getD ""

/-- Parses an open order of the exchange to the interface format.  Reading the instrument
of an order that has none raises a `TypeError`. -/
def parseOpenOrder (order : RawOrder) : Except JsError Order :=
  match order.instrument with
  | none => .error engineTypeError
  | some instrument =>
    let apiBaseCurrency := slice instrument 0 3
    let baseCurrency := normalizeCurrency apiBaseCurrency
    let quoteCurrency := slice instrument 3 6
    let baseAmount := toSmallestSubUnit order.amount baseCurrency
    let baseAmount := if order.side = some "sell" then baseAmount.neg else baseAmount
    .ok { externalId := order.id
          type := order.type
          state := "open"
          baseAmount := baseAmount
          baseCurrency := baseCurrency
          quoteCurrency := quoteCurrency
          limitPrice := parseFloat order.price
          raw := order
          quoteAmount := none
          feeAmount := none
          feeCurrency := none }

/-- The three accumulators of `parseClosedOrder` after the loop over the executions. -/
def sumExecutions (tradeResults : List RawExecution) : JsNumber × JsNumber × Option String :=
  tradeResults.foldl
    (fun acc trade =>
      (acc.1.add (parseFloat trade.currency2Amount),
       acc.2.1.add (parseFloat trade.commissionPaid),
       trade.commissionCurrency))
    (.finite 0, .finite 0, some "")

/-- Parses a filled order and its executions to the interface format. -/
def parseClosedOrder (order : RawOrder) (tradeResults : List RawExecution) :
    Except JsError Order :=
  let sums := sumExecutions tradeResults
  match parseOpenOrder order with
  | .error e => .error e
  | .ok result =>
    let quoteAmount := toSmallestSubUnit (.number sums.1) result.quoteCurrency
    let quoteAmount := if order.side = some "buy" then quoteAmount.neg else quoteAmount
    .ok { result with
          state := "closed"
          quoteAmount := some quoteAmount
          feeAmount := some (toSmallestSubUnit (.number sums.2.1) (codeOf sums.2.2))
          feeCurrency := sums.2.2 }

/-- One entry of a wallet. -/
structure RawBalance where
  currency : String
  availableBalance : JsValue
  totalBalance : JsValue
  deriving DecidableEq, Repr

/-- The wallet as the exchange returns it. -/
structure RawWallet where
  balances : Option (List RawBalance)
  deriving DecidableEq, Repr

/-- An object used as a mapping from currency codes to amounts: the own properties in
the order in which they were created. -/
abbrev AmountMap := List (String × JsNumber)

/-- The assignment `map[key] = value` of a number to a property of a plain object.  The
key `__proto__` names the prototype accessor, whose setter ignores a number: no property
is created. -/
def AmountMap.set (map : AmountMap) (key : String) (value : JsNumber) : AmountMap :=
  if key = "__proto__" then map
  else if map.any (fun p => p.1 == key) then
    map.map (fun p => if p.1 == key then (key, value) else p)
  else map ++ [(key, value)]

/-- The balances in the interface format. -/
structure Balance where
  available : AmountMap
  total : AmountMap
  deriving DecidableEq, Repr

/-- Parses a wallet of the exchange to the interface format.  Iterating over the balances
of a wallet that has none raises a `TypeError`. -/
def parseBalance (balances : RawWallet) : Except JsError Balance :=
  match balances.balances with
  | none => .error engineTypeError
  | some entries =>
    .ok (entries.foldl
      (fun result balance =>
        let currency := if balance.currency = "XBT" then "BTC" else balance.currency
        let available := toSmallestSubUnit balance.availableBalance currency
        let totalBalance := toSmallestSubUnit balance.totalBalance currency
        { available := result.available.set currency available
          total := result.total.set currency totalBalance })
      { available := [], total := [] })

/-- A funding-history entry as the exchange returns it.  The withdrawal id is a
non-negative integer. -/
structure RawTransaction where
  status : Option String
  transactionType : Option String
  withdrawalId : Option ℕ
  txnHash : Option String
  time : Option String
  currency : Option String
  amount : JsValue
  deriving DecidableEq, Repr

/-- A transaction in the interface format. -/
structure Transaction where
  state : Option String
  type : String
  externalId : String
  currency : Option String
  amount : JsNumber
  timestamp : String
  chainTxId : Option String
  raw : RawTransaction
  deriving DecidableEq, Repr

/-- Computes a unique id of a transaction from its fields: the digest of the withdrawal id,
of the transaction hash, or of time and currency. -/
def getUniqueTransactionId (E : Engine) (transaction : RawTransaction) :
    Except JsError String :=
  let uniqueStringToHash : Except JsError String :=
    match transaction.transactionType, transaction.withdrawalId with
    | some "Withdrawal", some (id + 1) => .ok (toString (id + 1))
    | _, _ =>
      if transaction.transactionType = some "Deposit" ∧ truthy transaction.txnHash then
        .ok (transaction.txnHash.getD "")
      else if transaction.transactionType = some "Deposit" ∧ truthy transaction.time
          ∧ truthy transaction.currency then
        .ok (transaction.time.getD "" ++ "-" ++ transaction.currency.getD "")
      else .error ⟨"TypeError", "Unknown unique identifier for transaction"⟩
  match uniqueStringToHash with
  | .error e => .error e
  | .ok key => .ok (E.sha256 key)

/-- The timestamp with a trailing `Z` added when it carries neither `Z` nor `+0`. -/
def withZone (time : String) : String :=
  if time.endsWith "Z" || time.endsWith "+0" then time else time ++ "Z"

/-- A parsed transaction together with the warnings sent to the logger on the way. -/
structure ParsedTransaction where
  warnings : List RawTransaction
  result : Except JsError Transaction

/-- Parses a funding-history entry to the interface format; `log` says whether a logger was
supplied. -/
def parseTransaction (E : Engine) (transaction : RawTransaction) (log : Bool) :
    ParsedTransaction :=
  let known := transaction.status = some "completed" ∨ transaction.status = some "cancelled"
    ∨ transaction.status = some "relayed"
  let state : Option String := if known then transaction.status else none
  let warnings := if known then [] else (if log then [transaction] else [])
  let type : Except JsError String :=
    if transaction.transactionType = some "Withdrawal" then .ok "withdrawal"
    else if transaction.transactionType = some "Deposit" then .ok "deposit"
    else .error ⟨"TypeError", "ItBit transaction type not recognized (\"" ++
      transaction.transactionType.getD "undefined" ++ "\")"⟩
  { warnings := warnings
    result :=
      match type with
      | .error e => .error e
      | .ok type =>
      match getUniqueTransactionId E transaction with
      | .error e => .error e
      | .ok externalId =>
        let currency := transaction.currency.map normalizeCurrency
        let amount := toSmallestSubUnit transaction.amount (codeOf currency)
        match transaction.time with
        | none => .error engineTypeError
        | some time =>
          match (E.dateParse (withZone time)).bind toISOString with
          | none => .error engineRangeError
          | some timestamp =>
            .ok { state := state
                  type := type
                  externalId := externalId
                  currency := currency
                  amount := if type = "withdrawal" then amount.neg else amount
                  timestamp := timestamp
                  chainTxId := if truthy transaction.txnHash then transaction.txnHash else none
                  raw := transaction } }

/-- An order book as the exchange returns it: pairs of price and amount. -/
structure RawOrderBook where
  asks : Option (List (JsValue × JsValue))
  bids : Option (List (JsValue × JsValue))
  deriving DecidableEq, Repr

/-- An entry of the order book in the interface format. -/
structure OrderBookEntry where
  price : JsNumber
  baseAmount : JsNumber
  deriving DecidableEq, Repr

/-- The order book in the interface format. -/
structure OrderBook where
  asks : List OrderBookEntry
  bids : List OrderBookEntry
  baseCurrency : String
  quoteCurrency : String
  deriving DecidableEq, Repr

/-- The function that converts one pair of the order book. -/
def convertOrderBookEntryCreator (currency : String) (entry : JsValue × JsValue) :
    OrderBookEntry :=
  { price := parseFloat entry.1
    baseAmount := toSmallestSubUnit (.number (parseFloat entry.2)) currency }

/-- Parses an order book of the exchange to the interface format. -/
def parseOrderBook (orderBook : RawOrderBook) (baseCurrency quoteCurrency : String) :
    OrderBook :=
  let asksList := orderBook.asks.getD []
  let bidsList := orderBook.bids.getD []
  { asks := asksList.map (convertOrderBookEntryCreator baseCurrency)
    bids := bidsList.map (convertOrderBookEntryCreator baseCurrency)
    baseCurrency := baseCurrency
    quoteCurrency := quoteCurrency }

/-! ## index.js: errors, settings and the transport -/

/-- Modelled from the spec: the module `lib/error_codes.js` is not among the sources; the
two machine-readable error kinds the adapter uses are taken from section 7 of the
specification and from the tests. -/
inductive ErrorCode where
  | MODULE_ERROR
  | EXCHANGE_SERVER_ERROR
  deriving DecidableEq, Repr

/-- The error object the adapter hands to its callback. -/
structure ExchangeError where
  message : String
  code : ErrorCode
  cause : Option JsError
  deriving DecidableEq, Repr

/-- Constructs an error with a message, a code and, when given, the original error. -/
def constructError (message : String) (errorCode : ErrorCode) (errorCause : Option JsError) :
    ExchangeError :=
  { message := message, code := errorCode, cause := errorCause }

/-- The message of every transport failure. -/
def serviceErrorMessage : String :=
  "There is an error in the response from the ItBit service..."

/-- The settings given to the constructor.  The time ranges are integers of
milliseconds. -/
structure Settings where
  key : Option String
  secret : Option String
  walletId : Option String
  timeRangeBeforeCreatedInMillis : Option ℤ
  timeRangeAfterCreatedInMillis : Option ℤ
  deriving DecidableEq, Repr

/-- The default range searched before the creation time of an order: one minute. -/
def DEFAULT_TIME_RANGE_BEFORE_CREATED_IN_MILLIS : ℤ := 60000

/-- The default range searched after the creation time of an order: thirty minutes. -/
def DEFAULT_TIME_RANGE_AFTER_CREATED_IN_MILLIS : ℤ := 1800000

/-- The expression `value || fallback` for an optional integer: absent and `0` are
falsy. -/
def orDefault (value : Option ℤ) (fallback : ℤ) : ℤ :=
  match value with
  | some v => if v = 0 then fallback else v
  | none => fallback

/-- The adapter instance. -/
structure ItBitExchange where
  key : Option String
  secret : Option String
  walletId : Option String
  timeRangeBeforeCreatedInMillis : ℤ
  timeRangeAfterCreatedInMillis : ℤ
  deriving DecidableEq, Repr

/-- The constructor of the adapter. -/
def ItBitExchange.create (settings : Settings) : ItBitExchange :=
  { key := settings.key
    secret := settings.secret
    walletId := settings.walletId
    timeRangeBeforeCreatedInMillis :=
      orDefault settings.timeRangeBeforeCreatedInMillis
        DEFAULT_TIME_RANGE_BEFORE_CREATED_IN_MILLIS
    timeRangeAfterCreatedInMillis :=
      orDefault settings.timeRangeAfterCreatedInMillis
        DEFAULT_TIME_RANGE_AFTER_CREATED_IN_MILLIS }

/-- Checks for credentials before a private endpoint is called: the error to return, or
`none`. -/
def checkIfCredentialsIsProvided (x : ItBitExchange) : Option ExchangeError :=
  let errorMessage := ""
  let errorMessage :=
    if truthy x.key then errorMessage
    else "Function requires argument in constructor: settings.key"
  let errorMessage :=
    if truthy x.secret then errorMessage
    else "Function requires argument in constructor: settings.secret"
  let errorMessage :=
    if truthy x.walletId then errorMessage
    else "Function requires argument in constructor: settings.walletId"
  if errorMessage != "" then some (constructError errorMessage .MODULE_ERROR none)
  else none

/-- A page of the funding history.  The three counters are non-negative integers below
`2^53` (the exchange sends them as numerals), on which the arithmetic of the
adapter is exact. -/
structure FundingPage where
  fundingHistory : List RawTransaction
  currentPageNumber : ℕ
  totalNumberOfRecords : ℕ
  recordsPerPage : ℕ
  deriving DecidableEq, Repr

/-- A page of the wallet trades. -/
structure TradesPage where
  tradingHistory : List RawExecution
  currentPageNumber : ℕ
  totalNumberOfRecords : ℕ
  recordsPerPage : ℕ
  deriving DecidableEq, Repr

/-- The ticker as the exchange returns it. -/
structure RawTicker where
  bid : JsValue
  ask : JsValue
  lastPrice : JsValue
  high24h : JsValue
  low24h : JsValue
  vwap24h : JsValue
  volume24h : JsValue
  deriving DecidableEq, Repr

/-- A call of a method of the transport, with its arguments. -/
inductive Call where
  | addOrder (walletId : Option String) (side type : String) (amount limitPrice : JsNumber)
      (instrument : String)
  | getWallet (walletId : Option String)
  | getFundingHistory (walletId : Option String) (page perPage : ℕ)
  | getOrder (walletId : Option String) (orderId : Option String)
  | getWalletTrades (walletId : Option String) (page perPage : ℕ)
      (rangeStart rangeEnd : String)
  | getOrderBook (tickerSymbol : String)
  | getTicker (tickerSymbol : String)
  deriving DecidableEq, Repr

/-- The transport: the `itbit` client.  Every method answers with an error or with a
payload.  The two paginated methods may answer differently from call to call: their first
argument is the number of calls the listing has made before. -/
structure Transport where
  addOrder : Option String → String → String → JsNumber → JsNumber → String →
    Except JsError RawOrder
  getWallet : Option String → Except JsError RawWallet
  getFundingHistory : ℕ → Option String → ℕ → ℕ → Except JsError FundingPage
  getOrder : Option String → Option String → Except JsError RawOrder
  getWalletTrades : ℕ → Option String → ℕ → ℕ → String → String →
    Except JsError TradesPage
  getOrderBook : String → Except JsError RawOrderBook
  getTicker : String → Except JsError RawTicker

/-- How an operation ends: its callback receives a result or an error, or an exception
escapes. -/
inductive Outcome (ρ : Type) where
  | result (r : ρ)
  | error (e : ExchangeError)
  | throws (e : JsError)
  deriving DecidableEq, Repr

/-- A run of an operation: the calls made to the transport, in order, and how the
operation ended; `none` when it has not ended within the given number of loop
iterations. -/
structure Run (ρ : Type) where
  calls : List Call
  outcome : Option (Outcome ρ)

/-- The value of `Math.ceil(total / perPage)`: a division by zero gives `Infinity`, or
`NaN` for `0 / 0`. -/
inductive PageCount where
  | finite (n : ℕ)
  | infinite
  | nan
  deriving DecidableEq, Repr

/-- The expression `Math.ceil(totalNumberOfRecords / recordsPerPage)`. -/
def pageCount (totalNumberOfRecords recordsPerPage : ℕ) : PageCount :=
  if recordsPerPage = 0 then (if totalNumberOfRecords = 0 then .nan else .infinite)
  else .finite ((totalNumberOfRecords + recordsPerPage - 1) / recordsPerPage)

/-- The comparison `page > totalPages`. -/
def PageCount.exceededBy (totalPages : PageCount) (page : ℕ) : Bool :=
  match totalPages with
  | .finite n => decide (n < page)
  | _ => false

/-- The comparison `page <= totalPages`. -/
def PageCount.reaches (totalPages : PageCount) (page : ℕ) : Bool :=
  match totalPages with
  | .finite n => decide (page ≤ n)
  | .infinite => true
  | .nan => false

/-- The control flow `async.doWhilst(iteratee, test, callback)` of the `async` library: the
iteratee runs, then the test decides whether it runs again; an error of the iteratee ends
the loop at once.  The iteratee is told how many times it has run before and reports the
call it made.  The result is the calls made and what the final callback receives, `none`
when `fuel` iterations did not end the loop. -/
def doWhilst {σ : Type} (iteratee : ℕ → σ → Call × Except ExchangeError σ)
    (test : σ → Bool) : ℕ → ℕ → σ → List Call × Option (Except ExchangeError σ)
  | 0, _, _ => ([], none)
  | fuel + 1, k, s =>
    match iteratee k s with
    | (c, .error e) => ([c], some (.error e))
    | (c, .ok s') =>
      if test s' then
        let rest := doWhilst iteratee test fuel (k + 1) s'
        (c :: rest.1, rest.2)
      else ([c], some (.ok s'))

/-! ## index.js: the operations -/

/-- The function `parseInt` applied to a number: the integer part of its string form.  A
number printed in exponent form (non-zero and below `1e-6`, or from `1e21`) gives its
first digit. -/
def parseIntNumber (E : Engine) : JsNumber → JsNumber
  | .finite q =>
      if q = 0 then .finite 0
      else if (10 : ℚ) ^ (21 : ℕ) ≤ |q| ∨ |q| < 1 / (10 : ℚ) ^ (6 : ℕ) then
        .finite (if q < 0 then -(E.leadingDigit q : ℚ) else (E.leadingDigit q : ℚ))
      else .finite (if q < 0 then -(⌊-q⌋ : ℤ) else (⌊q⌋ : ℤ))
  | _ => .nan

/-- The main-unit amount that `placeTrade` submits: for `BTC` the amount cut to 4
decimals, in every case without its sign. -/
def placeTrade.amountMainUnit (E : Engine) (baseAmount : JsValue) (baseCurrency : String) :
    JsNumber :=
  let amountMainUnit := fromSmallestSubUnit baseAmount baseCurrency
  let amountMainUnit : JsNumber :=
    if baseCurrency = "BTC" then
      (parseIntNumber E ((JsNumber.finite 10000).mul amountMainUnit.toNumber)).div
        (.finite 10000)
    else amountMainUnit.toNumber
  amountMainUnit.abs

/-- Whether `placeTrade` logs that the amount was rounded. -/
def placeTrade.logsRounding (E : Engine) (baseAmount : JsValue) (baseCurrency : String) :
    Bool :=
  let amountMainUnit := fromSmallestSubUnit baseAmount baseCurrency
  let amountMainUnitRounded :=
    (parseIntNumber E ((JsNumber.finite 10000).mul amountMainUnit.toNumber)).div
      (.finite 10000)
  decide (baseCurrency = "BTC") && decide (amountMainUnit ≠ amountMainUnitRounded.toFixed 8)

/-- Place a limit order on the exchange. -/
def placeTrade (E : Engine) (T : Transport) (x : ItBitExchange)
    (baseAmount limitPrice : JsValue) (baseCurrency quoteCurrency : String) : Run Order :=
  match checkIfCredentialsIsProvided x with
  | some e => ⟨[], some (.error e)⟩
  | none =>
    let amountError : Run Order :=
      ⟨[], some (.error (constructError "The base amount must be a number" .MODULE_ERROR none))⟩
    let priceError : Run Order :=
      ⟨[], some (.error
        (constructError "The limit price must be a positive number" .MODULE_ERROR none))⟩
    match baseAmount with
    | .number amount =>
      if amount.strictEq (.finite 0) then amountError
      else
        match limitPrice with
        | .number price =>
          if price.le (.finite 0) then priceError
          else
            let limitPrice := (JsNumber.round ((JsNumber.finite 100).mul price)).div
              (.finite 100)
            let side := if amount.gt (.finite 0) then "buy" else "sell"
            let type := "limit"
            let amountMainUnit := placeTrade.amountMainUnit E baseAmount baseCurrency
            let instrument := normalizeCurrencyItBit baseCurrency ++ quoteCurrency
            ⟨[.addOrder x.walletId side type amountMainUnit limitPrice instrument],
              match T.addOrder x.walletId side type amountMainUnit limitPrice instrument with
              | .error err =>
                some (.error (constructError serviceErrorMessage .EXCHANGE_SERVER_ERROR
                  (some err)))
              | .ok response =>
                match parseOpenOrder response with
                | .error e =>
                  some (.error (constructError
                    "The response from ItBit addOrder() could not be parsed"
                    .MODULE_ERROR (some e)))
                | .ok trade => some (.result trade)⟩
        | _ => priceError
    | _ => amountError

/-- Get the account balances on the exchange. -/
def getBalance (T : Transport) (x : ItBitExchange) : Run Balance :=
  match checkIfCredentialsIsProvided x with
  | some e => ⟨[], some (.error e)⟩
  | none =>
    ⟨[.getWallet x.walletId],
      match T.getWallet x.walletId with
      | .error err =>
        some (.error (constructError serviceErrorMessage .EXCHANGE_SERVER_ERROR (some err)))
      | .ok response =>
        match parseBalance response with
        | .error e =>
          some (.error (constructError
            "The response from ItBit getBalance() could not be parsed" .MODULE_ERROR (some e)))
        | .ok balance => some (.result balance)⟩

/-- The accumulator of `listTransactions` between two iterations. -/
structure ListState where
  result : List RawTransaction
  limitReached : Bool
  currentPage : ℕ
  deriving DecidableEq, Repr

/-- The condition `latestTransaction && (latestTransaction.raw.time > transaction.time)`:
a comparison with an absent time is false. -/
def listTransactions.beyond (latestTransaction : Option Transaction)
    (transaction : RawTransaction) : Bool :=
  match latestTransaction with
  | none => false
  | some latest =>
    match latest.raw.time, transaction.time with
    | some latestTime, some time => stringGt latestTime time
    | _, _ => false

/-- Whether the loop over the items of a page keeps an item: its time is not before the
time of `latestTransaction`. -/
def listTransactions.keeps (latestTransaction : Option Transaction)
    (transaction : RawTransaction) : Bool :=
  !listTransactions.beyond latestTransaction transaction

/-- The body of the loop over the items of a page, on the pair of `result` and
`limitReached`. -/
def listTransactions.visit (latestTransaction : Option Transaction)
    (acc : List RawTransaction × Bool) (transaction : RawTransaction) :
    List RawTransaction × Bool :=
  if acc.2 then acc
  else if listTransactions.beyond latestTransaction transaction then (acc.1, true)
  else (acc.1 ++ [transaction], false)

/-- One page request of `listTransactions` and the handling of its answer. -/
def listTransactions.callAPI (T : Transport) (x : ItBitExchange)
    (latestTransaction : Option Transaction) (k : ℕ) (s : ListState) :
    Call × Except ExchangeError ListState :=
  let perPage := 50
  (.getFundingHistory x.walletId s.currentPage perPage,
    match T.getFundingHistory k x.walletId s.currentPage perPage with
    | .error err =>
      .error (constructError serviceErrorMessage .EXCHANGE_SERVER_ERROR (some err))
    | .ok data =>
      let visited := data.fundingHistory.foldl (listTransactions.visit latestTransaction)
        (s.result, s.limitReached)
      let currentPage := data.currentPageNumber
      let totalPages := pageCount data.totalNumberOfRecords data.recordsPerPage
      if visited.2 then
        .ok { result := visited.1, limitReached := true, currentPage := currentPage }
      else
        .ok { result := visited.1
              limitReached := totalPages.exceededBy (currentPage + 1)
              currentPage := currentPage + 1 })

/-- The test of the loop of `listTransactions`: false when no page is left. -/
def listTransactions.check (s : ListState) : Bool := !s.limitReached

/-- Parses every item in turn; the first exception ends the parsing. -/
def parseAll (E : Engine) : List RawTransaction → Except JsError (List Transaction)
  | [] => .ok []
  | txObject :: rest =>
    match (parseTransaction E txObject true).result with
    | .error e => .error e
    | .ok entry =>
      match parseAll E rest with
      | .error e => .error e
      | .ok entries => .ok (entry :: entries)

/-- The `try` block of the final callback of `listTransactions`: the accumulated items
are parsed, and an exception becomes an error. -/
def listTransactions.parseResult (E : Engine) (result : List RawTransaction) :
    Outcome (List Transaction) :=
  match parseAll E result with
  | .error e =>
    .error (constructError
      "The response from ItBit getFundingHistory() could not be parsed" .MODULE_ERROR
      (some e))
  | .ok parsedResult => .result parsedResult

/-- The final callback of `listTransactions`. -/
def listTransactions.done (E : Engine) (outcome : Except ExchangeError ListState) :
    Outcome (List Transaction) :=
  match outcome with
  | .error err => .error err
  | .ok s => listTransactions.parseResult E s.result

/-- List the transactions of the wallet, from the newest one, down to
`latestTransaction` when it is given. -/
def listTransactions (E : Engine) (T : Transport) (x : ItBitExchange)
    (latestTransaction : Option Transaction) (fuel : ℕ) : Run (List Transaction) :=
  match checkIfCredentialsIsProvided x with
  | some e => ⟨[], some (.error e)⟩
  | none =>
    let run := doWhilst (listTransactions.callAPI T x latestTransaction)
      listTransactions.check fuel 0
      { result := [], limitReached := false, currentPage := 1 }
    ⟨run.1, run.2.map (listTransactions.done E)⟩

/-- The argument of `getTrade`, as far as the operation looks at it: a value that is not
an object, an object without `raw`, or an object whose `raw` has the given `id`. -/
inductive TradeArg where
  | notObject
  | noRaw
  | raw (id : Option String)
  deriving DecidableEq, Repr

/-- The accumulator of `getTrade` between two iterations. -/
structure TradeState where
  tradeResults : List RawExecution
  currentPage : ℕ
  totalPages : PageCount
  deriving DecidableEq, Repr

/-- One page request of `getTrade` and the handling of its answer. -/
def getTrade.callAPI (T : Transport) (x : ItBitExchange) (id : Option String)
    (rangeStart rangeEnd : String) (k : ℕ) (s : TradeState) :
    Call × Except ExchangeError TradeState :=
  let perPage := 50
  (.getWalletTrades x.walletId s.currentPage perPage rangeStart rangeEnd,
    match T.getWalletTrades k x.walletId s.currentPage perPage rangeStart rangeEnd with
    | .error err =>
      .error (constructError serviceErrorMessage .EXCHANGE_SERVER_ERROR (some err))
    | .ok data =>
      let newTradeResults := data.tradingHistory.filter
        (fun walletTrade => decide (walletTrade.orderId = id))
      .ok { tradeResults := s.tradeResults ++ newTradeResults
            currentPage := data.currentPageNumber + 1
            totalPages := pageCount data.totalNumberOfRecords data.recordsPerPage })

/-- The test of the loop of `getTrade`: false if the current page exceeds the total
pages. -/
def getTrade.check (s : TradeState) : Bool := s.totalPages.reaches s.currentPage

/-- The message of the error for a filled order without trades. -/
def getTrade.noTradesMessage (rangeStart rangeEnd : String) (id : Option String) : String :=
  "No trades are found on ItBit in the time interval " ++
    "(" ++ rangeStart ++ " - " ++ rangeEnd ++ ") for tradeId: " ++ id.getD "undefined"

/-- The final callback of `getTrade` once the pages are fetched: the error for a filled
order without trades, or the parsed order with its trades. -/
def getTrade.aggregate (orderResult : RawOrder) (id : Option String)
    (rangeStart rangeEnd : String) (tradeResults : List RawExecution) : Outcome Order :=
  if tradeResults.length = 0 then
    .error (constructError (getTrade.noTradesMessage rangeStart rangeEnd id)
      .MODULE_ERROR none)
  else
    match parseClosedOrder orderResult tradeResults with
    | .error e =>
      .error (constructError
        "The response from ItBit getWalletTrades() could not be parsed" .MODULE_ERROR
        (some e))
    | .ok tradeResult => .result tradeResult

/-- The final callback of `getTrade`. -/
def getTrade.done (orderResult : RawOrder) (id : Option String)
    (rangeStart rangeEnd : String) (outcome : Except ExchangeError TradeState) :
    Outcome Order :=
  match outcome with
  | .error err => .error err
  | .ok s => getTrade.aggregate orderResult id rangeStart rangeEnd s.tradeResults

/-- The time range searched for the trades of an order, as two ISO 8601 strings; `none`
when a date is invalid, which raises a `RangeError`. -/
def getTrade.timeRange (E : Engine) (x : ItBitExchange) (orderResult : RawOrder) :
    Option (String × String) :=
  match orderResult.createdTime.bind E.dateParse with
  | none => none
  | some created =>
    let startTime := created - x.timeRangeBeforeCreatedInMillis
    let endTime := created + x.timeRangeAfterCreatedInMillis
    match toISOString startTime, toISOString endTime with
    | some rangeStart, some rangeEnd => some (rangeStart, rangeEnd)
    | _, _ => none

/-- Get a trade from the exchange: the order, and when it is filled the sum of the
trades that belong to it. -/
def getTrade (E : Engine) (T : Transport) (x : ItBitExchange) (trade : TradeArg)
    (fuel : ℕ) : Run Order :=
  match checkIfCredentialsIsProvided x with
  | some e => ⟨[], some (.error e)⟩
  | none =>
    match trade with
    | .notObject =>
      ⟨[], some (.error (constructError "trade must be an object" .MODULE_ERROR none))⟩
    | .noRaw => ⟨[], some (.throws engineTypeError)⟩
    | .raw id =>
      match T.getOrder x.walletId id with
      | .error err =>
        ⟨[.getOrder x.walletId id],
          some (.error (constructError serviceErrorMessage .EXCHANGE_SERVER_ERROR
            (some err)))⟩
      | .ok orderResult =>
        if orderResult.status ≠ some "filled" then
          ⟨[.getOrder x.walletId id],
            match parseOpenOrder orderResult with
            | .error e =>
              some (.error (constructError
                "The response from ItBit getOrder() could not be parsed" .MODULE_ERROR
                (some e)))
            | .ok tradeEntry => some (.result tradeEntry)⟩
        else
          match getTrade.timeRange E x orderResult with
          | none => ⟨[.getOrder x.walletId id], some (.throws engineRangeError)⟩
          | some (rangeStart, rangeEnd) =>
            let run := doWhilst (getTrade.callAPI T x id rangeStart rangeEnd)
              getTrade.check fuel 0
              { tradeResults := [], currentPage := 1, totalPages := .nan }
            ⟨.getOrder x.walletId id :: run.1,
              run.2.map (getTrade.done orderResult id rangeStart rangeEnd)⟩

/-- Get the order book from the exchange. -/
def getOrderBook (T : Transport) (baseCurrency quoteCurrency : String) : Run OrderBook :=
  let apiBaseCurrency := if baseCurrency = "BTC" then "XBT" else baseCurrency
  ⟨[.getOrderBook (apiBaseCurrency ++ quoteCurrency)],
    match T.getOrderBook (apiBaseCurrency ++ quoteCurrency) with
    | .error err =>
      some (.error (constructError serviceErrorMessage .EXCHANGE_SERVER_ERROR (some err)))
    | .ok data => some (.result (parseOrderBook data baseCurrency quoteCurrency))⟩

/-- The ticker in the interface format. -/
structure Ticker where
  baseCurrency : String
  quoteCurrency : String
  bid : JsNumber
  ask : JsNumber
  lastPrice : JsNumber
  high24Hours : JsNumber
  low24Hours : JsNumber
  vwap24Hours : JsNumber
  volume24Hours : JsNumber
  deriving DecidableEq, Repr

/-- Get ticker data from the exchange. -/
def getTicker (T : Transport) (baseCurrency quoteCurrency : String) : Run Ticker :=
  let apiBaseCurrency := if baseCurrency = "BTC" then "XBT" else baseCurrency
  ⟨[.getTicker (apiBaseCurrency ++ quoteCurrency)],
    match T.getTicker (apiBaseCurrency ++ quoteCurrency) with
    | .error err =>
      some (.error (constructError serviceErrorMessage .EXCHANGE_SERVER_ERROR (some err)))
    | .ok result =>
      some (.result
        { baseCurrency := baseCurrency
          quoteCurrency := quoteCurrency
          bid := parseFloat result.bid
          ask := parseFloat result.ask
          lastPrice := parseFloat result.lastPrice
          high24Hours := parseFloat result.high24h
          low24Hours := parseFloat result.low24h
          vwap24Hours := parseFloat result.vwap24h
          volume24Hours :=
            toSmallestSubUnit (.number (parseFloat result.volume24h)) baseCurrency })⟩

/-! ## Notions used in the statements -/

/-- The state of `listTransactions` after a page that was answered. -/
def listTransactions.next (latest : Option Transaction) (s : ListState) (data : FundingPage) :
    ListState :=
  if data.fundingHistory.all (listTransactions.keeps latest) then
    { result := s.result ++ data.fundingHistory
      limitReached :=
        (pageCount data.totalNumberOfRecords data.recordsPerPage).exceededBy
          (data.currentPageNumber + 1)
      currentPage := data.currentPageNumber + 1 }
  else
    { result := s.result ++ data.fundingHistory.takeWhile (listTransactions.keeps latest)
      limitReached := true
      currentPage := data.currentPageNumber }

/-- The pages `pages` are the answers of the transport to the page requests `calls`, the
first of which is call number `j` of the listing. -/
def fundingAnswers (T : Transport) (w : Option String) :
    ℕ → List Call → List FundingPage → Prop
  | _, [], [] => True
  | j, c :: cs, pg :: pgs =>
      (∃ p, c = .getFundingHistory w p 50 ∧ T.getFundingHistory j w p 50 = .ok pg)
        ∧ fundingAnswers T w (j + 1) cs pgs
  | _, _, _ => False

/-- The error, if any, with which the transport answers the call `c`, made as call number
`j` of a listing. -/
def Transport.failure (T : Transport) (j : ℕ) : Call → Option JsError
  | .addOrder w side type amount limitPrice instrument =>
      match T.addOrder w side type amount limitPrice instrument with
      | .error e => some e
      | .ok _ => none
  | .getWallet w =>
      match T.getWallet w with
      | .error e => some e
      | .ok _ => none
  | .getFundingHistory w page perPage =>
      match T.getFundingHistory j w page perPage with
      | .error e => some e
      | .ok _ => none
  | .getOrder w id =>
      match T.getOrder w id with
      | .error e => some e
      | .ok _ => none
  | .getWalletTrades w page perPage rangeStart rangeEnd =>
      match T.getWalletTrades j w page perPage rangeStart rangeEnd with
      | .error e => some e
      | .ok _ => none
  | .getOrderBook symbol =>
      match T.getOrderBook symbol with
      | .error e => some e
      | .ok _ => none
  | .getTicker symbol =>
      match T.getTicker symbol with
      | .error e => some e
      | .ok _ => none

/-- The error every operation reports for a failure `err` of the transport. -/
def serviceError (err : JsError) : ExchangeError :=
  constructError serviceErrorMessage .EXCHANGE_SERVER_ERROR (some err)

/-- The transaction `a` is strictly newer than `b`, by the raw time strings. -/
def RawTransaction.newer (a b : RawTransaction) : Bool :=
  match a.time, b.time with
  | some s, some t => stringGt s t
  | _, _ => false

/-! ## Sample data for the concrete cases -/

/-- An engine for the concrete cases; none of them depends on its choices. -/
def sampleEngine : Engine :=
  { sha256 := fun s => s, dateFallback := fun _ => none, leadingDigit := fun _ => 1 }

/-- An adapter with credentials and the default time ranges. -/
def sampleExchange : ItBitExchange :=
  ItBitExchange.create
    { key := some "mock_key", secret := some "mock_secret", walletId := some "mock_walletid"
      timeRangeBeforeCreatedInMillis := none, timeRangeAfterCreatedInMillis := none }

/-- The error of a transport method that a concrete case does not reach. -/
def sampleFailure : JsError := ⟨"Error", "An error happened here"⟩

/-- A bitcoin deposit of 14.8998 XBT recorded at the given time. -/
def sampleDeposit (time : String) : RawTransaction :=
  { status := some "completed", transactionType := some "Deposit", withdrawalId := none
    txnHash := some "b77ded84", time := some time, currency := some "XBT"
    amount := .numeric (.fixed false 1489980000 8) }

/-- The deposit of `sampleDeposit` in the interface format, under `sampleEngine`. -/
def sampleParsed (time : String) : Transaction :=
  { state := some "completed", type := "deposit", externalId := "b77ded84"
    currency := some "BTC", amount := .finite 1489980000, timestamp := time
    chainTxId := some "b77ded84", raw := sampleDeposit time }

/-- A transport whose funding history answers the request for page `k` with the items
`items k`, page number `k` and the given counters, and fails everywhere else. -/
def samplePagedTransport (items : ℕ → List RawTransaction) (N P : ℕ) : Transport :=
  { addOrder := fun _ _ _ _ _ _ => .error sampleFailure
    getWallet := fun _ => .error sampleFailure
    getFundingHistory := fun _ _ page _ => .ok ⟨items page, page, N, P⟩
    getOrder := fun _ _ => .error sampleFailure
    getWalletTrades := fun _ _ _ _ _ _ => .error sampleFailure
    getOrderBook := fun _ => .error sampleFailure
    getTicker := fun _ => .error sampleFailure }

/-- A transport whose funding history has four pages of one record, answers the request
for page 1 and fails from page 2 on. -/
def sampleFailingTransport : Transport :=
  { addOrder := fun _ _ _ _ _ _ => .error sampleFailure
    getWallet := fun _ => .error sampleFailure
    getFundingHistory := fun _ _ page _ =>
      if page = 1 then .ok ⟨[sampleDeposit "2015-02-05T18:52:39.127Z"], 1, 4, 1⟩
      else .error sampleFailure
    getOrder := fun _ _ => .error sampleFailure
    getWalletTrades := fun _ _ _ _ _ _ => .error sampleFailure
    getOrderBook := fun _ => .error sampleFailure
    getTicker := fun _ => .error sampleFailure }

/-- A buy order of 0.0010 XBT at 400.99 USD created at 2014-02-11T17:05:15Z. -/
def sampleOrder (id status : String) : RawOrder :=
  { id := some id, type := some "limit", side := some "buy", instrument := some "XBTUSD"
    amount := .numeric (.fixed false 10 4), price := .numeric (.fixed false 40099 2)
    status := some status, createdTime := some "2014-02-11T17:05:15Z" }

/-- An execution of 0.0001 XBT for 200.025053 USD with a commission of 0.02 USD. -/
def sampleExecution (orderId : String) : RawExecution :=
  { orderId := some orderId
    currency2Amount := .numeric (.fixed false 2000250530000000000 16)
    commissionPaid := .numeric (.fixed false 200000 7)
    commissionCurrency := some "USD" }

/-- A transport that knows one order and answers the request for page `k` of the wallet
trades with the executions `items k`, page number `k` and the given counters. -/
def sampleTradeTransport (order : RawOrder) (items : ℕ → List RawExecution) (N P : ℕ) :
    Transport :=
  { addOrder := fun _ _ _ _ _ _ => .error sampleFailure
    getWallet := fun _ => .error sampleFailure
    getFundingHistory := fun _ _ _ _ => .error sampleFailure
    getOrder := fun _ _ => .ok order
    getWalletTrades := fun _ _ page _ _ _ => .ok ⟨items page, page, N, P⟩
    getOrderBook := fun _ => .error sampleFailure
    getTicker := fun _ => .error sampleFailure }

/-- A transport whose funding history answers every request with the same page and fails
everywhere else. -/
def samplePageTransport (page : FundingPage) : Transport :=
  { addOrder := fun _ _ _ _ _ _ => .error sampleFailure
    getWallet := fun _ => .error sampleFailure
    getFundingHistory := fun _ _ _ _ => .ok page
    getOrder := fun _ _ => .error sampleFailure
    getWalletTrades := fun _ _ _ _ _ _ => .error sampleFailure
    getOrderBook := fun _ => .error sampleFailure
    getTicker := fun _ => .error sampleFailure }

/-! ## Further notions and sample data: orders and amounts -/

/-- The sum of the `currency2Amount` of the executions as the loop of `parseClosedOrder`
accumulates it: from `0`, in list order, every addition rounded to a number. -/
def quoteSum (tradeResults : List RawExecution) : JsNumber :=
  tradeResults.foldl (fun acc trade => acc.add (parseFloat trade.currency2Amount)) (.finite 0)

/-- The `d` characters after the point of the decimal literal with digits `n` and `d`
decimals. -/
def NumericString.fractionDigits (n d : ℕ) : List Char :=
  (List.range d).reverse.map (fun i => Char.ofNat (48 + n / 10 ^ i % 10))

/-- The text of the decimal literal `fixed neg n d`: an optional minus sign, the integer
part and, when `d` is not zero, a point followed by the `d` fraction digits. -/
def NumericString.fixedText (neg : Bool) (n d : ℕ) : String :=
  String.mk ((if neg then ['-'] else []) ++ Nat.toDigits 10 (n / 10 ^ d)
    ++ (if d = 0 then [] else '.' :: NumericString.fractionDigits n d))

/-- The result of a run that ended with a result. -/
def Run.value {ρ : Type} (r : Run ρ) : Option ρ :=
  match r.outcome with
  | some (.result v) => some v
  | _ => none

/-- An execution of 10 XBT for 1955.30 USD without commission. -/
def sampleSecondExecution (orderId : String) : RawExecution :=
  { orderId := some orderId
    currency2Amount := .numeric (.fixed false 19553000000000000000 16)
    commissionPaid := .numeric (.fixed false 0 8)
    commissionCurrency := some "USD" }

/-- An execution whose commission of 0.0001 is charged in the base currency, under the
exchange code `XBT`. -/
def sampleXbtExecution (orderId : String) : RawExecution :=
  { orderId := some orderId
    currency2Amount := .numeric (.fixed false 2000250530000000000 16)
    commissionPaid := .numeric (.fixed false 10000 8)
    commissionCurrency := some "XBT" }

/-- The order with which the echoing transport answers `addOrder`. -/
def sampleEcho (side type : String) (amount limitPrice : JsNumber) (instrument : String) :
    RawOrder :=
  { id := some "8fd19400-2ac7-4735-b3aa-0ba8e1bb9be9", type := some type
    side := some side, instrument := some instrument
    amount := .number amount, price := .number limitPrice
    status := some "submitted", createdTime := some "2015-12-01T10:05:48.7011215Z" }

/-- A transport whose `addOrder` answers with an open order that echoes the submitted
side, type, amount, price and instrument, and that fails everywhere else. -/
def sampleEchoTransport : Transport :=
  { addOrder := fun _ side type amount limitPrice instrument =>
      .ok (sampleEcho side type amount limitPrice instrument)
    getWallet := fun _ => .error sampleFailure
    getFundingHistory := fun _ _ _ _ => .error sampleFailure
    getOrder := fun _ _ => .error sampleFailure
    getWalletTrades := fun _ _ _ _ _ _ => .error sampleFailure
    getOrderBook := fun _ => .error sampleFailure
    getTicker := fun _ => .error sampleFailure }

/-- An adapter built from the given credentials, with the default time ranges. -/
def sampleAdapter (key secret walletId : Option String) : ItBitExchange :=
  ItBitExchange.create
    { key := key, secret := secret, walletId := walletId
      timeRangeBeforeCreatedInMillis := none, timeRangeAfterCreatedInMillis := none }

/-! ## Further notions and sample data: the parsers -/

/-- The value `map[key]` of a mapping that has the key. -/
def AmountMap.get (map : AmountMap) (key : String) : Option JsNumber :=
  (map.find? (fun p => p.1 == key)).map (fun p => p.2)

/-- The keys of a mapping. -/
def AmountMap.keys (map : AmountMap) : List String := map.map (fun p => p.1)

/-- The body of the loop of `parseBalance` over the entries of the wallet. -/
def parseBalance.step (result : Balance) (balance : RawBalance) : Balance :=
  let currency := if balance.currency = "XBT" then "BTC" else balance.currency
  let available := toSmallestSubUnit balance.availableBalance currency
  let totalBalance := toSmallestSubUnit balance.totalBalance currency
  { available := result.available.set currency available
    total := result.total.set currency totalBalance }

/-- The key of the unique id as the specification describes it, case by case: the
withdrawal id of a withdrawal that carries one, else the transaction hash of a deposit that
carries one, else time, a dash and currency of a deposit that carries both; `none` when no
case applies.  A field is carried when it is present and truthy. -/
def uniqueKeyBySpec (t : RawTransaction) : Option String :=
  if t.transactionType = some "Withdrawal" ∧ t.withdrawalId.isSome ∧ t.withdrawalId ≠ some 0 then
    t.withdrawalId.map toString
  else if t.transactionType = some "Deposit" ∧ truthy t.txnHash then t.txnHash
  else if t.transactionType = some "Deposit" ∧ truthy t.time ∧ truthy t.currency then
    some (t.time.getD "" ++ "-" ++ t.currency.getD "")
  else none

/-- A string is a digest in hexadecimal form: 64 characters, each a digit or a letter from
`a` to `f`. -/
def isHexDigest (s : String) : Bool :=
  s.length == 64 && s.toList.all (fun c => c.isDigit || ('a' ≤ c && c ≤ 'f'))

/-- An order whose instrument has seven characters. -/
def sampleLongOrder : RawOrder :=
  { id := some "5b1f51e1", type := some "limit", side := some "sell"
    instrument := some "XBTUSDT"
    amount := .numeric (.fixed false 10 4), price := .numeric (.fixed false 400 0)
    status := some "submitted", createdTime := some "2014-02-11T17:05:15Z" }

/-- A wallet with the four balances of the tests. -/
def sampleWallet : RawWallet :=
  { balances := some
      [ { currency := "USD", availableBalance := .numeric (.fixed false 500000000000 7)
          totalBalance := .numeric (.fixed false 500000000000 7) },
        { currency := "XBT", availableBalance := .numeric (.fixed false 1000000010 7)
          totalBalance := .numeric (.fixed false 1000000000 7) },
        { currency := "EUR", availableBalance := .numeric (.fixed false 1000000000 7)
          totalBalance := .numeric (.fixed false 1000000000 7) },
        { currency := "SGD", availableBalance := .numeric (.fixed false 1000000000 7)
          totalBalance := .numeric (.fixed false 1000000000 7) } ] }

/-- A wallet that lists the bitcoin balance twice, once under each code. -/
def sampleDoubleWallet : RawWallet :=
  { balances := some
      [ { currency := "XBT", availableBalance := .numeric (.fixed false 1 0)
          totalBalance := .numeric (.fixed false 1 0) },
        { currency := "BTC", availableBalance := .numeric (.fixed false 2 0)
          totalBalance := .numeric (.fixed false 2 0) } ] }

/-- A withdrawal in `EUR` with the given withdrawal id, amount and status, recorded at
2015-03-18T17:37:39.917Z. -/
def sampleWithdrawal (withdrawalId : ℕ) (amount : JsValue) (status : String) :
    RawTransaction :=
  { status := some status, transactionType := some "Withdrawal"
    withdrawalId := some withdrawalId, txnHash := none
    time := some "2015-03-18T17:37:39.917Z", currency := some "EUR", amount := amount }

/-- The order book of the tests. -/
def sampleBook : RawOrderBook :=
  { asks := some
      [ (.numeric (.fixed false 21982 2), .numeric (.fixed false 219 2)),
        (.numeric (.fixed false 21983 2), .numeric (.fixed false 605 2)) ]
    bids := some
      [ (.numeric (.fixed false 21940 2), .numeric (.fixed false 1746 2)),
        (.numeric (.fixed false 21913 2), .numeric (.fixed false 5393 2)) ] }

/-! ## lib/currency.js: the formatting of amounts -/

/-- The names an identifier in `formatAmount` can refer to: the function declared in
`lib/currency.js`, the bindings every module is given, and the parameters and variables of
`formatAmount` itself.  The functions assigned to `module.exports` are properties of that
object, not names of the module. -/
def currencyScope : List String :=
  ["getDecimalsForCurrency", "module", "exports", "require", "amount", "currency",
    "machine_readable", "number", "decimals"]

/-- The `ReferenceError` raised when an identifier is read that is bound nowhere. -/
def referenceError (name : String) : JsError := ⟨"ReferenceError", name ++ " is not defined"⟩

/-- Returns a formatted amount.  The identifiers `fromSmallestSubUnit` and `number_format`
are looked up in the scope of the module and then on the global object, which has no
property of either name; `number` would be the string that the conversion returns, and a
string has no method `toFixed`, so that calling it raises a `TypeError`. -/
def formatAmount (amount : JsValue) (currency : String) (machine_readable : Bool) :
    Except JsError NumericString :=
  if "fromSmallestSubUnit" ∈ currencyScope then
    let number := fromSmallestSubUnit amount currency
    if machine_readable then .error engineTypeError
    else if "number_format" ∈ currencyScope then .ok number
    else .error (referenceError "number_format")
  else .error (referenceError "fromSmallestSubUnit")

/-! ## Further notions and sample data: the pages and the settings -/

/-- The page number asked for by a call of one of the two paginated methods. -/
def Call.page : Call → Option ℕ
  | .getFundingHistory _ page _ => some page
  | .getWalletTrades _ page _ _ _ => some page
  | _ => none

/-- The three counters of a page of the funding history. -/
def FundingPage.counters (data : FundingPage) : ℕ × ℕ × ℕ :=
  (data.currentPageNumber, data.totalNumberOfRecords, data.recordsPerPage)

/-- The three counters of a page of the wallet trades. -/
def TradesPage.counters (data : TradesPage) : ℕ × ℕ × ℕ :=
  (data.currentPageNumber, data.totalNumberOfRecords, data.recordsPerPage)

/-- A transport that knows one order and answers every page request, of the funding
history and of the wallet trades, without items: the page number it reports is `number`
of the page asked for, and the two other counters are fixed. -/
def sampleCountersTransport (order : RawOrder) (number : ℕ → ℕ) (N P : ℕ) : Transport :=
  { addOrder := fun _ _ _ _ _ _ => .error sampleFailure
    getWallet := fun _ => .error sampleFailure
    getFundingHistory := fun _ _ page _ => .ok ⟨[], number page, N, P⟩
    getOrder := fun _ _ => .ok order
    getWalletTrades := fun _ _ page _ _ _ => .ok ⟨[], number page, N, P⟩
    getOrderBook := fun _ => .error sampleFailure
    getTicker := fun _ => .error sampleFailure }

/-- A funding-history entry of a type that is neither a deposit nor a withdrawal. -/
def sampleTransfer : RawTransaction :=
  { status := some "completed", transactionType := some "Transfer", withdrawalId := none
    txnHash := none, time := some "2015-02-05T18:52:39.127Z", currency := some "USD"
    amount := .numeric (.fixed false 1000 2) }

/-- The time value of a date-time `YYYY-MM-DDTHH:mm:ss.fffffffZ` with seven fraction
digits, of which the first three count as milliseconds: how Node reads the form in which the
exchange writes its times, a form that the language leaves to the engine. -/
def parseLongFraction (s : String) : Option ℤ :=
  match s.toList with
  | [y1, y2, y3, y4, '-', m1, m2, '-', d1, d2, 'T', h1, h2, ':', n1, n2, ':', s1, s2, '.',
      f1, f2, f3, f4, f5, f6, f7, 'Z'] =>
      match digitsValue [f4, f5, f6, f7] with
      | some _ =>
        parseIsoUtc (String.mk [y1, y2, y3, y4, '-', m1, m2, '-', d1, d2, 'T', h1, h2, ':',
          n1, n2, ':', s1, s2, '.', f1, f2, f3, 'Z'])
      | none => none
  | _ => none

/-- An engine that reads times with seven fraction digits as Node does and rejects every
other form outside the language definition. -/
def sampleNodeEngine : Engine :=
  { sha256 := fun s => s, dateFallback := parseLongFraction, leadingDigit := fun _ => 1 }

/-- A deposit in `USD` recorded at the given time, as the exchange writes it. -/
def sampleUsdDeposit (time : String) : RawTransaction :=
  { status := some "completed", transactionType := some "Deposit", withdrawalId := none
    txnHash := none, time := some time, currency := some "USD"
    amount := .numeric (.fixed false 1000000 8) }

/-! ## Facts about rounding -/

theorem log2Fuel_spec : ∀ (fuel n : ℕ), 0 < n → n ≤ fuel →
    2 ^ log2Fuel fuel n ≤ n ∧ n < 2 ^ (log2Fuel fuel n + 1) := by
  intro fuel
  induction fuel with
  | zero => intro n h0 h1; omega
  | succ fuel ih =>
    intro n h0 h1
    unfold log2Fuel
    by_cases h2 : n < 2
    · simp only [h2, if_true]
      constructor
      · simpa using h0
      · simpa using h2
    · simp only [h2, if_false]
      have h3 : 0 < n / 2 := Nat.div_pos (by omega) (by norm_num)
      have h4 : n / 2 ≤ fuel := by omega
      obtain ⟨l, u⟩ := ih (n / 2) h3 h4
      have e1 : 2 ^ (log2Fuel fuel (n / 2) + 1) = 2 * 2 ^ log2Fuel fuel (n / 2) := by
        rw [pow_succ]; ring
      have e2 : 2 ^ (log2Fuel fuel (n / 2) + 1 + 1) = 2 * 2 ^ (log2Fuel fuel (n / 2) + 1) := by
        rw [pow_succ]; ring
      constructor
      · rw [e1]; omega
      · rw [e2]; omega

theorem natLog2_spec (n : ℕ) (h : 0 < n) :
    2 ^ natLog2 n ≤ n ∧ n < 2 ^ (natLog2 n + 1) :=
  log2Fuel_spec n n h le_rfl

theorem abs_eq_natAbs_div_den (q : ℚ) : |q| = (q.num.natAbs : ℚ) / (q.den : ℚ) := by
  have hd : (0 : ℚ) < q.den := by exact_mod_cast q.den_pos
  conv_lhs => rw [← Rat.num_div_den q]
  rw [abs_div, abs_of_pos hd, Nat.cast_natAbs, Int.cast_abs]

theorem floorLog2_spec (q : ℚ) (hq : q ≠ 0) :
    (2 : ℚ) ^ floorLog2 q ≤ |q| ∧ |q| < (2 : ℚ) ^ (floorLog2 q + 1) := by
  have hn : 0 < q.num.natAbs := Int.natAbs_pos.mpr (Rat.num_ne_zero.mpr hq)
  have hd : 0 < q.den := q.den_pos
  obtain ⟨n1, n2⟩ := natLog2_spec _ hn
  obtain ⟨d1, d2⟩ := natLog2_spec _ hd
  have hdq : (0 : ℚ) < q.den := by exact_mod_cast hd
  have n1q : (2 : ℚ) ^ natLog2 q.num.natAbs ≤ q.num.natAbs := by exact_mod_cast n1
  have n2q : (q.num.natAbs : ℚ) < 2 ^ (natLog2 q.num.natAbs + 1) := by exact_mod_cast n2
  have d1q : (2 : ℚ) ^ natLog2 q.den ≤ q.den := by exact_mod_cast d1
  have d2q : (q.den : ℚ) < 2 ^ (natLog2 q.den + 1) := by exact_mod_cast d2
  have two : (2 : ℚ) ≠ 0 := by norm_num
  have pa : (0 : ℚ) < 2 ^ natLog2 q.num.natAbs := by positivity
  have pb : (0 : ℚ) < 2 ^ natLog2 q.den := by positivity
  have habs := abs_eq_natAbs_div_den q
  have hk : ∀ z : ℤ, (2 : ℚ) ^ (((natLog2 q.num.natAbs : ℤ) - (natLog2 q.den : ℤ)) + z) =
      2 ^ natLog2 q.num.natAbs / 2 ^ natLog2 q.den * 2 ^ z := by
    intro z
    rw [zpow_add₀ two, zpow_sub₀ two, zpow_natCast, zpow_natCast]
  have up : |q| < (2 : ℚ) ^ (((natLog2 q.num.natAbs : ℤ) - (natLog2 q.den : ℤ)) + 1) := by
    rw [hk 1, habs, div_lt_iff₀ hdq]
    have : (2 : ℚ) ^ natLog2 q.num.natAbs / 2 ^ natLog2 q.den * 2 ^ (1 : ℤ) * q.den
        = 2 ^ (natLog2 q.num.natAbs + 1) * (q.den / 2 ^ natLog2 q.den) := by
      rw [pow_succ]; field_simp
    rw [this]
    have h1 : (1 : ℚ) ≤ q.den / 2 ^ natLog2 q.den := by
      rw [le_div_iff₀ pb]; linarith
    nlinarith [pow_pos (show (0:ℚ) < 2 by norm_num) (natLog2 q.num.natAbs + 1)]
  have low : (2 : ℚ) ^ (((natLog2 q.num.natAbs : ℤ) - (natLog2 q.den : ℤ)) + (-1)) ≤ |q| := by
    rw [hk (-1), habs, le_div_iff₀ hdq]
    have : (2 : ℚ) ^ natLog2 q.num.natAbs / 2 ^ natLog2 q.den * 2 ^ (-1 : ℤ) * q.den
        = 2 ^ natLog2 q.num.natAbs * (q.den / 2 ^ (natLog2 q.den + 1)) := by
      rw [pow_succ]; field_simp
    rw [this]
    have h1 : (q.den : ℚ) / 2 ^ (natLog2 q.den + 1) ≤ 1 := by
      rw [div_le_iff₀ (by positivity)]; linarith
    nlinarith
  unfold floorLog2
  simp only
  split_ifs with h
  · exact ⟨h, up⟩
  · constructor
    · have : ((natLog2 q.num.natAbs : ℤ) - (natLog2 q.den : ℤ)) - 1
          = ((natLog2 q.num.natAbs : ℤ) - (natLog2 q.den : ℤ)) + (-1) := by ring
      rw [this]; exact low
    · have : ((natLog2 q.num.natAbs : ℤ) - (natLog2 q.den : ℤ)) - 1 + 1
          = ((natLog2 q.num.natAbs : ℤ) - (natLog2 q.den : ℤ)) := by ring
      rw [this]; exact lt_of_not_le h

theorem roundHalfEven_error (r : ℚ) : |(roundHalfEven r : ℚ) - r| ≤ 1 / 2 := by
  have h1 := Int.floor_le r
  have h2 := Int.lt_floor_add_one r
  unfold roundHalfEven
  simp only
  rw [abs_le]
  split_ifs <;> constructor <;> push_cast <;> linarith

theorem binaryExponent_of_normal (q : ℚ) (h : (2 : ℚ) ^ (-1022 : ℤ) ≤ |q|) :
    binaryExponent q = floorLog2 q ∧ (2 : ℚ) ^ floorLog2 q ≤ |q| := by
  have hq : q ≠ 0 := by
    intro h0
    rw [h0, abs_zero] at h
    exact absurd h (not_le.mpr (by positivity))
  obtain ⟨l, u⟩ := floorLog2_spec q hq
  have : (2 : ℚ) ^ (-1022 : ℤ) < 2 ^ (floorLog2 q + 1) := lt_of_le_of_lt h u
  have h3 : (-1022 : ℤ) < floorLog2 q + 1 := (zpow_lt_zpow_iff_right₀ (by norm_num)).mp this
  refine ⟨?_, l⟩
  unfold binaryExponent
  exact max_eq_left (by omega)

theorem roundFinite_error (q : ℚ) (h : (2 : ℚ) ^ (-1022 : ℤ) ≤ |q|) :
    |roundFinite q - q| ≤ |q| / 2 ^ (53 : ℕ) := by
  obtain ⟨he, l⟩ := binaryExponent_of_normal q h
  have two : (2 : ℚ) ≠ 0 := by norm_num
  have hu : (0 : ℚ) < ulp q := by unfold ulp; positivity
  have hu2 : ulp q = 2 ^ floorLog2 q / 2 ^ (52 : ℕ) := by
    unfold ulp; rw [he, zpow_sub₀ two]; norm_num
  have e := roundHalfEven_error (q / ulp q)
  have : roundFinite q - q = ((roundHalfEven (q / ulp q) : ℚ) - q / ulp q) * ulp q := by
    unfold roundFinite; field_simp
  rw [this, abs_mul, abs_of_pos hu]
  calc |(roundHalfEven (q / ulp q) : ℚ) - q / ulp q| * ulp q
      ≤ 1 / 2 * ulp q := by exact mul_le_mul_of_nonneg_right e hu.le
    _ = 2 ^ floorLog2 q / 2 ^ (53 : ℕ) := by rw [hu2]; ring
    _ ≤ |q| / 2 ^ (53 : ℕ) := by exact div_le_div_of_nonneg_right l (by positivity)

theorem roundDouble_of_normal (q : ℚ) (h : (2 : ℚ) ^ (-1022 : ℤ) ≤ |q|)
    (hb : |q| ≤ 2 ^ (1000 : ℕ)) :
    roundDouble q = .finite (roundFinite q) ∧ |roundFinite q - q| ≤ |q| / 2 ^ (53 : ℕ) := by
  have e := roundFinite_error q h
  refine ⟨?_, e⟩
  have hq : 0 ≤ |q| := abs_nonneg q
  have e2 : |q| / 2 ^ (53 : ℕ) ≤ |q| := div_le_self hq (by norm_num)
  have e3 : |roundFinite q| ≤ 2 * |q| := by
    have := abs_sub_abs_le_abs_sub (roundFinite q) q
    linarith
  have e4 : (2 : ℚ) * 2 ^ (1000 : ℕ) < 2 ^ (1024 : ℕ) := by norm_num
  have e5 := abs_le.mp (le_trans e3 (by linarith : 2 * |q| ≤ 2 * 2 ^ (1000 : ℕ)))
  unfold roundDouble
  simp only
  rw [if_neg (by linarith [e5.2]), if_neg (by linarith [e5.1])]

theorem roundFinite_zero : roundFinite 0 = 0 := by decide!

theorem roundFinite_abs_error (q : ℚ) (E : ℤ) (hE : -1022 ≤ E)
    (h : |q| < (2 : ℚ) ^ (E + 1)) :
    |roundFinite q - q| ≤ (2 : ℚ) ^ (E - 53) := by
  by_cases hq : q = 0
  · subst hq
    rw [roundFinite_zero]
    simp only [sub_zero, abs_zero]
    positivity
  · obtain ⟨l, _⟩ := floorLog2_spec q hq
    have two : (2 : ℚ) ≠ 0 := by norm_num
    have h1 : (2 : ℚ) ^ floorLog2 q < 2 ^ (E + 1) := lt_of_le_of_lt l h
    have h2 : floorLog2 q < E + 1 := (zpow_lt_zpow_iff_right₀ (by norm_num)).mp h1
    have h3 : binaryExponent q ≤ E := by
      unfold binaryExponent
      exact max_le (by omega) hE
    have hu : (0 : ℚ) < ulp q := by unfold ulp; positivity
    have hu2 : ulp q ≤ 2 ^ (E - 52) := by
      unfold ulp
      exact zpow_le_zpow_right₀ (by norm_num) (by omega)
    have e := roundHalfEven_error (q / ulp q)
    have : roundFinite q - q = ((roundHalfEven (q / ulp q) : ℚ) - q / ulp q) * ulp q := by
      unfold roundFinite; field_simp
    rw [this, abs_mul, abs_of_pos hu]
    have h4 : (2 : ℚ) ^ (E - 53) = 1 / 2 * 2 ^ (E - 52) := by
      have : E - 52 = (E - 53) + 1 := by ring
      rw [this, zpow_add₀ two]; ring
    calc |(roundHalfEven (q / ulp q) : ℚ) - q / ulp q| * ulp q
        ≤ 1 / 2 * ulp q := mul_le_mul_of_nonneg_right e hu.le
      _ ≤ 1 / 2 * 2 ^ (E - 52) := by linarith
      _ = 2 ^ (E - 53) := h4.symm

theorem roundDouble_of_bounded (q : ℚ) (E : ℤ) (hE : -1022 ≤ E) (hE2 : E ≤ 1000)
    (h : |q| < (2 : ℚ) ^ (E + 1)) :
    roundDouble q = .finite (roundFinite q)
      ∧ |roundFinite q - q| ≤ (2 : ℚ) ^ (E - 53) := by
  have e := roundFinite_abs_error q E hE h
  refine ⟨?_, e⟩
  have e1 : (2 : ℚ) ^ (E - 53) ≤ 2 ^ (E + 1) :=
    zpow_le_zpow_right₀ (by norm_num) (by omega)
  have e2 : (2 : ℚ) ^ (E + 1) ≤ 2 ^ (1001 : ℤ) :=
    zpow_le_zpow_right₀ (by norm_num) (by omega)
  have e3 : |roundFinite q| ≤ |roundFinite q - q| + |q| := by
    have := abs_add (roundFinite q - q) q
    simpa using this
  have e4 : (2 : ℚ) * 2 ^ (1001 : ℤ) < 2 ^ (1024 : ℕ) := by norm_num
  have e5 := abs_le.mp (le_trans e3 (by linarith : |roundFinite q - q| + |q|
    ≤ 2 * 2 ^ (1001 : ℤ)))
  unfold roundDouble
  simp only
  rw [if_neg (by linarith [e5.2]), if_neg (by linarith [e5.1])]

theorem roundTrip_core (a : ℤ) (d : ℕ) (E : ℤ) (h0 : a ≠ 0)
    (hE : 0 ≤ E) (hE2 : E ≤ 60)
    (hq : |(a : ℚ)| / 10 ^ d < (2 : ℚ) ^ (E + 1))
    (herr : (10 : ℚ) ^ d * 2 ^ (E - 53) ≤ 1 / 5)
    (ha : |(a : ℚ)| + 1 / 5 < 2 ^ (52 : ℤ)) :
    JsNumber.round (JsNumber.mul
      ((JsNumber.div (.finite a) (JsNumber.pow10 d)).toFixed d).toNumber (JsNumber.pow10 d))
      = .finite a := by
  have hP1 : (1 : ℚ) ≤ 10 ^ d := one_le_pow₀ (by norm_num)
  have hP0 : (0 : ℚ) < 10 ^ d := by positivity
  generalize hP : (10 : ℚ) ^ d = P at hP1 hP0 hq herr
  have hA1 : (1 : ℚ) ≤ |(a : ℚ)| := by
    have : (1 : ℤ) ≤ |a| := Int.one_le_abs h0
    exact_mod_cast this
  have hq' : |(a : ℚ) / P| = |(a : ℚ)| / P := by rw [abs_div, abs_of_pos hP0]
  obtain ⟨hx, ex⟩ := roundDouble_of_bounded ((a : ℚ) / P) E (by omega) (by omega)
    (by rw [hq']; exact hq)
  generalize roundFinite ((a : ℚ) / P) = x at hx ex
  -- the scaled error of the quotient
  have ez : |x * P - a| ≤ 1 / 5 := by
    have : x * P - a = (x - (a : ℚ) / P) * P := by field_simp
    rw [this, abs_mul, abs_of_pos hP0]
    calc |x - (a : ℚ) / P| * P ≤ 2 ^ (E - 53) * P := mul_le_mul_of_nonneg_right ex hP0.le
      _ = P * 2 ^ (E - 53) := mul_comm _ _
      _ ≤ 1 / 5 := herr
  have hxabs : |x| * P = |x * P| := by rw [abs_mul, abs_of_pos hP0]
  have ez2 : |(|x * P| - |(a : ℚ)|)| ≤ 1 / 5 :=
    le_trans (abs_abs_sub_abs_le_abs_sub _ _) ez
  have hfloor : ⌊|x| * P + 1 / 2⌋ = (a.natAbs : ℤ) := by
    rw [Int.floor_eq_iff, hxabs]
    have hc : (((a.natAbs : ℤ)) : ℚ) = |(a : ℚ)| := by
      rw [Int.natCast_natAbs]; push_cast; rfl
    rw [hc]
    have := abs_le.mp ez2
    constructor <;> linarith [this.1, this.2]
  have hsign : decide (x < 0) = decide (a < 0) := by
    have hz := abs_le.mp ez
    rcases lt_or_gt_of_ne h0 with hneg | hpos
    · have h1 : (a : ℚ) < 0 := by exact_mod_cast hneg
      have h2 : |(a : ℚ)| = -a := abs_of_neg h1
      have h3 : x * P < 0 := by linarith [hz.2]
      have h4 : x < 0 := by
        by_contra hcon
        have : 0 ≤ x * P := mul_nonneg (not_lt.mp hcon) hP0.le
        linarith
      simp [h4, hneg]
    · have h1 : (0 : ℚ) < a := by exact_mod_cast hpos
      have h2 : |(a : ℚ)| = a := abs_of_pos h1
      have h3 : 0 < x * P := by linarith [hz.1]
      have h4 : ¬ x < 0 := by
        intro hcon
        have : x * P < 0 := mul_neg_of_neg_of_pos hcon hP0
        linarith
      have h5 : ¬ a < 0 := by omega
      simp [h4, h5]
  have hbig : ¬ (10 : ℚ) ^ (21 : ℕ) ≤ |x| := by
    have s1 : |x| ≤ |x| * P := le_mul_of_one_le_right (abs_nonneg _) hP1
    have s2 := abs_le.mp ez2
    have s3 : (2 : ℚ) ^ (52 : ℤ) < 10 ^ (21 : ℕ) := by norm_num
    rw [hxabs] at s1
    intro hcon
    linarith [s2.2]
  have hdec : NumericString.decimalValue (decide (a < 0)) a.natAbs d = (a : ℚ) / P := by
    unfold NumericString.decimalValue
    rw [hP]
    have hc : ((a.natAbs : ℕ) : ℚ) = |(a : ℚ)| := by
      rw [Nat.cast_natAbs, Int.cast_abs]
    rw [hc]
    rcases lt_or_gt_of_ne h0 with hneg | hpos
    · have h1 : (a : ℚ) < 0 := by exact_mod_cast hneg
      simp [hneg, abs_of_neg h1]
    · have h1 : (0 : ℚ) < a := by exact_mod_cast hpos
      have h5 : ¬ a < 0 := by omega
      simp [h5, abs_of_pos h1]
  -- the product lies in a binade whose unit is at most one half
  have hz2 : |x * P| < (2 : ℚ) ^ ((51 : ℤ) + 1) := by
    have s3 := abs_le.mp ez2
    have : ((51 : ℤ) + 1) = 52 := by norm_num
    rw [this]
    linarith [s3.2]
  obtain ⟨hy, ey⟩ := roundDouble_of_bounded (x * P) 51 (by norm_num) (by norm_num) hz2
  generalize roundFinite (x * P) = y at hy ey
  have hround : ⌊y + 1 / 2⌋ = a := by
    rw [Int.floor_eq_iff]
    have s5 : (2 : ℚ) ^ ((51 : ℤ) - 53) = 1 / 4 := by norm_num
    rw [s5] at ey
    have s6 := abs_le.mp ey
    have s7 := abs_le.mp ez
    constructor <;> linarith [s6.1, s6.2, s7.1, s7.2]
  -- put the steps together
  have step1 : JsNumber.div (.finite a) (JsNumber.pow10 d) = .finite x := by
    unfold JsNumber.div JsNumber.pow10
    rw [hP]
    simp only [hP0.ne', if_false]
    exact hx
  have step2 : (JsNumber.finite x).toFixed d = .fixed (decide (a < 0)) a.natAbs d := by
    unfold JsNumber.toFixed
    simp only
    rw [if_neg hbig, hP, hfloor, hsign, Int.toNat_natCast]
  have step3 : (NumericString.fixed (decide (a < 0)) a.natAbs d).toNumber = .finite x := by
    show roundDouble (NumericString.decimalValue (decide (a < 0)) a.natAbs d) = _
    rw [hdec]; exact hx
  have step4 : JsNumber.mul (.finite x) (JsNumber.pow10 d) = .finite y := by
    unfold JsNumber.mul JsNumber.pow10
    rw [hP]; exact hy
  rw [step1, step2, step3, step4]
  show JsNumber.finite ((⌊y + 1 / 2⌋ : ℤ) : ℚ) = _
  rw [hround]

/-! ## C1: the round trip of the currency conversion -/

/-- C1 (as amended): for every currency code `c` and every integer sub-unit amount `a`
with `|a| ≤ 3355443200000000 = 2^25 * 10^8`, converting `a` to the main unit and back
gives `a` again: `toSmallestSubUnit(fromSmallestSubUnit(a, c), c) = a`; the precision is
8 decimals for `BTC` and 2 for every other code. -/
theorem roundTrip_of_small (a : ℤ) (c : String) (ha : |a| ≤ 3355443200000000) :
    toSmallestSubUnit (.numeric (fromSmallestSubUnit (.number (.finite a)) c)) c = .finite a
      ∧ getDecimalsForCurrency "BTC" = 8
      ∧ (c ≠ "BTC" → getDecimalsForCurrency c = 2) := by
  refine ⟨?_, by decide, fun h => by simp [getDecimalsForCurrency, h]⟩
  have haq : |(a : ℚ)| ≤ 3355443200000000 := by exact_mod_cast ha
  by_cases hc : c = "BTC"
  · subst hc
    by_cases h0 : a = 0
    · subst h0; decide!
    by_cases hB : |a| = 3355443200000000
    · rcases abs_eq (by norm_num : (0 : ℤ) ≤ 3355443200000000) |>.mp hB with h | h
      · subst h; decide!
      · subst h; decide!
    · have hlt : |a| ≤ 3355443200000000 - 1 := by omega
      have hltq : |(a : ℚ)| ≤ 3355443200000000 - 1 := by exact_mod_cast hlt
      exact roundTrip_core a 8 24 h0 (by norm_num) (by norm_num)
        (by rw [div_lt_iff₀ (by positivity)]; norm_num; linarith)
        (by norm_num) (by norm_num; linarith)
  · have hd : getDecimalsForCurrency c = 2 := by simp [getDecimalsForCurrency, hc]
    unfold toSmallestSubUnit fromSmallestSubUnit
    simp only [hd, JsValue.toNumber]
    by_cases h0 : a = 0
    · subst h0; decide!
    · exact roundTrip_core a 2 44 h0 (by norm_num) (by norm_num)
        (by rw [div_lt_iff₀ (by positivity)]; norm_num; linarith)
        (by norm_num) (by norm_num; linarith)

/-- C1, witness: the amount 12345 in `USD`. -/
theorem roundTrip_of_small_witness :
    |(12345 : ℤ)| ≤ 3355443200000000 ∧
      toSmallestSubUnit (.numeric (fromSmallestSubUnit (.number (.finite (12345 : ℤ))) "USD"))
        "USD" = .finite (12345 : ℤ) :=
  ⟨by norm_num, (roundTrip_of_small 12345 "USD" (by norm_num)).1⟩

/-- C1, counterexample: the amounts 3355443200000019 and -3355443200000001 in `BTC` and
3518437208883202 in `USD`, all of magnitude below `2^53`, do not survive the round trip:
they come back changed by one. -/
theorem roundTrip_fails_above :
    toSmallestSubUnit
        (.numeric (fromSmallestSubUnit (.number (.finite 3355443200000019)) "BTC")) "BTC"
      = .finite 3355443200000020
    ∧ toSmallestSubUnit
        (.numeric (fromSmallestSubUnit (.number (.finite 3355443200000019)) "BTC")) "BTC"
      ≠ .finite 3355443200000019
    ∧ toSmallestSubUnit
        (.numeric (fromSmallestSubUnit (.number (.finite (-3355443200000001))) "BTC")) "BTC"
      ≠ .finite (-3355443200000001)
    ∧ toSmallestSubUnit
        (.numeric (fromSmallestSubUnit (.number (.finite 3518437208883202)) "USD")) "USD"
      ≠ .finite 3518437208883202 := by
  refine ⟨by decide!, by decide!, by decide!, by decide!⟩

/-! ## Facts about the listing of transactions -/

theorem visit_foldl_reached (latest : Option Transaction) (l r : List RawTransaction) :
    l.foldl (listTransactions.visit latest) (r, true) = (r, true) := by
  induction l with
  | nil => rfl
  | cons t l ih => simpa [listTransactions.visit] using ih

theorem visit_foldl (latest : Option Transaction) (l : List RawTransaction) :
    ∀ r : List RawTransaction,
      l.foldl (listTransactions.visit latest) (r, false)
        = (r ++ l.takeWhile (listTransactions.keeps latest),
            !(l.all (listTransactions.keeps latest))) := by
  induction l with
  | nil => intro r; simp
  | cons t l ih =>
    intro r
    by_cases hb : listTransactions.beyond latest t = true
    · have hk : listTransactions.keeps latest t = false := by
        simp [listTransactions.keeps, hb]
      simp [listTransactions.visit, hb, hk, visit_foldl_reached]
    · have hb2 : listTransactions.beyond latest t = false := by simpa using hb
      have hk : listTransactions.keeps latest t = true := by
        simp [listTransactions.keeps, hb2]
      simp [listTransactions.visit, hb2, hk, ih]

theorem takeWhile_append_of_not_all {α : Type} (q : α → Bool) (l l2 : List α)
    (h : l.all q = false) : (l ++ l2).takeWhile q = l.takeWhile q := by
  induction l with
  | nil => simp at h
  | cons t l ih =>
    by_cases hq : q t = true
    · have : l.all q = false := by simpa [hq] using h
      simp [List.takeWhile_cons, hq, ih this]
    · simp [List.takeWhile_cons, hq]

theorem callAPI_ok (T : Transport) (x : ItBitExchange) (latest : Option Transaction)
    (k : ℕ) (s : ListState) (data : FundingPage) (hs : s.limitReached = false)
    (h : T.getFundingHistory k x.walletId s.currentPage 50 = .ok data) :
    listTransactions.callAPI T x latest k s
      = (.getFundingHistory x.walletId s.currentPage 50,
          .ok (listTransactions.next latest s data)) := by
  unfold listTransactions.callAPI listTransactions.next
  simp only [h, hs, visit_foldl]
  by_cases ha : data.fundingHistory.all (listTransactions.keeps latest) = true
  · have := List.takeWhile_eq_self_iff.mpr (List.all_eq_true.mp ha)
    simp [ha, this]
  · simp [ha]

theorem callAPI_error (T : Transport) (x : ItBitExchange) (latest : Option Transaction)
    (k : ℕ) (s : ListState) (err : JsError)
    (h : T.getFundingHistory k x.walletId s.currentPage 50 = .error err) :
    listTransactions.callAPI T x latest k s
      = (.getFundingHistory x.walletId s.currentPage 50,
          .error (serviceError err)) := by
  unfold listTransactions.callAPI serviceError
  simp only [h]

theorem next_result (latest : Option Transaction) (s : ListState) (data : FundingPage) :
    (listTransactions.next latest s data).result
      = s.result ++ data.fundingHistory.takeWhile (listTransactions.keeps latest) := by
  unfold listTransactions.next
  split_ifs with ha
  · have := List.takeWhile_eq_self_iff.mpr (List.all_eq_true.mp ha)
    simp [this]
  · rfl

theorem next_open (latest : Option Transaction) (s : ListState) (data : FundingPage)
    (h : (listTransactions.next latest s data).limitReached = false) :
    data.fundingHistory.all (listTransactions.keeps latest) = true := by
  unfold listTransactions.next at h
  split_ifs at h with ha
  · exact ha

theorem listLoop_pages (T : Transport) (x : ItBitExchange) (latest : Option Transaction) :
    ∀ (fuel j : ℕ) (s : ListState) (calls : List Call) (sf : ListState),
      s.limitReached = false →
      doWhilst (listTransactions.callAPI T x latest) listTransactions.check fuel j s
        = (calls, some (.ok sf)) →
      ∃ pages : List FundingPage,
        fundingAnswers T x.walletId j calls pages
        ∧ sf.result = s.result ++
            (pages.flatMap (fun pg => pg.fundingHistory)).takeWhile
              (listTransactions.keeps latest)
        ∧ (∀ pg ∈ pages.dropLast, ∀ t ∈ pg.fundingHistory,
            listTransactions.keeps latest t = true) := by
  intro fuel
  induction fuel with
  | zero =>
    intro j s calls sf _ h
    simp [doWhilst] at h
  | succ fuel ih =>
    intro j s calls sf hs h
    cases hT : T.getFundingHistory j x.walletId s.currentPage 50 with
    | error err =>
      rw [doWhilst, callAPI_error T x latest j s err hT] at h
      simp at h
    | ok data =>
      rw [doWhilst, callAPI_ok T x latest j s data hs hT] at h
      simp only at h
      by_cases hc : listTransactions.check (listTransactions.next latest s data) = true
      · rw [if_pos hc] at h
        have hopen : (listTransactions.next latest s data).limitReached = false := by
          simpa [listTransactions.check] using hc
        have hall := next_open latest s data hopen
        obtain ⟨h1, h2⟩ := Prod.mk.inj h
        obtain ⟨pages, a1, a2, a3⟩ := ih (j + 1) (listTransactions.next latest s data)
          (doWhilst (listTransactions.callAPI T x latest) listTransactions.check fuel (j + 1)
            (listTransactions.next latest s data)).1 sf hopen (by rw [← h2])
        refine ⟨data :: pages, ?_, ?_, ?_⟩
        · rw [← h1]
          exact ⟨⟨s.currentPage, rfl, hT⟩, a1⟩
        · rw [a2, next_result, List.takeWhile_eq_self_iff.mpr (List.all_eq_true.mp hall),
            List.flatMap_cons, List.takeWhile_append_of_pos (List.all_eq_true.mp hall),
            List.append_assoc]
        · intro pg hpg t ht
          cases pages with
          | nil => simp at hpg
          | cons pg2 rest =>
            rw [List.dropLast_cons₂] at hpg
            rcases List.mem_cons.mp hpg with rfl | hpg
            · exact List.all_eq_true.mp hall t ht
            · exact a3 pg hpg t ht
      · rw [if_neg hc] at h
        obtain ⟨h1, h2⟩ := Prod.mk.inj h
        have h3 : listTransactions.next latest s data = sf := by
          injection h2 with h2; injection h2
        refine ⟨[data], ?_, ?_, ?_⟩
        · rw [← h1]
          exact ⟨⟨s.currentPage, rfl, hT⟩, trivial⟩
        · rw [← h3, next_result]; simp
        · intro pg hpg; simp at hpg

theorem listLoop_paged (T : Transport) (x : ItBitExchange) (latest : Option Transaction)
    (items : ℕ → List RawTransaction) (N P C : ℕ) (hC : pageCount N P = .finite C) :
    ∀ (n p j : ℕ) (s : ListState) (fuel : ℕ),
      s.limitReached = false → s.currentPage = p →
      (∀ i k, p ≤ k → k ≤ p + n →
        T.getFundingHistory i x.walletId k 50 = .ok ⟨items k, k, N, P⟩) →
      (n = 0 ∨ p + n ≤ C) → C ≤ p + n → n < fuel →
      ∃ (m : ℕ) (sf : ListState), m ≤ n
        ∧ doWhilst (listTransactions.callAPI T x latest) listTransactions.check fuel j s
            = ((List.range' p (m + 1)).map (fun k => Call.getFundingHistory x.walletId k 50),
                some (.ok sf))
        ∧ sf.result = s.result ++
            ((List.range' p (n + 1)).flatMap items).takeWhile (listTransactions.keeps latest)
        ∧ ((∀ k, p ≤ k → k < p + n → ∀ t ∈ items k, listTransactions.keeps latest t = true)
            → m = n) := by
  intro n
  induction n with
  | zero =>
    intro p j s fuel hs hp hT _ hle hfuel
    obtain ⟨f, rfl⟩ : ∃ f, fuel = f + 1 := ⟨fuel - 1, by omega⟩
    subst hp
    have hpage := hT j s.currentPage le_rfl (by omega)
    refine ⟨0, listTransactions.next latest s ⟨items s.currentPage, s.currentPage, N, P⟩, le_rfl, ?_, ?_, fun _ => rfl⟩
    · rw [doWhilst, callAPI_ok T x latest j s _ hs hpage]
      have hc : listTransactions.check (listTransactions.next latest s ⟨items s.currentPage, s.currentPage, N, P⟩)
          = false := by
        unfold listTransactions.check listTransactions.next
        split_ifs
        · simp [hC, PageCount.exceededBy]; omega
        · simp
      simp [hc]
    · rw [next_result]; simp
  | succ n ih =>
    intro p j s fuel hs hp hT hmid hle hfuel
    obtain ⟨f, rfl⟩ : ∃ f, fuel = f + 1 := ⟨fuel - 1, by omega⟩
    subst hp
    have hpage := hT j s.currentPage le_rfl (by omega)
    have hpC : s.currentPage + (n + 1) ≤ C := by
      rcases hmid with h | h
      · omega
      · exact h
    by_cases hall : (items s.currentPage).all (listTransactions.keeps latest) = true
    · -- the whole page is kept and the next page is requested
      have hnext : listTransactions.next latest s ⟨items s.currentPage, s.currentPage, N, P⟩
          = { result := s.result ++ items s.currentPage, limitReached := false, currentPage := s.currentPage + 1 } := by
        unfold listTransactions.next
        simp only [hall, if_true, hC, PageCount.exceededBy]
        have : ¬ C < s.currentPage + 1 := by omega
        simp [this]
      obtain ⟨m, sf, hm, hrun, hres, hfull⟩ := ih (s.currentPage + 1) (j + 1)
        { result := s.result ++ items s.currentPage, limitReached := false, currentPage := s.currentPage + 1 } f
        rfl rfl (fun i k h1 h2 => hT i k (by omega) (by omega))
        (by omega) (by omega) (by omega)
      refine ⟨m + 1, sf, by omega, ?_, ?_, ?_⟩
      · rw [doWhilst, callAPI_ok T x latest j s _ hs hpage, hnext]
        simp only [listTransactions.check, Bool.not_false, if_true, hrun]
        rw [List.range'_succ s.currentPage (m + 1), List.map_cons]
      · rw [hres, List.range'_succ s.currentPage (n + 1), List.flatMap_cons,
          List.takeWhile_append_of_pos (List.all_eq_true.mp hall), List.append_assoc]
      · intro hk
        have := hfull (fun k h1 h2 => hk k (by omega) (by omega))
        omega
    · -- an item of the page stops the listing
      have hall2 : (items s.currentPage).all (listTransactions.keeps latest) = false := by
        simpa using hall
      refine ⟨0, listTransactions.next latest s ⟨items s.currentPage, s.currentPage, N, P⟩, by omega, ?_, ?_, ?_⟩
      · rw [doWhilst, callAPI_ok T x latest j s _ hs hpage]
        have hc : listTransactions.check (listTransactions.next latest s ⟨items s.currentPage, s.currentPage, N, P⟩)
            = false := by
          unfold listTransactions.check listTransactions.next
          simp [hall2]
        simp [hc]
      · rw [next_result, List.range'_succ s.currentPage (n + 1), List.flatMap_cons,
          takeWhile_append_of_not_all _ _ _ hall2]
      · intro hk
        have := hk s.currentPage le_rfl (by omega)
        rw [List.all_eq_true.mpr this] at hall2
        simp at hall2

theorem stringGt_asymm (a b : String) (h : stringGt a b = true) : stringGt b a = false := by
  unfold stringGt at *
  simp only [decide_eq_true_eq, decide_eq_false_iff_not] at *
  exact lt_asymm h

theorem stringGt_irrefl (a : String) : stringGt a a = false := by
  unfold stringGt
  simp

theorem parseTransaction_raw (E : Engine) (t : RawTransaction) (e : Transaction)
    (h : (parseTransaction E t true).result = .ok e) : e.raw = t := by
  unfold parseTransaction at h
  simp only at h
  split at h
  · exact absurd h (by simp)
  · split at h
    · exact absurd h (by simp)
    · split at h
      · exact absurd h (by simp)
      · split at h
        · exact absurd h (by simp)
        · injection h with h
          rw [← h]

theorem parseAll_raw (E : Engine) :
    ∀ (l : List RawTransaction) (ts : List Transaction),
      parseAll E l = .ok ts → ts.map (fun t => t.raw) = l := by
  intro l
  induction l with
  | nil =>
    intro ts h
    simp only [parseAll] at h
    injection h with h
    rw [← h]; rfl
  | cons t l ih =>
    intro ts h
    rw [parseAll] at h
    split at h
    · exact absurd h (by simp)
    · rename_i entry he
      split at h
      · exact absurd h (by simp)
      · rename_i entries hes
        injection h with h
        rw [← h, List.map_cons, parseTransaction_raw E t entry he, ih entries hes]

theorem listTransactions_run (E : Engine) (T : Transport) (x : ItBitExchange)
    (latest : Option Transaction) (fuel : ℕ) (hc : checkIfCredentialsIsProvided x = none) :
    listTransactions E T x latest fuel
      = ⟨(doWhilst (listTransactions.callAPI T x latest) listTransactions.check fuel 0
            { result := [], limitReached := false, currentPage := 1 }).1,
          (doWhilst (listTransactions.callAPI T x latest) listTransactions.check fuel 0
            { result := [], limitReached := false, currentPage := 1 }).2.map
              (listTransactions.done E)⟩ := by
  unfold listTransactions
  simp only [hc]

theorem listTransactions_result (E : Engine) (T : Transport) (x : ItBitExchange)
    (latest : Option Transaction) (fuel : ℕ) (result : List Transaction)
    (h : (listTransactions E T x latest fuel).outcome = some (.result result)) :
    ∃ sf : ListState,
      (doWhilst (listTransactions.callAPI T x latest) listTransactions.check fuel 0
          { result := [], limitReached := false, currentPage := 1 }).2 = some (.ok sf)
      ∧ parseAll E sf.result = .ok result := by
  cases hc : checkIfCredentialsIsProvided x with
  | some e =>
    unfold listTransactions at h
    simp [hc] at h
  | none =>
    rw [listTransactions_run E T x latest fuel hc] at h
    simp only [Option.map_eq_some'] at h
    obtain ⟨o, ho, hd⟩ := h
    cases o with
    | error err => simp [listTransactions.done] at hd
    | ok sf =>
      refine ⟨sf, ho, ?_⟩
      simp only [listTransactions.done, listTransactions.parseResult] at hd
      split at hd
      · exact absurd hd (by simp)
      · rename_i parsed hp
        injection hd with hd
        rw [hp, hd]

theorem pageCount_pos (N P : ℕ) (hP : 0 < P) :
    pageCount N P = .finite ((N + P - 1) / P) := by
  unfold pageCount
  rw [if_neg (by omega)]

theorem ceil_div_eq (N P : ℕ) (hP : 0 < P) : ⌈(N : ℚ) / P⌉₊ = (N + P - 1) / P := by
  have hPq : (0 : ℚ) < P := by exact_mod_cast hP
  have hdm := Nat.div_add_mod (N + P - 1) P
  have hmod := Nat.mod_lt (N + P - 1) hP
  generalize hc : (N + P - 1) / P = c at hdm
  generalize hm : P * c = m at hdm
  have hmq : (P : ℚ) * c = m := by exact_mod_cast hm
  apply le_antisymm
  · rw [Nat.ceil_le, div_le_iff₀ hPq]
    have : N ≤ m := by omega
    have : (N : ℚ) ≤ m := by exact_mod_cast this
    linarith
  · rcases Nat.eq_zero_or_pos c with h0 | hpos
    · omega
    · have h1 : c - 1 < ⌈(N : ℚ) / P⌉₊ := by
        rw [Nat.lt_ceil, lt_div_iff₀ hPq]
        have hcq : ((c - 1 : ℕ) : ℚ) = (c : ℚ) - 1 := by
          rw [Nat.cast_sub hpos]; simp
        rw [hcq]
        have h2 : m + 1 ≤ N + P := by omega
        have h3 : (m : ℚ) + 1 ≤ N + P := by exact_mod_cast h2
        nlinarith
      omega

theorem takeWhile_watermark {α : Type} (q : α → Bool) (pre post : List α) (w : α)
    (hpre : ∀ t ∈ pre, q t = true) (hw : q w = true)
    (hpost : ∀ p ∈ post.head?, q p = false) :
    (pre ++ w :: post).takeWhile q = pre ++ [w] := by
  rw [List.takeWhile_append_of_pos hpre, List.takeWhile_cons, hw]
  cases post with
  | nil => simp
  | cons p ps =>
    have := hpost p (by simp)
    simp [List.takeWhile_cons, this]

/-! ## C2: the transactions returned are not older than the watermark -/

/-- C2 (as amended): for every non-null `latestTransaction` and every transport, every
transaction returned by `listTransactions` has a raw time that is not before
`latestTransaction.raw.time`: the stop predicate fires on the first item whose time is
strictly before the time of the watermark, and an item whose raw time equals the time of
the watermark is kept. -/
theorem listTransactions_not_older (E : Engine) (T : Transport) (x : ItBitExchange)
    (latest : Transaction) (fuel : ℕ) (result : List Transaction)
    (h : (listTransactions E T x (some latest) fuel).outcome = some (.result result)) :
    (∀ t ∈ result, ∀ a b, latest.raw.time = some a → t.raw.time = some b →
        stringGt a b = false)
    ∧ (∀ tx : RawTransaction, tx.time = latest.raw.time →
        listTransactions.beyond (some latest) tx = false) := by
  constructor
  · intro t ht a b ha hb
    obtain ⟨sf, hrun, hparse⟩ := listTransactions_result E T x (some latest) fuel result h
    obtain ⟨pages, _, hres, _⟩ := listLoop_pages T x (some latest) fuel 0
      { result := [], limitReached := false, currentPage := 1 } _ sf rfl
      (Prod.ext rfl hrun)
    have hraw := parseAll_raw E sf.result result hparse
    have hmem : t.raw ∈ sf.result := by
      rw [← hraw]; exact List.mem_map_of_mem _ ht
    rw [hres, List.nil_append] at hmem
    have hk := List.mem_takeWhile_imp hmem
    simpa [listTransactions.keeps, listTransactions.beyond, ha, hb] using hk
  · intro tx htx
    unfold listTransactions.beyond
    simp only
    rw [htx]
    cases latest.raw.time with
    | none => rfl
    | some a => exact stringGt_irrefl a

/-- C2, witness: a page with one item newer and one older than the watermark. -/
theorem listTransactions_not_older_witness :
    (listTransactions sampleEngine
        (samplePageTransport
          ⟨[sampleDeposit "2015-02-05T18:52:39.127Z", sampleDeposit "2015-02-03T18:52:39.127Z"],
            1, 2, 50⟩)
        sampleExchange (some (sampleParsed "2015-02-04T18:52:39.127Z")) 1).outcome
      = some (.result [sampleParsed "2015-02-05T18:52:39.127Z"])
    ∧ stringGt "2015-02-04T18:52:39.127Z" "2015-02-05T18:52:39.127Z" = false :=
  ⟨by decide!,
    (listTransactions_not_older sampleEngine
      (samplePageTransport
        ⟨[sampleDeposit "2015-02-05T18:52:39.127Z", sampleDeposit "2015-02-03T18:52:39.127Z"],
          1, 2, 50⟩)
      sampleExchange (sampleParsed "2015-02-04T18:52:39.127Z") 1
      [sampleParsed "2015-02-05T18:52:39.127Z"] (by decide!)).1
      (sampleParsed "2015-02-05T18:52:39.127Z") (List.mem_singleton.mpr rfl) _ _ rfl rfl⟩

/-- C2, counterexample: with the watermark recorded at 2015-02-04T18:52:39.127Z and a
page holding one item of that same raw time, `listTransactions` returns the item: its raw
time equals the time of the watermark, it is not strictly newer. -/
theorem listTransactions_returns_equal_time :
    (listTransactions sampleEngine
        (samplePageTransport ⟨[sampleDeposit "2015-02-04T18:52:39.127Z"], 1, 1, 50⟩)
        sampleExchange (some (sampleParsed "2015-02-04T18:52:39.127Z")) 1).outcome
      = some (.result [sampleParsed "2015-02-04T18:52:39.127Z"])
    ∧ (sampleParsed "2015-02-04T18:52:39.127Z").raw.time = some "2015-02-04T18:52:39.127Z"
    ∧ stringGt "2015-02-04T18:52:39.127Z" "2015-02-04T18:52:39.127Z" = false := by
  refine ⟨by decide!, rfl, by decide!⟩

/-! ## C3: the watermark transaction is the last one returned -/

/-- C3: for a transport that serves the pages `1`, ..., `max 1 ⌈N/P⌉` of a funding
history listed newest first (strictly, by the raw time strings) in which the item `w` has
the raw time of `latestTransaction`, the items that `listTransactions(latestTransaction)`
accumulates and parses are the items before `w` followed by `w` itself as the last
element; no item after `w`, that is no older item, is among them. -/
theorem listTransactions_upto_watermark (E : Engine) (T : Transport) (x : ItBitExchange)
    (latest : Transaction) (items : ℕ → List RawTransaction) (N P fuel : ℕ)
    (pre post : List RawTransaction) (w : RawTransaction)
    (hcred : checkIfCredentialsIsProvided x = none) (hP : 0 < P)
    (hT : ∀ i k, 1 ≤ k → k ≤ max 1 ⌈(N : ℚ) / P⌉₊ →
      T.getFundingHistory i x.walletId k 50 = .ok ⟨items k, k, N, P⟩)
    (hall : (List.range' 1 (max 1 ⌈(N : ℚ) / P⌉₊)).flatMap items = pre ++ w :: post)
    (hsorted : (pre ++ w :: post).Pairwise (fun a b => a.newer b = true))
    (hw : w.time = latest.raw.time)
    (hfuel : max 1 ⌈(N : ℚ) / P⌉₊ ≤ fuel) :
    (listTransactions E T x (some latest) fuel).outcome
        = some (listTransactions.parseResult E (pre ++ [w]))
    ∧ (∀ ts, parseAll E (pre ++ [w]) = .ok ts →
        (listTransactions E T x (some latest) fuel).outcome = some (.result ts)
        ∧ ts.map (fun t => t.raw) = pre ++ [w]) := by
  rw [ceil_div_eq N P hP] at hT hall hfuel
  have hC := pageCount_pos N P hP
  obtain ⟨m, sf, _, hrun, hres, _⟩ := listLoop_paged T x (some latest) items N P _ hC
    (max 1 ((N + P - 1) / P) - 1) 1 0
    { result := [], limitReached := false, currentPage := 1 } fuel rfl rfl
    (fun i k h1 h2 => hT i k h1 (by omega)) (by omega) (by omega) (by omega)
  have hM : max 1 ((N + P - 1) / P) - 1 + 1 = max 1 ((N + P - 1) / P) := by omega
  rw [hM, hall] at hres
  obtain ⟨hp1, hp2, hp3⟩ := List.pairwise_append.mp hsorted
  -- every item before the watermark, and the watermark itself, is kept
  have hkeep_pre : ∀ t ∈ pre, listTransactions.keeps (some latest) t = true := by
    intro t ht
    have hn := hp3 t ht w (List.mem_cons_self _ _)
    unfold RawTransaction.newer at hn
    unfold listTransactions.keeps listTransactions.beyond
    simp only
    rw [← hw]
    cases htt : t.time with
    | none => rw [htt] at hn; simp at hn
    | some a =>
      cases hwt : w.time with
      | none => rw [htt, hwt] at hn; simp at hn
      | some b =>
        rw [htt, hwt] at hn
        simp only at hn
        simp [stringGt_asymm a b hn]
  have hkeep_w : listTransactions.keeps (some latest) w = true := by
    unfold listTransactions.keeps listTransactions.beyond
    simp only
    rw [← hw]
    cases w.time with
    | none => rfl
    | some b => simp [stringGt_irrefl b]
  have hdrop : ∀ p ∈ post.head?, listTransactions.keeps (some latest) p = false := by
    intro p hp
    cases post with
    | nil => simp at hp
    | cons p2 ps =>
      simp only [List.head?_cons, Option.mem_def, Option.some.injEq] at hp
      subst hp
      have hn := (List.pairwise_cons.mp hp2).1 p2 (List.mem_cons_self _ _)
      unfold RawTransaction.newer at hn
      unfold listTransactions.keeps listTransactions.beyond
      simp only
      rw [← hw]
      cases hwt : w.time with
      | none => rw [hwt] at hn; simp at hn
      | some b =>
        cases hpt : p2.time with
        | none => rw [hwt, hpt] at hn; simp at hn
        | some c =>
          rw [hwt, hpt] at hn
          simp only at hn
          simp [hn]
  rw [takeWhile_watermark _ pre post w hkeep_pre hkeep_w hdrop, List.nil_append] at hres
  have hout : (listTransactions E T x (some latest) fuel).outcome
      = some (listTransactions.parseResult E (pre ++ [w])) := by
    rw [listTransactions_run E T x (some latest) fuel hcred]
    simp only [hrun, Option.map_some', listTransactions.done, hres]
  refine ⟨hout, ?_⟩
  intro ts hts
  refine ⟨?_, parseAll_raw E _ ts hts⟩
  rw [hout]
  simp only [listTransactions.parseResult, hts]

/-- C3, witness: one page holding three deposits, the second being the watermark. -/
theorem listTransactions_upto_watermark_witness :
    (listTransactions sampleEngine
        (samplePageTransport
          ⟨[sampleDeposit "2015-02-05T18:52:39.127Z", sampleDeposit "2015-02-04T18:52:39.127Z",
            sampleDeposit "2015-02-03T18:52:39.127Z"], 1, 3, 50⟩)
        sampleExchange (some (sampleParsed "2015-02-04T18:52:39.127Z")) 1).outcome
      = some (listTransactions.parseResult sampleEngine
          ([sampleDeposit "2015-02-05T18:52:39.127Z"]
            ++ [sampleDeposit "2015-02-04T18:52:39.127Z"])) := by
  have hceil : max 1 ⌈((3 : ℕ) : ℚ) / (50 : ℕ)⌉₊ = 1 := by
    rw [ceil_div_eq 3 50 (by norm_num)]; rfl
  exact (listTransactions_upto_watermark sampleEngine
    (samplePageTransport
      ⟨[sampleDeposit "2015-02-05T18:52:39.127Z", sampleDeposit "2015-02-04T18:52:39.127Z",
        sampleDeposit "2015-02-03T18:52:39.127Z"], 1, 3, 50⟩)
    sampleExchange (sampleParsed "2015-02-04T18:52:39.127Z")
    (fun _ => [sampleDeposit "2015-02-05T18:52:39.127Z",
      sampleDeposit "2015-02-04T18:52:39.127Z", sampleDeposit "2015-02-03T18:52:39.127Z"])
    3 50 1 [sampleDeposit "2015-02-05T18:52:39.127Z"]
    [sampleDeposit "2015-02-03T18:52:39.127Z"] (sampleDeposit "2015-02-04T18:52:39.127Z")
    (by decide) (by norm_num)
    (by
      intro i k h1 h2
      rw [hceil] at h2
      have : k = 1 := by omega
      subst this
      rfl)
    (by rw [hceil]; rfl)
    (by decide!) rfl (by rw [hceil])).1

/-! ## C4: the listing stops at the first item beyond the watermark -/

/-- C4: for `listTransactions` with any transport and any watermark: when the page
requests `calls` of a run were all answered, with the pages `pages`, the accumulated
result is exactly the items, in fetch order, that precede the first item on which the stop
predicate fires, and a page on which it fires is the last page requested (every page
before the last one is kept entirely).  For one page dated `[T+3, T+2, T+1, T-1]` and the
watermark `T` the result is the first three items and exactly one page request is made,
although the page announces 121 records. -/
theorem listTransactions_stops_at_first_older (E : Engine) (T : Transport)
    (x : ItBitExchange) (latest : Option Transaction) (fuel : ℕ) (calls : List Call)
    (sf : ListState)
    (hcred : checkIfCredentialsIsProvided x = none)
    (hrun : doWhilst (listTransactions.callAPI T x latest) listTransactions.check fuel 0
        { result := [], limitReached := false, currentPage := 1 } = (calls, some (.ok sf))) :
    ((listTransactions E T x latest fuel).calls = calls
      ∧ (listTransactions E T x latest fuel).outcome
          = some (listTransactions.parseResult E sf.result)
      ∧ ∃ pages : List FundingPage,
          fundingAnswers T x.walletId 0 calls pages
          ∧ sf.result = (pages.flatMap (fun pg => pg.fundingHistory)).takeWhile
              (fun t => !listTransactions.beyond latest t)
          ∧ (∀ pg ∈ pages.dropLast, ∀ t ∈ pg.fundingHistory,
              listTransactions.beyond latest t = false))
    ∧ ((listTransactions sampleEngine
          (samplePageTransport
            ⟨[sampleDeposit "2015-02-07T18:52:39.127Z", sampleDeposit "2015-02-06T18:52:39.127Z",
              sampleDeposit "2015-02-05T18:52:39.127Z",
              sampleDeposit "2015-02-03T18:52:39.127Z"], 1, 121, 50⟩)
          sampleExchange (some (sampleParsed "2015-02-04T18:52:39.127Z")) 3).outcome
        = some (.result [sampleParsed "2015-02-07T18:52:39.127Z",
            sampleParsed "2015-02-06T18:52:39.127Z", sampleParsed "2015-02-05T18:52:39.127Z"])
      ∧ (listTransactions sampleEngine
          (samplePageTransport
            ⟨[sampleDeposit "2015-02-07T18:52:39.127Z", sampleDeposit "2015-02-06T18:52:39.127Z",
              sampleDeposit "2015-02-05T18:52:39.127Z",
              sampleDeposit "2015-02-03T18:52:39.127Z"], 1, 121, 50⟩)
          sampleExchange (some (sampleParsed "2015-02-04T18:52:39.127Z")) 3).calls
        = [.getFundingHistory (some "mock_walletid") 1 50]) := by
  refine ⟨⟨?_, ?_, ?_⟩, by decide!, by decide!⟩
  · rw [listTransactions_run E T x latest fuel hcred, hrun]
  · rw [listTransactions_run E T x latest fuel hcred, hrun]
    rfl
  · obtain ⟨pages, a1, a2, a3⟩ := listLoop_pages T x latest fuel 0 _ calls sf rfl hrun
    refine ⟨pages, a1, ?_, ?_⟩
    · rw [a2, List.nil_append]; rfl
    · intro pg hpg t ht
      have := a3 pg hpg t ht
      simpa [listTransactions.keeps] using this

/-- C4, witness: the run on the page dated `[T+3, T+2, T+1, T-1]`. -/
theorem listTransactions_stops_at_first_older_witness :
    (listTransactions sampleEngine
        (samplePageTransport
          ⟨[sampleDeposit "2015-02-07T18:52:39.127Z", sampleDeposit "2015-02-06T18:52:39.127Z",
            sampleDeposit "2015-02-05T18:52:39.127Z",
            sampleDeposit "2015-02-03T18:52:39.127Z"], 1, 121, 50⟩)
        sampleExchange (some (sampleParsed "2015-02-04T18:52:39.127Z")) 3).calls
      = [.getFundingHistory (some "mock_walletid") 1 50] :=
  (listTransactions_stops_at_first_older sampleEngine
    (samplePageTransport
      ⟨[sampleDeposit "2015-02-07T18:52:39.127Z", sampleDeposit "2015-02-06T18:52:39.127Z",
        sampleDeposit "2015-02-05T18:52:39.127Z",
        sampleDeposit "2015-02-03T18:52:39.127Z"], 1, 121, 50⟩)
    sampleExchange (some (sampleParsed "2015-02-04T18:52:39.127Z")) 3
    [.getFundingHistory (some "mock_walletid") 1 50]
    { result := [sampleDeposit "2015-02-07T18:52:39.127Z",
        sampleDeposit "2015-02-06T18:52:39.127Z", sampleDeposit "2015-02-05T18:52:39.127Z"]
      limitReached := true, currentPage := 1 }
    (by decide) (by rfl)).1.1

/-! ## C5: the pages of a listing without watermark -/

/-- C5: for a transport that answers the request for page `k` with
`currentPageNumber = k` and with constant `totalNumberOfRecords = N` and
`recordsPerPage = P > 0`, `listTransactions` without watermark ends after requesting
exactly the pages `1, 2, ..., max 1 ⌈N/P⌉`, in this order, each with `perPage = 50`
(3 pages for `N = 121`, `P = 50`), and parses the items of all those pages concatenated in
page order and in the order within the page. -/
theorem listTransactions_all_pages (E : Engine) (T : Transport) (x : ItBitExchange)
    (items : ℕ → List RawTransaction) (N P fuel : ℕ)
    (hcred : checkIfCredentialsIsProvided x = none) (hP : 0 < P)
    (hT : ∀ i k, 1 ≤ k → k ≤ max 1 ⌈(N : ℚ) / P⌉₊ →
      T.getFundingHistory i x.walletId k 50 = .ok ⟨items k, k, N, P⟩)
    (hfuel : max 1 ⌈(N : ℚ) / P⌉₊ ≤ fuel) :
    (listTransactions E T x none fuel).calls
        = (List.range' 1 (max 1 ⌈(N : ℚ) / P⌉₊)).map
            (fun k => Call.getFundingHistory x.walletId k 50)
    ∧ (listTransactions E T x none fuel).outcome
        = some (listTransactions.parseResult E
            ((List.range' 1 (max 1 ⌈(N : ℚ) / P⌉₊)).flatMap items))
    ∧ (∀ ts, parseAll E ((List.range' 1 (max 1 ⌈(N : ℚ) / P⌉₊)).flatMap items) = .ok ts →
        (listTransactions E T x none fuel).outcome = some (.result ts)
        ∧ ts.map (fun t => t.raw) = (List.range' 1 (max 1 ⌈(N : ℚ) / P⌉₊)).flatMap items)
    ∧ max 1 ⌈((121 : ℕ) : ℚ) / (50 : ℕ)⌉₊ = 3 := by
  have h121 : max 1 ⌈((121 : ℕ) : ℚ) / (50 : ℕ)⌉₊ = 3 := by
    rw [ceil_div_eq 121 50 (by norm_num)]; rfl
  rw [ceil_div_eq N P hP] at hT hfuel ⊢
  have hC := pageCount_pos N P hP
  obtain ⟨m, sf, _, hrun, hres, hfull⟩ := listLoop_paged T x none items N P _ hC
    (max 1 ((N + P - 1) / P) - 1) 1 0
    { result := [], limitReached := false, currentPage := 1 } fuel rfl rfl
    (fun i k h1 h2 => hT i k h1 (by omega)) (by omega) (by omega) (by omega)
  have hM : max 1 ((N + P - 1) / P) - 1 + 1 = max 1 ((N + P - 1) / P) := by omega
  have hm := hfull (fun k _ _ t _ => rfl)
  rw [hm, hM] at hrun
  have hkeep : ∀ l : List RawTransaction,
      l.takeWhile (listTransactions.keeps none) = l := by
    intro l
    exact List.takeWhile_eq_self_iff.mpr (fun t _ => rfl)
  rw [hM, hkeep, List.nil_append] at hres
  have hout : (listTransactions E T x none fuel).outcome
      = some (listTransactions.parseResult E
          ((List.range' 1 (max 1 ((N + P - 1) / P))).flatMap items)) := by
    rw [listTransactions_run E T x none fuel hcred]
    simp only [hrun, Option.map_some', listTransactions.done, hres]
  refine ⟨?_, hout, ?_, h121⟩
  · rw [listTransactions_run E T x none fuel hcred, hrun]
  · intro ts hts
    refine ⟨?_, parseAll_raw E _ ts hts⟩
    rw [hout]
    simp only [listTransactions.parseResult, hts]

/-- C5, witness: three pages for 121 records announced with 50 records per page. -/
theorem listTransactions_all_pages_witness :
    (listTransactions sampleEngine
        (samplePagedTransport (fun _ => [sampleDeposit "2015-02-05T18:52:39.127Z"]) 121 50)
        sampleExchange none 3).calls
      = (List.range' 1 (max 1 ⌈((121 : ℕ) : ℚ) / (50 : ℕ)⌉₊)).map
          (fun k => Call.getFundingHistory sampleExchange.walletId k 50) := by
  have hceil : max 1 ⌈((121 : ℕ) : ℚ) / (50 : ℕ)⌉₊ = 3 := by
    rw [ceil_div_eq 121 50 (by norm_num)]; rfl
  exact (listTransactions_all_pages sampleEngine
    (samplePagedTransport (fun _ => [sampleDeposit "2015-02-05T18:52:39.127Z"]) 121 50)
    sampleExchange (fun _ => [sampleDeposit "2015-02-05T18:52:39.127Z"]) 121 50 3
    (by decide) (by norm_num) (fun i k _ _ => rfl) (by rw [hceil])).1

/-! ## Facts about the loop of `getTrade` -/

theorem tradeAPI_ok (T : Transport) (x : ItBitExchange) (id : Option String)
    (rs re : String) (k : ℕ) (s : TradeState) (data : TradesPage)
    (h : T.getWalletTrades k x.walletId s.currentPage 50 rs re = .ok data) :
    getTrade.callAPI T x id rs re k s
      = (.getWalletTrades x.walletId s.currentPage 50 rs re,
          .ok { tradeResults := s.tradeResults ++
                  data.tradingHistory.filter (fun e => decide (e.orderId = id))
                currentPage := data.currentPageNumber + 1
                totalPages := pageCount data.totalNumberOfRecords data.recordsPerPage }) := by
  unfold getTrade.callAPI
  simp only [h]

theorem tradeAPI_error (T : Transport) (x : ItBitExchange) (id : Option String)
    (rs re : String) (k : ℕ) (s : TradeState) (err : JsError)
    (h : T.getWalletTrades k x.walletId s.currentPage 50 rs re = .error err) :
    getTrade.callAPI T x id rs re k s
      = (.getWalletTrades x.walletId s.currentPage 50 rs re, .error (serviceError err)) := by
  unfold getTrade.callAPI serviceError
  simp only [h]

theorem tradeLoop_paged (T : Transport) (x : ItBitExchange) (id : Option String)
    (rs re : String) (items : ℕ → List RawExecution) (N P C : ℕ)
    (hC : pageCount N P = .finite C) :
    ∀ (n j : ℕ) (s : TradeState) (fuel : ℕ),
      (∀ i k, s.currentPage ≤ k → k ≤ s.currentPage + n →
        T.getWalletTrades i x.walletId k 50 rs re = .ok ⟨items k, k, N, P⟩) →
      (n = 0 ∨ s.currentPage + n ≤ C) → C ≤ s.currentPage + n → n < fuel →
      doWhilst (getTrade.callAPI T x id rs re) getTrade.check fuel j s
        = ((List.range' s.currentPage (n + 1)).map
              (fun k => Call.getWalletTrades x.walletId k 50 rs re),
            some (.ok { tradeResults := s.tradeResults ++
                          ((List.range' s.currentPage (n + 1)).flatMap items).filter
                            (fun e => decide (e.orderId = id))
                        currentPage := s.currentPage + n + 1
                        totalPages := .finite C })) := by
  intro n
  induction n with
  | zero =>
    intro j s fuel hT _ hle hfuel
    obtain ⟨f, rfl⟩ : ∃ f, fuel = f + 1 := ⟨fuel - 1, by omega⟩
    have hpage := hT j s.currentPage le_rfl (by omega)
    rw [doWhilst, tradeAPI_ok T x id rs re j s _ hpage]
    have hc : ¬ (s.currentPage + 1 ≤ C) := by omega
    simp [getTrade.check, hC, PageCount.reaches, hc]
  | succ n ih =>
    intro j s fuel hT hmid hle hfuel
    obtain ⟨f, rfl⟩ : ∃ f, fuel = f + 1 := ⟨fuel - 1, by omega⟩
    have hpage := hT j s.currentPage le_rfl (by omega)
    have hpC : s.currentPage + (n + 1) ≤ C := by
      rcases hmid with h | h
      · omega
      · exact h
    have hc : s.currentPage + 1 ≤ C := by omega
    have hrec := ih (j + 1)
      { tradeResults := s.tradeResults ++
          (items s.currentPage).filter (fun e => decide (e.orderId = id))
        currentPage := s.currentPage + 1
        totalPages := .finite C } f
      (fun i k h1 h2 => hT i k (by simp only at h1; omega) (by simp only at h2; omega))
      (by simp only; omega) (by simp only; omega) (by omega)
    rw [doWhilst, tradeAPI_ok T x id rs re j s _ hpage]
    simp only [getTrade.check, hC, PageCount.reaches, hc, decide_True, if_true]
    rw [hrec]
    simp only [List.range'_succ s.currentPage (n + 1), List.map_cons, List.flatMap_cons,
      List.filter_append, List.append_assoc]
    have : s.currentPage + 1 + n + 1 = s.currentPage + (n + 1) + 1 := by omega
    rw [this]

theorem tradeLoop_calls (T : Transport) (x : ItBitExchange) (id : Option String)
    (rs re : String) :
    ∀ (fuel j : ℕ) (s : TradeState),
      ∀ c ∈ (doWhilst (getTrade.callAPI T x id rs re) getTrade.check fuel j s).1,
        ∃ p, c = .getWalletTrades x.walletId p 50 rs re := by
  intro fuel
  induction fuel with
  | zero => intro j s c hc; simp [doWhilst] at hc
  | succ fuel ih =>
    intro j s c hc
    rw [doWhilst] at hc
    cases hT : T.getWalletTrades j x.walletId s.currentPage 50 rs re with
    | error err =>
      rw [tradeAPI_error T x id rs re j s err hT] at hc
      simp only [List.mem_singleton] at hc
      exact ⟨s.currentPage, hc⟩
    | ok data =>
      rw [tradeAPI_ok T x id rs re j s data hT] at hc
      simp only at hc
      split_ifs at hc
      · rcases List.mem_cons.mp hc with h | h
        · exact ⟨s.currentPage, h⟩
        · exact ih _ _ c h
      · simp only [List.mem_singleton] at hc
        exact ⟨s.currentPage, hc⟩

theorem tradeLoop_failure (T : Transport) (x : ItBitExchange) (id : Option String)
    (rs re : String) (err : JsError) :
    ∀ (fuel j k : ℕ) (s : TradeState) (c : Call),
      (doWhilst (getTrade.callAPI T x id rs re) getTrade.check fuel j s).1[k]? = some c →
      T.failure (j + k) c = some err →
      (doWhilst (getTrade.callAPI T x id rs re) getTrade.check fuel j s).1.length = k + 1
      ∧ (doWhilst (getTrade.callAPI T x id rs re) getTrade.check fuel j s).2
          = some (.error (serviceError err)) := by
  intro fuel
  induction fuel with
  | zero => intro j k s c hc; simp [doWhilst] at hc
  | succ fuel ih =>
    intro j k s c hc hf
    rw [doWhilst] at hc ⊢
    cases hT : T.getWalletTrades j x.walletId s.currentPage 50 rs re with
    | error e =>
      rw [tradeAPI_error T x id rs re j s e hT] at hc ⊢
      simp only at hc ⊢
      cases k with
      | zero =>
        simp only [List.getElem?_cons_zero, Option.some.injEq] at hc
        subst hc
        simp only [Transport.failure, Nat.add_zero, hT, Option.some.injEq] at hf
        subst hf
        exact ⟨rfl, rfl⟩
      | succ k => simp at hc
    | ok data =>
      rw [tradeAPI_ok T x id rs re j s data hT] at hc ⊢
      simp only at hc ⊢
      cases k with
      | zero =>
        split_ifs at hc <;>
        · simp only [List.getElem?_cons_zero, Option.some.injEq] at hc
          subst hc
          simp [Transport.failure, hT] at hf
      | succ k =>
        split_ifs at hc ⊢
        · simp only [List.getElem?_cons_succ] at hc
          have := ih (j + 1) k _ c hc (by rw [← hf]; congr 1; omega)
          simp only [List.length_cons]
          exact ⟨by omega, this.2⟩
        · simp at hc

theorem listLoop_failure (T : Transport) (x : ItBitExchange) (latest : Option Transaction)
    (err : JsError) :
    ∀ (fuel j k : ℕ) (s : ListState) (c : Call),
      (doWhilst (listTransactions.callAPI T x latest) listTransactions.check fuel j s).1[k]?
        = some c →
      T.failure (j + k) c = some err →
      (doWhilst (listTransactions.callAPI T x latest) listTransactions.check fuel j s).1.length
        = k + 1
      ∧ (doWhilst (listTransactions.callAPI T x latest) listTransactions.check fuel j s).2
          = some (.error (serviceError err)) := by
  intro fuel
  induction fuel with
  | zero => intro j k s c hc; simp [doWhilst] at hc
  | succ fuel ih =>
    intro j k s c hc hf
    rw [doWhilst] at hc ⊢
    cases hT : T.getFundingHistory j x.walletId s.currentPage 50 with
    | error e =>
      rw [callAPI_error T x latest j s e hT] at hc ⊢
      simp only at hc ⊢
      cases k with
      | zero =>
        simp only [List.getElem?_cons_zero, Option.some.injEq] at hc
        subst hc
        simp only [Transport.failure, Nat.add_zero, hT, Option.some.injEq] at hf
        subst hf
        exact ⟨rfl, rfl⟩
      | succ k => simp at hc
    | ok data =>
      have hcall : listTransactions.callAPI T x latest j s
          = (.getFundingHistory x.walletId s.currentPage 50,
              (listTransactions.callAPI T x latest j s).2) := by
        unfold listTransactions.callAPI; rfl
      have hok : ∃ s2, (listTransactions.callAPI T x latest j s).2 = .ok s2 := by
        unfold listTransactions.callAPI
        simp only [hT]
        split_ifs <;> exact ⟨_, rfl⟩
      obtain ⟨s2, hs2⟩ := hok
      rw [hcall, hs2] at hc ⊢
      simp only at hc ⊢
      cases k with
      | zero =>
        split_ifs at hc <;>
        · simp only [List.getElem?_cons_zero, Option.some.injEq] at hc
          subst hc
          simp [Transport.failure, hT] at hf
      | succ k =>
        split_ifs at hc ⊢
        · simp only [List.getElem?_cons_succ] at hc
          have := ih (j + 1) k _ c hc (by rw [← hf]; congr 1; omega)
          simp only [List.length_cons]
          exact ⟨by omega, this.2⟩
        · simp at hc

theorem getTrade_filled_run (E : Engine) (T : Transport) (x : ItBitExchange)
    (id : Option String) (order : RawOrder) (rs re : String) (fuel : ℕ)
    (hcred : checkIfCredentialsIsProvided x = none)
    (hget : T.getOrder x.walletId id = .ok order)
    (hfilled : order.status = some "filled")
    (hrange : getTrade.timeRange E x order = some (rs, re)) :
    getTrade E T x (.raw id) fuel
      = ⟨.getOrder x.walletId id ::
            (doWhilst (getTrade.callAPI T x id rs re) getTrade.check fuel 0
              { tradeResults := [], currentPage := 1, totalPages := .nan }).1,
          (doWhilst (getTrade.callAPI T x id rs re) getTrade.check fuel 0
              { tradeResults := [], currentPage := 1, totalPages := .nan }).2.map
            (getTrade.done order id rs re)⟩ := by
  unfold getTrade
  simp only [hcred, hget, hfilled, hrange, ne_eq, not_true_eq_false, if_false]

/-! ## C6: a failure of the transport -/

/-- C6: whenever a call to the transport fails, be it the single call of `getBalance`,
`placeTrade`, `getOrderBook`, `getTicker` or the order fetch of `getTrade`, or a page
request of `listTransactions` or of the execution fetch of `getTrade`, the operation makes
no further call and yields the error of kind `EXCHANGE_SERVER_ERROR` whose cause is the
error of the transport, and no result: the items of the pages fetched before are not
surfaced. -/
theorem transport_failure_is_reported (E : Engine) (T : Transport) (x : ItBitExchange)
    (err : JsError) :
    ((serviceError err).code = .EXCHANGE_SERVER_ERROR ∧ (serviceError err).cause = some err)
    ∧ (∀ c, (getBalance T x).calls[0]? = some c → T.failure 0 c = some err →
        (getBalance T x).calls.length = 1
        ∧ (getBalance T x).outcome = some (.error (serviceError err)))
    ∧ (∀ baseAmount limitPrice baseCurrency quoteCurrency c,
        (placeTrade E T x baseAmount limitPrice baseCurrency quoteCurrency).calls[0]? = some c →
        T.failure 0 c = some err →
        (placeTrade E T x baseAmount limitPrice baseCurrency quoteCurrency).calls.length = 1
        ∧ (placeTrade E T x baseAmount limitPrice baseCurrency quoteCurrency).outcome
            = some (.error (serviceError err)))
    ∧ (∀ baseCurrency quoteCurrency c,
        (getOrderBook T baseCurrency quoteCurrency).calls[0]? = some c →
        T.failure 0 c = some err →
        (getOrderBook T baseCurrency quoteCurrency).calls.length = 1
        ∧ (getOrderBook T baseCurrency quoteCurrency).outcome
            = some (.error (serviceError err)))
    ∧ (∀ baseCurrency quoteCurrency c,
        (getTicker T baseCurrency quoteCurrency).calls[0]? = some c →
        T.failure 0 c = some err →
        (getTicker T baseCurrency quoteCurrency).calls.length = 1
        ∧ (getTicker T baseCurrency quoteCurrency).outcome
            = some (.error (serviceError err)))
    ∧ (∀ latest fuel k c,
        (listTransactions E T x latest fuel).calls[k]? = some c →
        T.failure k c = some err →
        (listTransactions E T x latest fuel).calls.length = k + 1
        ∧ (listTransactions E T x latest fuel).outcome = some (.error (serviceError err)))
    ∧ (∀ trade fuel k c,
        (getTrade E T x trade fuel).calls[k]? = some c →
        T.failure (k - 1) c = some err →
        (getTrade E T x trade fuel).calls.length = k + 1
        ∧ (getTrade E T x trade fuel).outcome = some (.error (serviceError err))) := by
  refine ⟨⟨rfl, rfl⟩, ?_, ?_, ?_, ?_, ?_, ?_⟩
  · -- getBalance
    intro c hc hf
    unfold getBalance at hc ⊢
    cases hcred : checkIfCredentialsIsProvided x with
    | some e => simp [hcred] at hc
    | none =>
      simp only [hcred, List.getElem?_cons_zero, Option.some.injEq] at hc ⊢
      subst hc
      simp only [Transport.failure] at hf
      cases hT : T.getWallet x.walletId with
      | error e =>
        rw [hT] at hf
        simp only [Option.some.injEq] at hf
        subst hf
        exact ⟨rfl, rfl⟩
      | ok r => rw [hT] at hf; simp at hf
  · -- placeTrade
    intro baseAmount limitPrice baseCurrency quoteCurrency c hc hf
    unfold placeTrade at hc ⊢
    cases hcred : checkIfCredentialsIsProvided x with
    | some e => simp [hcred] at hc
    | none =>
      simp only [hcred] at hc ⊢
      cases baseAmount with
      | number amount =>
        simp only at hc ⊢
        by_cases h1 : amount.strictEq (.finite 0) = true
        · rw [if_pos h1] at hc; simp at hc
        · rw [if_neg h1] at hc ⊢
          cases limitPrice with
          | number price =>
            simp only at hc ⊢
            by_cases h2 : price.le (.finite 0) = true
            · rw [if_pos h2] at hc; simp at hc
            · rw [if_neg h2] at hc ⊢
              simp only [List.getElem?_cons_zero, Option.some.injEq] at hc
              subst hc
              simp only [Transport.failure] at hf
              split at hf
              · rename_i e hT
                simp only [Option.some.injEq] at hf
                subst hf
                simp only [hT, List.length_singleton, true_and]
                rfl
              · simp at hf
          | undefined => simp at hc
          | null => simp at hc
          | numeric s => simp at hc
          | text s => simp at hc
      | undefined => simp at hc
      | null => simp at hc
      | numeric s => simp at hc
      | text s => simp at hc
  · -- getOrderBook
    intro baseCurrency quoteCurrency c hc hf
    unfold getOrderBook at hc ⊢
    simp only [List.getElem?_cons_zero, Option.some.injEq] at hc ⊢
    subst hc
    simp only [Transport.failure] at hf
    split at hf
    · rename_i e hT
      simp only [Option.some.injEq] at hf
      subst hf
      simp only [hT, List.length_singleton, true_and]
      rfl
    · simp at hf
  · -- getTicker
    intro baseCurrency quoteCurrency c hc hf
    unfold getTicker at hc ⊢
    simp only [List.getElem?_cons_zero, Option.some.injEq] at hc ⊢
    subst hc
    simp only [Transport.failure] at hf
    split at hf
    · rename_i e hT
      simp only [Option.some.injEq] at hf
      subst hf
      simp only [hT, List.length_singleton, true_and]
      rfl
    · simp at hf
  · -- listTransactions
    intro latest fuel k c hc hf
    cases hcred : checkIfCredentialsIsProvided x with
    | some e =>
      unfold listTransactions at hc
      simp [hcred] at hc
    | none =>
      rw [listTransactions_run E T x latest fuel hcred] at hc ⊢
      simp only at hc ⊢
      obtain ⟨h1, h2⟩ := listLoop_failure T x latest err fuel 0 k _ c hc (by simpa using hf)
      exact ⟨h1, by rw [h2]; rfl⟩
  · -- getTrade
    intro trade fuel k c hc hf
    cases hcred : checkIfCredentialsIsProvided x with
    | some e =>
      unfold getTrade at hc
      simp [hcred] at hc
    | none =>
      cases trade with
      | notObject => unfold getTrade at hc; simp [hcred] at hc
      | noRaw => unfold getTrade at hc; simp [hcred] at hc
      | raw id =>
        cases hget : T.getOrder x.walletId id with
        | error e =>
          unfold getTrade at hc ⊢
          simp only [hcred, hget] at hc ⊢
          cases k with
          | zero =>
            simp only [List.getElem?_cons_zero, Option.some.injEq] at hc
            subst hc
            simp only [Transport.failure, hget, Option.some.injEq] at hf
            subst hf
            exact ⟨rfl, rfl⟩
          | succ k => simp at hc
        | ok order =>
          have hzero : ∀ c2, c2 = Call.getOrder x.walletId id →
              T.failure (0 - 1) c2 ≠ some err := by
            intro c2 h; subst h
            simp [Transport.failure, hget]
          by_cases hfilled : order.status = some "filled"
          · cases hrange : getTrade.timeRange E x order with
            | none =>
              unfold getTrade at hc ⊢
              simp only [hcred, hget, hfilled, hrange, ne_eq, not_true_eq_false, if_false]
                at hc ⊢
              cases k with
              | zero =>
                simp only [List.getElem?_cons_zero, Option.some.injEq] at hc
                exact absurd hf (hzero c hc.symm)
              | succ k => simp at hc
            | some range =>
              obtain ⟨rs, re⟩ := range
              rw [getTrade_filled_run E T x id order rs re fuel hcred hget hfilled hrange]
                at hc ⊢
              simp only at hc ⊢
              cases k with
              | zero =>
                simp only [List.getElem?_cons_zero, Option.some.injEq] at hc
                exact absurd hf (hzero c hc.symm)
              | succ k =>
                simp only [List.getElem?_cons_succ] at hc
                obtain ⟨h1, h2⟩ := tradeLoop_failure T x id rs re err fuel 0 k _ c hc
                  (by simpa using hf)
                simp only [List.length_cons]
                exact ⟨by omega, by rw [h2]; rfl⟩
          · unfold getTrade at hc ⊢
            simp only [hcred, hget, ne_eq, hfilled, not_false_eq_true, if_true] at hc ⊢
            cases k with
            | zero =>
              simp only [List.getElem?_cons_zero, Option.some.injEq] at hc
              exact absurd hf (hzero c hc.symm)
            | succ k => simp at hc

/-- C6, witness: the failure of `getWallet`, and the failure of the second page request of
a listing whose first page was answered. -/
theorem transport_failure_is_reported_witness :
    (getBalance sampleFailingTransport sampleExchange).outcome
      = some (.error (serviceError sampleFailure))
    ∧ (listTransactions sampleEngine sampleFailingTransport sampleExchange none 4).calls.length
      = 2
    ∧ (listTransactions sampleEngine sampleFailingTransport sampleExchange none 4).outcome
      = some (.error (serviceError sampleFailure)) :=
  ⟨((transport_failure_is_reported sampleEngine sampleFailingTransport sampleExchange
      sampleFailure).2.1 (.getWallet (some "mock_walletid")) (by decide) (by decide)).2,
    ((transport_failure_is_reported sampleEngine sampleFailingTransport sampleExchange
      sampleFailure).2.2.2.2.2.1 none 4 1 (.getFundingHistory (some "mock_walletid") 2 50)
      (by decide) (by decide)).1,
    ((transport_failure_is_reported sampleEngine sampleFailingTransport sampleExchange
      sampleFailure).2.2.2.2.2.1 none 4 1 (.getFundingHistory (some "mock_walletid") 2 50)
      (by decide) (by decide)).2⟩

/-! ## C7 and C8: the executions of a filled order -/

theorem getTrade_paged (E : Engine) (T : Transport) (x : ItBitExchange)
    (id : Option String) (order : RawOrder) (rs re : String)
    (items : ℕ → List RawExecution) (N P fuel : ℕ)
    (hcred : checkIfCredentialsIsProvided x = none)
    (hget : T.getOrder x.walletId id = .ok order)
    (hfilled : order.status = some "filled")
    (hrange : getTrade.timeRange E x order = some (rs, re))
    (hP : 0 < P)
    (hT : ∀ i k, 1 ≤ k → k ≤ max 1 ⌈(N : ℚ) / P⌉₊ →
      T.getWalletTrades i x.walletId k 50 rs re = .ok ⟨items k, k, N, P⟩)
    (hfuel : max 1 ⌈(N : ℚ) / P⌉₊ ≤ fuel) :
    (getTrade E T x (.raw id) fuel).calls
        = .getOrder x.walletId id :: (List.range' 1 (max 1 ⌈(N : ℚ) / P⌉₊)).map
            (fun k => Call.getWalletTrades x.walletId k 50 rs re)
    ∧ (getTrade E T x (.raw id) fuel).outcome
        = some (getTrade.aggregate order id rs re
            (((List.range' 1 (max 1 ⌈(N : ℚ) / P⌉₊)).flatMap items).filter
              (fun e => decide (e.orderId = id)))) := by
  rw [ceil_div_eq N P hP] at hT hfuel ⊢
  have hC := pageCount_pos N P hP
  have hrun := tradeLoop_paged T x id rs re items N P _ hC
    (max 1 ((N + P - 1) / P) - 1) 0
    { tradeResults := [], currentPage := 1, totalPages := .nan } fuel
    (fun i k h1 h2 => hT i k h1 (by simp only at h2; omega))
    (by simp only; omega) (by simp only; omega) (by omega)
  have hM : max 1 ((N + P - 1) / P) - 1 + 1 = max 1 ((N + P - 1) / P) := by omega
  simp only [hM, List.nil_append] at hrun
  rw [getTrade_filled_run E T x id order rs re fuel hcred hget hfilled hrange, hrun]
  exact ⟨rfl, rfl⟩

/-- C7: for every filled order and every set of pages of trade executions none of which
references the requested order id, `getTrade` yields no result but the error of kind
`MODULE_ERROR` without cause whose message holds the `rangeStart` and `rangeEnd` strings
sent to the transport with every page request, and the order id.  With the default
ranges, an order created at 2014-02-11T17:05:15Z gives
`(2014-02-11T17:04:15.000Z - 2014-02-11T17:35:15.000Z)`. -/
theorem getTrade_without_trades (E : Engine) (T : Transport) (x : ItBitExchange)
    (id : Option String) (order : RawOrder) (rs re : String)
    (items : ℕ → List RawExecution) (N P fuel : ℕ)
    (hcred : checkIfCredentialsIsProvided x = none)
    (hget : T.getOrder x.walletId id = .ok order)
    (hfilled : order.status = some "filled")
    (hrange : getTrade.timeRange E x order = some (rs, re))
    (hP : 0 < P)
    (hT : ∀ i k, 1 ≤ k → k ≤ max 1 ⌈(N : ℚ) / P⌉₊ →
      T.getWalletTrades i x.walletId k 50 rs re = .ok ⟨items k, k, N, P⟩)
    (hnone : ∀ k, 1 ≤ k → k ≤ max 1 ⌈(N : ℚ) / P⌉₊ → ∀ e ∈ items k, e.orderId ≠ id)
    (hfuel : max 1 ⌈(N : ℚ) / P⌉₊ ≤ fuel) :
    (getTrade E T x (.raw id) fuel).outcome
        = some (.error
            { message := "No trades are found on ItBit in the time interval " ++ "(" ++ rs
                ++ " - " ++ re ++ ") for tradeId: " ++ id.getD "undefined"
              code := .MODULE_ERROR
              cause := none })
    ∧ (getTrade E T x (.raw id) fuel).calls
        = .getOrder x.walletId id :: (List.range' 1 (max 1 ⌈(N : ℚ) / P⌉₊)).map
            (fun k => Call.getWalletTrades x.walletId k 50 rs re)
    ∧ (∀ (E2 : Engine) (order2 : RawOrder),
        order2.createdTime = some "2014-02-11T17:05:15Z" →
        getTrade.timeRange E2 sampleExchange order2
          = some ("2014-02-11T17:04:15.000Z", "2014-02-11T17:35:15.000Z"))
    ∧ getTrade.noTradesMessage "2014-02-11T17:04:15.000Z" "2014-02-11T17:35:15.000Z"
        (some "148ffda4-83a0-4033-a5bb-8929d523f59f")
      = "No trades are found on ItBit in the time interval (2014-02-11T17:04:15.000Z - 2014-02-11T17:35:15.000Z) for tradeId: 148ffda4-83a0-4033-a5bb-8929d523f59f" := by
  obtain ⟨hcalls, hout⟩ := getTrade_paged E T x id order rs re items N P fuel hcred hget
    hfilled hrange hP hT hfuel
  refine ⟨?_, hcalls, ?_, by decide⟩
  · rw [hout]
    have hempty : ((List.range' 1 (max 1 ⌈(N : ℚ) / P⌉₊)).flatMap items).filter
        (fun e => decide (e.orderId = id)) = [] := by
      rw [List.filter_eq_nil_iff]
      intro e he
      obtain ⟨k, hk, hek⟩ := List.mem_flatMap.mp he
      rw [List.mem_range'_1] at hk
      simpa using hnone k hk.1 (by omega) e hek
    rw [hempty]
    simp only [getTrade.aggregate, List.length_nil, if_true, constructError,
      getTrade.noTradesMessage, String.append_assoc]
  · intro E2 order2 h2
    unfold getTrade.timeRange Engine.dateParse
    rw [h2]
    have hp : parseIsoUtc "2014-02-11T17:05:15Z" = some 1392138315000 := by decide
    simp only [Option.bind, hp]
    have h3 : toISOString (1392138315000 - sampleExchange.timeRangeBeforeCreatedInMillis)
        = some "2014-02-11T17:04:15.000Z" := by decide
    have h4 : toISOString (1392138315000 + sampleExchange.timeRangeAfterCreatedInMillis)
        = some "2014-02-11T17:35:15.000Z" := by decide
    rw [h3, h4]

/-- C7, witness: the order 148f is filled and the only page of trades holds two executions
of the order 248f. -/
theorem getTrade_without_trades_witness :
    (getTrade sampleEngine
        (sampleTradeTransport (sampleOrder "248f" "filled")
          (fun _ => [sampleExecution "248f", sampleExecution "248f"]) 2 50)
        sampleExchange (.raw (some "148f")) 1).outcome
      = some (.error
          { message := "No trades are found on ItBit in the time interval " ++ "("
              ++ "2014-02-11T17:04:15.000Z" ++ " - " ++ "2014-02-11T17:35:15.000Z"
              ++ ") for tradeId: " ++ (some "148f").getD "undefined"
            code := .MODULE_ERROR
            cause := none }) := by
  have hceil : max 1 ⌈((2 : ℕ) : ℚ) / (50 : ℕ)⌉₊ = 1 := by
    rw [ceil_div_eq 2 50 (by norm_num)]; rfl
  exact (getTrade_without_trades sampleEngine
    (sampleTradeTransport (sampleOrder "248f" "filled")
      (fun _ => [sampleExecution "248f", sampleExecution "248f"]) 2 50)
    sampleExchange (some "148f") (sampleOrder "248f" "filled")
    "2014-02-11T17:04:15.000Z" "2014-02-11T17:35:15.000Z"
    (fun _ => [sampleExecution "248f", sampleExecution "248f"]) 2 50 1
    (by decide) rfl rfl (by decide) (by norm_num)
    (fun i k _ _ => rfl)
    (by
      intro k _ _ e he
      simp only [List.mem_cons, List.mem_singleton, or_self, List.not_mem_nil, or_false] at he
      subst he
      decide)
    (by rw [hceil])).1

/-- C8: for every filled order and a transport that serves the pages `1`, ...,
`max 1 ⌈N/P⌉` of the wallet trades of the time range, `getTrade` requests every one of
these pages (there is no stop predicate), and the executions it aggregates are exactly the
items of all these pages whose `orderId` equals the requested order id, in page order:
filtering each page and appending is filtering the concatenation of the pages; for `N > 0` these are the pages `1`, ...,
`⌈N/P⌉`.  When at least one execution matches, the result is
`parseClosedOrder(order, those executions)`. -/
theorem getTrade_aggregates_matching (E : Engine) (T : Transport) (x : ItBitExchange)
    (id : Option String) (order : RawOrder) (rs re : String)
    (items : ℕ → List RawExecution) (N P fuel : ℕ)
    (hcred : checkIfCredentialsIsProvided x = none)
    (hget : T.getOrder x.walletId id = .ok order)
    (hfilled : order.status = some "filled")
    (hrange : getTrade.timeRange E x order = some (rs, re))
    (hP : 0 < P)
    (hT : ∀ i k, 1 ≤ k → k ≤ max 1 ⌈(N : ℚ) / P⌉₊ →
      T.getWalletTrades i x.walletId k 50 rs re = .ok ⟨items k, k, N, P⟩)
    (hfuel : max 1 ⌈(N : ℚ) / P⌉₊ ≤ fuel) :
    (getTrade E T x (.raw id) fuel).calls
        = .getOrder x.walletId id :: (List.range' 1 (max 1 ⌈(N : ℚ) / P⌉₊)).map
            (fun k => Call.getWalletTrades x.walletId k 50 rs re)
    ∧ (List.range' 1 (max 1 ⌈(N : ℚ) / P⌉₊)).flatMap
          (fun k => (items k).filter (fun e => decide (e.orderId = id)))
        = ((List.range' 1 (max 1 ⌈(N : ℚ) / P⌉₊)).flatMap items).filter
            (fun e => decide (e.orderId = id))
    ∧ (getTrade E T x (.raw id) fuel).outcome
        = some (getTrade.aggregate order id rs re
            (((List.range' 1 (max 1 ⌈(N : ℚ) / P⌉₊)).flatMap items).filter
              (fun e => decide (e.orderId = id))))
    ∧ (0 < N → max 1 ⌈(N : ℚ) / P⌉₊ = ⌈(N : ℚ) / P⌉₊)
    ∧ (((List.range' 1 (max 1 ⌈(N : ℚ) / P⌉₊)).flatMap items).filter
          (fun e => decide (e.orderId = id)) ≠ [] →
        (getTrade E T x (.raw id) fuel).outcome
          = some (match parseClosedOrder order
                (((List.range' 1 (max 1 ⌈(N : ℚ) / P⌉₊)).flatMap items).filter
                  (fun e => decide (e.orderId = id))) with
              | .ok tradeResult => .result tradeResult
              | .error e =>
                .error (constructError
                  "The response from ItBit getWalletTrades() could not be parsed"
                  .MODULE_ERROR (some e)))) := by
  obtain ⟨hcalls, hout⟩ := getTrade_paged E T x id order rs re items N P fuel hcred hget
    hfilled hrange hP hT hfuel
  refine ⟨hcalls, (List.filter_flatMap _ _ _).symm, hout, ?_, ?_⟩
  · intro hN
    apply max_eq_right
    rw [Nat.one_le_iff_ne_zero, Ne, Nat.ceil_eq_zero, not_le]
    have hNq : (0 : ℚ) < N := by exact_mod_cast hN
    have hPq : (0 : ℚ) < P := by exact_mod_cast hP
    positivity
  intro hne
  rw [hout]
  unfold getTrade.aggregate
  have hlen : ¬ (((List.range' 1 (max 1 ⌈(N : ℚ) / P⌉₊)).flatMap items).filter
      (fun e => decide (e.orderId = id))).length = 0 := by
    rw [List.length_eq_zero]; exact hne
  rw [if_neg hlen]
  cases parseClosedOrder order (((List.range' 1 (max 1 ⌈(N : ℚ) / P⌉₊)).flatMap items).filter
      (fun e => decide (e.orderId = id))) <;> rfl

/-- C8, witness: two pages of one record each; the execution of the first page belongs to
the order 248f, the one of the second page to another order. -/
theorem getTrade_aggregates_matching_witness :
    (getTrade sampleEngine
        (sampleTradeTransport (sampleOrder "248f" "filled")
          (fun k => if k = 1 then [sampleExecution "248f"] else [sampleExecution "148f"]) 2 1)
        sampleExchange (.raw (some "248f")) 2).calls
      = .getOrder sampleExchange.walletId (some "248f") ::
          (List.range' 1 (max 1 ⌈((2 : ℕ) : ℚ) / (1 : ℕ)⌉₊)).map
            (fun k => Call.getWalletTrades sampleExchange.walletId k 50
              "2014-02-11T17:04:15.000Z" "2014-02-11T17:35:15.000Z") := by
  have hceil : max 1 ⌈((2 : ℕ) : ℚ) / (1 : ℕ)⌉₊ = 2 := by
    rw [ceil_div_eq 2 1 (by norm_num)]; rfl
  exact (getTrade_aggregates_matching sampleEngine
    (sampleTradeTransport (sampleOrder "248f" "filled")
      (fun k => if k = 1 then [sampleExecution "248f"] else [sampleExecution "148f"]) 2 1)
    sampleExchange (some "248f") (sampleOrder "248f" "filled")
    "2014-02-11T17:04:15.000Z" "2014-02-11T17:35:15.000Z"
    (fun k => if k = 1 then [sampleExecution "248f"] else [sampleExecution "148f"]) 2 1 2
    (by decide) rfl rfl (by decide) (by norm_num)
    (fun i k _ _ => rfl) (by rw [hceil])).1

/-! ## C9: the time range of the search -/

theorem timeRange_some (E : Engine) (x : ItBitExchange) (order : RawOrder) (rs re : String)
    (h : getTrade.timeRange E x order = some (rs, re)) :
    ∃ created : ℤ, order.createdTime.bind E.dateParse = some created
      ∧ toISOString (created - x.timeRangeBeforeCreatedInMillis) = some rs
      ∧ toISOString (created + x.timeRangeAfterCreatedInMillis) = some re := by
  unfold getTrade.timeRange at h
  cases hc : order.createdTime.bind E.dateParse with
  | none => rw [hc] at h; simp at h
  | some created =>
    rw [hc] at h
    simp only at h
    cases h1 : toISOString (created - x.timeRangeBeforeCreatedInMillis) with
    | none => rw [h1] at h; simp at h
    | some a =>
      cases h2 : toISOString (created + x.timeRangeAfterCreatedInMillis) with
      | none => rw [h1, h2] at h; simp at h
      | some b =>
        rw [h1, h2] at h
        simp only [Option.some.injEq, Prod.mk.injEq] at h
        exact ⟨created, rfl, by rw [← h.1]; exact h1, by rw [← h.2]; exact h2⟩

/-- C9: for every adapter configuration and every order, the time range that
`getTrade` sends with a page request of the wallet trades is
`rangeStart = c - timeRangeBeforeCreatedInMillis` and
`rangeEnd = c + timeRangeAfterCreatedInMillis`, printed as ISO 8601 strings, where `c` is
the creation instant of the order in milliseconds; the ranges are 60000 and 1800000 when
the settings do not supply them; hence `rangeEnd - rangeStart = before + after`, and
`rangeStart ≤ c ≤ rangeEnd` for non-negative ranges.  For a filled order whose dates are
valid the first page request is made with this range. -/
theorem getTrade_time_range (E : Engine) (T : Transport) (settings : Settings)
    (trade : TradeArg) (fuel : ℕ) :
    (∀ c ∈ (getTrade E T (ItBitExchange.create settings) trade fuel).calls,
      ∀ w page perPage rs re, c = Call.getWalletTrades w page perPage rs re →
        ∃ (id : Option String) (order : RawOrder) (created : ℤ),
          trade = .raw id
          ∧ T.getOrder (ItBitExchange.create settings).walletId id = .ok order
          ∧ order.createdTime.bind E.dateParse = some created
          ∧ toISOString
              (created - (ItBitExchange.create settings).timeRangeBeforeCreatedInMillis)
              = some rs
          ∧ toISOString
              (created + (ItBitExchange.create settings).timeRangeAfterCreatedInMillis)
              = some re)
    ∧ (settings.timeRangeBeforeCreatedInMillis = none →
        (ItBitExchange.create settings).timeRangeBeforeCreatedInMillis = 60000)
    ∧ (settings.timeRangeAfterCreatedInMillis = none →
        (ItBitExchange.create settings).timeRangeAfterCreatedInMillis = 1800000)
    ∧ (∀ created : ℤ,
        (created + (ItBitExchange.create settings).timeRangeAfterCreatedInMillis)
          - (created - (ItBitExchange.create settings).timeRangeBeforeCreatedInMillis)
          = (ItBitExchange.create settings).timeRangeBeforeCreatedInMillis
            + (ItBitExchange.create settings).timeRangeAfterCreatedInMillis)
    ∧ (∀ created : ℤ,
        0 ≤ (ItBitExchange.create settings).timeRangeBeforeCreatedInMillis →
        0 ≤ (ItBitExchange.create settings).timeRangeAfterCreatedInMillis →
        created - (ItBitExchange.create settings).timeRangeBeforeCreatedInMillis ≤ created
        ∧ created
            ≤ created + (ItBitExchange.create settings).timeRangeAfterCreatedInMillis)
    ∧ (∀ id order rs re,
        checkIfCredentialsIsProvided (ItBitExchange.create settings) = none →
        trade = .raw id →
        T.getOrder (ItBitExchange.create settings).walletId id = .ok order →
        order.status = some "filled" →
        getTrade.timeRange E (ItBitExchange.create settings) order = some (rs, re) →
        (getTrade E T (ItBitExchange.create settings) trade (fuel + 1)).calls[1]?
          = some (Call.getWalletTrades (ItBitExchange.create settings).walletId 1 50 rs re))
    := by
  refine ⟨?_, ?_, ?_, fun c => by ring, fun c h1 h2 => ⟨by omega, by omega⟩, ?_⟩
  · intro c hc w page perPage rs re hcall
    subst hcall
    generalize ItBitExchange.create settings = x at hc ⊢
    cases hcred : checkIfCredentialsIsProvided x with
    | some e => unfold getTrade at hc; simp [hcred] at hc
    | none =>
      cases trade with
      | notObject => unfold getTrade at hc; simp [hcred] at hc
      | noRaw => unfold getTrade at hc; simp [hcred] at hc
      | raw id =>
        cases hget : T.getOrder x.walletId id with
        | error e => unfold getTrade at hc; simp [hcred, hget] at hc
        | ok order =>
          by_cases hfilled : order.status = some "filled"
          · cases hrange : getTrade.timeRange E x order with
            | none => unfold getTrade at hc; simp [hcred, hget, hfilled, hrange] at hc
            | some range =>
              obtain ⟨rs2, re2⟩ := range
              rw [getTrade_filled_run E T x id order rs2 re2 fuel hcred hget hfilled hrange]
                at hc
              simp only [List.mem_cons] at hc
              rcases hc with hc | hc
              · exact absurd hc (by simp)
              · obtain ⟨p, hp⟩ := tradeLoop_calls T x id rs2 re2 fuel 0 _ _ hc
                injection hp with _ _ _ h4 h5
                obtain ⟨created, c1, c2, c3⟩ := timeRange_some E x order rs2 re2 hrange
                exact ⟨id, order, created, rfl, hget, c1, by rw [h4]; exact c2,
                  by rw [h5]; exact c3⟩
          · unfold getTrade at hc; simp [hcred, hget, hfilled] at hc
  · intro h
    simp [ItBitExchange.create, h, orDefault, DEFAULT_TIME_RANGE_BEFORE_CREATED_IN_MILLIS]
  · intro h
    simp [ItBitExchange.create, h, orDefault, DEFAULT_TIME_RANGE_AFTER_CREATED_IN_MILLIS]
  · intro id order rs re hcred htrade hget hfilled hrange
    subst htrade
    rw [getTrade_filled_run E T _ id order rs re (fuel + 1) hcred hget hfilled hrange]
    simp only [List.getElem?_cons_succ]
    rw [doWhilst]
    have hfst : (getTrade.callAPI T (ItBitExchange.create settings) id rs re 0
        { tradeResults := [], currentPage := 1, totalPages := .nan }).1
        = Call.getWalletTrades (ItBitExchange.create settings).walletId 1 50 rs re := rfl
    generalize getTrade.callAPI T (ItBitExchange.create settings) id rs re 0
        { tradeResults := [], currentPage := 1, totalPages := .nan } = r at hfst ⊢
    obtain ⟨c, o⟩ := r
    simp only at hfst
    subst hfst
    cases o with
    | error e => rfl
    | ok s2 =>
      simp only
      split_ifs <;> simp

/-- C9, witness: the filled sample order under the default ranges. -/
theorem getTrade_time_range_witness :
    (getTrade sampleEngine
        (sampleTradeTransport (sampleOrder "248f" "filled") (fun _ => []) 0 50)
        (ItBitExchange.create
          { key := some "mock_key", secret := some "mock_secret"
            walletId := some "mock_walletid", timeRangeBeforeCreatedInMillis := none
            timeRangeAfterCreatedInMillis := none })
        (.raw (some "248f")) (0 + 1)).calls[1]?
      = some (Call.getWalletTrades (some "mock_walletid") 1 50
          "2014-02-11T17:04:15.000Z" "2014-02-11T17:35:15.000Z") :=
  (getTrade_time_range sampleEngine
    (sampleTradeTransport (sampleOrder "248f" "filled") (fun _ => []) 0 50)
    { key := some "mock_key", secret := some "mock_secret"
      walletId := some "mock_walletid", timeRangeBeforeCreatedInMillis := none
      timeRangeAfterCreatedInMillis := none }
    (.raw (some "248f")) 0).2.2.2.2.2 (some "248f") (sampleOrder "248f" "filled")
    "2014-02-11T17:04:15.000Z" "2014-02-11T17:35:15.000Z" (by decide) rfl rfl rfl (by decide)

/-! ## C10: an order that is not filled -/

/-- C10: for every order returned by the transport whose status is not `filled`,
`getTrade` makes the order request and no request for wallet trades, and returns exactly
what `parseOpenOrder(order)` gives: the parsed order, whose state is `open`, or the error
for an order that cannot be parsed. -/
theorem getTrade_open_order (E : Engine) (T : Transport) (x : ItBitExchange)
    (id : Option String) (order : RawOrder) (fuel : ℕ)
    (hcred : checkIfCredentialsIsProvided x = none)
    (hget : T.getOrder x.walletId id = .ok order)
    (hopen : order.status ≠ some "filled") :
    (getTrade E T x (.raw id) fuel).calls = [.getOrder x.walletId id]
    ∧ (getTrade E T x (.raw id) fuel).outcome
        = some (match parseOpenOrder order with
            | .ok tradeEntry => .result tradeEntry
            | .error e =>
              .error (constructError "The response from ItBit getOrder() could not be parsed"
                .MODULE_ERROR (some e)))
    ∧ (∀ tradeEntry, parseOpenOrder order = .ok tradeEntry →
        (getTrade E T x (.raw id) fuel).outcome = some (.result tradeEntry)
        ∧ tradeEntry.state = "open")
    ∧ (order.instrument ≠ none → ∃ tradeEntry, parseOpenOrder order = .ok tradeEntry) := by
  have hrun : getTrade E T x (.raw id) fuel
      = ⟨[.getOrder x.walletId id],
          match parseOpenOrder order with
          | .error e =>
            some (.error (constructError
              "The response from ItBit getOrder() could not be parsed" .MODULE_ERROR (some e)))
          | .ok tradeEntry => some (.result tradeEntry)⟩ := by
    unfold getTrade
    simp only [hcred, hget, ne_eq, hopen, not_false_eq_true, if_true]
  rw [hrun]
  refine ⟨rfl, ?_, ?_, ?_⟩
  · cases parseOpenOrder order <;> rfl
  · intro tradeEntry hp
    rw [hp]
    refine ⟨rfl, ?_⟩
    unfold parseOpenOrder at hp
    cases hi : order.instrument with
    | none => rw [hi] at hp; simp at hp
    | some instrument =>
      rw [hi] at hp
      simp only at hp
      injection hp with hp
      rw [← hp]
  · intro hi
    unfold parseOpenOrder
    cases h : order.instrument with
    | none => exact absurd h hi
    | some instrument => exact ⟨_, rfl⟩

/-- C10, witness: the sample order with the status `submitted`. -/
theorem getTrade_open_order_witness :
    (getTrade sampleEngine
        (sampleTradeTransport (sampleOrder "148f" "submitted") (fun _ => []) 0 50)
        sampleExchange (.raw (some "148f")) 0).calls
      = [.getOrder sampleExchange.walletId (some "148f")] :=
  (getTrade_open_order sampleEngine
    (sampleTradeTransport (sampleOrder "148f" "submitted") (fun _ => []) 0 50)
    sampleExchange (some "148f") (sampleOrder "148f" "submitted") 0
    (by decide) rfl (by decide)).1

/-! ## Facts about rounding: order and symmetry -/

theorem roundHalfEven_bounds (r : ℚ) :
    ⌊r⌋ ≤ roundHalfEven r ∧ roundHalfEven r ≤ ⌊r⌋ + 1 := by
  unfold roundHalfEven
  simp only
  split_ifs <;> constructor <;> omega

theorem roundHalfEven_intCast (m : ℤ) : roundHalfEven (m : ℚ) = m := by
  unfold roundHalfEven
  simp only [Int.floor_intCast, sub_self]
  rw [if_pos (by norm_num)]

theorem roundHalfEven_mono (r s : ℚ) (h : r ≤ s) : roundHalfEven r ≤ roundHalfEven s := by
  rcases lt_or_eq_of_le (Int.floor_mono h) with hlt | heq
  · exact le_trans (roundHalfEven_bounds r).2 (le_trans (by omega) (roundHalfEven_bounds s).1)
  · unfold roundHalfEven
    simp only
    rw [← heq]
    split_ifs <;> first | omega | (exfalso; linarith)

theorem roundHalfEven_neg (r : ℚ) : roundHalfEven (-r) = -roundHalfEven r := by
  have h1 := Int.floor_le r
  have h2 := Int.lt_floor_add_one r
  by_cases hint : (⌊r⌋ : ℚ) = r
  · rw [← hint, ← Int.cast_neg, roundHalfEven_intCast, roundHalfEven_intCast]
  · have hlt : (⌊r⌋ : ℚ) < r := lt_of_le_of_ne h1 hint
    have hf : ⌊-r⌋ = -⌊r⌋ - 1 := by
      rw [Int.floor_eq_iff]
      push_cast
      constructor <;> linarith
    unfold roundHalfEven
    simp only
    rw [hf]
    push_cast
    split_ifs <;> first | omega | (exfalso; linarith)

theorem floorLog2_neg (q : ℚ) : floorLog2 (-q) = floorLog2 q := by
  unfold floorLog2
  simp only [Rat.neg_num, Int.natAbs_neg, Rat.neg_den, abs_neg]

theorem ulp_neg (q : ℚ) : ulp (-q) = ulp q := by
  unfold ulp binaryExponent
  rw [floorLog2_neg]

theorem ulp_pos (q : ℚ) : 0 < ulp q := by
  unfold ulp
  positivity

theorem pow_mul_ulp (q : ℚ) (n : ℕ) :
    (2 : ℚ) ^ n * ulp q = 2 ^ (binaryExponent q - 52 + (n : ℤ)) := by
  unfold ulp
  rw [zpow_add₀ (by norm_num : (2 : ℚ) ≠ 0), zpow_natCast]
  ring

theorem roundFinite_neg (q : ℚ) : roundFinite (-q) = -roundFinite q := by
  unfold roundFinite
  rw [ulp_neg, neg_div, roundHalfEven_neg]
  push_cast
  ring

theorem roundFinite_nonneg (q : ℚ) (h : 0 ≤ q) : 0 ≤ roundFinite q := by
  unfold roundFinite
  have h1 : (0 : ℚ) ≤ q / ulp q := div_nonneg h (ulp_pos q).le
  have h2 : roundHalfEven ((0 : ℤ) : ℚ) ≤ roundHalfEven (q / ulp q) :=
    roundHalfEven_mono _ _ (by simpa using h1)
  rw [roundHalfEven_intCast] at h2
  have h3 : (0 : ℚ) ≤ (roundHalfEven (q / ulp q) : ℚ) := by exact_mod_cast h2
  exact mul_nonneg h3 (ulp_pos q).le

theorem roundFinite_mono_pos (q s : ℚ) (hq : 0 < q) (h : q ≤ s) :
    roundFinite q ≤ roundFinite s := by
  have hs : 0 < s := lt_of_lt_of_le hq h
  have two : (2 : ℚ) ≠ 0 := by norm_num
  obtain ⟨lq, uq⟩ := floorLog2_spec q hq.ne'
  obtain ⟨ls, us⟩ := floorLog2_spec s hs.ne'
  rw [abs_of_pos hq] at lq uq
  rw [abs_of_pos hs] at ls us
  have hfl : floorLog2 q ≤ floorLog2 s := by
    have : (2 : ℚ) ^ floorLog2 q < 2 ^ (floorLog2 s + 1) :=
      lt_of_le_of_lt lq (lt_of_le_of_lt h us)
    have := (zpow_lt_zpow_iff_right₀ (by norm_num : (1 : ℚ) < 2)).mp this
    omega
  have he : binaryExponent q ≤ binaryExponent s := by
    unfold binaryExponent
    exact max_le_max hfl le_rfl
  rcases lt_or_eq_of_le he with hlt | heq
  · -- different binades: a power of two lies between the two rounded values
    have hes : binaryExponent s = floorLog2 s := by
      unfold binaryExponent at hlt ⊢
      have : (-1022 : ℤ) ≤ max (floorLog2 q) (-1022) := le_max_right _ _
      exact max_eq_left (by
        by_contra hcon
        rw [max_eq_right (by omega : floorLog2 s ≤ -1022)] at hlt
        omega)
    have hqe : q < 2 ^ (binaryExponent q + 1) := by
      have : floorLog2 q + 1 ≤ binaryExponent q + 1 := by
        unfold binaryExponent
        have := le_max_left (floorLog2 q) (-1022)
        omega
      exact lt_of_lt_of_le uq (zpow_le_zpow_right₀ (by norm_num) this)
    have up : roundFinite q ≤ 2 ^ (binaryExponent q + 1) := by
      unfold roundFinite
      have hu := ulp_pos q
      have hm : ((9007199254740992 : ℤ) : ℚ) * ulp q = 2 ^ (binaryExponent q + 1) := by
        rw [show ((9007199254740992 : ℤ) : ℚ) = 2 ^ (53 : ℕ) by norm_num, pow_mul_ulp]
        congr 1
        push_cast
        ring
      have e1 : q / ulp q ≤ ((9007199254740992 : ℤ) : ℚ) := by
        rw [div_le_iff₀ hu, hm]
        exact hqe.le
      have e2 := roundHalfEven_mono _ _ e1
      rw [roundHalfEven_intCast] at e2
      have e3 : (roundHalfEven (q / ulp q) : ℚ) ≤ ((9007199254740992 : ℤ) : ℚ) := by
        exact_mod_cast e2
      rw [← hm]
      exact mul_le_mul_of_nonneg_right e3 hu.le
    have low : (2 : ℚ) ^ binaryExponent s ≤ roundFinite s := by
      unfold roundFinite
      have hu := ulp_pos s
      have hm : ((4503599627370496 : ℤ) : ℚ) * ulp s = 2 ^ binaryExponent s := by
        rw [show ((4503599627370496 : ℤ) : ℚ) = 2 ^ (52 : ℕ) by norm_num, pow_mul_ulp]
        congr 1
        push_cast
        ring
      have e1 : ((4503599627370496 : ℤ) : ℚ) ≤ s / ulp s := by
        rw [le_div_iff₀ hu, hm, hes]
        exact ls
      have e2 := roundHalfEven_mono _ _ e1
      rw [roundHalfEven_intCast] at e2
      have e3 : ((4503599627370496 : ℤ) : ℚ) ≤ (roundHalfEven (s / ulp s) : ℚ) := by
        exact_mod_cast e2
      rw [← hm]
      exact mul_le_mul_of_nonneg_right e3 hu.le
    have mid : (2 : ℚ) ^ (binaryExponent q + 1) ≤ 2 ^ binaryExponent s :=
      zpow_le_zpow_right₀ (by norm_num) (by omega)
    exact le_trans up (le_trans mid low)
  · -- the same binade: the same unit
    have hu : ulp s = ulp q := by unfold ulp; rw [heq]
    unfold roundFinite
    rw [hu]
    have e1 : q / ulp q ≤ s / ulp q := div_le_div_of_nonneg_right h (ulp_pos q).le
    have e2 := roundHalfEven_mono _ _ e1
    have e3 : (roundHalfEven (q / ulp q) : ℚ) ≤ (roundHalfEven (s / ulp q) : ℚ) := by
      exact_mod_cast e2
    exact mul_le_mul_of_nonneg_right e3 (ulp_pos q).le

theorem roundFinite_mono (q s : ℚ) (h : q ≤ s) : roundFinite q ≤ roundFinite s := by
  rcases lt_trichotomy q 0 with hq | hq | hq
  · rcases lt_trichotomy s 0 with hs | hs | hs
    · have := roundFinite_mono_pos (-s) (-q) (by linarith) (by linarith)
      rw [roundFinite_neg, roundFinite_neg] at this
      linarith
    · subst hs
      have := roundFinite_nonneg (-q) (by linarith)
      rw [roundFinite_neg] at this
      rw [roundFinite_zero]
      linarith
    · have h1 := roundFinite_nonneg (-q) (by linarith)
      rw [roundFinite_neg] at h1
      have h2 := roundFinite_nonneg s hs.le
      linarith
  · subst hq
    rw [roundFinite_zero]
    exact roundFinite_nonneg s h
  · exact roundFinite_mono_pos q s hq h

theorem roundFinite_error_any (q : ℚ) :
    |roundFinite q - q| ≤ |q| / 2 ^ (53 : ℕ) + 1 / 2 ^ (1075 : ℕ) := by
  by_cases h : (2 : ℚ) ^ (-1022 : ℤ) ≤ |q|
  · have := roundFinite_error q h
    have : (0 : ℚ) ≤ 1 / 2 ^ (1075 : ℕ) := by positivity
    linarith [roundFinite_error q h]
  · have h1 : |q| < (2 : ℚ) ^ ((-1022 : ℤ) + 1) :=
      lt_of_lt_of_le (not_le.mp h) (zpow_le_zpow_right₀ (by norm_num) (by norm_num))
    have h2 := roundFinite_abs_error q (-1022) le_rfl h1
    have h3 : (2 : ℚ) ^ ((-1022 : ℤ) - 53) = 1 / 2 ^ (1075 : ℕ) := by
      rw [show ((-1022 : ℤ) - 53) = -((1075 : ℕ) : ℤ) by norm_num, zpow_neg, zpow_natCast,
        one_div]
    rw [h3] at h2
    have : (0 : ℚ) ≤ |q| / 2 ^ (53 : ℕ) := by positivity
    linarith

theorem roundDouble_finite (q : ℚ) (h : |q| ≤ 2 ^ (1000 : ℕ)) :
    roundDouble q = .finite (roundFinite q) := by
  refine (roundDouble_of_bounded q 1000 (by norm_num) (by norm_num) ?_).1
  have : (2 : ℚ) ^ (1000 : ℕ) < 2 ^ ((1000 : ℤ) + 1) := by norm_num
  exact lt_of_le_of_lt h this

/-! ## Facts about the sums of the executions -/

theorem sumExecutions_fold (l : List RawExecution) (acc : JsNumber × JsNumber × Option String) :
    (l.foldl
        (fun acc trade =>
          (acc.1.add (parseFloat trade.currency2Amount),
           acc.2.1.add (parseFloat trade.commissionPaid),
           trade.commissionCurrency)) acc).1
      = l.foldl (fun acc trade => acc.add (parseFloat trade.currency2Amount)) acc.1 := by
  induction l generalizing acc with
  | nil => rfl
  | cons t l ih => simp only [List.foldl_cons]; rw [ih]

theorem sumExecutions_quote (l : List RawExecution) : (sumExecutions l).1 = quoteSum l :=
  sumExecutions_fold l _

/-! ## C11: the quote amount of a closed order -/

/-- C11, counterexample: the buy order of the tests with a single execution of 0.001 USD,
which is less than half a cent, is parsed to the quote amount 0, which is not below zero;
with a single execution of -200.02 USD the quote amount of the buy is 20002, above zero. -/
theorem parseClosedOrder_buy_not_negative :
    (sampleOrder "248ffda4" "filled").side = some "buy"
    ∧ (parseClosedOrder (sampleOrder "248ffda4" "filled")
        [{ sampleExecution "248ffda4" with
            currency2Amount := .text "0.0010000000000000" }]).toOption.map
          (fun r => (r.state, r.quoteCurrency, r.quoteAmount))
      = some ("closed", "USD", some (.finite 0))
    ∧ JsNumber.lt (.finite 0) (.finite 0) = false
    ∧ (parseClosedOrder (sampleOrder "248ffda4" "filled")
        [{ sampleExecution "248ffda4" with
            currency2Amount := .text "-200.0200000000000000" }]).toOption.map
          (fun r => r.quoteAmount)
      = some (some (.finite 20002)) := by
  refine ⟨rfl, by decide!, by decide, by decide!⟩

/-- C11 (as amended): for every remote order that names its instrument and every list of
executions, `parseClosedOrder` returns an order of state `closed` whose quote currency is
the second code of the instrument and whose `quoteAmount` is the sum of the
`currency2Amount` of the executions converted to sub-units of the quote currency, negated
when the side of the order is `buy` and unchanged otherwise.  The `quoteAmount` of a buy is
therefore below zero when the converted sum is above zero, and it is not below zero when the
converted sum is zero or less. -/
theorem parseClosedOrder_quoteAmount (order : RawOrder) (tradeResults : List RawExecution)
    (instrument : String) (h : order.instrument = some instrument) :
    ∃ result : Order, parseClosedOrder order tradeResults = .ok result
      ∧ result.state = "closed"
      ∧ result.quoteCurrency = slice instrument 3 6
      ∧ result.quoteAmount = some
          (if order.side = some "buy" then
            (toSmallestSubUnit (.number (quoteSum tradeResults)) (slice instrument 3 6)).neg
          else toSmallestSubUnit (.number (quoteSum tradeResults)) (slice instrument 3 6))
      ∧ (∀ k : ℚ, order.side = some "buy" →
          toSmallestSubUnit (.number (quoteSum tradeResults)) (slice instrument 3 6)
            = .finite k →
          result.quoteAmount = some (.finite (-k))
            ∧ (0 < k → JsNumber.lt (.finite (-k)) (.finite 0) = true)
            ∧ (k ≤ 0 → JsNumber.lt (.finite (-k)) (.finite 0) = false)) := by
  unfold parseClosedOrder parseOpenOrder
  simp only [h, sumExecutions_quote]
  refine ⟨_, rfl, rfl, rfl, rfl, ?_⟩
  intro k hb hs
  simp only [hb, if_true, hs]
  refine ⟨rfl, fun hk => ?_, fun hk => ?_⟩
  · simp only [JsNumber.lt, decide_eq_true_eq]
    linarith
  · simp only [JsNumber.lt, decide_eq_false_iff_not, not_lt]
    linarith

/-- C11, witness: the buy order of the tests with its two executions of 200.025053 and
1955.30 USD has state `closed` and the quote amount -215533, which is below zero. -/
theorem parseClosedOrder_quoteAmount_witness :
    (sampleOrder "248ffda4" "filled").instrument = some "XBTUSD"
      ∧ ∃ result : Order,
        parseClosedOrder (sampleOrder "248ffda4" "filled")
          [sampleExecution "248ffda4", sampleSecondExecution "248ffda4"] = .ok result
        ∧ result.state = "closed"
        ∧ result.quoteAmount = some (.finite (-215533))
        ∧ JsNumber.lt (.finite (-215533)) (.finite 0) = true := by
  refine ⟨rfl, ?_⟩
  obtain ⟨r, h1, h2, _, _, h5⟩ := parseClosedOrder_quoteAmount
    (sampleOrder "248ffda4" "filled")
    [sampleExecution "248ffda4", sampleSecondExecution "248ffda4"] "XBTUSD" rfl
  obtain ⟨h6, h7, _⟩ := h5 215533 rfl (by decide!)
  refine ⟨r, h1, h2, ?_, ?_⟩
  · exact h6
  · exact h7 (by norm_num)

/-! ## C12: the fee of a closed order -/

/-- C12: a commission of 0.0001 charged in the base currency, which the exchange calls
`XBT`, is converted at 2 decimals and comes out as 0 sub-units of `XBT`, because the code
of the commission is passed on as it came and only `BTC` has 8 decimals; converted as
`BTC` the commission is 10000 sub-units.  The commissions 0.02 and 0.00 USD of the tests
give the fee 2 in `USD`. -/
theorem parseClosedOrder_fee_of_xbt_commission :
    (parseClosedOrder (sampleOrder "248ffda4" "filled")
        [sampleXbtExecution "248ffda4"]).toOption.map (fun r => (r.feeCurrency, r.feeAmount))
      = some (some "XBT", some (.finite 0))
    ∧ getDecimalsForCurrency "XBT" = 2
    ∧ toSmallestSubUnit (.numeric (.fixed false 10000 8)) (normalizeCurrency "XBT")
      = .finite 10000
    ∧ (parseClosedOrder (sampleOrder "248ffda4" "filled")
        [sampleExecution "248ffda4", sampleSecondExecution "248ffda4"]).toOption.map
          (fun r => (r.feeCurrency, r.feeAmount))
      = some (some "USD", some (.finite 2)) := by
  refine ⟨by decide!, by decide, by decide!, by decide!⟩

/-! ## C13: the validation of the arguments of `placeTrade` -/

/-- C13: with credentials present, a limit price that is `NaN` passes the validation of
`placeTrade` whenever the base amount is a number other than zero: the order is submitted,
with the price `NaN`.  So does a base amount that is `NaN`, with any limit price that is
not at most zero: the order is a sell of the amount `NaN`. -/
theorem placeTrade_accepts_nan (E : Engine) (T : Transport) (x : ItBitExchange)
    (amount price : JsNumber) (baseCurrency quoteCurrency : String)
    (hc : checkIfCredentialsIsProvided x = none)
    (ha : amount.strictEq (.finite 0) = false) (hp : price.le (.finite 0) = false) :
    (placeTrade E T x (.number amount) (.number .nan) baseCurrency quoteCurrency).calls =
        [.addOrder x.walletId (if amount.gt (.finite 0) then "buy" else "sell") "limit"
          (placeTrade.amountMainUnit E (.number amount) baseCurrency) .nan
          (normalizeCurrencyItBit baseCurrency ++ quoteCurrency)]
    ∧ (placeTrade E T x (.number .nan) (.number price) baseCurrency quoteCurrency).calls =
        [.addOrder x.walletId "sell" "limit" .nan
          ((JsNumber.round ((JsNumber.finite 100).mul price)).div (.finite 100))
          (normalizeCurrencyItBit baseCurrency ++ quoteCurrency)] := by
  constructor
  · unfold placeTrade
    simp only [hc, ha]
    rfl
  · unfold placeTrade
    simp only [hc, hp]
    have e : placeTrade.amountMainUnit E (.number .nan) baseCurrency = .nan := by
      unfold placeTrade.amountMainUnit
      by_cases hb : baseCurrency = "BTC"
      · subst hb; rfl
      · simp only [hb, if_false]; rfl
    rw [e]
    rfl

/-- C13, witness: a buy of one bitcoin with the limit price `NaN` is submitted. -/
theorem placeTrade_accepts_nan_witness :
    checkIfCredentialsIsProvided sampleExchange = none
      ∧ (placeTrade sampleEngine sampleEchoTransport sampleExchange
          (.number (.finite 100000000)) (.number .nan) "BTC" "USD").calls =
        [.addOrder (some "mock_walletid") "buy" "limit" (.finite 1) .nan "XBTUSD"] := by
  refine ⟨by decide, ?_⟩
  have h := (placeTrade_accepts_nan sampleEngine sampleEchoTransport sampleExchange
    (.finite 100000000) (.finite 412) "BTC" "USD" (by decide) (by decide!) (by decide!)).1
  rw [h]
  decide!

/-! ## C17 and C18: the credentials check -/

theorem credentials_missing (x : ItBitExchange)
    (h : truthy x.key = false ∨ truthy x.secret = false ∨ truthy x.walletId = false) :
    ∃ e : ExchangeError, checkIfCredentialsIsProvided x = some e
      ∧ e.code = .MODULE_ERROR ∧ e.cause = none := by
  unfold checkIfCredentialsIsProvided constructError
  cases hk : truthy x.key <;> cases hs : truthy x.secret <;> cases hw : truthy x.walletId
    <;> simp [hk, hs, hw] at h ⊢

/-- C17: when one of `key`, `secret`, `walletId` is absent or empty, each of
`placeTrade`, `getBalance`, `listTransactions` and `getTrade` ends with the error of the
credentials check, of kind `MODULE_ERROR` and without cause, and makes no call to the
transport, whatever its other arguments are: the check comes before every other
validation.  When the three are present and not empty the check yields no error. -/
theorem credentials_checked_first (E : Engine) (T : Transport) (x : ItBitExchange)
    (baseAmount limitPrice : JsValue) (baseCurrency quoteCurrency : String)
    (latestTransaction : Option Transaction) (trade : TradeArg) (fuel : ℕ)
    (h : truthy x.key = false ∨ truthy x.secret = false ∨ truthy x.walletId = false) :
    ∃ e : ExchangeError, checkIfCredentialsIsProvided x = some e
      ∧ e.code = .MODULE_ERROR ∧ e.cause = none
      ∧ (placeTrade E T x baseAmount limitPrice baseCurrency quoteCurrency).calls = []
      ∧ (placeTrade E T x baseAmount limitPrice baseCurrency quoteCurrency).outcome
          = some (.error e)
      ∧ (getBalance T x).calls = [] ∧ (getBalance T x).outcome = some (.error e)
      ∧ (listTransactions E T x latestTransaction fuel).calls = []
      ∧ (listTransactions E T x latestTransaction fuel).outcome = some (.error e)
      ∧ (getTrade E T x trade fuel).calls = []
      ∧ (getTrade E T x trade fuel).outcome = some (.error e)
      ∧ (∀ y : ItBitExchange, truthy y.key = true → truthy y.secret = true →
          truthy y.walletId = true → checkIfCredentialsIsProvided y = none) := by
  obtain ⟨e, he, hcode, hcause⟩ := credentials_missing x h
  refine ⟨e, he, hcode, hcause, ?_, ?_, ?_, ?_, ?_, ?_, ?_, ?_, ?_⟩
  · unfold placeTrade; rw [he]
  · unfold placeTrade; rw [he]
  · unfold getBalance; rw [he]
  · unfold getBalance; rw [he]
  · unfold listTransactions; rw [he]
  · unfold listTransactions; rw [he]
  · unfold getTrade; rw [he]
  · unfold getTrade; rw [he]
  · intro y hk hs hw
    unfold checkIfCredentialsIsProvided
    simp [hk, hs, hw]

/-- C17, witness: an adapter without wallet id, as in the tests; `placeTrade` with a base
amount that is not a number and `getTrade` with an argument that is not an object report
the missing credentials, not the wrong argument. -/
theorem credentials_checked_first_witness :
    truthy (sampleAdapter (some "mock_key") (some "mock_secret") none).walletId = false
      ∧ (placeTrade sampleEngine sampleEchoTransport
          (sampleAdapter (some "mock_key") (some "mock_secret") none)
          (.text "stringvalue") (.number (.finite 412)) "BTC" "USD").outcome
        = some (.error (constructError
            "Function requires argument in constructor: settings.walletId" .MODULE_ERROR none))
      ∧ (getTrade sampleEngine sampleEchoTransport
          (sampleAdapter (some "mock_key") (some "mock_secret") none) .notObject 5).calls = []
      ∧ checkIfCredentialsIsProvided sampleExchange = none := by
  obtain ⟨e, he, _, _, _, h2, _, _, _, _, h3, _, h5⟩ :=
    credentials_checked_first sampleEngine sampleEchoTransport
      (sampleAdapter (some "mock_key") (some "mock_secret") none)
      (.text "stringvalue") (.number (.finite 412)) "BTC" "USD" none .notObject 5
      (Or.inr (Or.inr rfl))
  have he2 : e = constructError
      "Function requires argument in constructor: settings.walletId" .MODULE_ERROR none := by
    have : checkIfCredentialsIsProvided
        (sampleAdapter (some "mock_key") (some "mock_secret") none)
        = some (constructError
          "Function requires argument in constructor: settings.walletId" .MODULE_ERROR none) := by
      decide
    rw [this] at he
    exact (Option.some.inj he).symm
  refine ⟨rfl, ?_, h3, h5 sampleExchange (by decide) (by decide) (by decide)⟩
  rw [h2, he2]

/-- C18, counterexample: with the key and the wallet id both missing, the message names
`settings.walletId`, not `settings.key`; with all three missing as well. -/
theorem credentials_message_of_two_missing :
    (checkIfCredentialsIsProvided (sampleAdapter none (some "mock_secret") none)).map
        (fun e => e.message)
      = some "Function requires argument in constructor: settings.walletId"
    ∧ (checkIfCredentialsIsProvided (sampleAdapter none none none)).map (fun e => e.message)
      = some "Function requires argument in constructor: settings.walletId"
    ∧ (checkIfCredentialsIsProvided (sampleAdapter none none (some "mock_walletid"))).map
        (fun e => e.message)
      = some "Function requires argument in constructor: settings.secret" := by
  refine ⟨by decide, by decide, by decide⟩

/-- C18 (as amended): the message of the configuration error names the last missing field
in the order key, secret, walletId: `settings.walletId` whenever the wallet id is missing,
`settings.secret` when the wallet id is present and the secret is missing, and
`settings.key` only when the key alone is missing. -/
theorem credentials_message_names_last_missing (x : ItBitExchange) :
    (checkIfCredentialsIsProvided x).map (fun e => e.message) =
      if truthy x.walletId = false then
        some "Function requires argument in constructor: settings.walletId"
      else if truthy x.secret = false then
        some "Function requires argument in constructor: settings.secret"
      else if truthy x.key = false then
        some "Function requires argument in constructor: settings.key"
      else none := by
  unfold checkIfCredentialsIsProvided constructError
  cases hk : truthy x.key <;> cases hs : truthy x.secret <;> cases hw : truthy x.walletId
    <;> simp

/-- C18, witness: only the key is missing. -/
theorem credentials_message_names_last_missing_witness :
    (checkIfCredentialsIsProvided
        (sampleAdapter none (some "mock_secret") (some "mock_walletid"))).map
        (fun e => e.message)
      = some "Function requires argument in constructor: settings.key" := by
  rw [credentials_message_names_last_missing]
  decide

/-! ## Facts about the two conversions -/

theorem getDecimalsForCurrency_cases (c : String) :
    getDecimalsForCurrency c = 8 ∨ getDecimalsForCurrency c = 2 := by
  unfold getDecimalsForCurrency
  split_ifs
  · exact Or.inl rfl
  · exact Or.inr rfl

theorem pow_decimals_bounds (c : String) :
    (100 : ℚ) ≤ 10 ^ getDecimalsForCurrency c ∧
      (10 : ℚ) ^ getDecimalsForCurrency c ≤ 100000000 := by
  rcases getDecimalsForCurrency_cases c with h | h <;> rw [h] <;> norm_num

theorem toSmallestSubUnit_finite (x : ℚ) (c : String)
    (hx : |x * 10 ^ getDecimalsForCurrency c| ≤ 2 ^ (1000 : ℕ)) :
    toSmallestSubUnit (.number (.finite x)) c
      = .finite ((⌊roundFinite (x * 10 ^ getDecimalsForCurrency c) + 1 / 2⌋ : ℤ) : ℚ) := by
  unfold toSmallestSubUnit
  simp only [JsValue.toNumber, JsNumber.pow10, JsNumber.mul]
  rw [roundDouble_finite _ hx]
  rfl

theorem floor_half_error (w : ℚ) : |((⌊w + 1 / 2⌋ : ℤ) : ℚ) - w| ≤ 1 / 2 := by
  have h1 := Int.floor_le (w + 1 / 2)
  have h2 := Int.lt_floor_add_one (w + 1 / 2)
  rw [abs_le]
  constructor <;> linarith

/-! ## C19: the conversion to sub-units -/

/-- C19, counterexample: the amount 2251799813685248.5 `USD`, a binary64 value, times 100
is 225179981368524850 exactly, but the conversion gives 225179981368524864, which is 14
away; and for the binary64 value next to 1.115, which is below 1.115, the conversion gives
112 although the amount times 100 is below 111.5. -/
theorem toSmallestSubUnit_not_nearest :
    toSmallestSubUnit (.number (.finite (2251799813685248 + 1 / 2))) "USD"
      = .finite 225179981368524864
    ∧ ¬ |(225179981368524864 : ℚ)
        - (2251799813685248 + 1 / 2) * 10 ^ getDecimalsForCurrency "USD"| ≤ 1 / 2
    ∧ roundDouble (1115 / 1000) = .finite (5021513584518103 / 4503599627370496)
    ∧ toSmallestSubUnit (.number (roundDouble (1115 / 1000))) "USD" = .finite 112
    ∧ ¬ |(112 : ℚ) - 5021513584518103 / 4503599627370496 * 10 ^ getDecimalsForCurrency "USD"|
        ≤ 1 / 2 := by
  refine ⟨by decide!, by decide!, by decide!, by decide!, by decide!⟩

/-- C19 (as amended): for every currency code `c` and every finite amount `x` with
`|x * 10^d| ≤ 2^1000`, `toSmallestSubUnit(x, c)` is an integer: the product `x * 10^d`
rounded to a binary64 number and then to the nearest integer, a tie going up.  It differs
from the rounded product by at most `1/2`, and from the exact product by at most
`1/2 + |x * 10^d| / 2^53 + 2^-1075`; `d` is 8 when `c` is `BTC` and 2 for every other
code. -/
theorem toSmallestSubUnit_nearest (x : ℚ) (c : String)
    (hx : |x * 10 ^ getDecimalsForCurrency c| ≤ 2 ^ (1000 : ℕ)) :
    ∃ k : ℤ, toSmallestSubUnit (.number (.finite x)) c = .finite k
      ∧ k = ⌊roundFinite (x * 10 ^ getDecimalsForCurrency c) + 1 / 2⌋
      ∧ |(k : ℚ) - roundFinite (x * 10 ^ getDecimalsForCurrency c)| ≤ 1 / 2
      ∧ |(k : ℚ) - x * 10 ^ getDecimalsForCurrency c|
          ≤ 1 / 2 + |x * 10 ^ getDecimalsForCurrency c| / 2 ^ (53 : ℕ) + 1 / 2 ^ (1075 : ℕ)
      ∧ getDecimalsForCurrency "BTC" = 8
      ∧ (c ≠ "BTC" → getDecimalsForCurrency c = 2) := by
  refine ⟨_, toSmallestSubUnit_finite x c hx, rfl, floor_half_error _, ?_, by decide,
    fun h => by simp [getDecimalsForCurrency, h]⟩
  have e1 := floor_half_error (roundFinite (x * 10 ^ getDecimalsForCurrency c))
  have e2 := roundFinite_error_any (x * 10 ^ getDecimalsForCurrency c)
  have e3 := abs_sub_le
    (((⌊roundFinite (x * 10 ^ getDecimalsForCurrency c) + 1 / 2⌋ : ℤ)) : ℚ)
    (roundFinite (x * 10 ^ getDecimalsForCurrency c)) (x * 10 ^ getDecimalsForCurrency c)
  linarith

/-- C19, witness: 123.45 `USD`, the binary64 value next to it, is 12345 sub-units. -/
theorem toSmallestSubUnit_nearest_witness :
    |(8687021468732621 / 70368744177664 : ℚ) * 10 ^ getDecimalsForCurrency "USD"|
        ≤ 2 ^ (1000 : ℕ)
      ∧ toSmallestSubUnit (.number (.finite (8687021468732621 / 70368744177664))) "USD"
        = .finite 12345 := by
  have hx : |(8687021468732621 / 70368744177664 : ℚ) * 10 ^ getDecimalsForCurrency "USD"|
      ≤ 2 ^ (1000 : ℕ) := by
    rw [show getDecimalsForCurrency "USD" = 2 by decide]
    rw [abs_of_pos (by norm_num)]
    norm_num
  refine ⟨hx, ?_⟩
  obtain ⟨k, h1, h2, _⟩ := toSmallestSubUnit_nearest (8687021468732621 / 70368744177664) "USD" hx
  rw [h1, h2]
  decide!

/-! ## Facts about the rendering of amounts -/

theorem decimalValue_int (k : ℤ) (d : ℕ) :
    NumericString.decimalValue (decide (k < 0)) k.natAbs d = (k : ℚ) / 10 ^ d := by
  unfold NumericString.decimalValue
  have hc : ((k.natAbs : ℕ) : ℚ) = |(k : ℚ)| := by
    rw [Nat.cast_natAbs, Int.cast_abs]
  rw [hc]
  rcases lt_or_le k 0 with hneg | hpos
  · have h1 : (k : ℚ) < 0 := by exact_mod_cast hneg
    simp [hneg, abs_of_neg h1]
  · have h1 : (0 : ℚ) ≤ k := by exact_mod_cast hpos
    have h5 : ¬ k < 0 := by omega
    simp [h5, abs_of_nonneg h1]

theorem toFixed_of_quotient (a : ℤ) (d : ℕ) (E : ℤ)
    (hE : 0 ≤ E) (hE2 : E ≤ 60)
    (hq : |(a : ℚ)| / 10 ^ d < (2 : ℚ) ^ (E + 1))
    (herr : (10 : ℚ) ^ d * 2 ^ (E - 53) ≤ 1 / 5)
    (ha : |(a : ℚ)| + 1 / 5 < 2 ^ (52 : ℤ)) :
    (JsNumber.div (.finite a) (JsNumber.pow10 d)).toFixed d
      = .fixed (decide (a < 0)) a.natAbs d := by
  have hP1 : (1 : ℚ) ≤ 10 ^ d := one_le_pow₀ (by norm_num)
  have hP0 : (0 : ℚ) < 10 ^ d := by positivity
  generalize hP : (10 : ℚ) ^ d = P at hP1 hP0 hq herr
  have hq' : |(a : ℚ) / P| = |(a : ℚ)| / P := by rw [abs_div, abs_of_pos hP0]
  obtain ⟨hx, ex⟩ := roundDouble_of_bounded ((a : ℚ) / P) E (by omega) (by omega)
    (by rw [hq']; exact hq)
  generalize roundFinite ((a : ℚ) / P) = x at hx ex
  have ez : |x * P - a| ≤ 1 / 5 := by
    have : x * P - a = (x - (a : ℚ) / P) * P := by field_simp
    rw [this, abs_mul, abs_of_pos hP0]
    calc |x - (a : ℚ) / P| * P ≤ 2 ^ (E - 53) * P := mul_le_mul_of_nonneg_right ex hP0.le
      _ = P * 2 ^ (E - 53) := mul_comm _ _
      _ ≤ 1 / 5 := herr
  have hxabs : |x| * P = |x * P| := by rw [abs_mul, abs_of_pos hP0]
  have ez2 : |(|x * P| - |(a : ℚ)|)| ≤ 1 / 5 :=
    le_trans (abs_abs_sub_abs_le_abs_sub _ _) ez
  have hfloor : ⌊|x| * P + 1 / 2⌋ = (a.natAbs : ℤ) := by
    rw [Int.floor_eq_iff, hxabs]
    have hc : (((a.natAbs : ℤ)) : ℚ) = |(a : ℚ)| := by
      rw [Int.natCast_natAbs]; push_cast; rfl
    rw [hc]
    have := abs_le.mp ez2
    constructor <;> linarith [this.1, this.2]
  have hbig : ¬ (10 : ℚ) ^ (21 : ℕ) ≤ |x| := by
    have s1 : |x| ≤ |x| * P := le_mul_of_one_le_right (abs_nonneg _) hP1
    have s2 := abs_le.mp ez2
    have s3 : (2 : ℚ) ^ (52 : ℤ) < 10 ^ (21 : ℕ) := by norm_num
    rw [hxabs] at s1
    intro hcon
    linarith [s2.2]
  have step1 : JsNumber.div (.finite a) (JsNumber.pow10 d) = .finite x := by
    unfold JsNumber.div JsNumber.pow10
    rw [hP]
    simp only [hP0.ne', if_false]
    exact hx
  by_cases h0 : a = 0
  · subst h0
    rw [step1]
    unfold JsNumber.toFixed
    simp only
    rw [if_neg hbig, hP, hfloor]
    by_cases hxneg : x < 0
    · exfalso
      -- a rounded zero is zero
      have : (0 : ℚ) / P = 0 := zero_div P
      have hz : roundDouble ((0 : ℤ) / P) = .finite 0 := by
        rw [Int.cast_zero, this]; decide!
      rw [hz] at hx
      have := JsNumber.finite.inj hx
      linarith
    · simp [hxneg]
  · have hsign : decide (x < 0) = decide (a < 0) := by
      have hz := abs_le.mp ez
      have hA1 : (1 : ℚ) ≤ |(a : ℚ)| := by
        have : (1 : ℤ) ≤ |a| := Int.one_le_abs h0
        exact_mod_cast this
      rcases lt_or_gt_of_ne h0 with hneg | hpos
      · have h1 : (a : ℚ) < 0 := by exact_mod_cast hneg
        have h2 : |(a : ℚ)| = -a := abs_of_neg h1
        have h3 : x * P < 0 := by linarith [hz.2]
        have h4 : x < 0 := by
          by_contra hcon
          have : 0 ≤ x * P := mul_nonneg (not_lt.mp hcon) hP0.le
          linarith
        simp [h4, hneg]
      · have h1 : (0 : ℚ) < a := by exact_mod_cast hpos
        have h2 : |(a : ℚ)| = a := abs_of_pos h1
        have h3 : 0 < x * P := by linarith [hz.1]
        have h4 : ¬ x < 0 := by
          intro hcon
          have : x * P < 0 := mul_neg_of_neg_of_pos hcon hP0
          linarith
        have h5 : ¬ a < 0 := by omega
        simp [h4, h5]
    rw [step1]
    unfold JsNumber.toFixed
    simp only
    rw [if_neg hbig, hP, hfloor, hsign, Int.toNat_natCast]

theorem fromSmallestSubUnit_int (a : ℤ) (c : String) (ha : |a| < 3355443200000000) :
    fromSmallestSubUnit (.number (.finite a)) c
      = .fixed (decide (a < 0)) a.natAbs (getDecimalsForCurrency c) := by
  have haq : |(a : ℚ)| < 3355443200000000 := by exact_mod_cast ha
  unfold fromSmallestSubUnit
  simp only [JsValue.toNumber]
  rcases getDecimalsForCurrency_cases c with hd | hd <;> rw [hd]
  · exact toFixed_of_quotient a 8 24 (by norm_num) (by norm_num)
      (by rw [div_lt_iff₀ (by positivity)]; norm_num; linarith)
      (by norm_num) (by norm_num; linarith)
  · exact toFixed_of_quotient a 2 44 (by norm_num) (by norm_num)
      (by rw [div_lt_iff₀ (by positivity)]; norm_num; linarith)
      (by norm_num) (by norm_num; linarith)

theorem fromSmallestSubUnit_fixed (a : ℚ) (c : String) (ha : |a| ≤ 10 ^ (21 : ℕ)) :
    ∃ (neg : Bool) (n : ℕ),
      fromSmallestSubUnit (.number (.finite a)) c = .fixed neg n (getDecimalsForCurrency c) := by
  obtain ⟨hP1, hP2⟩ := pow_decimals_bounds c
  have hP0 : (0 : ℚ) < 10 ^ getDecimalsForCurrency c := by positivity
  have hq : |a / 10 ^ getDecimalsForCurrency c| ≤ 10 ^ (19 : ℕ) := by
    rw [abs_div, abs_of_pos hP0, div_le_iff₀ hP0]
    calc |a| ≤ 10 ^ (21 : ℕ) := ha
      _ = 10 ^ (19 : ℕ) * 100 := by norm_num
      _ ≤ 10 ^ (19 : ℕ) * 10 ^ getDecimalsForCurrency c :=
        mul_le_mul_of_nonneg_left hP1 (by positivity)
  have hfin := roundDouble_finite (a / 10 ^ getDecimalsForCurrency c)
    (le_trans hq (by norm_num))
  have herr := roundFinite_error_any (a / 10 ^ getDecimalsForCurrency c)
  have hbig : ¬ (10 : ℚ) ^ (21 : ℕ) ≤ |roundFinite (a / 10 ^ getDecimalsForCurrency c)| := by
    have e1 := abs_sub_abs_le_abs_sub (roundFinite (a / 10 ^ getDecimalsForCurrency c))
      (a / 10 ^ getDecimalsForCurrency c)
    have e2 : |a / 10 ^ getDecimalsForCurrency c| / 2 ^ (53 : ℕ)
        ≤ |a / 10 ^ getDecimalsForCurrency c| :=
      div_le_self (abs_nonneg _) (by norm_num)
    have e3 : (1 : ℚ) / 2 ^ (1075 : ℕ) ≤ 1 := by
      rw [div_le_one (by positivity)]
      exact one_le_pow₀ (by norm_num)
    have e4 : (2 : ℚ) * 10 ^ (19 : ℕ) + 1 < 10 ^ (21 : ℕ) := by norm_num
    intro hcon
    linarith
  unfold fromSmallestSubUnit
  simp only [JsValue.toNumber]
  unfold JsNumber.div JsNumber.pow10
  simp only [hP0.ne', if_false]
  rw [hfin]
  unfold JsNumber.toFixed
  simp only
  rw [if_neg hbig]
  exact ⟨_, _, rfl⟩

/-! ## Facts about binary64 values -/

theorem ulp_of_binade (q : ℚ) (E : ℤ) (hE : -1022 ≤ E) (h1 : (2 : ℚ) ^ E ≤ |q|)
    (h2 : |q| < (2 : ℚ) ^ (E + 1)) : ulp q = (2 : ℚ) ^ (E - 52) := by
  have hq : q ≠ 0 := by
    intro h0
    rw [h0, abs_zero] at h1
    exact absurd h1 (not_le.mpr (by positivity))
  obtain ⟨l, u⟩ := floorLog2_spec q hq
  have a1 : floorLog2 q < E + 1 :=
    (zpow_lt_zpow_iff_right₀ (by norm_num)).mp (lt_of_le_of_lt l h2)
  have a2 : E < floorLog2 q + 1 :=
    (zpow_lt_zpow_iff_right₀ (by norm_num)).mp (lt_of_le_of_lt h1 u)
  have h3 : floorLog2 q = E := by omega
  unfold ulp binaryExponent
  rw [h3, max_eq_left hE]

theorem roundHalfEven_of_near (r : ℚ) (m : ℤ) (h : |(m : ℚ) - r| < 1 / 2) :
    roundHalfEven r = m := by
  have e := roundHalfEven_error r
  have h1 : |((roundHalfEven r - m : ℤ) : ℚ)| < 1 := by
    push_cast
    have := abs_sub_le (roundHalfEven r : ℚ) r (m : ℚ)
    rw [abs_sub_comm r (m : ℚ)] at this
    linarith
  have h2 : |roundHalfEven r - m| < 1 := by exact_mod_cast h1
  have h3 := abs_lt.mp h2
  omega

theorem roundFinite_of_near (x q : ℚ) (E : ℤ) (hE : -1022 ≤ E)
    (hdouble : roundFinite x = x)
    (hx1 : (2 : ℚ) ^ E ≤ |x|) (hx2 : |x| < (2 : ℚ) ^ (E + 1))
    (hq1 : (2 : ℚ) ^ E ≤ |q|) (hq2 : |q| < (2 : ℚ) ^ (E + 1))
    (hnear : |x - q| < (2 : ℚ) ^ (E - 53)) : roundFinite q = x := by
  have ux := ulp_of_binade x E hE hx1 hx2
  have uq := ulp_of_binade q E hE hq1 hq2
  have hu : (0 : ℚ) < (2 : ℚ) ^ (E - 52) := by positivity
  have h53 : (2 : ℚ) ^ (E - 53) = 1 / 2 * 2 ^ (E - 52) := by
    have : E - 52 = (E - 53) + 1 := by ring
    rw [this, zpow_add₀ (by norm_num : (2 : ℚ) ≠ 0)]; ring
  have hx : x = (roundHalfEven (x / 2 ^ (E - 52)) : ℚ) * 2 ^ (E - 52) := by
    have := hdouble
    unfold roundFinite at this
    rw [ux] at this
    exact this.symm
  have hm : roundHalfEven (q / 2 ^ (E - 52)) = roundHalfEven (x / 2 ^ (E - 52)) := by
    apply roundHalfEven_of_near
    have e1 : ((roundHalfEven (x / 2 ^ (E - 52)) : ℤ) : ℚ) - q / 2 ^ (E - 52)
        = (x - q) / 2 ^ (E - 52) := by
      have hxm : ((roundHalfEven (x / 2 ^ (E - 52)) : ℤ) : ℚ) = x / 2 ^ (E - 52) := by
        rw [eq_div_iff hu.ne']
        exact hx.symm
      rw [sub_div, hxm]
    rw [e1, abs_div, abs_of_pos hu, div_lt_iff₀ hu]
    rw [h53] at hnear
    exact hnear
  unfold roundFinite
  rw [uq, hm]
  exact hx.symm
/-! ## Facts about the rendering of binary64 amounts -/

theorem toFixed_of_quotient_wide (a : ℤ) (d : ℕ) (E : ℤ)
    (hE : 0 ≤ E) (hE2 : E ≤ 60)
    (hq : |(a : ℚ)| / 10 ^ d < (2 : ℚ) ^ (E + 1))
    (herr : (10 : ℚ) ^ d * 2 ^ (E - 53) ≤ 2 / 5)
    (ha : |(a : ℚ)| + 2 / 5 < 10 ^ (21 : ℕ)) :
    (JsNumber.div (.finite a) (JsNumber.pow10 d)).toFixed d
      = .fixed (decide (a < 0)) a.natAbs d := by
  have hP1 : (1 : ℚ) ≤ 10 ^ d := one_le_pow₀ (by norm_num)
  have hP0 : (0 : ℚ) < 10 ^ d := by positivity
  generalize hP : (10 : ℚ) ^ d = P at hP1 hP0 hq herr
  have hq' : |(a : ℚ) / P| = |(a : ℚ)| / P := by rw [abs_div, abs_of_pos hP0]
  obtain ⟨hx, ex⟩ := roundDouble_of_bounded ((a : ℚ) / P) E (by omega) (by omega)
    (by rw [hq']; exact hq)
  generalize roundFinite ((a : ℚ) / P) = x at hx ex
  have ez : |x * P - a| ≤ 2 / 5 := by
    have : x * P - a = (x - (a : ℚ) / P) * P := by field_simp
    rw [this, abs_mul, abs_of_pos hP0]
    calc |x - (a : ℚ) / P| * P ≤ 2 ^ (E - 53) * P := mul_le_mul_of_nonneg_right ex hP0.le
      _ = P * 2 ^ (E - 53) := mul_comm _ _
      _ ≤ 2 / 5 := herr
  have hxabs : |x| * P = |x * P| := by rw [abs_mul, abs_of_pos hP0]
  have ez2 : |(|x * P| - |(a : ℚ)|)| ≤ 2 / 5 :=
    le_trans (abs_abs_sub_abs_le_abs_sub _ _) ez
  have hfloor : ⌊|x| * P + 1 / 2⌋ = (a.natAbs : ℤ) := by
    rw [Int.floor_eq_iff, hxabs]
    have hc : (((a.natAbs : ℤ)) : ℚ) = |(a : ℚ)| := by
      rw [Int.natCast_natAbs]; push_cast; rfl
    rw [hc]
    have := abs_le.mp ez2
    constructor <;> linarith [this.1, this.2]
  have hbig : ¬ (10 : ℚ) ^ (21 : ℕ) ≤ |x| := by
    have s1 : |x| ≤ |x| * P := le_mul_of_one_le_right (abs_nonneg _) hP1
    have s2 := abs_le.mp ez2
    rw [hxabs] at s1
    intro hcon
    linarith [s2.2]
  have step1 : JsNumber.div (.finite a) (JsNumber.pow10 d) = .finite x := by
    unfold JsNumber.div JsNumber.pow10
    rw [hP]
    simp only [hP0.ne', if_false]
    exact hx
  by_cases h0 : a = 0
  · subst h0
    rw [step1]
    unfold JsNumber.toFixed
    simp only
    rw [if_neg hbig, hP, hfloor]
    by_cases hxneg : x < 0
    · exfalso
      have : (0 : ℚ) / P = 0 := zero_div P
      have hz : roundDouble ((0 : ℤ) / P) = .finite 0 := by
        rw [Int.cast_zero, this]; decide!
      rw [hz] at hx
      have := JsNumber.finite.inj hx
      linarith
    · simp [hxneg]
  · have hsign : decide (x < 0) = decide (a < 0) := by
      have hz := abs_le.mp ez
      have hA1 : (1 : ℚ) ≤ |(a : ℚ)| := by
        have : (1 : ℤ) ≤ |a| := Int.one_le_abs h0
        exact_mod_cast this
      rcases lt_or_gt_of_ne h0 with hneg | hpos
      · have h1 : (a : ℚ) < 0 := by exact_mod_cast hneg
        have h2 : |(a : ℚ)| = -a := abs_of_neg h1
        have h3 : x * P < 0 := by linarith [hz.2]
        have h4 : x < 0 := by
          by_contra hcon
          have : 0 ≤ x * P := mul_nonneg (not_lt.mp hcon) hP0.le
          linarith
        simp [h4, hneg]
      · have h1 : (0 : ℚ) < a := by exact_mod_cast hpos
        have h2 : |(a : ℚ)| = a := abs_of_pos h1
        have h3 : 0 < x * P := by linarith [hz.1]
        have h4 : ¬ x < 0 := by
          intro hcon
          have : x * P < 0 := mul_neg_of_neg_of_pos hcon hP0
          linarith
        have h5 : ¬ a < 0 := by omega
        simp [h4, h5]
    rw [step1]
    unfold JsNumber.toFixed
    simp only
    rw [if_neg hbig, hP, hfloor, hsign, Int.toNat_natCast]

theorem toFixed_value (x : ℚ) (d : ℕ) (hx : |x| < 10 ^ (21 : ℕ)) :
    ∃ n : ℕ, (JsNumber.finite x).toFixed d = .fixed (decide (x < 0)) n d
      ∧ |NumericString.decimalValue (decide (x < 0)) n d - x| ≤ 1 / 2 / 10 ^ d := by
  have hP0 : (0 : ℚ) < 10 ^ d := by positivity
  refine ⟨⌊|x| * (10 : ℚ) ^ d + 1 / 2⌋.toNat, ?_, ?_⟩
  · unfold JsNumber.toFixed
    simp only
    rw [if_neg (not_le.mpr hx)]
  · have hnn : 0 ≤ ⌊|x| * (10 : ℚ) ^ d + 1 / 2⌋ := by
      apply Int.floor_nonneg.mpr
      have : 0 ≤ |x| * (10 : ℚ) ^ d := mul_nonneg (abs_nonneg _) hP0.le
      linarith
    have hcast : ((⌊|x| * (10 : ℚ) ^ d + 1 / 2⌋.toNat : ℕ) : ℚ)
        = ((⌊|x| * (10 : ℚ) ^ d + 1 / 2⌋ : ℤ) : ℚ) := by
      have := Int.toNat_of_nonneg hnn
      exact_mod_cast congrArg (fun z : ℤ => (z : ℚ)) this
    have herr := floor_half_error (|x| * (10 : ℚ) ^ d)
    unfold NumericString.decimalValue
    rw [hcast]
    generalize ((⌊|x| * (10 : ℚ) ^ d + 1 / 2⌋ : ℤ) : ℚ) = n at herr
    generalize (10 : ℚ) ^ d = P at hP0 herr
    rw [le_div_iff₀ hP0]
    by_cases hneg : x < 0
    · simp only [hneg, decide_True, if_true]
      rw [abs_of_neg hneg] at herr
      have : (-1 * n / P - x) = -((n - -x * P) / P) := by field_simp; ring
      rw [this, abs_neg, abs_div, abs_of_pos hP0, div_mul_cancel₀ _ hP0.ne']
      exact herr
    · simp only [hneg, decide_False]
      rw [abs_of_nonneg (not_lt.mp hneg)] at herr
      have : ((if false = true then (-1 : ℚ) else 1) * n / P - x) = (n - x * P) / P := by
        simp only [Bool.false_eq_true, if_false]
        field_simp
        ring
      rw [this, abs_div, abs_of_pos hP0, div_mul_cancel₀ _ hP0.ne']
      exact herr
theorem roundTrip_binary64 (x : ℚ) (d : ℕ) (E : ℤ) (hE : 1 ≤ E) (hE2 : E ≤ 59)
    (h52 : (2 : ℚ) ^ (52 : ℕ) + 1 ≤ 10 ^ d * 2 ^ E)
    (h53 : (2 : ℚ) ^ (53 : ℕ) + 1 ≤ 10 ^ d * 2 ^ (E + 1))
    (hPu : (1 : ℚ) < 10 ^ d * 2 ^ (E - 52))
    (hPv : (10 : ℚ) ^ d * 2 ^ (E - 54) ≤ 2 / 5)
    (hdouble : roundFinite x = x) (hx : |x| * 10 ^ d < 2 ^ (53 : ℕ)) :
    ∃ (k : ℤ) (neg : Bool) (n : ℕ),
      JsNumber.round (JsNumber.mul (.finite x) (JsNumber.pow10 d)) = .finite k
      ∧ (JsNumber.div (.finite k) (JsNumber.pow10 d)).toFixed d = .fixed neg n d
      ∧ |NumericString.decimalValue neg n d - x| ≤ 1 / 10 ^ d
      ∧ (|(k : ℚ)| < 10 ^ d * 2 ^ E → neg = decide (k < 0) ∧ n = k.natAbs) := by
  have hP1 : (1 : ℚ) ≤ 10 ^ d := one_le_pow₀ (by norm_num)
  have hP0 : (0 : ℚ) < 10 ^ d := by positivity
  have two : (2 : ℚ) ≠ 0 := by norm_num
  have hU : (0 : ℚ) < 2 ^ (E - 52) := by positivity
  have eE : (2 : ℚ) ^ E = 2 ^ (52 : ℕ) * 2 ^ (E - 52) := by
    rw [← zpow_natCast, ← zpow_add₀ two]; congr 1; push_cast; ring
  have eE1 : (2 : ℚ) ^ (E + 1) = 2 ^ (53 : ℕ) * 2 ^ (E - 52) := by
    rw [← zpow_natCast, ← zpow_add₀ two]; congr 1; push_cast; ring
  have eE53 : (2 : ℚ) ^ (E - 53) = 2 ^ (E - 52) / 2 := by
    have : E - 52 = (E - 53) + 1 := by ring
    rw [this, zpow_add₀ two]; norm_num
  have eE54 : (2 : ℚ) ^ (E - 54) = 2 ^ (E - 52) / 4 := by
    have : E - 52 = (E - 54) + 2 := by ring
    rw [this, zpow_add₀ two]; norm_num
  have hpabs : |x * 10 ^ d| = |x| * 10 ^ d := by rw [abs_mul, abs_of_pos hP0]
  have hp53 : |x * 10 ^ d| < 2 ^ (53 : ℕ) := by rw [hpabs]; exact hx
  have hfin : roundDouble (x * 10 ^ d) = .finite (roundFinite (x * 10 ^ d)) :=
    roundDouble_finite _ (le_trans hp53.le (by norm_num))
  have hround : JsNumber.round (JsNumber.mul (.finite x) (JsNumber.pow10 d))
      = .finite ((⌊roundFinite (x * 10 ^ d) + 1 / 2⌋ : ℤ) : ℚ) := by
    simp only [JsNumber.pow10, JsNumber.mul]
    rw [hfin]
    rfl
  have hw := roundFinite_abs_error (x * 10 ^ d) 52 (by norm_num)
    (lt_of_lt_of_le hp53 (by norm_num))
  have hw2 : |roundFinite (x * 10 ^ d) - x * 10 ^ d| ≤ 1 / 2 := by
    refine le_trans hw ?_
    norm_num
  have hk := floor_half_error (roundFinite (x * 10 ^ d))
  have hxabs : |x| < 10 ^ (21 : ℕ) := by
    have : |x| ≤ |x| * 10 ^ d := le_mul_of_one_le_right (abs_nonneg _) hP1
    have : (2 : ℚ) ^ (53 : ℕ) < 10 ^ (21 : ℕ) := by norm_num
    linarith
  by_cases hkB : |((⌊roundFinite (x * 10 ^ d) + 1 / 2⌋ : ℤ) : ℚ)| < 10 ^ d * 2 ^ E
  · -- the quotient is rendered exactly
    generalize hkdef : ⌊roundFinite (x * 10 ^ d) + 1 / 2⌋ = k at hround hk hkB
    have hkp : |(k : ℚ) - x * 10 ^ d| ≤ 1 := by
      have := abs_sub_le (k : ℚ) (roundFinite (x * 10 ^ d)) (x * 10 ^ d)
      linarith
    have hkabs : |(k : ℚ)| ≤ |x * 10 ^ d| + 1 := by
      have := abs_sub_abs_le_abs_sub (k : ℚ) (x * 10 ^ d)
      linarith
    refine ⟨k, decide (k < 0), k.natAbs, hround, ?_, ?_, fun _ => ⟨rfl, rfl⟩⟩
    · refine toFixed_of_quotient_wide k d (E - 1) (by omega) (by omega) ?_ ?_ ?_
      · rw [div_lt_iff₀ hP0, show E - 1 + 1 = E by ring, mul_comm]
        exact hkB
      · rw [show E - 1 - 53 = E - 54 by ring]
        exact hPv
      · have : (2 : ℚ) ^ (53 : ℕ) + 1 + 2 / 5 < 10 ^ (21 : ℕ) := by norm_num
        linarith
    · rw [decimalValue_int]
      have : (k : ℚ) / 10 ^ d - x = ((k : ℚ) - x * 10 ^ d) / 10 ^ d := by
        field_simp
        ring
      rw [this, abs_div, abs_of_pos hP0]
      exact div_le_div_of_nonneg_right hkp hP0.le
  · -- the quotient is the amount itself
    have hkB2 : (10 : ℚ) ^ d * 2 ^ E ≤ |((⌊roundFinite (x * 10 ^ d) + 1 / 2⌋ : ℤ) : ℚ)| :=
      not_lt.mp hkB
    have hp52 : (2 : ℚ) ^ (52 : ℤ) ≤ |x * 10 ^ d| := by
      have e1 := abs_sub_abs_le_abs_sub
        (((⌊roundFinite (x * 10 ^ d) + 1 / 2⌋ : ℤ)) : ℚ) (roundFinite (x * 10 ^ d))
      have e2 := abs_sub_abs_le_abs_sub (roundFinite (x * 10 ^ d)) (x * 10 ^ d)
      have : (2 : ℚ) ^ (52 : ℤ) = 2 ^ (52 : ℕ) := by norm_num
      rw [this]
      linarith
    have hulp : ulp (x * 10 ^ d) = 1 := by
      rw [ulp_of_binade (x * 10 ^ d) 52 (by norm_num) hp52
        (lt_of_lt_of_le hp53 (by norm_num))]
      norm_num
    have hwint : roundFinite (x * 10 ^ d) = (roundHalfEven (x * 10 ^ d) : ℚ) := by
      unfold roundFinite
      rw [hulp, div_one, mul_one]
    have hfloor : ⌊roundFinite (x * 10 ^ d) + 1 / 2⌋ = roundHalfEven (x * 10 ^ d) := by
      rw [hwint, Int.floor_eq_iff]
      constructor <;> linarith
    rw [hfloor] at hround hkB2
    have hkp := roundHalfEven_error (x * 10 ^ d)
    generalize roundHalfEven (x * 10 ^ d) = k at hround hkB2 hkp
    have hkpa : |(k : ℚ)| - |x| * 10 ^ d ≤ 1 / 2 := by
      have := abs_sub_abs_le_abs_sub (k : ℚ) (x * 10 ^ d)
      rw [hpabs] at this
      linarith
    have hkpb : |x| * 10 ^ d - |(k : ℚ)| ≤ 1 / 2 := by
      have := abs_sub_abs_le_abs_sub (x * 10 ^ d) (k : ℚ)
      rw [hpabs, abs_sub_comm] at this
      linarith
    -- the amount lies in the binade of `2^E`
    have hx2 : |x| < (2 : ℚ) ^ (E + 1) := by
      have : |x| * 10 ^ d < 2 ^ (E + 1) * 10 ^ d := by linarith
      exact lt_of_mul_lt_mul_right this hP0.le
    have hx1 : (2 : ℚ) ^ E ≤ |x| := by
      by_contra hcon
      have hlt : |x| < (2 : ℚ) ^ E := not_le.mp hcon
      have hlow : (2 : ℚ) ^ (E - 1) ≤ |x| := by
        have e1 : (2 : ℚ) ^ (E - 1) = 2 ^ E / 2 := by
          have : E = (E - 1) + 1 := by ring
          nth_rewrite 2 [this]
          rw [zpow_add₀ two]; norm_num
        have e2 : (2 : ℚ) ^ (E - 1) * 10 ^ d ≤ |x| * 10 ^ d := by
          rw [e1]
          have : (0 : ℚ) ≤ 2 ^ (52 : ℕ) := by positivity
          linarith
        exact le_of_mul_le_mul_right e2 hP0
      have ux := ulp_of_binade x (E - 1) (by omega) hlow
        (by rw [show E - 1 + 1 = E by ring]; exact hlt)
      rw [show E - 1 - 52 = E - 53 by ring, eE53] at ux
      have hxm : x = (roundHalfEven (x / ulp x) : ℚ) * ulp x := by
        have := hdouble
        unfold roundFinite at this
        exact this.symm
      rw [ux] at hxm
      generalize roundHalfEven (x / (2 ^ (E - 52) / 2)) = m at hxm
      have hmabs : |x| = |(m : ℚ)| * (2 ^ (E - 52) / 2) := by
        rw [hxm, abs_mul, abs_of_pos (by positivity : (0 : ℚ) < 2 ^ (E - 52) / 2)]
      have hm1 : |(m : ℚ)| < 2 ^ (53 : ℕ) := by
        rw [hmabs, eE] at hlt
        have h3 : |(m : ℚ)| * (2 ^ (E - 52) / 2) < 2 ^ (53 : ℕ) * (2 ^ (E - 52) / 2) := by
          have : (2 : ℚ) ^ (53 : ℕ) * (2 ^ (E - 52) / 2) = 2 ^ (52 : ℕ) * 2 ^ (E - 52) := by
            ring
          rw [this]; exact hlt
        exact lt_of_mul_lt_mul_right h3 (by positivity)
      have hm2 : |(m : ℚ)| ≤ 2 ^ (53 : ℕ) - 1 := by
        have h4 : |m| < 2 ^ (53 : ℕ) := by exact_mod_cast hm1
        have h5 : |m| ≤ 2 ^ (53 : ℕ) - 1 := by omega
        exact_mod_cast h5
      have hxle : |x| ≤ 2 ^ E - 2 ^ (E - 52) / 2 := by
        rw [hmabs, eE]
        have : |(m : ℚ)| * (2 ^ (E - 52) / 2) ≤ (2 ^ (53 : ℕ) - 1) * (2 ^ (E - 52) / 2) :=
          mul_le_mul_of_nonneg_right hm2 (by positivity)
        have e : ((2 : ℚ) ^ (53 : ℕ) - 1) * (2 ^ (E - 52) / 2)
            = 2 ^ (52 : ℕ) * 2 ^ (E - 52) - 2 ^ (E - 52) / 2 := by ring
        linarith
      have : |x| * 10 ^ d ≤ (2 ^ E - 2 ^ (E - 52) / 2) * 10 ^ d :=
        mul_le_mul_of_nonneg_right hxle hP0.le
      have e : ((2 : ℚ) ^ E - 2 ^ (E - 52) / 2) * 10 ^ d
          = 10 ^ d * 2 ^ E - 10 ^ d * 2 ^ (E - 52) / 2 := by ring
      linarith
    have hq1 : (2 : ℚ) ^ E ≤ |(k : ℚ) / 10 ^ d| := by
      rw [abs_div, abs_of_pos hP0, le_div_iff₀ hP0, mul_comm]
      exact hkB2
    have hq2 : |(k : ℚ) / 10 ^ d| < (2 : ℚ) ^ (E + 1) := by
      rw [abs_div, abs_of_pos hP0, div_lt_iff₀ hP0, mul_comm]
      linarith
    have hnear : |x - (k : ℚ) / 10 ^ d| < (2 : ℚ) ^ (E - 53) := by
      have : x - (k : ℚ) / 10 ^ d = -(((k : ℚ) - x * 10 ^ d) / 10 ^ d) := by
        field_simp
      rw [this, abs_neg, abs_div, abs_of_pos hP0, div_lt_iff₀ hP0, eE53]
      have : (1 : ℚ) / 2 < 2 ^ (E - 52) / 2 * 10 ^ d := by
        have e : (2 : ℚ) ^ (E - 52) / 2 * 10 ^ d = 10 ^ d * 2 ^ (E - 52) / 2 := by ring
        rw [e]; linarith
      linarith
    have hz := roundFinite_of_near x ((k : ℚ) / 10 ^ d) E (by omega) hdouble hx1 hx2 hq1 hq2
      hnear
    have hdiv : JsNumber.div (.finite k) (JsNumber.pow10 d) = .finite x := by
      unfold JsNumber.div JsNumber.pow10
      simp only [hP0.ne', if_false]
      rw [(roundDouble_of_bounded ((k : ℚ) / 10 ^ d) E (by omega) (by omega) hq2).1, hz]
    obtain ⟨n, hn1, hn2⟩ := toFixed_value x d hxabs
    refine ⟨k, decide (x < 0), n, hround, by rw [hdiv]; exact hn1, le_trans hn2 ?_,
      fun hsmall => absurd hsmall (not_lt.mpr hkB2)⟩
    exact div_le_div_of_nonneg_right (by norm_num) hP0.le
theorem fromSmallestSubUnit_fixed_iff (a : ℚ) (c : String) :
    (∃ (neg : Bool) (n : ℕ),
        fromSmallestSubUnit (.number (.finite a)) c = .fixed neg n (getDecimalsForCurrency c))
      ↔ |roundFinite (a / 10 ^ getDecimalsForCurrency c)| < 10 ^ (21 : ℕ) := by
  have hP0 : (0 : ℚ) < 10 ^ getDecimalsForCurrency c := by positivity
  have hbig : (10 : ℚ) ^ (21 : ℕ) < 2 ^ (1024 : ℕ) := by norm_num
  unfold fromSmallestSubUnit
  simp only [JsValue.toNumber]
  unfold JsNumber.div JsNumber.pow10
  simp only [hP0.ne', if_false]
  generalize roundFinite_def : roundFinite (a / 10 ^ getDecimalsForCurrency c) = r
  unfold roundDouble
  simp only [roundFinite_def]
  constructor
  · rintro ⟨neg, n, h⟩
    by_contra hcon
    have hr : (10 : ℚ) ^ (21 : ℕ) ≤ |r| := not_lt.mp hcon
    split_ifs at h with h1 h2
    · simp [JsNumber.toFixed] at h
    · simp [JsNumber.toFixed] at h
    · unfold JsNumber.toFixed at h
      simp only at h
      rw [if_pos hr] at h
      simp at h
  · intro hr
    have hr2 := abs_lt.mp hr
    rw [if_neg (by linarith [hr2.2]), if_neg (by linarith [hr2.1])]
    unfold JsNumber.toFixed
    simp only
    rw [if_neg (not_le.mpr hr)]
    exact ⟨_, _, rfl⟩

/-! ## C20: to sub-units and back to the main unit -/

/-- C20, counterexample: the amount 100000000000000008388608, the binary64 value next
above `10^23`, is rendered in `USD` as the string of the number 1000000000000000131072,
which is in exponent form and has no decimal point, while the binary64 value next below
`10^23` is still rendered with two decimals.  The amount 90071992.54740995 `BTC`, the
binary64 value 1511157274518287 / 2^24, is converted to 9007199254740996 sub-units, just
above `2^53`, which are rendered as 90071992.54740997, more than `10^-8` away from the
amount; and the amount 90071992547409.97 `USD`, the binary64 value 2882303761517119 / 32,
is converted to 9007199254740996 sub-units, which are rendered as 90071992547409.95, more
than 0.01 away. -/
theorem fromSmallestSubUnit_not_fixed_or_far :
    roundFinite 100000000000000008388608 = 100000000000000008388608
    ∧ fromSmallestSubUnit (.number (.finite 100000000000000008388608)) "USD"
      = .ofNumber (.finite 1000000000000000131072)
    ∧ roundFinite 99999999999999991611392 = 99999999999999991611392
    ∧ fromSmallestSubUnit (.number (.finite 99999999999999991611392)) "USD"
      = .fixed false 99999999999999986892800 2
    ∧ roundFinite (1511157274518287 / 16777216) = 1511157274518287 / 16777216
    ∧ toSmallestSubUnit (.number (.finite (1511157274518287 / 16777216))) "BTC"
      = .finite 9007199254740996
    ∧ fromSmallestSubUnit
        (.number (toSmallestSubUnit (.number (.finite (1511157274518287 / 16777216))) "BTC"))
        "BTC"
      = .fixed false 9007199254740997 8
    ∧ ¬ |NumericString.decimalValue false 9007199254740997 8 - 1511157274518287 / 16777216|
        ≤ 1 / 10 ^ getDecimalsForCurrency "BTC"
    ∧ roundFinite (2882303761517119 / 32) = 2882303761517119 / 32
    ∧ toSmallestSubUnit (.number (.finite (2882303761517119 / 32))) "USD"
      = .finite 9007199254740996
    ∧ fromSmallestSubUnit
        (.number (toSmallestSubUnit (.number (.finite (2882303761517119 / 32))) "USD")) "USD"
      = .fixed false 9007199254740995 2
    ∧ ¬ |NumericString.decimalValue false 9007199254740995 2 - 2882303761517119 / 32|
        ≤ 1 / 10 ^ getDecimalsForCurrency "USD" := by
  refine ⟨by decide!, by decide!, by decide!, by decide!, by decide!, by decide!, by decide!,
    by decide!, by decide!, by decide!, by decide!, by decide!⟩

/-- C20 (as amended): for every currency code `c` with `d` decimals and every amount `x`
that is a finite binary64 value with `|x| * 10^d < 2^53`,
`fromSmallestSubUnit(toSmallestSubUnit(x, c), c)` is a decimal literal with exactly `d`
digits after the point whose value differs from `x` by at most `10^(-d)`; as long as the
integer `k = toSmallestSubUnit(x, c)` is below 6710886400000000 in magnitude it is the
literal of `k / 10^d`.  And for every finite amount `a`, `fromSmallestSubUnit(a, c)` is a
decimal literal with exactly `d` digits after the point exactly when the quotient
`a / 10^d`, rounded to a binary64 value, is below `10^21` in magnitude. -/
theorem fromSmallestSubUnit_of_toSmallestSubUnit (x : ℚ) (c : String)
    (hdouble : roundFinite x = x)
    (hx : |x| * 10 ^ getDecimalsForCurrency c < 2 ^ (53 : ℕ)) :
    ∃ (k : ℤ) (neg : Bool) (n : ℕ),
      toSmallestSubUnit (.number (.finite x)) c = .finite k
      ∧ fromSmallestSubUnit (.number (toSmallestSubUnit (.number (.finite x)) c)) c
          = .fixed neg n (getDecimalsForCurrency c)
      ∧ |NumericString.decimalValue neg n (getDecimalsForCurrency c) - x|
          ≤ 1 / 10 ^ getDecimalsForCurrency c
      ∧ (NumericString.fractionDigits n (getDecimalsForCurrency c)).length
          = getDecimalsForCurrency c
      ∧ (|(k : ℚ)| < 6710886400000000 → neg = decide (k < 0) ∧ n = k.natAbs)
      ∧ (∀ a : ℚ,
          (∃ (neg : Bool) (n : ℕ), fromSmallestSubUnit (.number (.finite a)) c
              = .fixed neg n (getDecimalsForCurrency c))
            ↔ |roundFinite (a / 10 ^ getDecimalsForCurrency c)| < 10 ^ (21 : ℕ)) := by
  have hcore : ∃ (k : ℤ) (neg : Bool) (n : ℕ),
      JsNumber.round (JsNumber.mul (.finite x) (JsNumber.pow10 (getDecimalsForCurrency c)))
          = .finite k
      ∧ (JsNumber.div (.finite k) (JsNumber.pow10 (getDecimalsForCurrency c))).toFixed
          (getDecimalsForCurrency c) = .fixed neg n (getDecimalsForCurrency c)
      ∧ |NumericString.decimalValue neg n (getDecimalsForCurrency c) - x|
          ≤ 1 / 10 ^ getDecimalsForCurrency c
      ∧ (|(k : ℚ)| < 6710886400000000 → neg = decide (k < 0) ∧ n = k.natAbs) := by
    rcases getDecimalsForCurrency_cases c with hd | hd <;> rw [hd] at hx ⊢
    · obtain ⟨k, neg, n, h1, h2, h3, h4⟩ := roundTrip_binary64 x 8 26 (by norm_num)
        (by norm_num) (by norm_num) (by norm_num) (by norm_num) (by norm_num) hdouble hx
      exact ⟨k, neg, n, h1, h2, h3, fun hk => h4 (lt_of_lt_of_le hk (by norm_num))⟩
    · obtain ⟨k, neg, n, h1, h2, h3, h4⟩ := roundTrip_binary64 x 2 46 (by norm_num)
        (by norm_num) (by norm_num) (by norm_num) (by norm_num) (by norm_num) hdouble hx
      exact ⟨k, neg, n, h1, h2, h3, fun hk => h4 (lt_of_lt_of_le hk (by norm_num))⟩
  obtain ⟨k, neg, n, h1, h2, h3, h4⟩ := hcore
  have ht : toSmallestSubUnit (.number (.finite x)) c = .finite k := h1
  refine ⟨k, neg, n, ht, ?_, h3, by simp [NumericString.fractionDigits], h4,
    fun a => fromSmallestSubUnit_fixed_iff a c⟩
  rw [ht]
  exact h2

/-- C20, witness: the binary64 value of 123.45 in `USD` goes to 12345 sub-units and back
to the text 123.45; the amount 12345678 in `BTC` is rendered as 0.12345678. -/
theorem fromSmallestSubUnit_of_toSmallestSubUnit_witness :
    roundFinite (8687021468732621 / 70368744177664) = 8687021468732621 / 70368744177664
      ∧ |(8687021468732621 / 70368744177664 : ℚ)| * 10 ^ getDecimalsForCurrency "USD"
        < 2 ^ (53 : ℕ)
      ∧ fromSmallestSubUnit
          (.number (toSmallestSubUnit (.number (.finite (8687021468732621 / 70368744177664)))
            "USD")) "USD"
        = .fixed false 12345 2
      ∧ NumericString.fixedText false 12345 2 = "123.45"
      ∧ fromSmallestSubUnit (.number (.finite 12345678)) "BTC" = .fixed false 12345678 8
      ∧ NumericString.fixedText false 12345678 8 = "0.12345678" := by
  have hd : roundFinite (8687021468732621 / 70368744177664)
      = 8687021468732621 / 70368744177664 := by decide!
  have hx : |(8687021468732621 / 70368744177664 : ℚ)| * 10 ^ getDecimalsForCurrency "USD"
      < 2 ^ (53 : ℕ) := by
    rw [show getDecimalsForCurrency "USD" = 2 by decide, abs_of_pos (by norm_num)]
    norm_num
  obtain ⟨k, neg, n, h1, h2, _, _, h5, _⟩ :=
    fromSmallestSubUnit_of_toSmallestSubUnit (8687021468732621 / 70368744177664) "USD" hd hx
  have hk : toSmallestSubUnit (.number (.finite (8687021468732621 / 70368744177664))) "USD"
      = .finite 12345 := by decide!
  have hk2 : k = 12345 := by
    rw [hk] at h1
    have := JsNumber.finite.inj h1
    exact_mod_cast this.symm
  subst hk2
  obtain ⟨h6, h7⟩ := h5 (by norm_num)
  refine ⟨hd, hx, ?_, by decide, by decide!, by decide⟩
  rw [h2, h6, h7]
  rfl

/-! ## Facts about `placeTrade` with the echoing transport -/

theorem roundFinite_error_coarse (q : ℚ) :
    |roundFinite q - q| ≤ |q| / 9007199254740992 + 1 / 9007199254740992 := by
  have h := roundFinite_error_any q
  have h1 : (1 : ℚ) / 2 ^ (1075 : ℕ) ≤ 1 / 2 ^ (53 : ℕ) :=
    one_div_le_one_div_of_le (by positivity) (pow_le_pow_right₀ (by norm_num) (by norm_num))
  have h2 : (2 : ℚ) ^ (53 : ℕ) = 9007199254740992 := by norm_num
  rw [h2] at h h1
  linarith

theorem placeTrade_echo (E : Engine) (x : ItBitExchange) (amount price : JsNumber)
    (baseCurrency quoteCurrency : String)
    (hc : checkIfCredentialsIsProvided x = none)
    (ha : amount.strictEq (.finite 0) = false) (hp : price.le (.finite 0) = false) :
    (placeTrade E sampleEchoTransport x (.number amount) (.number price) baseCurrency
        quoteCurrency).calls =
      [.addOrder x.walletId (if amount.gt (.finite 0) then "buy" else "sell") "limit"
        (placeTrade.amountMainUnit E (.number amount) baseCurrency)
        ((JsNumber.round ((JsNumber.finite 100).mul price)).div (.finite 100))
        (normalizeCurrencyItBit baseCurrency ++ quoteCurrency)]
    ∧ ∃ order : Order,
      (placeTrade E sampleEchoTransport x (.number amount) (.number price) baseCurrency
        quoteCurrency).value = some order
      ∧ order.state = "open"
      ∧ order.raw.side = some (if amount.gt (.finite 0) then "buy" else "sell")
      ∧ order.limitPrice = (JsNumber.round ((JsNumber.finite 100).mul price)).div (.finite 100)
      ∧ order.baseAmount =
          if amount.gt (.finite 0) then
            toSmallestSubUnit (.number (placeTrade.amountMainUnit E (.number amount) baseCurrency))
              (normalizeCurrency (slice (normalizeCurrencyItBit baseCurrency ++ quoteCurrency) 0 3))
          else
            (toSmallestSubUnit
              (.number (placeTrade.amountMainUnit E (.number amount) baseCurrency))
              (normalizeCurrency
                (slice (normalizeCurrencyItBit baseCurrency ++ quoteCurrency) 0 3))).neg := by
  unfold Run.value placeTrade
  simp only [hc, ha, hp]
  refine ⟨rfl, ?_⟩
  simp only [sampleEchoTransport, sampleEcho, parseOpenOrder]
  refine ⟨_, rfl, rfl, rfl, rfl, ?_⟩
  by_cases hg : amount.gt (.finite 0) = true
  · simp [hg]
  · simp [hg]

theorem price_rounding (p : ℚ) (hp : 0 < p) (hb : p ≤ 2 ^ (900 : ℕ)) :
    (JsNumber.round ((JsNumber.finite 100).mul (.finite p))).div (.finite 100)
        = .finite (roundFinite (((⌊roundFinite (100 * p) + 1 / 2⌋ : ℤ) : ℚ) / 100))
      ∧ roundDouble (((⌊roundFinite (100 * p) + 1 / 2⌋ : ℤ) : ℚ) / 100)
        = .finite (roundFinite (((⌊roundFinite (100 * p) + 1 / 2⌋ : ℤ) : ℚ) / 100))
      ∧ |roundFinite (((⌊roundFinite (100 * p) + 1 / 2⌋ : ℤ) : ℚ) / 100) - p|
        ≤ 1 / 200 + (p + 1) / 2 ^ (51 : ℕ) := by
  have h100 : |100 * p| ≤ 2 ^ (1000 : ℕ) := by
    rw [abs_of_pos (by linarith)]
    calc 100 * p ≤ 2 ^ (7 : ℕ) * 2 ^ (900 : ℕ) :=
          mul_le_mul (by norm_num) hb hp.le (by norm_num)
      _ ≤ 2 ^ (1000 : ℕ) := by rw [← pow_add]; exact pow_le_pow_right₀ (by norm_num) (by norm_num)
  have hw := roundDouble_finite _ h100
  have e1 := roundFinite_error_coarse (100 * p)
  rw [abs_of_pos (by linarith : (0 : ℚ) < 100 * p)] at e1
  generalize roundFinite (100 * p) = w at hw e1 ⊢
  have e2 := floor_half_error w
  generalize hkdef : ⌊w + 1 / 2⌋ = k at e2 ⊢
  have e3 := roundFinite_error_coarse ((k : ℚ) / 100)
  have hk : |(k : ℚ) / 100| ≤ 1 / 200 + p / 9007199254740992 + 1 / 900719925474099200 + p := by
    rw [abs_div, abs_of_pos (by norm_num : (0 : ℚ) < 100), div_le_iff₀ (by norm_num)]
    have t1 : |(k : ℚ)| ≤ |(k : ℚ) - w| + |w - 100 * p| + |100 * p| := by
      have a1 := abs_add ((k : ℚ) - w) w
      have a2 := abs_add (w - 100 * p) (100 * p)
      simp only [sub_add_cancel] at a1 a2
      linarith
    rw [abs_of_pos (by linarith : (0 : ℚ) < 100 * p)] at t1
    linarith
  have hk2 : |(k : ℚ) / 100| ≤ 2 ^ (1000 : ℕ) := by
    have : (4 : ℚ) * 2 ^ (900 : ℕ) ≤ 2 ^ (1000 : ℕ) := by
      rw [show (4 : ℚ) = 2 ^ (2 : ℕ) by norm_num, ← pow_add]
      exact pow_le_pow_right₀ (by norm_num) (by norm_num)
    have : (1 : ℚ) ≤ 2 ^ (900 : ℕ) := one_le_pow₀ (by norm_num)
    linarith
  have hz := roundDouble_finite _ hk2
  refine ⟨?_, hz, ?_⟩
  · unfold JsNumber.mul
    simp only
    rw [hw]
    unfold JsNumber.round JsNumber.div
    simp only
    rw [if_neg (by norm_num), hkdef]
    exact hz
  · generalize roundFinite ((k : ℚ) / 100) = z at e3 ⊢
    have t2 : |z - p| ≤ |z - (k : ℚ) / 100| + |(k : ℚ) - w| / 100 + |w - 100 * p| / 100 := by
      have a1 := abs_sub_le z ((k : ℚ) / 100) p
      have a2 := abs_sub_le ((k : ℚ) / 100) (w / 100) p
      have a3 : |(k : ℚ) / 100 - w / 100| = |(k : ℚ) - w| / 100 := by
        rw [← sub_div, abs_div, abs_of_pos (by norm_num : (0 : ℚ) < 100)]
      have a4 : |w / 100 - p| = |w - 100 * p| / 100 := by
        have : w / 100 - p = (w - 100 * p) / 100 := by ring
        rw [this, abs_div, abs_of_pos (by norm_num : (0 : ℚ) < 100)]
      rw [a3, a4] at a2
      linarith
    have h51 : (2 : ℚ) ^ (51 : ℕ) = 2251799813685248 := by norm_num
    rw [h51]
    linarith

/-! ## C15: the rounding of the limit price -/

/-- C15, counterexample: for the limit price 100000000000000.03125, a binary64 value, the
price submitted and returned is 100000000000000.046875, which is 0.015625 away; for the
binary64 value next to 1.115, which is below 1.115, the price is the binary64 value next
to 1.12, more than 0.005 away. -/
theorem placeTrade_limitPrice_far :
    ((placeTrade sampleEngine sampleEchoTransport sampleExchange (.number (.finite 100000000))
        (.number (.finite (3200000000000001 / 32))) "BTC" "USD").value.map
          (fun order => order.limitPrice))
      = some (.finite (6400000000000003 / 64))
    ∧ ¬ |(6400000000000003 / 64 : ℚ) - 3200000000000001 / 32| ≤ 5 / 1000
    ∧ roundDouble (1115 / 1000) = .finite (5021513584518103 / 4503599627370496)
    ∧ ((placeTrade sampleEngine sampleEchoTransport sampleExchange (.number (.finite 100000000))
        (.number (roundDouble (1115 / 1000))) "BTC" "USD").value.map
          (fun order => order.limitPrice))
      = some (.finite (1261007895663739 / 1125899906842624))
    ∧ ¬ |(1261007895663739 / 1125899906842624 : ℚ) - 5021513584518103 / 4503599627370496|
        ≤ 5 / 1000 := by
  refine ⟨by decide!, by decide!, by decide!, by decide!, by decide!⟩

/-- C15 (as amended): for every finite positive limit price `p` up to `2^900`, the price
`placeTrade` passes to `addOrder` is `Math.round(100 * p) / 100` in binary64 arithmetic:
the binary64 value next to `k / 100` for the integer `k` nearest to the rounded product
`100 * p` (a tie going up).  With the echoing transport the returned `limitPrice` is
that number, and it differs from `p` by at most `0.005 + (p + 1) / 2^51`. -/
theorem placeTrade_limitPrice (E : Engine) (x : ItBitExchange) (amount : JsNumber) (p : ℚ)
    (baseCurrency quoteCurrency : String)
    (hc : checkIfCredentialsIsProvided x = none)
    (ha : amount.strictEq (.finite 0) = false) (hp : 0 < p) (hb : p ≤ 2 ^ (900 : ℕ)) :
    ∃ (k : ℤ) (order : Order),
      k = ⌊roundFinite (100 * p) + 1 / 2⌋
      ∧ (placeTrade E sampleEchoTransport x (.number amount) (.number (.finite p)) baseCurrency
            quoteCurrency).calls =
          [.addOrder x.walletId (if amount.gt (.finite 0) then "buy" else "sell") "limit"
            (placeTrade.amountMainUnit E (.number amount) baseCurrency)
            (roundDouble ((k : ℚ) / 100))
            (normalizeCurrencyItBit baseCurrency ++ quoteCurrency)]
      ∧ (placeTrade E sampleEchoTransport x (.number amount) (.number (.finite p)) baseCurrency
            quoteCurrency).value = some order
      ∧ order.limitPrice = roundDouble ((k : ℚ) / 100)
      ∧ roundDouble ((k : ℚ) / 100) = .finite (roundFinite ((k : ℚ) / 100))
      ∧ |roundFinite ((k : ℚ) / 100) - p| ≤ 1 / 200 + (p + 1) / 2 ^ (51 : ℕ) := by
  have hle : (JsNumber.finite p).le (.finite 0) = false := by
    unfold JsNumber.le JsNumber.lt JsNumber.strictEq
    have h1 : ¬ p < 0 := by linarith
    have h2 : JsNumber.finite p ≠ .finite 0 := by
      intro h
      have := JsNumber.finite.inj h
      linarith
    simp [h1, h2]
  obtain ⟨hcalls, order, hv, _, _, hl, _⟩ :=
    placeTrade_echo E x amount (.finite p) baseCurrency quoteCurrency hc ha hle
  obtain ⟨h1, h2, h3⟩ := price_rounding p hp hb
  refine ⟨_, order, rfl, ?_, hv, ?_, h2, h3⟩
  · rw [hcalls, h1, h2]
  · rw [hl, h1, h2]

/-- C15, witness: the limit price 412.55555555555 of the tests, as a binary64 value, is
submitted and returned as the binary64 value next to 412.56. -/
theorem placeTrade_limitPrice_witness :
    checkIfCredentialsIsProvided sampleExchange = none
      ∧ (0 : ℚ) < 1814438521747659 / 4398046511104
      ∧ ((placeTrade sampleEngine sampleEchoTransport sampleExchange (.number (.finite 129999000))
          (.number (.finite (1814438521747659 / 4398046511104))) "BTC" "USD").value.map
            (fun order => order.limitPrice))
        = some (roundDouble (41256 / 100)) := by
  obtain ⟨k, order, hk, _, hv, hl, _⟩ :=
    placeTrade_limitPrice sampleEngine sampleExchange (.finite 129999000)
      (1814438521747659 / 4398046511104) "BTC" "USD" (by decide) (by decide!) (by norm_num)
      (le_trans (by norm_num : (1814438521747659 / 4398046511104 : ℚ) ≤ 2 ^ (10 : ℕ))
        (pow_le_pow_right₀ (by norm_num) (by norm_num)))
  have hk2 : k = 41256 := by rw [hk]; decide!
  refine ⟨by decide, by norm_num, ?_⟩
  rw [hv]
  show some order.limitPrice = _
  rw [hl, hk2]
  norm_num

/-! ## Facts about the amount that `placeTrade` submits -/

theorem roundFinite_abs (q : ℚ) : |roundFinite q| = roundFinite |q| := by
  rcases le_or_lt 0 q with h | h
  · rw [abs_of_nonneg h, abs_of_nonneg (roundFinite_nonneg q h)]
  · have h1 := roundFinite_nonneg (-q) (by linarith)
    rw [abs_of_neg h]
    rw [roundFinite_neg] at h1 ⊢
    exact abs_of_nonpos (by linarith)

theorem roundFinite_abs_le (q : ℚ) : |roundFinite q| ≤ 2 * |q| + 1 := by
  have h := roundFinite_error_coarse q
  have h1 := abs_sub_abs_le_abs_sub (roundFinite q) q
  have h2 : |q| / 9007199254740992 ≤ |q| := div_le_self (abs_nonneg q) (by norm_num)
  linarith

theorem toSmallestSubUnit_pos (s : ℚ) (c : String)
    (h1 : 99 / 100 ≤ s * 10 ^ getDecimalsForCurrency c)
    (h2 : s * 10 ^ getDecimalsForCurrency c ≤ 2 ^ (1000 : ℕ)) :
    ∃ k : ℤ, toSmallestSubUnit (.number (.finite s)) c = .finite k ∧ 0 < k := by
  have hpos : 0 < s * 10 ^ getDecimalsForCurrency c := by linarith
  refine ⟨_, toSmallestSubUnit_finite s c (by rw [abs_of_pos hpos]; exact h2), ?_⟩
  have e1 := roundFinite_mono _ _ h1
  have e2 : (1 : ℚ) / 2 ≤ roundFinite (99 / 100) := by decide!
  have e3 : (1 : ℤ) ≤ ⌊roundFinite (s * 10 ^ getDecimalsForCurrency c) + 1 / 2⌋ := by
    rw [Int.le_floor]
    push_cast
    linarith
  omega

theorem truncation_core (E : Engine) (q : ℚ) (hq1 : 1 / 10 ^ (4 : ℕ) ≤ q)
    (hq2 : q ≤ 33554432) :
    1 ≤ ⌊roundFinite (10000 * roundFinite q)⌋
    ∧ ((⌊roundFinite (10000 * roundFinite q)⌋ : ℤ) : ℚ) ≤ 2 ^ (41 : ℕ)
    ∧ (parseIntNumber E ((JsNumber.finite 10000).mul (.finite (roundFinite q)))).div
        (.finite 10000)
      = .finite (roundFinite (((⌊roundFinite (10000 * roundFinite q)⌋ : ℤ) : ℚ) / 10000))
    ∧ (parseIntNumber E ((JsNumber.finite 10000).mul (.finite (-roundFinite q)))).div
        (.finite 10000)
      = .finite (-roundFinite (((⌊roundFinite (10000 * roundFinite q)⌋ : ℤ) : ℚ) / 10000)) := by
  have hq0 : 0 < q := lt_of_lt_of_le (by norm_num) hq1
  -- the rounded quotient
  have hx1 : (1 : ℚ) / 10 ^ (4 : ℕ) ≤ roundFinite q :=
    le_trans (by decide!) (roundFinite_mono _ _ hq1)
  have hx2 : roundFinite q ≤ 67108865 := by
    have := roundFinite_abs_le q
    rw [abs_of_pos hq0] at this
    have := le_trans (le_abs_self _) this
    linarith
  generalize roundFinite q = x at hx1 hx2 ⊢
  have hx0 : 0 < x := lt_of_lt_of_le (by norm_num) hx1
  -- the rounded product
  have hw1 : 1 ≤ roundFinite (10000 * x) := by
    have h1 : (1 : ℚ) ≤ 10000 * x := by
      have : (10000 : ℚ) * (1 / 10 ^ (4 : ℕ)) = 1 := by norm_num
      linarith
    exact le_trans (by decide!) (roundFinite_mono _ _ h1)
  have hw2 : roundFinite (10000 * x) ≤ 1342177300001 := by
    have := roundFinite_abs_le (10000 * x)
    rw [abs_of_pos (by linarith : (0 : ℚ) < 10000 * x)] at this
    have := le_trans (le_abs_self _) this
    linarith
  have hwfin : roundDouble (10000 * x) = .finite (roundFinite (10000 * x)) :=
    roundDouble_finite _ (by
      rw [abs_of_pos (by linarith : (0 : ℚ) < 10000 * x)]
      exact le_trans (by linarith : 10000 * x ≤ 2 ^ (40 : ℕ))
        (pow_le_pow_right₀ (by norm_num) (by norm_num)))
  have hwneg : roundDouble (10000 * -x) = .finite (-roundFinite (10000 * x)) := by
    have h1 : (10000 : ℚ) * -x = -(10000 * x) := by ring
    rw [h1, roundDouble_finite _ (by
      rw [abs_neg, abs_of_pos (by linarith : (0 : ℚ) < 10000 * x)]
      exact le_trans (by linarith : 10000 * x ≤ 2 ^ (40 : ℕ))
        (pow_le_pow_right₀ (by norm_num) (by norm_num))), roundFinite_neg]
  generalize roundFinite (10000 * x) = w at hw1 hw2 hwfin hwneg ⊢
  have ht1 : 1 ≤ ⌊w⌋ := by rw [Int.le_floor]; exact_mod_cast hw1
  have ht2 : ((⌊w⌋ : ℤ) : ℚ) ≤ 2 ^ (41 : ℕ) := le_trans (Int.floor_le w) (by linarith)
  have htq : (1 : ℚ) ≤ ((⌊w⌋ : ℤ) : ℚ) := by exact_mod_cast ht1
  have htfin : roundDouble (((⌊w⌋ : ℤ) : ℚ) / 10000)
      = .finite (roundFinite (((⌊w⌋ : ℤ) : ℚ) / 10000)) :=
    roundDouble_finite _ (by
      rw [abs_of_pos (by positivity)]
      exact le_trans (div_le_self (by linarith) (by norm_num))
        (le_trans ht2 (pow_le_pow_right₀ (by norm_num) (by norm_num))))
  have hbig : ¬ ((10 : ℚ) ^ (21 : ℕ) ≤ |w| ∨ |w| < 1 / (10 : ℚ) ^ (6 : ℕ)) := by
    rw [abs_of_pos (by linarith)]
    intro h
    rcases h with h | h
    · have : (1342177300001 : ℚ) < 10 ^ (21 : ℕ) := by norm_num
      linarith
    · have : (1 : ℚ) / 10 ^ (6 : ℕ) < 1 := by norm_num
      linarith
  have hbig2 : ¬ ((10 : ℚ) ^ (21 : ℕ) ≤ |(-w)| ∨ |(-w)| < 1 / (10 : ℚ) ^ (6 : ℕ)) := by
    rw [abs_neg]; exact hbig
  refine ⟨ht1, ht2, ?_, ?_⟩
  · unfold JsNumber.mul
    simp only
    rw [hwfin]
    unfold parseIntNumber
    simp only
    rw [if_neg (by linarith), if_neg hbig, if_neg (by linarith)]
    unfold JsNumber.div
    simp only
    rw [if_neg (by norm_num)]
    exact htfin
  · unfold JsNumber.mul
    simp only
    rw [hwneg]
    unfold parseIntNumber
    simp only
    rw [if_neg (by linarith), if_neg hbig2, if_pos (by linarith), neg_neg]
    unfold JsNumber.div
    simp only
    rw [if_neg (by norm_num)]
    have h1 : -(((⌊w⌋ : ℤ) : ℚ)) / 10000 = -(((⌊w⌋ : ℤ) : ℚ) / 10000) := by ring
    rw [h1, roundDouble_finite _ (by
      rw [abs_neg, abs_of_pos (by positivity)]
      exact le_trans (div_le_self (by linarith) (by norm_num))
        (le_trans ht2 (pow_le_pow_right₀ (by norm_num) (by norm_num)))), roundFinite_neg]

theorem toNumber_fromSmallestSubUnit (a : ℤ) (c : String) (ha : |a| < 3355443200000000) :
    (fromSmallestSubUnit (.number (.finite a)) c).toNumber
      = .finite (roundFinite ((a : ℚ) / 10 ^ getDecimalsForCurrency c)) := by
  rw [fromSmallestSubUnit_int a c ha]
  show roundDouble (NumericString.decimalValue _ _ _) = _
  rw [decimalValue_int]
  apply roundDouble_finite
  have haq : |(a : ℚ)| < 3355443200000000 := by exact_mod_cast ha
  rw [abs_div, abs_of_pos (by positivity : (0 : ℚ) < 10 ^ getDecimalsForCurrency c)]
  exact le_trans (div_le_self (abs_nonneg _) (one_le_pow₀ (by norm_num)))
    (le_trans haq.le (by norm_num))

theorem amountMainUnit_other (E : Engine) (a : ℤ) (c : String) (hc : c ≠ "BTC")
    (ha : |a| < 3355443200000000) :
    placeTrade.amountMainUnit E (.number (.finite a)) c
      = .finite (roundFinite (|(a : ℚ)| / 100)) := by
  unfold placeTrade.amountMainUnit
  simp only [hc, if_false]
  rw [toNumber_fromSmallestSubUnit a c ha]
  have hd : getDecimalsForCurrency c = 2 := by simp [getDecimalsForCurrency, hc]
  rw [hd]
  show JsNumber.finite |roundFinite ((a : ℚ) / 10 ^ 2)| = _
  rw [roundFinite_abs, abs_div]
  norm_num

theorem amountMainUnit_btc (E : Engine) (a : ℤ) (h1 : 10000 ≤ |a|)
    (ha : |a| < 3355443200000000) :
    1 ≤ ⌊roundFinite (10000 * roundFinite (|(a : ℚ)| / 10 ^ (8 : ℕ)))⌋
    ∧ ((⌊roundFinite (10000 * roundFinite (|(a : ℚ)| / 10 ^ (8 : ℕ)))⌋ : ℤ) : ℚ) ≤ 2 ^ (41 : ℕ)
    ∧ placeTrade.amountMainUnit E (.number (.finite a)) "BTC"
      = .finite (roundFinite
          (((⌊roundFinite (10000 * roundFinite (|(a : ℚ)| / 10 ^ (8 : ℕ)))⌋ : ℤ) : ℚ) / 10000)) := by
  have h1q : (10000 : ℚ) ≤ |(a : ℚ)| := by exact_mod_cast h1
  have haq : |(a : ℚ)| < 3355443200000000 := by exact_mod_cast ha
  obtain ⟨t1, t2, t3, t4⟩ := truncation_core E (|(a : ℚ)| / 10 ^ (8 : ℕ))
    (by rw [le_div_iff₀ (by positivity)]; norm_num; linarith)
    (by rw [div_le_iff₀ (by positivity)]; norm_num; linarith)
  refine ⟨t1, t2, ?_⟩
  unfold placeTrade.amountMainUnit
  simp only [if_true]
  rw [toNumber_fromSmallestSubUnit a "BTC" ha, show getDecimalsForCurrency "BTC" = 8 by decide]
  have hr : 0 ≤ roundFinite
      (((⌊roundFinite (10000 * roundFinite (|(a : ℚ)| / 10 ^ (8 : ℕ)))⌋ : ℤ) : ℚ) / 10000) :=
    roundFinite_nonneg _ (by
      apply div_nonneg _ (by norm_num)
      have : (1 : ℚ) ≤ ((⌊roundFinite (10000 * roundFinite (|(a : ℚ)| / 10 ^ (8 : ℕ)))⌋ : ℤ) : ℚ) := by
        exact_mod_cast t1
      linarith)
  rcases le_or_lt 0 a with hpos | hneg
  · have : |(a : ℚ)| = a := abs_of_nonneg (by exact_mod_cast hpos)
    rw [this] at t3 hr ⊢
    rw [t3]
    show JsNumber.finite |_| = _
    rw [abs_of_nonneg hr]
  · have hq : (a : ℚ) < 0 := by exact_mod_cast hneg
    have e1 : (a : ℚ) / 10 ^ (8 : ℕ) = -(|(a : ℚ)| / 10 ^ (8 : ℕ)) := by
      rw [abs_of_neg hq]; ring
    rw [e1, roundFinite_neg, t4]
    show JsNumber.finite |_| = _
    rw [abs_neg, abs_of_nonneg hr]

theorem slice_xbt (quoteCurrency : String) : slice ("XBT" ++ quoteCurrency) 0 3 = "XBT" := by
  cases quoteCurrency
  rfl

theorem amountMainUnit_not_negative (E : Engine) (v : JsValue) (c : String) :
    (placeTrade.amountMainUnit E v c).lt (.finite 0) = false := by
  unfold placeTrade.amountMainUnit
  simp only
  generalize (if c = "BTC" then
    (parseIntNumber E ((JsNumber.finite 10000).mul (fromSmallestSubUnit v c).toNumber)).div
      (.finite 10000) else (fromSmallestSubUnit v c).toNumber) = y
  cases y with
  | finite q =>
    show decide (|q| < 0) = false
    simp [abs_nonneg]
  | nan => rfl
  | posInf => rfl
  | negInf => rfl

/-! ## C14: the truncation of the amount to four decimals -/

/-- C14: for the base amount 30000 satoshis, which is 0.0003 `BTC` and needs no
truncation, `placeTrade` submits the amount 0.0002: the product `10000 * 0.0003` is the
binary64 number `3 - 2^-51`, just below 3, and `parseInt` cuts it to 2.  The echoing
transport then returns the base amount 20000.  The two amounts of the tests come out as the
claim says: 129999000 gives 129990000 and 1299990000 is unchanged. -/
theorem placeTrade_amount_of_30000 :
    (placeTrade sampleEngine sampleEchoTransport sampleExchange (.number (.finite 30000))
        (.number (.finite 412)) "BTC" "USD").calls
      = [.addOrder (some "mock_walletid") "buy" "limit" (roundDouble (2 / 10000)) (.finite 412)
          "XBTUSD"]
    ∧ roundDouble (((⌊(30000 : ℚ) / 10000⌋ : ℤ) : ℚ) / 10000) ≠ roundDouble (2 / 10000)
    ∧ (JsNumber.finite 10000).mul (fromSmallestSubUnit (.number (.finite 30000)) "BTC").toNumber
      = .finite (3 - 1 / 2 ^ (51 : ℕ))
    ∧ ((placeTrade sampleEngine sampleEchoTransport sampleExchange (.number (.finite 30000))
        (.number (.finite 412)) "BTC" "USD").value.map (fun order => order.baseAmount))
      = some (.finite 20000)
    ∧ ((placeTrade sampleEngine sampleEchoTransport sampleExchange (.number (.finite 129999000))
        (.number (.finite 412)) "BTC" "USD").value.map (fun order => order.baseAmount))
      = some (.finite 129990000)
    ∧ ((placeTrade sampleEngine sampleEchoTransport sampleExchange (.number (.finite 1299990000))
        (.number (.finite 412)) "BTC" "USD").value.map (fun order => order.baseAmount))
      = some (.finite 1299990000) := by
  refine ⟨by decide!, by decide!, by decide!, by decide!, by decide!, by decide!⟩

/-! ## C16: the side of the order and the sign of the base amount -/

/-- C16, counterexample: a sell of 5000 satoshis is accepted, the amount submitted is 0
and the base amount returned is 0, which is not negative; likewise for a buy of 5000
satoshis, whose returned base amount is not positive. -/
theorem placeTrade_small_amount_unsigned :
    (placeTrade sampleEngine sampleEchoTransport sampleExchange (.number (.finite (-5000)))
        (.number (.finite 412)) "BTC" "USD").calls
      = [.addOrder (some "mock_walletid") "sell" "limit" (.finite 0) (.finite 412) "XBTUSD"]
    ∧ ((placeTrade sampleEngine sampleEchoTransport sampleExchange (.number (.finite (-5000)))
        (.number (.finite 412)) "BTC" "USD").value.map (fun order => order.baseAmount))
      = some (.finite 0)
    ∧ ((placeTrade sampleEngine sampleEchoTransport sampleExchange (.number (.finite 5000))
        (.number (.finite 412)) "BTC" "USD").value.map (fun order => order.baseAmount))
      = some (.finite 0) := by
  refine ⟨by decide!, by decide!, by decide!⟩

/-- C16 (as amended): for every integer base amount `a` other than zero with
`|a| < 3355443200000000`, and with `|a| ≥ 10000` when the base currency is `BTC`, and every
accepted limit price, `placeTrade` with the echoing transport submits the side `sell` and
returns a base amount below zero when `a` is negative, and submits the side `buy` and
returns a base amount above zero when `a` is positive; the amount submitted is positive.
For every base amount and currency whatever, the amount submitted is not negative. -/
theorem placeTrade_sign (E : Engine) (x : ItBitExchange) (a : ℤ) (price : JsNumber)
    (baseCurrency quoteCurrency : String)
    (hc : checkIfCredentialsIsProvided x = none) (hp : price.le (.finite 0) = false)
    (h0 : a ≠ 0) (hB : |a| < 3355443200000000)
    (hbtc : baseCurrency = "BTC" → 10000 ≤ |a|) :
    ∃ (sent : ℚ) (order : Order) (k : ℤ),
      (placeTrade E sampleEchoTransport x (.number (.finite a)) (.number price) baseCurrency
          quoteCurrency).calls =
        [.addOrder x.walletId (if 0 < a then "buy" else "sell") "limit" (.finite sent)
          ((JsNumber.round ((JsNumber.finite 100).mul price)).div (.finite 100))
          (normalizeCurrencyItBit baseCurrency ++ quoteCurrency)]
      ∧ 0 < sent
      ∧ (placeTrade E sampleEchoTransport x (.number (.finite a)) (.number price) baseCurrency
          quoteCurrency).value = some order
      ∧ order.raw.side = some (if 0 < a then "buy" else "sell")
      ∧ order.baseAmount = .finite k
      ∧ (a < 0 → k < 0) ∧ (0 < a → 0 < k)
      ∧ (∀ (v : JsValue) (c : String),
          (placeTrade.amountMainUnit E v c).lt (.finite 0) = false) := by
  have h0q : (a : ℚ) ≠ 0 := by exact_mod_cast h0
  have haq : |(a : ℚ)| < 3355443200000000 := by exact_mod_cast hB
  have h1q : (1 : ℚ) ≤ |(a : ℚ)| := by
    have : (1 : ℤ) ≤ |a| := Int.one_le_abs h0
    exact_mod_cast this
  have ha : (JsNumber.finite (a : ℚ)).strictEq (.finite 0) = false := by
    unfold JsNumber.strictEq
    have : JsNumber.finite (a : ℚ) ≠ .finite 0 := fun h => h0q (JsNumber.finite.inj h)
    simp [this]
  have hgt : (JsNumber.finite (a : ℚ)).gt (.finite 0) = decide (0 < a) := by
    unfold JsNumber.gt JsNumber.lt
    simp
  obtain ⟨hcalls, order, hv, _, hside, _, hbase⟩ :=
    placeTrade_echo E x (.finite a) price baseCurrency quoteCurrency hc ha hp
  rw [hgt] at hcalls hside hbase
  simp only [decide_eq_true_eq] at hcalls hside hbase
  -- the amount submitted and the sub-units it is read back as
  have key : ∃ (sent : ℚ) (k : ℤ),
      placeTrade.amountMainUnit E (.number (.finite a)) baseCurrency = .finite sent
      ∧ 0 < sent
      ∧ toSmallestSubUnit (.number (.finite sent))
          (normalizeCurrency (slice (normalizeCurrencyItBit baseCurrency ++ quoteCurrency) 0 3))
        = .finite k
      ∧ 0 < k := by
    by_cases hb : baseCurrency = "BTC"
    · subst hb
      obtain ⟨t1, t2, t3⟩ := amountMainUnit_btc E a (hbtc rfl) hB
      generalize ⌊roundFinite (10000 * roundFinite (|(a : ℚ)| / 10 ^ (8 : ℕ)))⌋ = t at t1 t2 t3
      have t1q : (1 : ℚ) ≤ (t : ℚ) := by exact_mod_cast t1
      have s1 : (99 : ℚ) / 10 ^ (6 : ℕ) ≤ roundFinite ((t : ℚ) / 10000) :=
        le_trans (by decide!)
          (roundFinite_mono (1 / 10000) _ (div_le_div_of_nonneg_right t1q (by norm_num)))
      have s2 : roundFinite ((t : ℚ) / 10000) ≤ 2 ^ (41 : ℕ) := by
        have := roundFinite_abs_le ((t : ℚ) / 10000)
        rw [abs_of_nonneg (show (0 : ℚ) ≤ (t : ℚ) / 10000 by positivity)] at this
        have := le_trans (le_abs_self _) this
        have e : (t : ℚ) / 10000 ≤ 2 ^ (41 : ℕ) / 10000 :=
          div_le_div_of_nonneg_right t2 (by norm_num)
        have : (2 : ℚ) * (2 ^ (41 : ℕ) / 10000) + 1 ≤ 2 ^ (41 : ℕ) := by norm_num
        linarith
      have hcur : normalizeCurrency (slice (normalizeCurrencyItBit "BTC" ++ quoteCurrency) 0 3)
          = "BTC" := by
        rw [show normalizeCurrencyItBit "BTC" = "XBT" by decide, slice_xbt]
        decide
      rw [hcur]
      obtain ⟨k, hk1, hk2⟩ := toSmallestSubUnit_pos (roundFinite ((t : ℚ) / 10000)) "BTC"
        (by
          rw [show getDecimalsForCurrency "BTC" = 8 by decide]
          have : (99 : ℚ) / 100 ≤ 99 / 10 ^ (6 : ℕ) * 10 ^ 8 := by norm_num
          nlinarith)
        (by
          rw [show getDecimalsForCurrency "BTC" = 8 by decide]
          have : (2 : ℚ) ^ (41 : ℕ) * 10 ^ 8 ≤ 2 ^ (1000 : ℕ) := by
            have : (10 : ℚ) ^ 8 ≤ 2 ^ (27 : ℕ) := by norm_num
            calc (2 : ℚ) ^ (41 : ℕ) * 10 ^ 8 ≤ 2 ^ (41 : ℕ) * 2 ^ (27 : ℕ) :=
                  mul_le_mul_of_nonneg_left this (by positivity)
              _ ≤ 2 ^ (1000 : ℕ) := by
                  rw [← pow_add]; exact pow_le_pow_right₀ (by norm_num) (by norm_num)
          nlinarith)
      exact ⟨_, k, t3, by linarith [show (0 : ℚ) < 99 / 10 ^ (6 : ℕ) by norm_num], hk1, hk2⟩
    · have t3 := amountMainUnit_other E a baseCurrency hb hB
      have s1 : (99 : ℚ) / 10 ^ (4 : ℕ) ≤ roundFinite (|(a : ℚ)| / 100) :=
        le_trans (by decide!)
          (roundFinite_mono (1 / 100) _ (div_le_div_of_nonneg_right h1q (by norm_num)))
      have s2 : roundFinite (|(a : ℚ)| / 100) ≤ 2 ^ (47 : ℕ) := by
        have := roundFinite_abs_le (|(a : ℚ)| / 100)
        rw [abs_of_nonneg (show (0 : ℚ) ≤ |(a : ℚ)| / 100 by positivity)] at this
        have := le_trans (le_abs_self _) this
        have e : (2 : ℚ) * (3355443200000000 / 100) + 1 ≤ 2 ^ (47 : ℕ) := by norm_num
        have : |(a : ℚ)| / 100 ≤ 3355443200000000 / 100 :=
          div_le_div_of_nonneg_right haq.le (by norm_num)
        linarith
      obtain ⟨hP1, hP2⟩ := pow_decimals_bounds
        (normalizeCurrency (slice (normalizeCurrencyItBit baseCurrency ++ quoteCurrency) 0 3))
      have s0 : (0 : ℚ) ≤ roundFinite (|(a : ℚ)| / 100) :=
        le_trans (by norm_num) s1
      obtain ⟨k, hk1, hk2⟩ := toSmallestSubUnit_pos (roundFinite (|(a : ℚ)| / 100))
        (normalizeCurrency (slice (normalizeCurrencyItBit baseCurrency ++ quoteCurrency) 0 3))
        (by
          have := mul_le_mul s1 hP1 (by norm_num) s0
          have e : (99 : ℚ) / 100 = 99 / 10 ^ (4 : ℕ) * 100 := by norm_num
          rw [e]
          exact this)
        (by
          have := mul_le_mul s2 hP2 (by positivity) (by positivity)
          refine le_trans this ?_
          have : (100000000 : ℚ) ≤ 2 ^ (27 : ℕ) := by norm_num
          calc (2 : ℚ) ^ (47 : ℕ) * 100000000 ≤ 2 ^ (47 : ℕ) * 2 ^ (27 : ℕ) :=
                mul_le_mul_of_nonneg_left this (by positivity)
            _ ≤ 2 ^ (1000 : ℕ) := by
                rw [← pow_add]; exact pow_le_pow_right₀ (by norm_num) (by norm_num))
      exact ⟨_, k, t3, by linarith [show (0 : ℚ) < 99 / 10 ^ (4 : ℕ) by norm_num], hk1, hk2⟩
  obtain ⟨sent, k, hsent, hpos, hk, hkpos⟩ := key
  rw [hsent] at hcalls hbase
  rw [hk] at hbase
  refine ⟨sent, order, if 0 < a then k else -k, hcalls, hpos, hv, hside, ?_, ?_, ?_,
    amountMainUnit_not_negative E⟩
  · rw [hbase]
    by_cases h : 0 < a
    · simp [h]
    · simp [h, JsNumber.neg]
  · intro h
    rw [if_neg (by omega)]
    omega
  · intro h
    rw [if_pos h]
    exact hkpos

/-- C16, witness: the sell of 12340000 satoshis of the tests is submitted with the side
`sell` and comes back with a negative base amount, which is -12340000. -/
theorem placeTrade_sign_witness :
    checkIfCredentialsIsProvided sampleExchange = none
      ∧ (∃ (order : Order) (k : ℤ),
          (placeTrade sampleEngine sampleEchoTransport sampleExchange
            (.number (.finite ((-12340000 : ℤ) : ℚ))) (.number (.finite 412)) "BTC" "USD").value
            = some order
          ∧ order.raw.side = some "sell" ∧ order.baseAmount = .finite k ∧ k < 0)
      ∧ ((placeTrade sampleEngine sampleEchoTransport sampleExchange
            (.number (.finite (-12340000))) (.number (.finite 412)) "BTC" "USD").value.map
              (fun order => order.baseAmount))
        = some (.finite (-12340000)) := by
  obtain ⟨_, order, k, _, _, hv, hside, hb, hneg, _⟩ :=
    placeTrade_sign sampleEngine sampleExchange (-12340000) (.finite 412) "BTC" "USD"
      (by decide) (by decide!) (by norm_num) (by norm_num) (fun _ => by norm_num)
  exact ⟨by decide, ⟨order, k, hv, hside, hb, hneg (by norm_num)⟩, by decide!⟩

/-! ## Facts about the parsers of orders -/

theorem parseOpenOrder_ok (order : RawOrder) (instrument : String)
    (h : order.instrument = some instrument) :
    parseOpenOrder order = .ok
      { externalId := order.id
        type := order.type
        state := "open"
        baseAmount :=
          if order.side = some "sell" then
            (toSmallestSubUnit order.amount (normalizeCurrency (slice instrument 0 3))).neg
          else toSmallestSubUnit order.amount (normalizeCurrency (slice instrument 0 3))
        baseCurrency := normalizeCurrency (slice instrument 0 3)
        quoteCurrency := slice instrument 3 6
        limitPrice := parseFloat order.price
        raw := order
        quoteAmount := none
        feeAmount := none
        feeCurrency := none } := by
  unfold parseOpenOrder
  simp only [h]

/-! ## C21: the currencies of an order -/

/-- C21, counterexample: for the instrument `XBTUSDT` the quote currency is `USD`, not the
four characters `USDT` that follow the third. -/
theorem parseOpenOrder_long_instrument :
    sampleLongOrder.instrument = some "XBTUSDT"
    ∧ (parseOpenOrder sampleLongOrder).toOption.map
        (fun result => (result.baseCurrency, result.quoteCurrency)) = some ("BTC", "USD")
    ∧ String.mk ("XBTUSDT".toList.drop 3) = "USDT" := by
  refine ⟨rfl, by decide, by decide⟩

/-- C21 (as amended): for every remote order with an instrument, on characters of the
Basic Multilingual Plane, `parseOpenOrder` sets `baseCurrency` to the canonical form of the
first 3 characters of the instrument (`XBT` becomes `BTC`, any other code is unchanged) and
`quoteCurrency` to the fourth, fifth and sixth character: all the characters after the
third when the instrument has at most 6 characters. -/
theorem parseOpenOrder_currencies (order : RawOrder) (instrument : String)
    (h : order.instrument = some instrument) :
    ∃ result : Order, parseOpenOrder order = .ok result
      ∧ result.baseCurrency = normalizeCurrency (String.mk (instrument.toList.take 3))
      ∧ result.quoteCurrency = String.mk ((instrument.toList.drop 3).take 3)
      ∧ (instrument.length ≤ 6 → result.quoteCurrency = String.mk (instrument.toList.drop 3))
      ∧ normalizeCurrency "XBT" = "BTC"
      ∧ (∀ c : String, c ≠ "XBT" → normalizeCurrency c = c) := by
  refine ⟨_, parseOpenOrder_ok order instrument h, rfl, rfl, ?_, by decide, ?_⟩
  · intro hl
    show slice instrument 3 6 = _
    unfold slice
    rw [List.take_of_length_le]
    rw [List.length_drop]
    have : instrument.toList.length = instrument.length := rfl
    omega
  · intro c hc
    unfold normalizeCurrency
    rw [if_neg hc]

/-- C21, witness: the order of the tests on `XBTUSD` has the base currency `BTC` and the
quote currency `USD`. -/
theorem parseOpenOrder_currencies_witness :
    (sampleOrder "148ffda4" "open").instrument = some "XBTUSD"
      ∧ ∃ result : Order, parseOpenOrder (sampleOrder "148ffda4" "open") = .ok result
        ∧ result.baseCurrency = "BTC" ∧ result.quoteCurrency = "USD" := by
  obtain ⟨r, h1, h2, h3, _⟩ :=
    parseOpenOrder_currencies (sampleOrder "148ffda4" "open") "XBTUSD" rfl
  exact ⟨rfl, r, h1, by rw [h2]; decide, by rw [h3]; decide⟩

/-! ## C22: the record of an open order -/

/-- C22: for every remote order with an instrument, `parseOpenOrder` returns a record of
state `open` whose `externalId` and `type` are the id and type of the order, whose
`limitPrice` is the number read from the price, unconverted, whose `raw` is the order, and
whose `baseAmount` is `toSmallestSubUnit(order.amount, baseCurrency)`, negated when the side
is `sell` and as it is when the side is `buy`; the record has no `quoteAmount`, `feeAmount`
or `feeCurrency`. -/
theorem parseOpenOrder_record (order : RawOrder) (instrument : String)
    (h : order.instrument = some instrument) :
    ∃ result : Order, parseOpenOrder order = .ok result
      ∧ result.state = "open"
      ∧ result.externalId = order.id
      ∧ result.type = order.type
      ∧ result.limitPrice = parseFloat order.price
      ∧ (∀ s : NumericString, order.price = .numeric s → result.limitPrice = s.toNumber)
      ∧ result.raw = order
      ∧ (order.side = some "sell" →
          result.baseAmount = (toSmallestSubUnit order.amount result.baseCurrency).neg)
      ∧ (order.side = some "buy" →
          result.baseAmount = toSmallestSubUnit order.amount result.baseCurrency)
      ∧ result.quoteAmount = none ∧ result.feeAmount = none ∧ result.feeCurrency = none := by
  refine ⟨_, parseOpenOrder_ok order instrument h, rfl, rfl, rfl, rfl, ?_, rfl, ?_, ?_,
    rfl, rfl, rfl⟩
  · intro s hs
    show parseFloat order.price = _
    rw [hs]
    rfl
  · intro hs
    simp only [hs, if_true]
  · intro hb
    have : ¬ order.side = some "sell" := by rw [hb]; decide
    simp only [this, if_false]

/-- C22, witness: the order of the tests, a buy of `0.0010` on `XBTUSD` at `400.99`, has
the base amount 100000 and the limit price 400.99. -/
theorem parseOpenOrder_record_witness :
    (sampleOrder "148ffda4" "open").instrument = some "XBTUSD"
      ∧ ∃ result : Order, parseOpenOrder (sampleOrder "148ffda4" "open") = .ok result
        ∧ result.state = "open"
        ∧ result.baseAmount = .finite 100000
        ∧ result.limitPrice = roundDouble (40099 / 100) := by
  obtain ⟨r, h1, h2, _, _, _, h6, _, _, h9, _⟩ :=
    parseOpenOrder_record (sampleOrder "148ffda4" "open") "XBTUSD" rfl
  refine ⟨rfl, r, h1, h2, ?_, ?_⟩
  · rw [h9 rfl]
    have hb : r.baseCurrency = "BTC" := by
      have := parseOpenOrder_ok (sampleOrder "148ffda4" "open") "XBTUSD" rfl
      rw [h1] at this
      rw [Except.ok.inj this]
      decide
    rw [hb]
    decide!
  · rw [h6 (.fixed false 40099 2) rfl]
    decide!

/-! ## Facts about mappings and `parseBalance` -/

theorem amountMap_get_append (m : AmountMap) (k : String) (v : JsNumber)
    (h : m.any (fun p => p.1 == k) = false) :
    AmountMap.get (m ++ [(k, v)]) k = some v := by
  unfold AmountMap.get
  induction m with
  | nil => simp
  | cons p m ih =>
    simp only [List.any_cons, Bool.or_eq_false_iff] at h
    simp only [List.cons_append, List.find?_cons, h.1]
    exact ih h.2

theorem amountMap_get_replace (m : AmountMap) (k : String) (v : JsNumber)
    (h : m.any (fun p => p.1 == k) = true) :
    AmountMap.get (m.map (fun p => if p.1 == k then (k, v) else p)) k = some v := by
  unfold AmountMap.get
  induction m with
  | nil => simp at h
  | cons p m ih =>
    simp only [List.map_cons, List.find?_cons]
    by_cases hp : (p.1 == k) = true
    · simp [hp]
    · simp only [List.any_cons, hp, Bool.false_or] at h
      simp only [hp, Bool.false_eq_true, if_false]
      exact ih h

theorem amountMap_get_set_same (m : AmountMap) (k : String) (v : JsNumber)
    (hk : k ≠ "__proto__") : (m.set k v).get k = some v := by
  unfold AmountMap.set
  rw [if_neg hk]
  by_cases h : m.any (fun p => p.1 == k) = true
  · rw [if_pos h]; exact amountMap_get_replace m k v h
  · rw [if_neg h]; exact amountMap_get_append m k v (Bool.eq_false_iff.mpr h)

theorem amountMap_get_set_other (m : AmountMap) (k k' : String) (v : JsNumber)
    (h : k' ≠ k) : (m.set k v).get k' = m.get k' := by
  unfold AmountMap.set
  split_ifs with h1 h2
  · rfl
  · unfold AmountMap.get
    congr 1
    induction m with
    | nil => rfl
    | cons p m ih =>
      simp only [List.map_cons, List.find?_cons]
      by_cases hp : (p.1 == k) = true
      · have hpk : p.1 = k := by simpa using hp
        have hne : (k == k') = false := by simpa using (fun e => h e.symm)
        have hne2 : (p.1 == k') = false := by rw [hpk]; exact hne
        simp only [hp, if_true, hne, hne2]
        by_cases h3 : m.any (fun p => p.1 == k) = true
        · exact ih h3
        · have hm : m.map (fun p => if p.1 == k then (k, v) else p) = m := by
            have h4 : ∀ q ∈ m, (q.1 == k) = false := by
              intro q hq
              apply Bool.eq_false_iff.mpr
              intro hc
              exact h3 (List.any_eq_true.mpr ⟨q, hq, hc⟩)
            conv_rhs => rw [← List.map_id m]
            apply List.map_congr_left
            intro q hq
            simp [h4 q hq]
          rw [hm]
      · simp only [hp, Bool.false_eq_true, if_false]
        cases hpk' : (p.1 == k') with
        | true => rfl
        | false =>
          simp only [List.any_cons, hp, Bool.false_or] at h2
          exact ih h2
  · unfold AmountMap.get
    congr 1
    rw [List.find?_append]
    have hne : (k == k') = false := by simpa using (fun e => h e.symm)
    simp [List.find?_cons, hne]

theorem amountMap_keys_set (m : AmountMap) (k k' : String) (v : JsNumber) :
    k' ∈ (m.set k v).keys ↔ k' ∈ m.keys ∨ (k' = k ∧ k ≠ "__proto__") := by
  unfold AmountMap.set AmountMap.keys
  split_ifs with h1 h2
  · constructor
    · intro h; exact Or.inl h
    · rintro (h | ⟨_, h⟩)
      · exact h
      · exact absurd h1 h
  · have hm : (m.map (fun p => if p.1 == k then (k, v) else p)).map (fun p => p.1)
        = m.map (fun p => p.1) := by
      rw [List.map_map]
      apply List.map_congr_left
      intro q _
      by_cases hq : (q.1 == k) = true
      · have : q.1 = k := by simpa using hq
        simp [this]
      · have hne : ¬ q.1 = k := by simpa using hq
        simp [hne]
    rw [hm]
    constructor
    · intro h; exact Or.inl h
    · rintro (h | ⟨h, _⟩)
      · exact h
      · rw [h]
        simp only [List.any_eq_true] at h2
        obtain ⟨q, hq, hqk⟩ := h2
        have : q.1 = k := by simpa using hqk
        rw [← this]
        exact List.mem_map_of_mem _ hq
  · simp only [List.map_append, List.map_cons, List.map_nil, List.mem_append,
      List.mem_singleton]
    constructor
    · rintro (h | h)
      · exact Or.inl h
      · exact Or.inr ⟨h, h1⟩
    · rintro (h | ⟨h, _⟩)
      · exact Or.inl h
      · exact Or.inr h

theorem amountMap_keys_nodup (m : AmountMap) (k : String) (v : JsNumber)
    (h : m.keys.Nodup) : (m.set k v).keys.Nodup := by
  unfold AmountMap.set AmountMap.keys at *
  split_ifs with h1 h2
  · exact h
  · have hm : (m.map (fun p => if p.1 == k then (k, v) else p)).map (fun p => p.1)
        = m.map (fun p => p.1) := by
      rw [List.map_map]
      apply List.map_congr_left
      intro q _
      by_cases hq : (q.1 == k) = true
      · have : q.1 = k := by simpa using hq
        simp [this]
      · have hne : ¬ q.1 = k := by simpa using hq
        simp [hne]
    rw [hm]; exact h
  · rw [List.map_append, List.nodup_append]
    refine ⟨h, by simp, ?_⟩
    intro a ha hb
    simp only [List.map_cons, List.map_nil, List.mem_singleton] at hb
    subst hb
    apply h2
    simp only [List.any_eq_true]
    obtain ⟨q, hq, hqa⟩ := List.mem_map.mp ha
    exact ⟨q, hq, by simpa using hqa⟩

theorem parseBalance_fold (wallet : RawWallet) (entries : List RawBalance)
    (h : wallet.balances = some entries) :
    parseBalance wallet = .ok (entries.foldl parseBalance.step { available := [], total := [] }) := by
  unfold parseBalance
  simp only [h]
  rfl

theorem balance_fold_keys (l : List RawBalance) :
    ∀ (acc : Balance) (n : String),
      (n ∈ (l.foldl parseBalance.step acc).available.keys ↔
        n ∈ acc.available.keys ∨
          (n ≠ "__proto__" ∧ ∃ e ∈ l, normalizeCurrency e.currency = n))
      ∧ (n ∈ (l.foldl parseBalance.step acc).total.keys ↔
        n ∈ acc.total.keys ∨
          (n ≠ "__proto__" ∧ ∃ e ∈ l, normalizeCurrency e.currency = n)) := by
  induction l with
  | nil => intro acc n; simp
  | cons e l ih =>
    intro acc n
    rw [List.foldl_cons]
    obtain ⟨h1, h2⟩ := ih (parseBalance.step acc e) n
    rw [h1, h2]
    have hs1 := amountMap_keys_set acc.available (normalizeCurrency e.currency) n
      (toSmallestSubUnit e.availableBalance (normalizeCurrency e.currency))
    have hs2 := amountMap_keys_set acc.total (normalizeCurrency e.currency) n
      (toSmallestSubUnit e.totalBalance (normalizeCurrency e.currency))
    have e1 : (parseBalance.step acc e).available = acc.available.set
        (normalizeCurrency e.currency)
        (toSmallestSubUnit e.availableBalance (normalizeCurrency e.currency)) := rfl
    have e2 : (parseBalance.step acc e).total = acc.total.set
        (normalizeCurrency e.currency)
        (toSmallestSubUnit e.totalBalance (normalizeCurrency e.currency)) := rfl
    rw [e1, e2, hs1, hs2]
    constructor
    · constructor
      · rintro ((h | ⟨h, hp⟩) | ⟨hp, e', he', hn⟩)
        · exact Or.inl h
        · exact Or.inr ⟨by rw [h]; exact hp, e, List.mem_cons_self _ _, h.symm⟩
        · exact Or.inr ⟨hp, e', List.mem_cons_of_mem _ he', hn⟩
      · rintro (h | ⟨hp, e', he', hn⟩)
        · exact Or.inl (Or.inl h)
        · rcases List.mem_cons.mp he' with heq | hmem
          · subst heq
            exact Or.inl (Or.inr ⟨hn.symm, by rw [hn]; exact hp⟩)
          · exact Or.inr ⟨hp, e', hmem, hn⟩
    · constructor
      · rintro ((h | ⟨h, hp⟩) | ⟨hp, e', he', hn⟩)
        · exact Or.inl h
        · exact Or.inr ⟨by rw [h]; exact hp, e, List.mem_cons_self _ _, h.symm⟩
        · exact Or.inr ⟨hp, e', List.mem_cons_of_mem _ he', hn⟩
      · rintro (h | ⟨hp, e', he', hn⟩)
        · exact Or.inl (Or.inl h)
        · rcases List.mem_cons.mp he' with heq | hmem
          · subst heq
            exact Or.inl (Or.inr ⟨hn.symm, by rw [hn]; exact hp⟩)
          · exact Or.inr ⟨hp, e', hmem, hn⟩

theorem balance_fold_nodup (l : List RawBalance) :
    ∀ acc : Balance, acc.available.keys.Nodup → acc.total.keys.Nodup →
      (l.foldl parseBalance.step acc).available.keys.Nodup
        ∧ (l.foldl parseBalance.step acc).total.keys.Nodup := by
  induction l with
  | nil => intro acc h1 h2; exact ⟨h1, h2⟩
  | cons e l ih =>
    intro acc h1 h2
    rw [List.foldl_cons]
    exact ih _ (amountMap_keys_nodup _ _ _ h1) (amountMap_keys_nodup _ _ _ h2)

theorem balance_fold_other (l : List RawBalance) (n : String) :
    ∀ acc : Balance, (∀ e ∈ l, normalizeCurrency e.currency ≠ n) →
      (l.foldl parseBalance.step acc).available.get n = acc.available.get n
        ∧ (l.foldl parseBalance.step acc).total.get n = acc.total.get n := by
  induction l with
  | nil => intro acc _; exact ⟨rfl, rfl⟩
  | cons e l ih =>
    intro acc h
    rw [List.foldl_cons]
    obtain ⟨h1, h2⟩ := ih (parseBalance.step acc e)
      (fun e' he' => h e' (List.mem_cons_of_mem _ he'))
    have hne : n ≠ normalizeCurrency e.currency :=
      fun heq => h e (List.mem_cons_self _ _) heq.symm
    rw [h1, h2]
    exact ⟨amountMap_get_set_other _ _ _ _ hne, amountMap_get_set_other _ _ _ _ hne⟩

theorem balance_fold_last (before after : List RawBalance) (e : RawBalance) (acc : Balance)
    (hafter : ∀ e' ∈ after, normalizeCurrency e'.currency ≠ normalizeCurrency e.currency)
    (hp : normalizeCurrency e.currency ≠ "__proto__") :
    ((before ++ e :: after).foldl parseBalance.step acc).available.get
        (normalizeCurrency e.currency)
      = some (toSmallestSubUnit e.availableBalance (normalizeCurrency e.currency))
    ∧ ((before ++ e :: after).foldl parseBalance.step acc).total.get
        (normalizeCurrency e.currency)
      = some (toSmallestSubUnit e.totalBalance (normalizeCurrency e.currency)) := by
  rw [List.foldl_append, List.foldl_cons]
  obtain ⟨h1, h2⟩ := balance_fold_other after (normalizeCurrency e.currency)
    (parseBalance.step (before.foldl parseBalance.step acc) e) hafter
  rw [h1, h2]
  exact ⟨amountMap_get_set_same _ _ _ hp, amountMap_get_set_same _ _ _ hp⟩

theorem toSmallestSubUnit_of_literal (neg : Bool) (m d : ℕ) (c : String)
    (h : (m : ℚ) / 10 ^ d ≤ 2 ^ (900 : ℕ)) :
    ∃ k : ℤ, toSmallestSubUnit (.numeric (.fixed neg m d)) c = .finite k := by
  have hv : |NumericString.decimalValue neg m d| ≤ 2 ^ (900 : ℕ) := by
    unfold NumericString.decimalValue
    have h0 : (0 : ℚ) ≤ (m : ℚ) / 10 ^ d :=
      div_nonneg (Nat.cast_nonneg m) (pow_nonneg (by norm_num) d)
    cases neg
    · simp only [Bool.false_eq_true, if_false, one_mul]
      rw [abs_of_nonneg h0]; exact h
    · simp only [if_true]
      rw [show (-1 : ℚ) * (m : ℚ) / 10 ^ d = -((m : ℚ) / 10 ^ d) by ring, abs_neg,
        abs_of_nonneg h0]
      exact h
  have h1 := roundDouble_finite (NumericString.decimalValue neg m d)
    (le_trans hv (pow_le_pow_right₀ (by norm_num) (by norm_num)))
  have h2 := roundFinite_abs_le (NumericString.decimalValue neg m d)
  obtain ⟨_, hP⟩ := pow_decimals_bounds c
  have h3 : |roundFinite (NumericString.decimalValue neg m d) * 10 ^ getDecimalsForCurrency c|
      ≤ 2 ^ (1000 : ℕ) := by
    rw [abs_mul, abs_of_pos (by positivity : (0 : ℚ) < 10 ^ getDecimalsForCurrency c)]
    have e1 : |roundFinite (NumericString.decimalValue neg m d)| ≤ 2 ^ (902 : ℕ) := by
      have : (2 : ℚ) * 2 ^ (900 : ℕ) + 1 ≤ 2 ^ (902 : ℕ) := by
        have : (1 : ℚ) ≤ 2 ^ (900 : ℕ) := one_le_pow₀ (by norm_num)
        have : (2 : ℚ) ^ (902 : ℕ) = 4 * 2 ^ (900 : ℕ) := by
          rw [show (902 : ℕ) = 2 + 900 by norm_num, pow_add]; norm_num
        linarith
      linarith
    have e2 : (10 : ℚ) ^ getDecimalsForCurrency c ≤ 2 ^ (27 : ℕ) :=
      le_trans hP (by norm_num)
    calc |roundFinite (NumericString.decimalValue neg m d)| * 10 ^ getDecimalsForCurrency c
        ≤ 2 ^ (902 : ℕ) * 2 ^ (27 : ℕ) :=
          mul_le_mul e1 e2 (by positivity) (by positivity)
      _ ≤ 2 ^ (1000 : ℕ) := by
          rw [← pow_add]; exact pow_le_pow_right₀ (by norm_num) (by norm_num)
  have key : toSmallestSubUnit (.numeric (.fixed neg m d)) c
      = toSmallestSubUnit (.number (.finite (roundFinite (NumericString.decimalValue neg m d))))
          c := by
    unfold toSmallestSubUnit
    simp only [JsValue.toNumber, NumericString.toNumber]
    rw [h1]
  exact ⟨_, key.trans (toSmallestSubUnit_finite _ c h3)⟩

/-! ## C23: the balances of a wallet -/

/-- C23, counterexample: in a wallet that lists one bitcoin under `XBT` and then two under
`BTC`, both entries have the canonical code `BTC`; `available.BTC` is the amount of the
second entry, 200000000, not the 100000000 of the first.  An entry with the code
`__proto__` creates no key at all. -/
theorem parseBalance_of_repeated_code :
    (parseBalance sampleDoubleWallet).toOption.map (fun r => (r.available, r.total))
      = some ([("BTC", .finite 200000000)], [("BTC", .finite 200000000)])
    ∧ toSmallestSubUnit (.numeric (.fixed false 1 0)) (normalizeCurrency "XBT")
      = .finite 100000000
    ∧ (parseBalance
        { balances := some
            [ { currency := "__proto__", availableBalance := .numeric (.fixed false 1 0)
                totalBalance := .numeric (.fixed false 1 0) } ] }).toOption.map
          (fun r => (r.available.keys, r.total.keys))
      = some ([], []) := by
  refine ⟨by decide!, by decide!, by decide!⟩

/-- C23 (as amended): for every wallet response with a list of balances, `parseBalance`
returns mappings `available` and `total` whose keys are, each once, exactly the canonical
codes of the entries (`XBT` becomes `BTC`) other than `__proto__`; for every entry that is
the last one with its canonical code `n`, `available[n]` is
`toSmallestSubUnit(availableBalance, n)` and `total[n]` is
`toSmallestSubUnit(totalBalance, n)`; and the conversion of a decimal numeral of value up
to `2^900` is an integer. -/
theorem parseBalance_entries (wallet : RawWallet) (entries : List RawBalance)
    (h : wallet.balances = some entries) :
    ∃ result : Balance, parseBalance wallet = .ok result
      ∧ (∀ n : String, n ∈ result.available.keys ↔
          (n ≠ "__proto__" ∧ ∃ e ∈ entries, normalizeCurrency e.currency = n))
      ∧ (∀ n : String, n ∈ result.total.keys ↔
          (n ≠ "__proto__" ∧ ∃ e ∈ entries, normalizeCurrency e.currency = n))
      ∧ result.available.keys.Nodup ∧ result.total.keys.Nodup
      ∧ (∀ (before after : List RawBalance) (e : RawBalance),
          entries = before ++ e :: after →
          (∀ e' ∈ after, normalizeCurrency e'.currency ≠ normalizeCurrency e.currency) →
          normalizeCurrency e.currency ≠ "__proto__" →
          result.available.get (normalizeCurrency e.currency)
              = some (toSmallestSubUnit e.availableBalance (normalizeCurrency e.currency))
            ∧ result.total.get (normalizeCurrency e.currency)
              = some (toSmallestSubUnit e.totalBalance (normalizeCurrency e.currency)))
      ∧ (∀ (neg : Bool) (m d : ℕ) (c : String), (m : ℚ) / 10 ^ d ≤ 2 ^ (900 : ℕ) →
          ∃ k : ℤ, toSmallestSubUnit (.numeric (.fixed neg m d)) c = .finite k) := by
  refine ⟨_, parseBalance_fold wallet entries h, ?_, ?_, ?_, ?_, ?_, ?_⟩
  · intro n
    rw [(balance_fold_keys entries _ n).1]
    simp [AmountMap.keys]
  · intro n
    rw [(balance_fold_keys entries _ n).2]
    simp [AmountMap.keys]
  · exact (balance_fold_nodup entries { available := [], total := [] } List.nodup_nil
      List.nodup_nil).1
  · exact (balance_fold_nodup entries { available := [], total := [] } List.nodup_nil
      List.nodup_nil).2
  · intro before after e he hafter hp
    rw [he]
    exact balance_fold_last before after e _ hafter hp
  · intro neg m d c hm
    exact toSmallestSubUnit_of_literal neg m d c hm

/-- C23, witness: the wallet of the tests has the keys `USD`, `BTC`, `EUR`, `SGD`, with
`available.BTC` = 10000000100, `total.BTC` = 10000000000 and `available.USD` = 5000000. -/
theorem parseBalance_entries_witness :
    sampleWallet.balances.isSome = true
      ∧ ∃ result : Balance, parseBalance sampleWallet = .ok result
        ∧ result.available.get "BTC" = some (.finite 10000000100)
        ∧ result.total.get "BTC" = some (.finite 10000000000)
        ∧ ("BTC" ∈ result.available.keys ∧ "XBT" ∉ result.available.keys)
        ∧ (parseBalance sampleWallet).toOption.map (fun r => r.available)
          = some [("USD", .finite 5000000), ("BTC", .finite 10000000100),
              ("EUR", .finite 10000), ("SGD", .finite 10000)] := by
  obtain ⟨r, h1, h2, _, _, _, h6, _⟩ := parseBalance_entries sampleWallet _ rfl
  have hb := h6
    [{ currency := "USD", availableBalance := .numeric (.fixed false 500000000000 7)
       totalBalance := .numeric (.fixed false 500000000000 7) }]
    [{ currency := "EUR", availableBalance := .numeric (.fixed false 1000000000 7)
       totalBalance := .numeric (.fixed false 1000000000 7) },
     { currency := "SGD", availableBalance := .numeric (.fixed false 1000000000 7)
       totalBalance := .numeric (.fixed false 1000000000 7) }]
    { currency := "XBT", availableBalance := .numeric (.fixed false 1000000010 7)
      totalBalance := .numeric (.fixed false 1000000000 7) }
    rfl (by decide) (by decide)
  refine ⟨rfl, r, h1, ?_, ?_, ⟨?_, ?_⟩, by decide!⟩
  · have e : normalizeCurrency "XBT" = "BTC" := by decide
    have := hb.1
    simp only [e] at this
    rw [this]
    exact congrArg some (by decide!)
  · have e : normalizeCurrency "XBT" = "BTC" := by decide
    have := hb.2
    simp only [e] at this
    rw [this]
    exact congrArg some (by decide!)
  · rw [h2]
    exact ⟨by decide, _, List.mem_cons_of_mem _ (List.mem_cons_self _ _), by decide⟩
  · rw [h2]
    rintro ⟨_, e, he, hn⟩
    unfold normalizeCurrency at hn
    split_ifs at hn with hx
    · exact absurd hn (by decide)
    · exact hx hn

/-! ## Facts about the parser of transactions -/

theorem getUniqueTransactionId_eq (E : Engine) (t : RawTransaction) :
    getUniqueTransactionId E t =
      match uniqueKeyBySpec t with
      | some key => .ok (E.sha256 key)
      | none => .error ⟨"TypeError", "Unknown unique identifier for transaction"⟩ := by
  obtain ⟨status, ty, wid, hash, time, cur, amount⟩ := t
  unfold getUniqueTransactionId uniqueKeyBySpec
  simp only
  by_cases hW : ty = some "Withdrawal"
  · subst hW
    cases wid with
    | none => simp
    | some n =>
      cases n with
      | zero => simp
      | succ id => simp
  · have hfirst : ¬ (ty = some "Withdrawal" ∧ wid.isSome = true ∧ wid ≠ some 0) :=
      fun h => hW h.1
    rw [if_neg hfirst]
    split
    · rename_i e heq
      split at heq
      · rename_i id
        exact absurd rfl hW
      · split_ifs at heq with h1 h2
        · rw [if_neg h1, if_neg h2]
          injection heq with heq
          rw [← heq]
    · rename_i key heq
      split at heq
      · rename_i id
        exact absurd rfl hW
      · split_ifs at heq with h1 h2
        · rw [if_pos h1]
          injection heq with heq
          cases hash with
          | none => simp [truthy] at h1
          | some s => rw [← heq]; rfl
        · rw [if_neg h1, if_pos h2]
          injection heq with heq
          rw [← heq]

theorem getUniqueTransactionId_congr (E : Engine) (t u : RawTransaction)
    (h1 : t.transactionType = u.transactionType) (h2 : t.withdrawalId = u.withdrawalId)
    (h3 : t.txnHash = u.txnHash) (h4 : t.time = u.time) (h5 : t.currency = u.currency) :
    getUniqueTransactionId E t = getUniqueTransactionId E u := by
  rw [getUniqueTransactionId_eq, getUniqueTransactionId_eq]
  unfold uniqueKeyBySpec
  rw [h1, h2, h3, h4, h5]

theorem parseTransaction_warnings (E : Engine) (t : RawTransaction) (log : Bool) :
    (parseTransaction E t log).warnings =
      if t.status = some "completed" ∨ t.status = some "cancelled" ∨ t.status = some "relayed"
      then [] else (if log then [t] else []) := rfl

theorem parseTransaction_ok (E : Engine) (t : RawTransaction) (log : Bool)
    (type id tm ts : String)
    (htype : (t.transactionType = some "Withdrawal" ∧ type = "withdrawal")
      ∨ (t.transactionType = some "Deposit" ∧ type = "deposit"))
    (hid : getUniqueTransactionId E t = .ok id) (htime : t.time = some tm)
    (hdate : (E.dateParse (withZone tm)).bind toISOString = some ts) :
    (parseTransaction E t log).result = .ok
      { state :=
          if t.status = some "completed" ∨ t.status = some "cancelled"
              ∨ t.status = some "relayed" then t.status else none
        type := type
        externalId := id
        currency := t.currency.map normalizeCurrency
        amount :=
          if type = "withdrawal" then
            (toSmallestSubUnit t.amount (codeOf (t.currency.map normalizeCurrency))).neg
          else toSmallestSubUnit t.amount (codeOf (t.currency.map normalizeCurrency))
        timestamp := ts
        chainTxId := if truthy t.txnHash then t.txnHash else none
        raw := t } := by
  unfold parseTransaction
  simp only
  rcases htype with ⟨hty, rfl⟩ | ⟨hty, rfl⟩
  · simp only [hty, if_true, hid, htime, hdate]
  · have : ¬ (some "Deposit" = some "Withdrawal") := by decide
    simp only [hty, this, if_false, if_true, hid, htime, hdate]

theorem parseTransaction_inv (E : Engine) (t : RawTransaction) (log : Bool)
    (r : Transaction) (h : (parseTransaction E t log).result = .ok r) :
    ∃ tm : String,
      ((t.transactionType = some "Withdrawal" ∧ r.type = "withdrawal")
        ∨ (t.transactionType = some "Deposit" ∧ r.type = "deposit"))
      ∧ getUniqueTransactionId E t = .ok r.externalId
      ∧ t.time = some tm
      ∧ (E.dateParse (withZone tm)).bind toISOString = some r.timestamp
      ∧ r = { state :=
                if t.status = some "completed" ∨ t.status = some "cancelled"
                    ∨ t.status = some "relayed" then t.status else none
              type := r.type
              externalId := r.externalId
              currency := t.currency.map normalizeCurrency
              amount :=
                if r.type = "withdrawal" then
                  (toSmallestSubUnit t.amount (codeOf (t.currency.map normalizeCurrency))).neg
                else toSmallestSubUnit t.amount (codeOf (t.currency.map normalizeCurrency))
              timestamp := r.timestamp
              chainTxId := if truthy t.txnHash then t.txnHash else none
              raw := t } := by
  unfold parseTransaction at h
  simp only at h
  split at h
  · exact absurd h (by simp)
  · rename_i type htype
    split at h
    · exact absurd h (by simp)
    · rename_i id hid
      split at h
      · exact absurd h (by simp)
      · rename_i tm htm
        split at h
        · exact absurd h (by simp)
        · rename_i ts hts
          injection h with h
          subst h
          refine ⟨tm, ?_, hid, htm, hts, rfl⟩
          split_ifs at htype with hW hD
          · injection htype with htype
            exact Or.inl ⟨hW, htype.symm⟩
          · injection htype with htype
            exact Or.inr ⟨hD, htype.symm⟩

/-! ## C24: the unique id of a transaction -/

/-- C24: `getUniqueTransactionId(t)` is the SHA-256 digest, in hexadecimal, of the key
that the specification describes case by case (`uniqueKeyBySpec`): the withdrawal id of a
withdrawal that carries one, else the transaction hash of a deposit that carries one, else
time, a dash and currency of a deposit that carries both.  It throws a `TypeError` exactly
when no case applies, as for the empty object.  The id has the form of the digest: 64
hexadecimal characters when the digests of the engine have. -/
theorem getUniqueTransactionId_by_case (E : Engine) (t : RawTransaction) :
    (∀ key : String, uniqueKeyBySpec t = some key →
        getUniqueTransactionId E t = .ok (E.sha256 key))
    ∧ (uniqueKeyBySpec t = none → getUniqueTransactionId E t
        = .error ⟨"TypeError", "Unknown unique identifier for transaction"⟩)
    ∧ ((∃ e : JsError, getUniqueTransactionId E t = .error e) ↔ uniqueKeyBySpec t = none)
    ∧ ((∀ s : String, isHexDigest (E.sha256 s) = true) →
        ∀ id : String, getUniqueTransactionId E t = .ok id → isHexDigest id = true)
    ∧ uniqueKeyBySpec
        { status := none, transactionType := none, withdrawalId := none, txnHash := none
          time := none, currency := none, amount := .undefined } = none := by
  have h := getUniqueTransactionId_eq E t
  refine ⟨?_, ?_, ?_, ?_, by decide⟩
  · intro key hk
    rw [h, hk]
  · intro hk
    rw [h, hk]
  · rw [h]
    cases uniqueKeyBySpec t with
    | none => simp
    | some key => simp
  · intro hE id hid
    rw [h] at hid
    cases hk : uniqueKeyBySpec t with
    | none => rw [hk] at hid; exact absurd hid (by simp)
    | some key =>
      rw [hk] at hid
      injection hid with hid
      rw [← hid]
      exact hE key

/-- C24, witness: with an engine whose digest is the identity, the withdrawal 6721 of the
tests has the key `6721`, the bitcoin deposit of the tests its transaction hash, the
dollar deposit of the tests its time, a dash and `USD`; the empty object has no key. -/
theorem getUniqueTransactionId_by_case_witness :
    getUniqueTransactionId sampleEngine
        { status := some "completed", transactionType := some "Withdrawal"
          withdrawalId := some 6721, txnHash := none
          time := some "2015-02-03T15:08:41.2500000", currency := some "XBT"
          amount := .numeric (.fixed false 2906460000 8) } = .ok "6721"
    ∧ getUniqueTransactionId sampleEngine
        { status := some "completed", transactionType := some "Deposit"
          withdrawalId := none, txnHash := some "e0eb1dcf2070c05b"
          time := some "2015-06-11T11:52:21.3200000", currency := some "XBT"
          amount := .numeric (.fixed false 500000000 8) } = .ok "e0eb1dcf2070c05b"
    ∧ getUniqueTransactionId sampleEngine
        { status := some "completed", transactionType := some "Deposit"
          withdrawalId := none, txnHash := none
          time := some "2015-01-06T02:13:09.3770000", currency := some "USD"
          amount := .numeric (.fixed false 599500000000 8) }
        = .ok "2015-01-06T02:13:09.3770000-USD"
    ∧ getUniqueTransactionId sampleEngine
        { status := none, transactionType := none, withdrawalId := none, txnHash := none
          time := none, currency := none, amount := .undefined }
        = .error ⟨"TypeError", "Unknown unique identifier for transaction"⟩ := by
  refine ⟨?_, ?_, ?_, ?_⟩
  · exact (getUniqueTransactionId_by_case sampleEngine _).1 "6721" (by decide)
  · exact (getUniqueTransactionId_by_case sampleEngine _).1 "e0eb1dcf2070c05b" (by decide)
  · exact (getUniqueTransactionId_by_case sampleEngine _).1
      "2015-01-06T02:13:09.3770000-USD" (by decide)
  · exact (getUniqueTransactionId_by_case sampleEngine _).2.1 (by decide)

/-! ## C25: the unique id does not depend on the amount -/

/-- C25: two remote transactions that agree on `transactionType`, `withdrawalId`,
`txnHash`, `time` and `currency` get the same result from `getUniqueTransactionId`,
whatever their amounts and statuses are; `parseTransaction` accepts both or neither, and
the records it returns for them have the same `externalId`. -/
theorem externalId_independent_of_amount (E : Engine) (t u : RawTransaction) (log : Bool)
    (h1 : t.transactionType = u.transactionType) (h2 : t.withdrawalId = u.withdrawalId)
    (h3 : t.txnHash = u.txnHash) (h4 : t.time = u.time) (h5 : t.currency = u.currency) :
    getUniqueTransactionId E t = getUniqueTransactionId E u
    ∧ ((∃ r : Transaction, (parseTransaction E t log).result = .ok r)
        ↔ (∃ s : Transaction, (parseTransaction E u log).result = .ok s))
    ∧ (∀ r s : Transaction, (parseTransaction E t log).result = .ok r →
        (parseTransaction E u log).result = .ok s → r.externalId = s.externalId) := by
  have hid := getUniqueTransactionId_congr E t u h1 h2 h3 h4 h5
  refine ⟨hid, ⟨?_, ?_⟩, ?_⟩
  · rintro ⟨r, hr⟩
    obtain ⟨tm, hty, hi, htm, hd, _⟩ := parseTransaction_inv E t log r hr
    rw [h1] at hty
    rw [hid] at hi
    rw [h4] at htm
    exact ⟨_, parseTransaction_ok E u log r.type r.externalId tm r.timestamp hty hi htm hd⟩
  · rintro ⟨s, hs⟩
    obtain ⟨tm, hty, hi, htm, hd, _⟩ := parseTransaction_inv E u log s hs
    rw [← h1] at hty
    rw [← hid] at hi
    rw [← h4] at htm
    exact ⟨_, parseTransaction_ok E t log s.type s.externalId tm s.timestamp hty hi htm hd⟩
  · intro r s hr hs
    obtain ⟨_, _, hi, _⟩ := parseTransaction_inv E t log r hr
    obtain ⟨_, _, hj, _⟩ := parseTransaction_inv E u log s hs
    rw [hid, hj] at hi
    exact (Except.ok.inj hi).symm

/-- C25, witness: the bitcoin deposit of the tests with the amount written `14.89980000`
and with the amount written `14.9` has the same `externalId`. -/
theorem externalId_independent_of_amount_witness :
    ∃ r s : Transaction,
      (parseTransaction sampleEngine (sampleDeposit "2015-02-04T18:52:39.127Z") true).result
        = .ok r
      ∧ (parseTransaction sampleEngine
          { sampleDeposit "2015-02-04T18:52:39.127Z" with
            amount := .numeric (.fixed false 149 1) } true).result = .ok s
      ∧ r.externalId = s.externalId ∧ r.amount ≠ s.amount := by
  have h := externalId_independent_of_amount sampleEngine
    (sampleDeposit "2015-02-04T18:52:39.127Z")
    { sampleDeposit "2015-02-04T18:52:39.127Z" with amount := .numeric (.fixed false 149 1) }
    true rfl rfl rfl rfl rfl
  have hr := parseTransaction_ok sampleEngine (sampleDeposit "2015-02-04T18:52:39.127Z") true
    "deposit" "b77ded84" "2015-02-04T18:52:39.127Z" "2015-02-04T18:52:39.127Z"
    (Or.inr ⟨rfl, rfl⟩) rfl rfl (by decide!)
  have hs := parseTransaction_ok sampleEngine
    { sampleDeposit "2015-02-04T18:52:39.127Z" with amount := .numeric (.fixed false 149 1) }
    true "deposit" "b77ded84" "2015-02-04T18:52:39.127Z" "2015-02-04T18:52:39.127Z"
    (Or.inr ⟨rfl, rfl⟩) rfl rfl (by decide!)
  refine ⟨_, _, hr, hs, h.2.2 _ _ hr hs, ?_⟩
  decide!

/-! ## C26: the type of a transaction -/

/-- C26: a record that `parseTransaction` returns has the type `withdrawal` when the
`transactionType` is `Withdrawal` and the type `deposit` when it is `Deposit`, and there is
no other case: for every other `transactionType`, absent or not, `parseTransaction` throws
a `TypeError` and returns no record.  A transaction of one of the two types whose unique
id and timestamp can be computed does get its record. -/
theorem parseTransaction_type (E : Engine) (t : RawTransaction) (log : Bool) :
    (∀ r : Transaction, (parseTransaction E t log).result = .ok r →
        (t.transactionType = some "Withdrawal" ∧ r.type = "withdrawal")
          ∨ (t.transactionType = some "Deposit" ∧ r.type = "deposit"))
    ∧ (t.transactionType ≠ some "Withdrawal" → t.transactionType ≠ some "Deposit" →
        ∃ e : JsError, (parseTransaction E t log).result = .error e ∧ e.name = "TypeError")
    ∧ (∀ id tm ts : String,
        getUniqueTransactionId E t = .ok id → t.time = some tm →
        (E.dateParse (withZone tm)).bind toISOString = some ts →
        (t.transactionType = some "Withdrawal" →
          ∃ r : Transaction, (parseTransaction E t log).result = .ok r ∧ r.type = "withdrawal")
        ∧ (t.transactionType = some "Deposit" →
          ∃ r : Transaction, (parseTransaction E t log).result = .ok r ∧ r.type = "deposit")) := by
  refine ⟨?_, ?_, ?_⟩
  · intro r hr
    obtain ⟨_, hty, _⟩ := parseTransaction_inv E t log r hr
    exact hty
  · intro hW hD
    unfold parseTransaction
    simp only [hW, hD, if_false]
    exact ⟨_, rfl, rfl⟩
  · intro id tm ts hid htm hd
    exact ⟨fun hW => ⟨_, parseTransaction_ok E t log "withdrawal" id tm ts
        (Or.inl ⟨hW, rfl⟩) hid htm hd, rfl⟩,
      fun hD => ⟨_, parseTransaction_ok E t log "deposit" id tm ts
        (Or.inr ⟨hD, rfl⟩) hid htm hd, rfl⟩⟩

/-- C26, witness: the withdrawal of one euro of the tests is parsed to a record of type
`withdrawal`; the same entry with the `transactionType` `Transfer` is rejected with a
`TypeError`. -/
theorem parseTransaction_type_witness :
    (∃ r : Transaction,
        (parseTransaction sampleEngine
          (sampleWithdrawal 94 (.numeric (.fixed false 100000000 8)) "relayed") true).result
          = .ok r ∧ r.type = "withdrawal")
    ∧ (∃ e : JsError,
        (parseTransaction sampleEngine
          { sampleWithdrawal 94 (.numeric (.fixed false 100000000 8)) "relayed" with
            transactionType := some "Transfer" } true).result = .error e
        ∧ e.name = "TypeError") := by
  refine ⟨?_, ?_⟩
  · exact ((parseTransaction_type sampleEngine
      (sampleWithdrawal 94 (.numeric (.fixed false 100000000 8)) "relayed") true).2.2
      "94" "2015-03-18T17:37:39.917Z" "2015-03-18T17:37:39.917Z" rfl rfl (by decide!)).1 rfl
  · exact (parseTransaction_type sampleEngine
      { sampleWithdrawal 94 (.numeric (.fixed false 100000000 8)) "relayed" with
        transactionType := some "Transfer" } true).2.1 (by decide) (by decide)

/-! ## C27: the status of a transaction -/

/-- C27: for every remote transaction of type `Withdrawal` or `Deposit` whose unique id
and timestamp can be computed, `parseTransaction` returns a record whatever the status is,
the same with and without a logger.  When the status is `completed`, `cancelled` or
`relayed`, the state of the record is that status and nothing is logged; for any other
status, absent or not, the record has no state and exactly one warning, carrying the
transaction, goes to the logger that was supplied. -/
theorem parseTransaction_status (E : Engine) (t : RawTransaction) (id tm ts : String)
    (htype : t.transactionType = some "Withdrawal" ∨ t.transactionType = some "Deposit")
    (hid : getUniqueTransactionId E t = .ok id) (htime : t.time = some tm)
    (hdate : (E.dateParse (withZone tm)).bind toISOString = some ts) :
    ∃ r : Transaction, (parseTransaction E t true).result = .ok r
      ∧ (parseTransaction E t false).result = .ok r
      ∧ r.raw = t
      ∧ ((t.status = some "completed" ∨ t.status = some "cancelled"
            ∨ t.status = some "relayed") →
          r.state = t.status ∧ (parseTransaction E t true).warnings = [])
      ∧ (¬ (t.status = some "completed" ∨ t.status = some "cancelled"
            ∨ t.status = some "relayed") →
          r.state = none ∧ (parseTransaction E t true).warnings = [t]
            ∧ (parseTransaction E t false).warnings = []) := by
  have hty : ∃ type : String,
      (t.transactionType = some "Withdrawal" ∧ type = "withdrawal")
        ∨ (t.transactionType = some "Deposit" ∧ type = "deposit") := by
    rcases htype with h | h
    · exact ⟨"withdrawal", Or.inl ⟨h, rfl⟩⟩
    · exact ⟨"deposit", Or.inr ⟨h, rfl⟩⟩
  obtain ⟨type, hty⟩ := hty
  refine ⟨_, parseTransaction_ok E t true type id tm ts hty hid htime hdate,
    parseTransaction_ok E t false type id tm ts hty hid htime hdate, rfl, ?_, ?_⟩
  · intro hk
    rw [parseTransaction_warnings]
    simp only [hk, if_true, and_self]
  · intro hk
    rw [parseTransaction_warnings, parseTransaction_warnings]
    simp [hk]

/-- C27, witness: the withdrawal of the tests with the status `pending` is parsed to a
record without state, and one warning is logged; with the status `relayed` the state is
`relayed`. -/
theorem parseTransaction_status_witness :
    (∃ r : Transaction,
        (parseTransaction sampleEngine
          (sampleWithdrawal 94 (.numeric (.fixed false 100000000 8)) "pending") true).result
          = .ok r
        ∧ r.state = none
        ∧ (parseTransaction sampleEngine
            (sampleWithdrawal 94 (.numeric (.fixed false 100000000 8)) "pending") true).warnings
          = [sampleWithdrawal 94 (.numeric (.fixed false 100000000 8)) "pending"])
    ∧ (∃ r : Transaction,
        (parseTransaction sampleEngine
          (sampleWithdrawal 94 (.numeric (.fixed false 100000000 8)) "relayed") true).result
          = .ok r
        ∧ r.state = some "relayed") := by
  obtain ⟨r, h1, _, _, _, h5⟩ := parseTransaction_status sampleEngine
    (sampleWithdrawal 94 (.numeric (.fixed false 100000000 8)) "pending")
    "94" "2015-03-18T17:37:39.917Z" "2015-03-18T17:37:39.917Z" (Or.inl rfl) rfl rfl
    (by decide!)
  obtain ⟨s, g1, _, _, g4, _⟩ := parseTransaction_status sampleEngine
    (sampleWithdrawal 94 (.numeric (.fixed false 100000000 8)) "relayed")
    "94" "2015-03-18T17:37:39.917Z" "2015-03-18T17:37:39.917Z" (Or.inl rfl) rfl rfl
    (by decide!)
  have hk := h5 (by decide)
  exact ⟨⟨r, h1, hk.1, hk.2.1⟩, ⟨s, g1, (g4 (Or.inr (Or.inr rfl))).1⟩⟩

/-! ## C28: the sign of the amount of a transaction -/

theorem toSmallestSubUnit_literal_pos (m d : ℕ) (c : String)
    (h1 : 1 ≤ (m : ℚ) / 10 ^ d * 10 ^ getDecimalsForCurrency c)
    (h2 : (m : ℚ) / 10 ^ d ≤ 2 ^ (900 : ℕ)) :
    ∃ k : ℤ, toSmallestSubUnit (.numeric (.fixed false m d)) c = .finite k ∧ 0 < k := by
  have hv : NumericString.decimalValue false m d = (m : ℚ) / 10 ^ d := by
    unfold NumericString.decimalValue
    simp
  have h0 : (0 : ℚ) ≤ (m : ℚ) / 10 ^ d :=
    div_nonneg (Nat.cast_nonneg m) (pow_nonneg (by norm_num) d)
  have hfin := roundDouble_finite ((m : ℚ) / 10 ^ d)
    (by rw [abs_of_nonneg h0]; exact le_trans h2 (pow_le_pow_right₀ (by norm_num) (by norm_num)))
  have hup := roundFinite_abs_le ((m : ℚ) / 10 ^ d)
  rw [abs_of_nonneg h0] at hup
  have hup2 := le_trans (le_abs_self _) hup
  have key : toSmallestSubUnit (.numeric (.fixed false m d)) c
      = toSmallestSubUnit (.number (.finite (roundFinite ((m : ℚ) / 10 ^ d)))) c := by
    unfold toSmallestSubUnit
    simp only [JsValue.toNumber, NumericString.toNumber]
    rw [hv, hfin]
  rw [key]
  have hbig : roundFinite ((m : ℚ) / 10 ^ d) ≤ 2 ^ (902 : ℕ) := by
    have : (1 : ℚ) ≤ 2 ^ (900 : ℕ) := one_le_pow₀ (by norm_num)
    have : (2 : ℚ) ^ (902 : ℕ) = 4 * 2 ^ (900 : ℕ) := by
      rw [show (902 : ℕ) = 2 + 900 by norm_num, pow_add]; norm_num
    linarith
  have hs0 : 0 ≤ roundFinite ((m : ℚ) / 10 ^ d) := roundFinite_nonneg _ h0
  apply toSmallestSubUnit_pos
  · rcases getDecimalsForCurrency_cases c with hd | hd <;> rw [hd] at h1 ⊢
    · have e1 : (1 : ℚ) / 10 ^ 8 ≤ (m : ℚ) / 10 ^ d := by
        rw [div_le_iff₀ (by norm_num)]; exact h1
      have e2 := roundFinite_mono _ _ e1
      have e3 : (99 : ℚ) / 10 ^ 10 ≤ roundFinite (1 / 10 ^ 8) := by decide!
      have : (99 : ℚ) / 100 = 99 / 10 ^ 10 * 10 ^ 8 := by norm_num
      rw [this]
      exact mul_le_mul_of_nonneg_right (le_trans e3 e2) (by norm_num)
    · have e1 : (1 : ℚ) / 10 ^ 2 ≤ (m : ℚ) / 10 ^ d := by
        rw [div_le_iff₀ (by norm_num)]; exact h1
      have e2 := roundFinite_mono _ _ e1
      have e3 : (99 : ℚ) / 10 ^ 4 ≤ roundFinite (1 / 10 ^ 2) := by decide!
      have : (99 : ℚ) / 100 = 99 / 10 ^ 4 * 10 ^ 2 := by norm_num
      rw [this]
      exact mul_le_mul_of_nonneg_right (le_trans e3 e2) (by norm_num)
  · obtain ⟨_, hP⟩ := pow_decimals_bounds c
    have e2 : (10 : ℚ) ^ getDecimalsForCurrency c ≤ 2 ^ (27 : ℕ) := le_trans hP (by norm_num)
    calc roundFinite ((m : ℚ) / 10 ^ d) * 10 ^ getDecimalsForCurrency c
        ≤ 2 ^ (902 : ℕ) * 2 ^ (27 : ℕ) := mul_le_mul hbig e2 (by positivity) (by positivity)
      _ ≤ 2 ^ (1000 : ℕ) := by
          rw [← pow_add]; exact pow_le_pow_right₀ (by norm_num) (by norm_num)

/-- C28, counterexample: the withdrawal of `0.00100000` euro is accepted and its amount is
0, which is not below zero. -/
theorem parseTransaction_zero_withdrawal :
    (parseTransaction sampleEngine
        (sampleWithdrawal 94 (.numeric (.fixed false 100000 8)) "completed")
        true).result.toOption.map (fun r => (r.type, r.amount))
      = some ("withdrawal", .finite 0)
    ∧ (JsNumber.finite 0).lt (.finite 0) = false := by
  refine ⟨by decide!, by decide⟩

/-- C28 (as amended): for every remote transaction of type `Withdrawal` that
`parseTransaction` accepts, the resulting amount is the negation of
`toSmallestSubUnit(raw amount, canonical currency)`: strictly negative whenever that
conversion is positive, as it is for a decimal numeral of at least one sub-unit (and up to
`2^900`); for a `Deposit` the amount is the conversion, not negated. -/
theorem parseTransaction_amount (E : Engine) (t : RawTransaction) (log : Bool)
    (r : Transaction) (h : (parseTransaction E t log).result = .ok r) :
    r.currency = t.currency.map normalizeCurrency
    ∧ (t.transactionType = some "Withdrawal" →
        r.amount = (toSmallestSubUnit t.amount (codeOf r.currency)).neg
        ∧ (∀ k : ℚ, 0 < k → toSmallestSubUnit t.amount (codeOf r.currency) = .finite k →
            r.amount = .finite (-k) ∧ -k < 0)
        ∧ (∀ m d : ℕ, t.amount = .numeric (.fixed false m d) →
            1 ≤ (m : ℚ) / 10 ^ d * 10 ^ getDecimalsForCurrency (codeOf r.currency) →
            (m : ℚ) / 10 ^ d ≤ 2 ^ (900 : ℕ) →
            ∃ k : ℤ, r.amount = .finite k ∧ k < 0))
    ∧ (t.transactionType = some "Deposit" →
        r.amount = toSmallestSubUnit t.amount (codeOf r.currency)) := by
  obtain ⟨tm, hty, _, _, _, hr⟩ := parseTransaction_inv E t log r h
  have hcur : r.currency = t.currency.map normalizeCurrency := by rw [hr]
  have hamt : r.amount =
      if r.type = "withdrawal" then (toSmallestSubUnit t.amount (codeOf r.currency)).neg
      else toSmallestSubUnit t.amount (codeOf r.currency) := by
    rw [hcur]
    conv_lhs => rw [hr]
  refine ⟨hcur, ?_, ?_⟩
  · intro hW
    have htype : r.type = "withdrawal" := by
      rcases hty with ⟨_, h2⟩ | ⟨h1, _⟩
      · exact h2
      · rw [hW] at h1; exact absurd h1 (by decide)
    rw [htype] at hamt
    simp only [if_true] at hamt
    refine ⟨hamt, ?_, ?_⟩
    · intro k hk hs
      rw [hamt, hs]
      exact ⟨rfl, by linarith⟩
    · intro m d hm h1 h2
      obtain ⟨k, hk1, hk2⟩ := toSmallestSubUnit_literal_pos m d (codeOf r.currency) h1 h2
      rw [hamt, hm, hk1]
      refine ⟨-k, ?_, by omega⟩
      show JsNumber.finite (-(k : ℚ)) = _
      push_cast
      rfl
  · intro hD
    have htype : ¬ r.type = "withdrawal" := by
      rcases hty with ⟨h1, _⟩ | ⟨_, h2⟩
      · rw [hD] at h1; exact absurd h1 (by decide)
      · rw [h2]; decide
    rw [hamt, if_neg htype]

/-- C28, witness: the withdrawal of `1.00000000` euro of the tests has the amount -100,
and the deposit of `14.89980000` XBT of the tests has the amount 1489980000. -/
theorem parseTransaction_amount_witness :
    (∃ r : Transaction,
        (parseTransaction sampleEngine
          (sampleWithdrawal 94 (.numeric (.fixed false 100000000 8)) "relayed") true).result
          = .ok r
        ∧ r.amount = .finite (-100))
    ∧ (parseTransaction sampleEngine (sampleDeposit "2015-02-04T18:52:39.127Z")
        true).result.toOption.map (fun r => r.amount) = some (.finite 1489980000) := by
  have hr := parseTransaction_ok sampleEngine
    (sampleWithdrawal 94 (.numeric (.fixed false 100000000 8)) "relayed") true
    "withdrawal" "94" "2015-03-18T17:37:39.917Z" "2015-03-18T17:37:39.917Z"
    (Or.inl ⟨rfl, rfl⟩) rfl rfl (by decide!)
  have h := (parseTransaction_amount sampleEngine _ true _ hr).2.1 rfl
  refine ⟨⟨_, hr, ?_⟩, by decide!⟩
  rw [h.1]
  decide!

/-! ## Facts about the reading of decimal literals -/

theorem isDigit_iff (c : Char) : c.isDigit = true ↔ 48 ≤ c.toNat ∧ c.toNat ≤ 57 := by
  unfold Char.isDigit Char.toNat
  simp only [Bool.and_eq_true, decide_eq_true_eq, ge_iff_le, UInt32.le_def]
  rfl

theorem not_space_of_toNat (c : Char) (h : 33 ≤ c.toNat ∧ c.toNat ≤ 126) :
    isStrWhiteSpaceChar c = false := by
  unfold isStrWhiteSpaceChar
  generalize c.toNat = k at h
  obtain ⟨h1, h2⟩ := h
  interval_cases k <;> rfl

theorem radixOf_of_toNat (c : Char) (h : 46 ≤ c.toNat ∧ c.toNat ≤ 57) : radixOf c = 0 := by
  have hne : ∀ e : Char, 57 < e.toNat → c ≠ e := by
    intro e he hce
    rw [hce] at h
    omega
  unfold radixOf
  rw [if_neg, if_neg, if_neg]
  · rintro (h1 | h1)
    · exact hne _ (by decide) h1
    · exact hne _ (by decide) h1
  · rintro (h1 | h1)
    · exact hne _ (by decide) h1
    · exact hne _ (by decide) h1
  · rintro (h1 | h1)
    · exact hne _ (by decide) h1
    · exact hne _ (by decide) h1

theorem digitChar_digit : ∀ k : ℕ, k < 10 →
    (Nat.digitChar k).isDigit = true ∧ (Nat.digitChar k).toNat - 48 = k := by decide

theorem ofNat_digit : ∀ k : ℕ, k < 10 →
    (Char.ofNat (48 + k)).isDigit = true ∧ (Char.ofNat (48 + k)).toNat - 48 = k := by decide

theorem digitsNat_append (a b : List Char) :
    digitsNat (a ++ b) = b.foldl (fun n c => 10 * n + (c.toNat - 48)) (digitsNat a) := by
  unfold digitsNat
  rw [List.foldl_append]

theorem toDigitsCore_spec : ∀ (fuel n : ℕ) (ds : List Char), n < fuel →
    ∃ l : List Char, Nat.toDigitsCore 10 fuel n ds = l ++ ds ∧ l ≠ []
      ∧ (∀ c ∈ l, c.isDigit = true) ∧ digitsNat l = n := by
  intro fuel
  induction fuel with
  | zero => intro n ds h; omega
  | succ fuel ih =>
    intro n ds h
    obtain ⟨d1, d2⟩ := digitChar_digit (n % 10) (Nat.mod_lt _ (by norm_num))
    unfold Nat.toDigitsCore
    simp only
    by_cases h0 : n / 10 = 0
    · rw [if_pos h0]
      refine ⟨[Nat.digitChar (n % 10)], rfl, by simp, ?_, ?_⟩
      · intro c hc
        simp only [List.mem_singleton] at hc
        rw [hc]; exact d1
      · show 10 * 0 + ((Nat.digitChar (n % 10)).toNat - 48) = n
        rw [d2]
        omega
    · rw [if_neg h0]
      obtain ⟨l, e1, _, e3, e4⟩ := ih (n / 10) (Nat.digitChar (n % 10) :: ds) (by omega)
      refine ⟨l ++ [Nat.digitChar (n % 10)], ?_, by simp, ?_, ?_⟩
      · rw [e1]; simp
      · intro c hc
        rw [List.mem_append] at hc
        rcases hc with hc | hc
        · exact e3 c hc
        · simp only [List.mem_singleton] at hc
          rw [hc]; exact d1
      · rw [digitsNat_append, e4]
        show 10 * (n / 10) + ((Nat.digitChar (n % 10)).toNat - 48) = n
        rw [d2]
        omega

theorem toDigits_spec (n : ℕ) :
    Nat.toDigits 10 n ≠ [] ∧ (∀ c ∈ Nat.toDigits 10 n, c.isDigit = true)
      ∧ digitsNat (Nat.toDigits 10 n) = n := by
  obtain ⟨l, e1, e2, e3, e4⟩ := toDigitsCore_spec (n + 1) n [] (by omega)
  have : Nat.toDigits 10 n = l := by
    unfold Nat.toDigits
    rw [e1, List.append_nil]
  rw [this]
  exact ⟨e2, e3, e4⟩

theorem fractionDigits_succ (n d : ℕ) :
    NumericString.fractionDigits n (d + 1)
      = Char.ofNat (48 + n / 10 ^ d % 10) :: NumericString.fractionDigits n d := by
  unfold NumericString.fractionDigits
  rw [List.range_succ, List.reverse_append]
  rfl

theorem fractionDigits_spec (n : ℕ) : ∀ d : ℕ,
    (NumericString.fractionDigits n d).length = d
      ∧ (∀ c ∈ NumericString.fractionDigits n d, c.isDigit = true)
      ∧ ∀ m : ℕ, (NumericString.fractionDigits n d).foldl
          (fun n c => 10 * n + (c.toNat - 48)) m = m * 10 ^ d + n % 10 ^ d := by
  intro d
  induction d with
  | zero =>
    refine ⟨rfl, fun c hc => ?_, fun m => ?_⟩
    · simp [NumericString.fractionDigits] at hc
    · simp [NumericString.fractionDigits, Nat.mod_one]
  | succ d ih =>
    obtain ⟨i1, i2, i3⟩ := ih
    obtain ⟨d1, d2⟩ := ofNat_digit (n / 10 ^ d % 10) (Nat.mod_lt _ (by norm_num))
    rw [fractionDigits_succ]
    refine ⟨by simp [i1], ?_, ?_⟩
    · intro c hc
      rw [List.mem_cons] at hc
      rcases hc with hc | hc
      · rw [hc]; exact d1
      · exact i2 c hc
    · intro m
      rw [List.foldl_cons, i3, d2, Nat.mod_pow_succ]
      ring

theorem spanDigits_append (ds rest : List Char) (hds : ∀ c ∈ ds, c.isDigit = true)
    (hrest : ∀ c r, rest = c :: r → c.isDigit = false) :
    spanDigits (ds ++ rest) = (ds, rest) := by
  induction ds with
  | nil =>
    cases rest with
    | nil => rfl
    | cons c r =>
      show spanDigits (c :: r) = ([], c :: r)
      unfold spanDigits
      rw [hrest c r rfl]
      rfl
  | cons c ds ih =>
    have hc : c.isDigit = true := hds c (List.mem_cons_self _ _)
    have ih2 := ih (fun e he => hds e (List.mem_cons_of_mem _ he))
    show spanDigits (c :: (ds ++ rest)) = (c :: ds, rest)
    unfold spanDigits
    rw [hc, ih2]
    rfl

theorem not_infinity_of_digit (c : Char) (t : List Char) (h : c.isDigit = true) :
    "Infinity".toList.isPrefixOf (c :: t) = false := by
  have e : "Infinity".toList = ['I', 'n', 'f', 'i', 'n', 'i', 't', 'y'] := rfl
  have hne : ('I' == c) = false := by
    rw [beq_eq_false_iff_ne]
    intro hc
    rw [← hc] at h
    exact absurd h (by decide)
  rw [e]
  simp only [List.isPrefixOf, hne, Bool.false_and]

theorem readUnsigned_whole (ip : List Char) (hip : ip ≠ [])
    (hipd : ∀ c ∈ ip, c.isDigit = true) :
    readUnsigned ip = some (roundDouble (scaleDecimal (digitsNat ip) 0), []) := by
  obtain ⟨c, t, rfl⟩ := List.exists_cons_of_ne_nil hip
  have hpre := not_infinity_of_digit c t (hipd c (List.mem_cons_self _ _))
  have hspan : spanDigits (c :: t) = (c :: t, []) := by
    have := spanDigits_append (c :: t) [] hipd (fun _ _ h => by cases h)
    rwa [List.append_nil] at this
  unfold readUnsigned
  simp only [hpre, hspan]
  rfl

theorem readUnsigned_fraction (ip fp : List Char) (hip : ip ≠ [])
    (hipd : ∀ c ∈ ip, c.isDigit = true) (hfpd : ∀ c ∈ fp, c.isDigit = true) :
    readUnsigned (ip ++ '.' :: fp)
      = some (roundDouble (scaleDecimal (digitsNat (ip ++ fp)) (0 - (fp.length : ℤ))), []) := by
  obtain ⟨c, t, rfl⟩ := List.exists_cons_of_ne_nil hip
  have hpre := not_infinity_of_digit c (t ++ '.' :: fp) (hipd c (List.mem_cons_self _ _))
  have hspan : spanDigits (c :: t ++ '.' :: fp) = (c :: t, '.' :: fp) :=
    spanDigits_append (c :: t) ('.' :: fp) hipd (fun e r h => by
      injection h with h1 h2
      rw [← h1]; decide)
  have hspan2 : spanDigits fp = (fp, []) := by
    have := spanDigits_append fp [] hfpd (fun _ _ h => by cases h)
    rwa [List.append_nil] at this
  unfold readUnsigned
  rw [List.cons_append] at hspan ⊢
  simp only [hpre, hspan, hspan2]
  rfl

theorem roundDouble_neg (q : ℚ) : roundDouble (-q) = (roundDouble q).neg := by
  unfold roundDouble
  simp only [roundFinite_neg]
  have hp : (0 : ℚ) < 2 ^ (1024 : ℕ) := by positivity
  by_cases h1 : (2 : ℚ) ^ (1024 : ℕ) ≤ roundFinite q
  · have h2 : -roundFinite q ≤ -(2 : ℚ) ^ (1024 : ℕ) := by linarith
    have h3 : ¬ (2 : ℚ) ^ (1024 : ℕ) ≤ -roundFinite q := by linarith
    simp only [h1, h2, h3, if_true, if_false]
    rfl
  · by_cases h2 : roundFinite q ≤ -(2 : ℚ) ^ (1024 : ℕ)
    · have h3 : (2 : ℚ) ^ (1024 : ℕ) ≤ -roundFinite q := by linarith
      simp only [h1, h2, h3, if_true, if_false]
      rfl
    · have h3 : ¬ (2 : ℚ) ^ (1024 : ℕ) ≤ -roundFinite q := by linarith
      have h4 : ¬ -roundFinite q ≤ -(2 : ℚ) ^ (1024 : ℕ) := by linarith
      simp only [h1, h2, h3, h4, if_false]
      rfl

theorem readUnsigned_fixed (n d : ℕ) :
    readUnsigned (Nat.toDigits 10 (n / 10 ^ d)
        ++ (if d = 0 then [] else '.' :: NumericString.fractionDigits n d))
      = some (roundDouble ((n : ℚ) / 10 ^ d), []) := by
  obtain ⟨t1, t2, t3⟩ := toDigits_spec (n / 10 ^ d)
  obtain ⟨f1, f2, f3⟩ := fractionDigits_spec n d
  by_cases hd : d = 0
  · subst hd
    rw [if_pos rfl, List.append_nil, readUnsigned_whole _ t1 t2, t3]
    simp [scaleDecimal]
  · rw [if_neg hd, readUnsigned_fraction _ _ t1 t2 f2, digitsNat_append, f3, t3, f1,
      Nat.div_add_mod']
    have hneg : ¬ (0 : ℤ) ≤ 0 - (d : ℤ) := by omega
    have hnat : (-(0 - (d : ℤ))).toNat = d := by simp
    unfold scaleDecimal
    rw [if_neg hneg, hnat]

theorem readSigned_of_digit (c : Char) (t : List Char) (h : c.isDigit = true) :
    readSigned (c :: t) = readUnsigned (c :: t) := by
  unfold readSigned
  split
  · rename_i r heq
    injection heq with h1 _
    rw [h1] at h
    exact absurd h (by decide)
  · rename_i r heq
    injection heq with h1 _
    rw [h1] at h
    exact absurd h (by decide)
  · rfl

theorem readSigned_fixed (neg : Bool) (n d : ℕ) :
    readSigned (NumericString.fixedText neg n d).toList
      = some (roundDouble (NumericString.decimalValue neg n d), []) := by
  have hlist : (NumericString.fixedText neg n d).toList
      = (if neg then ['-'] else []) ++ (Nat.toDigits 10 (n / 10 ^ d)
        ++ (if d = 0 then [] else '.' :: NumericString.fractionDigits n d)) := by
    unfold NumericString.fixedText
    simp only [List.append_assoc]
    rfl
  have hread := readUnsigned_fixed n d
  obtain ⟨t1, t2, _⟩ := toDigits_spec (n / 10 ^ d)
  obtain ⟨c, t, hct⟩ := List.exists_cons_of_ne_nil t1
  rw [hlist]
  unfold NumericString.decimalValue
  cases neg with
  | true =>
    simp only [if_true, List.singleton_append]
    show (readUnsigned _).map _ = _
    rw [hread]
    simp only [Option.map_some']
    rw [show ((-1 : ℚ) * (n : ℚ) / 10 ^ d) = -((n : ℚ) / 10 ^ d) by ring, roundDouble_neg]
  | false =>
    simp only [Bool.false_eq_true, if_false, List.nil_append, one_mul]
    rw [hct, List.cons_append] at hread ⊢
    rw [readSigned_of_digit c _ (t2 c (by rw [hct]; exact List.mem_cons_self _ _)), hread]

theorem trim_of_ends (L : List Char) (c c2 : Char) (t t2 : List Char)
    (hL : L = c :: t) (hc : isStrWhiteSpaceChar c = false)
    (hr : L.reverse = c2 :: t2) (hc2 : isStrWhiteSpaceChar c2 = false) :
    L.dropWhile isStrWhiteSpaceChar = L
      ∧ ((L.dropWhile isStrWhiteSpaceChar).reverse.dropWhile isStrWhiteSpaceChar).reverse
        = L := by
  have h1 : L.dropWhile isStrWhiteSpaceChar = L := by
    rw [hL, List.dropWhile_cons_of_neg (by rw [hc]; simp)]
  refine ⟨h1, ?_⟩
  rw [h1, hr, List.dropWhile_cons_of_neg (by rw [hc2]; simp), ← hr, List.reverse_reverse]

theorem not_space_of_digit (c : Char) (h : c.isDigit = true) :
    isStrWhiteSpaceChar c = false := by
  rw [isDigit_iff] at h
  exact not_space_of_toNat c ⟨by omega, by omega⟩

theorem last_not_space (A D : List Char) (hD : D ≠ [])
    (hDd : ∀ c ∈ D, c.isDigit = true) :
    ∃ (c : Char) (t : List Char), (A ++ D).reverse = c :: t
      ∧ isStrWhiteSpaceChar c = false := by
  have hne : D.reverse ≠ [] := by simpa using hD
  obtain ⟨c, t, hct⟩ := List.exists_cons_of_ne_nil hne
  have hc : c ∈ D := by
    have : c ∈ D.reverse := by rw [hct]; exact List.mem_cons_self _ _
    exact List.mem_reverse.mp this
  refine ⟨c, t ++ A.reverse, ?_, not_space_of_digit c (hDd c hc)⟩
  rw [List.reverse_append, hct, List.cons_append]

/-- Reading the characters of a decimal literal gives the value of the literal: for the
text of `fixed neg n d`, both the conversion `ToNumber` and the function `parseFloat` give
the number that the parsed form stands for. -/
theorem fixedText_reads (neg : Bool) (n d : ℕ) :
    stringToNumber (NumericString.fixedText neg n d) = (NumericString.fixed neg n d).toNumber
      ∧ parseFloatString (NumericString.fixedText neg n d)
        = (NumericString.fixed neg n d).toNumber := by
  have hread := readSigned_fixed neg n d
  have hlist : (NumericString.fixedText neg n d).toList
      = (if neg then ['-'] else []) ++ (Nat.toDigits 10 (n / 10 ^ d)
        ++ (if d = 0 then [] else '.' :: NumericString.fractionDigits n d)) := by
    unfold NumericString.fixedText
    simp only [List.append_assoc]
    rfl
  obtain ⟨t1, t2, _⟩ := toDigits_spec (n / 10 ^ d)
  obtain ⟨f1, f2, _⟩ := fractionDigits_spec n d
  obtain ⟨c0, t0, hct⟩ := List.exists_cons_of_ne_nil t1
  have hc0 : c0.isDigit = true := t2 c0 (by rw [hct]; exact List.mem_cons_self _ _)
  -- the first character
  have hhead : ∃ (c : Char) (t : List Char),
      (NumericString.fixedText neg n d).toList = c :: t ∧ isStrWhiteSpaceChar c = false := by
    rw [hlist]
    cases neg with
    | true => exact ⟨'-', _, rfl, by decide⟩
    | false =>
      rw [hct]
      exact ⟨c0, _, rfl, not_space_of_digit c0 hc0⟩
  -- the last character
  have hlast : ∃ (c : Char) (t : List Char),
      (NumericString.fixedText neg n d).toList.reverse = c :: t
        ∧ isStrWhiteSpaceChar c = false := by
    rw [hlist]
    by_cases hd : d = 0
    · rw [if_pos hd, List.append_nil]
      exact last_not_space _ _ t1 t2
    · rw [if_neg hd]
      have hfp : NumericString.fractionDigits n d ≠ [] := by
        intro h0
        rw [h0] at f1
        exact hd f1.symm
      have := last_not_space ((if neg then ['-'] else []) ++ Nat.toDigits 10 (n / 10 ^ d)
        ++ ['.']) _ hfp f2
      simpa [List.append_assoc] using this
  obtain ⟨c, t, hL, hc⟩ := hhead
  obtain ⟨c2, t2', hr, hc2⟩ := hlast
  obtain ⟨htrim1, htrim2⟩ := trim_of_ends _ c c2 t t2' hL hc hr hc2
  -- the characters after an initial zero
  have hradix : ∀ (e : Char) (ds : List Char),
      (NumericString.fixedText neg n d).toList = '0' :: e :: ds → radixOf e = 0 := by
    intro e ds he
    have hmem : e ∈ Nat.toDigits 10 (n / 10 ^ d)
        ++ (if d = 0 then [] else '.' :: NumericString.fractionDigits n d) := by
      rw [hlist] at he
      cases neg with
      | true =>
        simp only [if_true, List.singleton_append] at he
        injection he with h1 _
        exact absurd h1 (by decide)
      | false =>
        simp only [Bool.false_eq_true, if_false, List.nil_append] at he
        rw [he]
        exact List.mem_cons_of_mem _ (List.mem_cons_self _ _)
    apply radixOf_of_toNat
    rw [List.mem_append] at hmem
    rcases hmem with hm | hm
    · have := (isDigit_iff e).mp (t2 e hm)
      omega
    · by_cases hd : d = 0
      · rw [if_pos hd] at hm
        cases hm
      · rw [if_neg hd, List.mem_cons] at hm
        rcases hm with hm | hm
        · rw [hm]; decide
        · have := (isDigit_iff e).mp (f2 e hm)
          omega
  constructor
  · unfold stringToNumber
    simp only [htrim2]
    have hlit : readLiteral (NumericString.fixedText neg n d).toList
        = (NumericString.fixed neg n d).toNumber := by
      unfold readLiteral
      rw [hread]
      rfl
    split
    · rename_i heq
      rw [hL] at heq
      cases heq
    · rename_i e ds heq
      rw [if_pos (hradix e ds heq)]
      exact hlit
    · exact hlit
  · unfold parseFloatString
    rw [htrim1, hread]
    rfl

/-! ## C29: the order book -/

theorem toSmallestSubUnit_parseFloat (s : NumericString) (c : String) :
    parseFloat (.numeric s) = (JsValue.numeric s).toNumber
      ∧ toSmallestSubUnit (.number (parseFloat (.numeric s))) c
        = toSmallestSubUnit (.numeric s) c :=
  ⟨rfl, rfl⟩

theorem toSmallestSubUnit_parseFloat_text (neg : Bool) (n d : ℕ) (c : String) :
    parseFloat (.text (NumericString.fixedText neg n d))
        = (JsValue.text (NumericString.fixedText neg n d)).toNumber
      ∧ parseFloat (.text (NumericString.fixedText neg n d))
        = roundDouble (NumericString.decimalValue neg n d)
      ∧ toSmallestSubUnit (.number (parseFloat (.text (NumericString.fixedText neg n d)))) c
        = toSmallestSubUnit (.text (NumericString.fixedText neg n d)) c := by
  obtain ⟨h1, h2⟩ := fixedText_reads neg n d
  have e1 : parseFloat (.text (NumericString.fixedText neg n d))
      = (JsValue.text (NumericString.fixedText neg n d)).toNumber := by
    show parseFloatString _ = stringToNumber _
    rw [h1, h2]
  refine ⟨e1, h2, ?_⟩
  unfold toSmallestSubUnit
  rw [← e1]
  rfl

/-- C29, counterexample: the pair `['219.82', '12abc']` of an order book with the base
currency `BTC` becomes the base amount 1200000000, because `parseFloat` reads the 12 at the
start of the second string, whereas `toSmallestSubUnit('12abc', 'BTC')` is `NaN`; and the
pair `['219.82', '']` becomes the base amount `NaN`, whereas `toSmallestSubUnit('', 'BTC')`
is 0. -/
theorem parseOrderBook_reads_leading_numeral :
    (parseOrderBook { asks := some [(.text "219.82", .text "12abc")], bids := none }
        "BTC" "USD").asks
      = [{ price := roundDouble (21982 / 100), baseAmount := .finite 1200000000 }]
    ∧ toSmallestSubUnit (.text "12abc") "BTC" = .nan
    ∧ (parseOrderBook { asks := none, bids := some [(.text "219.82", .text "")] }
        "BTC" "USD").bids
      = [{ price := roundDouble (21982 / 100), baseAmount := .nan }]
    ∧ toSmallestSubUnit (.text "") "BTC" = .finite 0 := by
  refine ⟨by decide!, by decide!, by decide!, by decide!⟩

/-- C29 (as amended): for every remote order book and every base currency,
`parseOrderBook` returns `asks` and `bids` as long as the input arrays and in the same
order; the `i`-th entry has as `price` the number that `parseFloat` reads from the first
component of the `i`-th pair and as `baseAmount` the conversion to sub-units of the number
that `parseFloat` reads from the second.  For a second component that is a decimal literal,
kept in parsed form or given by its characters (an optional minus sign, the integer part
and, unless there are no decimals, a point and the decimals), this is
`toSmallestSubUnit(second string, baseCurrency)`.  A missing `asks` or `bids` array gives
an empty list, and the two currencies are returned as given. -/
theorem parseOrderBook_entries (orderBook : RawOrderBook) (baseCurrency quoteCurrency : String) :
    (parseOrderBook orderBook baseCurrency quoteCurrency).asks.length
        = (orderBook.asks.getD []).length
    ∧ (parseOrderBook orderBook baseCurrency quoteCurrency).bids.length
        = (orderBook.bids.getD []).length
    ∧ (∀ (i : ℕ) (e : JsValue × JsValue), (orderBook.asks.getD [])[i]? = some e →
        (parseOrderBook orderBook baseCurrency quoteCurrency).asks[i]?
          = some { price := parseFloat e.1
                   baseAmount := toSmallestSubUnit (.number (parseFloat e.2)) baseCurrency })
    ∧ (∀ (i : ℕ) (e : JsValue × JsValue), (orderBook.bids.getD [])[i]? = some e →
        (parseOrderBook orderBook baseCurrency quoteCurrency).bids[i]?
          = some { price := parseFloat e.1
                   baseAmount := toSmallestSubUnit (.number (parseFloat e.2)) baseCurrency })
    ∧ (∀ s : NumericString,
        parseFloat (.numeric s) = (JsValue.numeric s).toNumber
          ∧ toSmallestSubUnit (.number (parseFloat (.numeric s))) baseCurrency
            = toSmallestSubUnit (.numeric s) baseCurrency)
    ∧ (∀ (neg : Bool) (n d : ℕ),
        parseFloat (.text (NumericString.fixedText neg n d))
            = (JsValue.text (NumericString.fixedText neg n d)).toNumber
          ∧ parseFloat (.text (NumericString.fixedText neg n d))
            = roundDouble (NumericString.decimalValue neg n d)
          ∧ toSmallestSubUnit (.number (parseFloat (.text (NumericString.fixedText neg n d))))
              baseCurrency
            = toSmallestSubUnit (.text (NumericString.fixedText neg n d)) baseCurrency)
    ∧ (orderBook.asks = none →
        (parseOrderBook orderBook baseCurrency quoteCurrency).asks = [])
    ∧ (orderBook.bids = none →
        (parseOrderBook orderBook baseCurrency quoteCurrency).bids = [])
    ∧ (parseOrderBook orderBook baseCurrency quoteCurrency).baseCurrency = baseCurrency
    ∧ (parseOrderBook orderBook baseCurrency quoteCurrency).quoteCurrency = quoteCurrency := by
  have ha : (parseOrderBook orderBook baseCurrency quoteCurrency).asks
      = (orderBook.asks.getD []).map (convertOrderBookEntryCreator baseCurrency) := rfl
  have hb : (parseOrderBook orderBook baseCurrency quoteCurrency).bids
      = (orderBook.bids.getD []).map (convertOrderBookEntryCreator baseCurrency) := rfl
  rw [ha, hb]
  refine ⟨by rw [List.length_map], by rw [List.length_map], ?_, ?_,
    fun s => toSmallestSubUnit_parseFloat s baseCurrency,
    fun neg n d => toSmallestSubUnit_parseFloat_text neg n d baseCurrency, ?_, ?_, rfl, rfl⟩
  · intro i e he
    rw [List.getElem?_map, he]
    rfl
  · intro i e he
    rw [List.getElem?_map, he]
    rfl
  · intro h
    rw [h]; rfl
  · intro h
    rw [h]; rfl

/-- C29, witness: in the order book of the tests with the base currency `BTC`, the first
ask `['219.82', '2.19']` becomes the price 219.82 and the base amount 219000000, and the
first bid `['219.40', '17.46']` the price 219.4 and the base amount 1746000000; the same
ask given by its characters is read to the same entry. -/
theorem parseOrderBook_entries_witness :
    (parseOrderBook sampleBook "BTC" "USD").asks[0]?
        = some { price := roundDouble (21982 / 100), baseAmount := .finite 219000000 }
    ∧ (parseOrderBook sampleBook "BTC" "USD").bids[0]?
        = some { price := roundDouble (2194 / 10), baseAmount := .finite 1746000000 }
    ∧ (parseOrderBook sampleBook "BTC" "USD").asks.length = 2
    ∧ (parseOrderBook { asks := some [(.text "219.82", .text "2.19")], bids := none }
        "BTC" "USD").asks[0]?
        = some { price := roundDouble (21982 / 100), baseAmount := .finite 219000000 } := by
  obtain ⟨h1, _, h3, h4, _⟩ := parseOrderBook_entries sampleBook "BTC" "USD"
  obtain ⟨_, _, h5, _⟩ := parseOrderBook_entries
    { asks := some [(.text "219.82", .text "2.19")], bids := none } "BTC" "USD"
  refine ⟨?_, ?_, h1, ?_⟩
  · rw [h3 0 (.numeric (.fixed false 21982 2), .numeric (.fixed false 219 2)) rfl]
    exact congrArg some (by decide!)
  · rw [h4 0 (.numeric (.fixed false 21940 2), .numeric (.fixed false 1746 2)) rfl]
    exact congrArg some (by decide!)
  · rw [h5 0 (.text "219.82", .text "2.19") rfl]
    exact congrArg some (by decide!)

/-! ## C30: what makes a parser throw -/

theorem toSmallestSubUnit_nan (v : JsValue) (c : String) (h : v.toNumber = .nan) :
    toSmallestSubUnit v c = .nan := by
  unfold toSmallestSubUnit
  simp only [h]
  rfl

theorem add_nan_left (x : JsNumber) : JsNumber.add .nan x = .nan := by
  cases x <;> rfl

theorem add_nan_right (x : JsNumber) : JsNumber.add x .nan = .nan := by
  cases x <;> rfl

theorem foldl_add_nan (l : List RawExecution) :
    l.foldl (fun (acc : JsNumber) (trade : RawExecution) =>
      acc.add (parseFloat trade.currency2Amount)) JsNumber.nan = JsNumber.nan := by
  induction l with
  | nil => rfl
  | cons t l ih => rw [List.foldl_cons, add_nan_left]; exact ih

theorem quoteSum_nan (l : List RawExecution)
    (h : ∃ trade ∈ l, parseFloat trade.currency2Amount = .nan) : quoteSum l = .nan := by
  unfold quoteSum
  generalize JsNumber.finite 0 = acc
  induction l generalizing acc with
  | nil =>
    obtain ⟨t, ht, _⟩ := h
    cases ht
  | cons t l ih =>
    obtain ⟨trade, hmem, hnan⟩ := h
    rw [List.foldl_cons]
    rw [List.mem_cons] at hmem
    rcases hmem with hm | hm
    · rw [← hm, hnan, add_nan_right]
      exact foldl_add_nan l
    · exact ih ⟨trade, hm, hnan⟩ _

/-- C30, counterexample: a balance `abc`, an order without amount, an order-book amount
`x`, a transaction with the amount `x` and an execution with the amount `x` are all
parsed to a record, which carries `NaN` in the field; a balance that is the empty string
or the string `0x10` is parsed to the balance 0 or 1600, without an error either. -/
theorem parsers_return_nan :
    (parseBalance
        { balances := some
            [ { currency := "USD", availableBalance := .text "abc"
                totalBalance := .text "abc" } ] }).toOption.map
          (fun r => (r.available, r.total))
      = some ([("USD", .nan)], [("USD", .nan)])
    ∧ (parseOpenOrder { sampleOrder "148ffda4" "open" with amount := .undefined }).toOption.map
          (fun r => r.baseAmount)
      = some .nan
    ∧ (parseOrderBook
        { asks := some [(.numeric (.fixed false 21982 2), .text "x")], bids := none }
        "BTC" "USD").asks
      = [{ price := roundDouble (21982 / 100), baseAmount := .nan }]
    ∧ (parseTransaction sampleEngine (sampleWithdrawal 94 (.text "x") "completed")
        true).result.toOption.map (fun r => r.amount)
      = some .nan
    ∧ (parseClosedOrder (sampleOrder "248ffda4" "filled")
        [{ sampleExecution "248ffda4" with currency2Amount := .text "x" }]).toOption.map
          (fun r => r.quoteAmount)
      = some (some .nan)
    ∧ (parseBalance
        { balances := some
            [ { currency := "USD", availableBalance := .text ""
                totalBalance := .text "0x10" } ] }).toOption.map
          (fun r => (r.available, r.total))
      = some ([("USD", .finite 0)], [("USD", .finite 1600)]) := by
  refine ⟨by decide!, by decide!, by decide!, by decide!, by decide!, by decide!⟩

/-- C30 (as amended): each parser throws instead of returning a record exactly when a
field that it reads into is missing or unusable: the instrument for `parseOpenOrder` and
`parseClosedOrder`, the list of balances for `parseBalance`, and for `parseTransaction` a
type other than `Withdrawal` and `Deposit`, fields that give no unique id, a missing time
or a time that is not a valid date; the error is a `TypeError` or a `RangeError`.  An
amount, a price or a balance never makes them throw: in the record that is returned the
field is the conversion of the value as it came, `toSmallestSubUnit` of the amount or the
balance (negated for a sell, a buy's quote amount or a withdrawal) and `parseFloat` of the
price, and it is `NaN` whenever the value converts to `NaN`.  `parseOrderBook` returns a
record for every order book, its entries computed pair by pair. -/
theorem parsers_throw_exactly (E : Engine) :
    (∀ order : RawOrder,
        ((∃ e : JsError, parseOpenOrder order = .error e) ↔ order.instrument = none)
        ∧ (∀ tradeResults : List RawExecution,
            (∃ e : JsError, parseClosedOrder order tradeResults = .error e)
              ↔ order.instrument = none)
        ∧ (∀ r : Order, parseOpenOrder order = .ok r →
            r.baseAmount
                = (if order.side = some "sell" then
                    (toSmallestSubUnit order.amount r.baseCurrency).neg
                  else toSmallestSubUnit order.amount r.baseCurrency)
              ∧ r.limitPrice = parseFloat order.price)
        ∧ (∀ (tradeResults : List RawExecution) (r : Order),
            parseClosedOrder order tradeResults = .ok r →
            r.baseAmount
                = (if order.side = some "sell" then
                    (toSmallestSubUnit order.amount r.baseCurrency).neg
                  else toSmallestSubUnit order.amount r.baseCurrency)
              ∧ r.limitPrice = parseFloat order.price
              ∧ r.quoteAmount = some
                  (if order.side = some "buy" then
                    (toSmallestSubUnit (.number (quoteSum tradeResults)) r.quoteCurrency).neg
                  else toSmallestSubUnit (.number (quoteSum tradeResults)) r.quoteCurrency)
              ∧ ((∃ trade ∈ tradeResults, parseFloat trade.currency2Amount = .nan) →
                  r.quoteAmount = some .nan))
        ∧ (order.amount.toNumber = .nan → ∀ r : Order, parseOpenOrder order = .ok r →
            r.baseAmount = .nan))
    ∧ (∀ wallet : RawWallet,
        ((∃ e : JsError, parseBalance wallet = .error e) ↔ wallet.balances = none)
        ∧ (∀ entries : List RawBalance, wallet.balances = some entries →
            parseBalance wallet
              = .ok (entries.foldl parseBalance.step { available := [], total := [] })))
    ∧ (∀ (result : Balance) (balance : RawBalance),
        (parseBalance.step result balance).available
            = result.available.set (normalizeCurrency balance.currency)
                (toSmallestSubUnit balance.availableBalance
                  (normalizeCurrency balance.currency))
        ∧ (parseBalance.step result balance).total
            = result.total.set (normalizeCurrency balance.currency)
                (toSmallestSubUnit balance.totalBalance (normalizeCurrency balance.currency))
        ∧ (balance.availableBalance.toNumber = .nan →
            normalizeCurrency balance.currency ≠ "__proto__" →
            (parseBalance.step result balance).available.get
              (normalizeCurrency balance.currency) = some .nan)
        ∧ (balance.totalBalance.toNumber = .nan →
            normalizeCurrency balance.currency ≠ "__proto__" →
            (parseBalance.step result balance).total.get
              (normalizeCurrency balance.currency) = some .nan))
    ∧ (∀ (t : RawTransaction) (log : Bool),
        ((∃ r : Transaction, (parseTransaction E t log).result = .ok r) ↔
          ((t.transactionType = some "Withdrawal" ∨ t.transactionType = some "Deposit")
            ∧ (∃ id : String, getUniqueTransactionId E t = .ok id)
            ∧ ∃ tm : String, t.time = some tm
                ∧ ∃ ts : String, (E.dateParse (withZone tm)).bind toISOString = some ts))
        ∧ (∀ e : JsError, (parseTransaction E t log).result = .error e →
            e.name = "TypeError" ∨ e.name = "RangeError")
        ∧ (∀ r : Transaction, (parseTransaction E t log).result = .ok r →
            r.amount
              = (if r.type = "withdrawal" then
                  (toSmallestSubUnit t.amount (codeOf (t.currency.map normalizeCurrency))).neg
                else toSmallestSubUnit t.amount (codeOf (t.currency.map normalizeCurrency))))
        ∧ (t.amount.toNumber = .nan → ∀ r : Transaction,
            (parseTransaction E t log).result = .ok r → r.amount = .nan))
    ∧ (∀ (orderBook : RawOrderBook) (baseCurrency quoteCurrency : String),
        (parseOrderBook orderBook baseCurrency quoteCurrency).asks
            = (orderBook.asks.getD []).map (fun entry =>
                { price := parseFloat entry.1
                  baseAmount := toSmallestSubUnit (.number (parseFloat entry.2)) baseCurrency })
        ∧ (parseOrderBook orderBook baseCurrency quoteCurrency).bids
            = (orderBook.bids.getD []).map (fun entry =>
                { price := parseFloat entry.1
                  baseAmount :=
                    toSmallestSubUnit (.number (parseFloat entry.2)) baseCurrency })
        ∧ (∀ entry : JsValue × JsValue, parseFloat entry.2 = .nan →
            toSmallestSubUnit (.number (parseFloat entry.2)) baseCurrency = .nan))
    ∧ (∀ (v : JsValue) (c : String), v.toNumber = .nan →
        toSmallestSubUnit v c = .nan ∧ (toSmallestSubUnit v c).neg = .nan) := by
  refine ⟨?_, ?_, ?_, ?_,
    fun _ _ _ => ⟨rfl, rfl, fun entry h => toSmallestSubUnit_nan _ _ h⟩,
    fun v c h => by rw [toSmallestSubUnit_nan v c h]; exact ⟨rfl, rfl⟩⟩
  · intro order
    refine ⟨?_, ?_, ?_, ?_, ?_⟩
    · cases hi : order.instrument with
      | none =>
        unfold parseOpenOrder
        simp [hi]
      | some instrument =>
        rw [parseOpenOrder_ok order instrument hi]
        simp
    · intro tradeResults
      cases hi : order.instrument with
      | none =>
        unfold parseClosedOrder parseOpenOrder
        simp [hi]
      | some instrument =>
        unfold parseClosedOrder
        rw [parseOpenOrder_ok order instrument hi]
        simp
    · intro r hr
      cases hi : order.instrument with
      | none =>
        unfold parseOpenOrder at hr
        simp [hi] at hr
      | some instrument =>
        rw [parseOpenOrder_ok order instrument hi] at hr
        injection hr with hr
        rw [← hr]
        exact ⟨rfl, rfl⟩
    · intro tradeResults r hr
      cases hi : order.instrument with
      | none =>
        unfold parseClosedOrder parseOpenOrder at hr
        simp [hi] at hr
      | some instrument =>
        unfold parseClosedOrder at hr
        rw [parseOpenOrder_ok order instrument hi] at hr
        simp only [sumExecutions_quote] at hr
        injection hr with hr
        rw [← hr]
        refine ⟨rfl, rfl, rfl, fun hnan => ?_⟩
        show some (if order.side = some "buy" then _ else _) = some JsNumber.nan
        rw [quoteSum_nan tradeResults hnan, toSmallestSubUnit_nan (.number .nan) _ rfl]
        split_ifs <;> rfl
    · intro hnan r hr
      cases hi : order.instrument with
      | none =>
        unfold parseOpenOrder at hr
        simp [hi] at hr
      | some instrument =>
        rw [parseOpenOrder_ok order instrument hi] at hr
        injection hr with hr
        rw [← hr]
        show (if order.side = some "sell" then _ else _) = JsNumber.nan
        rw [toSmallestSubUnit_nan order.amount _ hnan]
        split_ifs <;> rfl
  · intro wallet
    refine ⟨?_, fun entries hb => parseBalance_fold wallet entries hb⟩
    cases hb : wallet.balances with
    | none =>
      unfold parseBalance
      simp [hb]
    | some entries =>
      rw [parseBalance_fold wallet entries hb]
      simp
  · intro result balance
    refine ⟨rfl, rfl, ?_, ?_⟩
    · intro hnan hk
      show (result.available.set (normalizeCurrency balance.currency)
        (toSmallestSubUnit balance.availableBalance (normalizeCurrency balance.currency))).get
          (normalizeCurrency balance.currency) = some .nan
      rw [amountMap_get_set_same _ _ _ hk, toSmallestSubUnit_nan _ _ hnan]
    · intro hnan hk
      show (result.total.set (normalizeCurrency balance.currency)
        (toSmallestSubUnit balance.totalBalance (normalizeCurrency balance.currency))).get
          (normalizeCurrency balance.currency) = some .nan
      rw [amountMap_get_set_same _ _ _ hk, toSmallestSubUnit_nan _ _ hnan]
  · intro t log
    refine ⟨⟨?_, ?_⟩, ?_, ?_, ?_⟩
    · rintro ⟨r, hr⟩
      obtain ⟨tm, hty, hid, htm, hd, _⟩ := parseTransaction_inv E t log r hr
      refine ⟨?_, ⟨_, hid⟩, tm, htm, _, hd⟩
      rcases hty with ⟨h, _⟩ | ⟨h, _⟩
      · exact Or.inl h
      · exact Or.inr h
    · rintro ⟨hty, ⟨id, hid⟩, tm, htm, ts, hd⟩
      rcases hty with h | h
      · exact ⟨_, parseTransaction_ok E t log "withdrawal" id tm ts (Or.inl ⟨h, rfl⟩)
          hid htm hd⟩
      · exact ⟨_, parseTransaction_ok E t log "deposit" id tm ts (Or.inr ⟨h, rfl⟩)
          hid htm hd⟩
    · intro e he
      unfold parseTransaction at he
      simp only at he
      split at he
      · rename_i e' htype
        injection he with he
        subst he
        split_ifs at htype
        injection htype with htype
        rw [← htype]
        exact Or.inl rfl
      · split at he
        · rename_i e' hid
          injection he with he
          subst he
          rw [getUniqueTransactionId_eq] at hid
          cases hk : uniqueKeyBySpec t with
          | none =>
            rw [hk] at hid
            injection hid with hid
            rw [← hid]
            exact Or.inl rfl
          | some key =>
            rw [hk] at hid
            exact absurd hid (by simp)
        · split at he
          · injection he with he
            rw [← he]
            exact Or.inl rfl
          · split at he
            · injection he with he
              rw [← he]
              exact Or.inr rfl
            · exact absurd he (by simp)
    · intro r hr
      obtain ⟨_, _, _, _, _, hrr⟩ := parseTransaction_inv E t log r hr
      exact congrArg Transaction.amount hrr
    · intro hnan r hr
      obtain ⟨_, _, _, _, _, hrr⟩ := parseTransaction_inv E t log r hr
      rw [hrr]
      show (if r.type = "withdrawal" then _ else _) = JsNumber.nan
      rw [toSmallestSubUnit_nan t.amount _ hnan]
      split_ifs <;> rfl

/-- C30, witness: the order of the tests without its instrument makes `parseOpenOrder`
throw, a wallet without balances makes `parseBalance` throw, and a withdrawal without time
makes `parseTransaction` throw; the order of the tests without its amount is parsed to a
record with the base amount `NaN`. -/
theorem parsers_throw_exactly_witness :
    (∃ e : JsError,
        parseOpenOrder { sampleOrder "148ffda4" "open" with instrument := none } = .error e)
    ∧ (∃ e : JsError, parseBalance { balances := none } = .error e)
    ∧ ¬ (∃ r : Transaction,
        (parseTransaction sampleEngine
          { sampleWithdrawal 94 (.numeric (.fixed false 100000000 8)) "completed" with
            time := none } true).result = .ok r)
    ∧ (∃ r : Order,
        parseOpenOrder { sampleOrder "148ffda4" "open" with amount := .undefined } = .ok r
        ∧ r.baseAmount = .nan) := by
  obtain ⟨h1, h2, _, h3, _⟩ := parsers_throw_exactly sampleEngine
  refine ⟨(h1 _).1.mpr rfl, (h2 _).1.mpr rfl, ?_, ?_⟩
  · rw [(h3 _ true).1]
    rintro ⟨_, _, tm, htm, _⟩
    cases htm
  · exact ⟨_, parseOpenOrder_ok _ "XBTUSD" rfl,
      (h1 { sampleOrder "148ffda4" "open" with amount := .undefined }).2.2.2.2 rfl _
        (parseOpenOrder_ok _ "XBTUSD" rfl)⟩

/-! ## Facts about the currency codes -/

theorem normalizeCurrency_ne_xbt (c : String) : normalizeCurrency c ≠ "XBT" := by
  unfold normalizeCurrency
  split_ifs with h
  · decide
  · exact h

theorem parseClosedOrder_inv (order : RawOrder) (l : List RawExecution) (r : Order)
    (h : parseClosedOrder order l = .ok r) :
    ∃ o : Order, parseOpenOrder order = .ok o
      ∧ r.baseCurrency = o.baseCurrency ∧ r.quoteCurrency = o.quoteCurrency
      ∧ r.feeCurrency = (sumExecutions l).2.2 := by
  unfold parseClosedOrder at h
  simp only at h
  split at h
  · exact absurd h (by simp)
  · rename_i o ho
    injection h with h
    subst h
    exact ⟨o, ho, rfl, rfl, rfl⟩

theorem parseOpenOrder_base (order : RawOrder) (r : Order) (h : parseOpenOrder order = .ok r) :
    ∃ instrument : String, order.instrument = some instrument
      ∧ r.baseCurrency = normalizeCurrency (slice instrument 0 3)
      ∧ r.quoteCurrency = slice instrument 3 6 := by
  cases hi : order.instrument with
  | none =>
    unfold parseOpenOrder at h
    simp [hi] at h
  | some instrument =>
    rw [parseOpenOrder_ok order instrument hi] at h
    injection h with h
    subst h
    exact ⟨instrument, rfl, rfl, rfl⟩

theorem sumExecutions_last (before : List RawExecution) (e : RawExecution) :
    (sumExecutions (before ++ [e])).2.2 = e.commissionCurrency := by
  unfold sumExecutions
  rw [List.foldl_append]
  rfl

/-! ## C31: the currency codes of the records -/

/-- C31: the base currency of an open or closed order, the keys of both mappings of a
balance and the currency of a transaction are never the exchange code `XBT`.  The fee
currency of a closed order, however, is the commission currency of the last execution as
it came: an execution whose commission is charged in `XBT` gives the fee currency `XBT`.
The quote currency too is cut out of the instrument as it is. -/
theorem records_currency_codes (E : Engine) :
    (∀ (order : RawOrder) (r : Order), parseOpenOrder order = .ok r → r.baseCurrency ≠ "XBT")
    ∧ (∀ (order : RawOrder) (l : List RawExecution) (r : Order),
        parseClosedOrder order l = .ok r → r.baseCurrency ≠ "XBT")
    ∧ (∀ (wallet : RawWallet) (b : Balance), parseBalance wallet = .ok b →
        "XBT" ∉ b.available.keys ∧ "XBT" ∉ b.total.keys)
    ∧ (∀ (t : RawTransaction) (log : Bool) (r : Transaction),
        (parseTransaction E t log).result = .ok r → r.currency ≠ some "XBT")
    ∧ (∀ (order : RawOrder) (before : List RawExecution) (e : RawExecution) (r : Order),
        parseClosedOrder order (before ++ [e]) = .ok r → r.feeCurrency = e.commissionCurrency)
    ∧ (parseClosedOrder (sampleOrder "248ffda4" "filled")
        [sampleExecution "248ffda4", sampleXbtExecution "248ffda4"]).toOption.map
          (fun r => (r.baseCurrency, r.quoteCurrency, r.feeCurrency))
        = some ("BTC", "USD", some "XBT")
    ∧ (parseOpenOrder { sampleOrder "248ffda4" "open" with instrument := some "USDXBT" }
        ).toOption.map (fun r => (r.baseCurrency, r.quoteCurrency)) = some ("USD", "XBT") := by
  refine ⟨?_, ?_, ?_, ?_, ?_, by decide, by decide⟩
  · intro order r h
    obtain ⟨instrument, _, hb, _⟩ := parseOpenOrder_base order r h
    rw [hb]
    exact normalizeCurrency_ne_xbt _
  · intro order l r h
    obtain ⟨o, ho, hb, _, _⟩ := parseClosedOrder_inv order l r h
    obtain ⟨instrument, _, hb2, _⟩ := parseOpenOrder_base order o ho
    rw [hb, hb2]
    exact normalizeCurrency_ne_xbt _
  · intro wallet b h
    cases hw : wallet.balances with
    | none =>
      unfold parseBalance at h
      simp [hw] at h
    | some entries =>
      rw [parseBalance_fold wallet entries hw] at h
      injection h with h
      subst h
      obtain ⟨h1, h2⟩ := balance_fold_keys entries { available := [], total := [] } "XBT"
      constructor
      · intro hmem
        rcases h1.mp hmem with h | ⟨_, e, _, he⟩
        · simp [AmountMap.keys] at h
        · exact normalizeCurrency_ne_xbt _ he
      · intro hmem
        rcases h2.mp hmem with h | ⟨_, e, _, he⟩
        · simp [AmountMap.keys] at h
        · exact normalizeCurrency_ne_xbt _ he
  · intro t log r h
    obtain ⟨tm, _, _, _, _, hr⟩ := parseTransaction_inv E t log r h
    rw [hr]
    show t.currency.map normalizeCurrency ≠ some "XBT"
    cases t.currency with
    | none => simp
    | some c =>
      intro hc
      exact normalizeCurrency_ne_xbt c (Option.some.inj hc)
  · intro order before e r h
    obtain ⟨_, _, _, _, hf⟩ := parseClosedOrder_inv order (before ++ [e]) r h
    rw [hf, sumExecutions_last]

/-- C31, witness: the order of the tests on `XBTUSD` is parsed to the base currency `BTC`,
which is not the exchange code. -/
theorem records_currency_codes_witness :
    ∃ r : Order, parseOpenOrder (sampleOrder "248ffda4" "open") = .ok r
      ∧ r.baseCurrency ≠ "XBT" := by
  obtain ⟨r, hr⟩ : ∃ r, parseOpenOrder (sampleOrder "248ffda4" "open") = .ok r :=
    ⟨_, parseOpenOrder_ok _ "XBTUSD" rfl⟩
  exact ⟨r, hr, (records_currency_codes sampleEngine).1 _ r hr⟩

/-! ## C32: the two normalizations -/

theorem slice_of_code (b q : String) (h : b.length = 3) : slice (b ++ q) 0 3 = b := by
  unfold slice
  have hl : b.toList.length = 3 := h
  have e : (b ++ q).toList = b.toList ++ q.toList := String.data_append b q
  rw [e, List.drop_zero, Nat.sub_zero, List.take_append_of_le_length (by omega),
    List.take_of_length_le (by omega)]
  cases b
  rfl

theorem normalizeCurrencyItBit_length (b : String) (h : b.length = 3) :
    (normalizeCurrencyItBit b).length = 3 := by
  unfold normalizeCurrencyItBit
  split_ifs
  · decide
  · exact h

/-- C32: `normalizeCurrency (normalizeCurrencyItBit c) = c` for every code `c` other than
`XBT`, `normalizeCurrencyItBit (normalizeCurrency c) = c` for every code other than `BTC`,
both functions are idempotent and leave every code other than `BTC` and `XBT` unchanged.
Hence for a base currency `b` of 3 characters other than `XBT`, every order whose instrument
is the one `placeTrade` builds is parsed by `parseOpenOrder` to the base currency `b`; with
the echoing transport the order that `placeTrade` returns has the base currency `b`. -/
theorem normalizations_inverse (E : Engine) (x : ItBitExchange) (amount price : JsNumber)
    (b q : String) (hc : checkIfCredentialsIsProvided x = none)
    (ha : amount.strictEq (.finite 0) = false) (hp : price.le (.finite 0) = false)
    (hb : b.length = 3) (hx : b ≠ "XBT") :
    (∀ c : String, c ≠ "XBT" → normalizeCurrency (normalizeCurrencyItBit c) = c)
    ∧ (∀ c : String, c ≠ "BTC" → normalizeCurrencyItBit (normalizeCurrency c) = c)
    ∧ (∀ c : String, normalizeCurrency (normalizeCurrency c) = normalizeCurrency c)
    ∧ (∀ c : String,
        normalizeCurrencyItBit (normalizeCurrencyItBit c) = normalizeCurrencyItBit c)
    ∧ (∀ c : String, c ≠ "BTC" → c ≠ "XBT" →
        normalizeCurrency c = c ∧ normalizeCurrencyItBit c = c)
    ∧ (∃ (side : String) (sent limit : JsNumber),
        (placeTrade E sampleEchoTransport x (.number amount) (.number price) b q).calls
          = [.addOrder x.walletId side "limit" sent limit (normalizeCurrencyItBit b ++ q)])
    ∧ (∀ (order : RawOrder) (r : Order),
        order.instrument = some (normalizeCurrencyItBit b ++ q) →
        parseOpenOrder order = .ok r → r.baseCurrency = b)
    ∧ (∃ r : Order,
        (placeTrade E sampleEchoTransport x (.number amount) (.number price) b q).value = some r
        ∧ r.baseCurrency = b) := by
  have h1 : ∀ c : String, c ≠ "XBT" → normalizeCurrency (normalizeCurrencyItBit c) = c := by
    intro c h
    unfold normalizeCurrencyItBit
    split_ifs with hbtc
    · rw [hbtc]; decide
    · unfold normalizeCurrency
      rw [if_neg h]
  have hback : normalizeCurrency (slice (normalizeCurrencyItBit b ++ q) 0 3) = b := by
    rw [slice_of_code _ q (normalizeCurrencyItBit_length b hb)]
    exact h1 b hx
  refine ⟨h1, ?_, ?_, ?_, ?_, ?_, ?_, ?_⟩
  · intro c h
    unfold normalizeCurrency
    split_ifs with hxbt
    · rw [hxbt]; decide
    · unfold normalizeCurrencyItBit
      rw [if_neg h]
  · intro c
    by_cases h : c = "XBT"
    · subst h; decide
    · simp [normalizeCurrency, h]
  · intro c
    by_cases h : c = "BTC"
    · subst h; decide
    · simp [normalizeCurrencyItBit, h]
  · intro c h1 h2
    unfold normalizeCurrency normalizeCurrencyItBit
    rw [if_neg h1, if_neg h2]
    exact ⟨rfl, rfl⟩
  · exact ⟨_, _, _, (placeTrade_echo E x amount price b q hc ha hp).1⟩
  · intro order r hi h
    rw [parseOpenOrder_ok order _ hi] at h
    injection h with h
    subst h
    exact hback
  · unfold Run.value placeTrade
    simp only [hc, ha, hp]
    simp only [sampleEchoTransport, sampleEcho, parseOpenOrder]
    exact ⟨_, rfl, hback⟩

/-- C32, witness: the purchase of the tests, 1299990000 satoshis at 412.12 with the base
currency `BTC`, is submitted on the instrument `XBTUSD` and comes back with the base
currency `BTC`. -/
theorem normalizations_inverse_witness :
    (∃ (side : String) (sent limit : JsNumber),
        (placeTrade sampleEngine sampleEchoTransport sampleExchange
          (.number (.finite 1299990000)) (.number (.finite (10303 / 25))) "BTC" "USD").calls
          = [.addOrder sampleExchange.walletId side "limit" sent limit "XBTUSD"])
    ∧ (∃ r : Order,
        (placeTrade sampleEngine sampleEchoTransport sampleExchange
          (.number (.finite 1299990000)) (.number (.finite (10303 / 25))) "BTC" "USD").value
          = some r
        ∧ r.baseCurrency = "BTC") := by
  obtain ⟨_, _, _, _, _, h6, _, h8⟩ :=
    normalizations_inverse sampleEngine sampleExchange (.finite 1299990000)
      (.finite (10303 / 25)) "BTC" "USD" (by decide) (by decide!) (by decide!) (by decide)
      (by decide)
  exact ⟨h6, h8⟩

/-! ## C33: the argument of `getTrade` -/

theorem getTrade_first_call (E : Engine) (T : Transport) (x : ItBitExchange)
    (id : Option String) (fuel : ℕ) (hc : checkIfCredentialsIsProvided x = none) :
    ∃ rest : List Call,
      (getTrade E T x (.raw id) fuel).calls = .getOrder x.walletId id :: rest
      ∧ ∀ c ∈ rest, ∃ (p : ℕ) (rs re : String), c = .getWalletTrades x.walletId p 50 rs re := by
  unfold getTrade
  simp only [hc]
  cases hget : T.getOrder x.walletId id with
  | error err => exact ⟨[], rfl, fun c h => absurd h (List.not_mem_nil c)⟩
  | ok order =>
    simp only
    by_cases hs : order.status = some "filled"
    · simp only [hs, ne_eq, not_true_eq_false, if_false]
      cases hr : getTrade.timeRange E x order with
      | none => exact ⟨[], rfl, fun c h => absurd h (List.not_mem_nil c)⟩
      | some range =>
        obtain ⟨rs, re⟩ := range
        refine ⟨_, rfl, ?_⟩
        intro c hmem
        obtain ⟨p, hp⟩ := tradeLoop_calls T x id rs re fuel 0 _ c hmem
        exact ⟨p, rs, re, hp⟩
    · simp only [ne_eq, hs, not_false_eq_true, if_true]
      exact ⟨[], rfl, fun c h => absurd h (List.not_mem_nil c)⟩

/-- C33, counterexample: for a trade object without a `raw` field `getTrade` neither
calls the transport nor hands an error to its callback: a `TypeError` escapes.  For a trade
whose `raw` has no `id` the order is fetched with an undefined id, and what the transport
answers is returned. -/
theorem getTrade_without_raw_id :
    (getTrade sampleEngine
        (sampleTradeTransport (sampleOrder "5b1f51e1" "submitted") (fun _ => []) 0 50)
        sampleExchange .noRaw 3).calls = []
    ∧ (getTrade sampleEngine
        (sampleTradeTransport (sampleOrder "5b1f51e1" "submitted") (fun _ => []) 0 50)
        sampleExchange .noRaw 3).outcome = some (.throws engineTypeError)
    ∧ (getTrade sampleEngine
        (sampleTradeTransport (sampleOrder "5b1f51e1" "submitted") (fun _ => []) 0 50)
        sampleExchange (.raw none) 3).calls = [.getOrder (some "mock_walletid") none]
    ∧ ((getTrade sampleEngine
        (sampleTradeTransport (sampleOrder "5b1f51e1" "submitted") (fun _ => []) 0 50)
        sampleExchange (.raw none) 3).value.map (fun order => order.externalId))
        = some (some "5b1f51e1") := by
  refine ⟨rfl, rfl, rfl, by decide⟩

/-- C33 (as amended): with credentials present, `getTrade` hands a validation error of
kind `MODULE_ERROR` to its callback without calling the transport when the trade is not an
object; for a trade object without a `raw` field it calls neither the transport nor the
callback, a `TypeError` escapes; for every other trade the first call to the transport is
`getOrder` with the `id` of `raw` as it is, present or not, and every later call is a page
request of the wallet trades. -/
theorem getTrade_argument (E : Engine) (T : Transport) (x : ItBitExchange) (fuel : ℕ)
    (hc : checkIfCredentialsIsProvided x = none) :
    (getTrade E T x .notObject fuel).calls = []
    ∧ (getTrade E T x .notObject fuel).outcome
        = some (.error (constructError "trade must be an object" .MODULE_ERROR none))
    ∧ (getTrade E T x .noRaw fuel).calls = []
    ∧ (getTrade E T x .noRaw fuel).outcome = some (.throws engineTypeError)
    ∧ (∀ id : Option String, ∃ rest : List Call,
        (getTrade E T x (.raw id) fuel).calls = .getOrder x.walletId id :: rest
        ∧ ∀ c ∈ rest, ∃ (p : ℕ) (rs re : String),
            c = .getWalletTrades x.walletId p 50 rs re) := by
  refine ⟨?_, ?_, ?_, ?_, fun id => getTrade_first_call E T x id fuel hc⟩
  all_goals
    unfold getTrade
    simp only [hc]

/-- C33, witness: with the credentials of the tests, a trade that is not an object is
refused without a call, and the trade of the tests makes `getOrder` be called with its
id. -/
theorem getTrade_argument_witness :
    (getTrade sampleEngine
        (sampleTradeTransport (sampleOrder "5b1f51e1" "submitted") (fun _ => []) 0 50)
        sampleExchange .notObject 3).outcome
      = some (.error (constructError "trade must be an object" .MODULE_ERROR none))
    ∧ ∃ rest : List Call,
        (getTrade sampleEngine
          (sampleTradeTransport (sampleOrder "5b1f51e1" "submitted") (fun _ => []) 0 50)
          sampleExchange (.raw (some "5b1f51e1")) 3).calls
          = .getOrder sampleExchange.walletId (some "5b1f51e1") :: rest := by
  obtain ⟨_, h2, _, _, h5⟩ := getTrade_argument sampleEngine
    (sampleTradeTransport (sampleOrder "5b1f51e1" "submitted") (fun _ => []) 0 50)
    sampleExchange 3 (by decide)
  obtain ⟨rest, hr, _⟩ := h5 (some "5b1f51e1")
  exact ⟨h2, rest, hr⟩

/-! ## C34: the formatting of an amount -/

/-- C34: `formatAmount` returns for no amount and no currency: its first statement reads
the identifier `fromSmallestSubUnit`, which is bound neither in the module nor globally,
and a `ReferenceError` is raised; so it is for 12345678 in `BTC`, which
`fromSmallestSubUnit` itself converts to `0.12345678`. -/
theorem formatAmount_throws :
    (∀ (amount : JsValue) (currency : String) (machine_readable : Bool),
        formatAmount amount currency machine_readable
          = .error (referenceError "fromSmallestSubUnit"))
    ∧ formatAmount (.number (.finite 12345678)) "BTC" true
        = .error ⟨"ReferenceError", "fromSmallestSubUnit is not defined"⟩
    ∧ fromSmallestSubUnit (.number (.finite 12345678)) "BTC" = .fixed false 12345678 8
    ∧ NumericString.fixedText false 12345678 8 = "0.12345678"
    ∧ "fromSmallestSubUnit" ∉ currencyScope ∧ "number_format" ∉ currencyScope := by
  refine ⟨fun _ _ _ => rfl, rfl, by decide!, by decide, by decide, by decide⟩

/-! ## C35: an item of the listing that cannot be parsed -/

theorem parseAll_error (E : Engine) :
    ∀ l : List RawTransaction,
      (∃ t ∈ l, ∃ e, (parseTransaction E t true).result = .error e) →
      ∃ (before : List RawTransaction) (t : RawTransaction) (after : List RawTransaction)
        (e : JsError),
        l = before ++ t :: after
        ∧ (∀ u ∈ before, ∃ r, (parseTransaction E u true).result = .ok r)
        ∧ (parseTransaction E t true).result = .error e
        ∧ parseAll E l = .error e := by
  intro l
  induction l with
  | nil => intro h; obtain ⟨t, ht, _⟩ := h; exact absurd ht (List.not_mem_nil t)
  | cons u l ih =>
    intro h
    cases hu : (parseTransaction E u true).result with
    | error e =>
      refine ⟨[], u, l, e, rfl, fun v hv => absurd hv (List.not_mem_nil v), hu, ?_⟩
      rw [parseAll]
      simp only [hu]
    | ok r =>
      have hrest : ∃ t ∈ l, ∃ e, (parseTransaction E t true).result = .error e := by
        obtain ⟨t, ht, e, he⟩ := h
        rcases List.mem_cons.mp ht with rfl | ht
        · rw [hu] at he; exact absurd he (by simp)
        · exact ⟨t, ht, e, he⟩
      obtain ⟨before, t, after, e, hl, hb, ht, hp⟩ := ih hrest
      refine ⟨u :: before, t, after, e, by rw [hl]; rfl, ?_, ht, ?_⟩
      · intro v hv
        rcases List.mem_cons.mp hv with rfl | hv
        · exact ⟨r, hu⟩
        · exact hb v hv
      · rw [parseAll]
        simp only [hu, hp]

/-- C35: when the page requests of `listTransactions` have ended with an accumulated list
of raw transactions of which at least one, at any position, makes `parseTransaction` throw,
the operation returns no result: its callback receives an error of kind `MODULE_ERROR`
whose cause is the exception of the first such item, although every item before it was
parsed. -/
theorem listTransactions_parse_failure (E : Engine) (T : Transport) (x : ItBitExchange)
    (latest : Option Transaction) (fuel : ℕ) (s : ListState)
    (hcred : checkIfCredentialsIsProvided x = none)
    (hrun : (doWhilst (listTransactions.callAPI T x latest) listTransactions.check fuel 0
      { result := [], limitReached := false, currentPage := 1 }).2 = some (.ok s))
    (hbad : ∃ t ∈ s.result, ∃ e, (parseTransaction E t true).result = .error e) :
    ∃ (before : List RawTransaction) (t : RawTransaction) (after : List RawTransaction)
      (e : JsError),
      s.result = before ++ t :: after
      ∧ (∀ u ∈ before, ∃ r, (parseTransaction E u true).result = .ok r)
      ∧ (parseTransaction E t true).result = .error e
      ∧ (listTransactions E T x latest fuel).outcome
          = some (.error (constructError
              "The response from ItBit getFundingHistory() could not be parsed"
              .MODULE_ERROR (some e)))
      ∧ (listTransactions E T x latest fuel).value = none := by
  obtain ⟨before, t, after, e, hl, hb, ht, hp⟩ := parseAll_error E s.result hbad
  have hout : (listTransactions E T x latest fuel).outcome
      = some (.error (constructError
          "The response from ItBit getFundingHistory() could not be parsed"
          .MODULE_ERROR (some e))) := by
    rw [listTransactions_run E T x latest fuel hcred]
    simp only [hrun, Option.map_some', listTransactions.done, listTransactions.parseResult, hp]
  refine ⟨before, t, after, e, hl, hb, ht, hout, ?_⟩
  unfold Run.value
  rw [hout]

/-- C35, witness: three pages of one item each, the second an entry of type `Transfer`:
the listing returns the `MODULE_ERROR` whose cause is the `TypeError` of that entry, and
not the deposit parsed before it. -/
theorem listTransactions_parse_failure_witness :
    (∃ e : JsError,
      (listTransactions sampleEngine
          (samplePagedTransport
            (fun k => if k = 2 then [sampleTransfer]
              else [sampleDeposit "2015-02-05T18:52:39.127Z"]) 3 1)
          sampleExchange none 4).outcome
        = some (.error (constructError
            "The response from ItBit getFundingHistory() could not be parsed" .MODULE_ERROR
            (some e))))
    ∧ (listTransactions sampleEngine
          (samplePagedTransport
            (fun k => if k = 2 then [sampleTransfer]
              else [sampleDeposit "2015-02-05T18:52:39.127Z"]) 3 1)
          sampleExchange none 4).outcome
        = some (.error (constructError
            "The response from ItBit getFundingHistory() could not be parsed" .MODULE_ERROR
            (some ⟨"TypeError", "ItBit transaction type not recognized (\"Transfer\")"⟩))) := by
  obtain ⟨_, _, _, e, _, _, _, hout, _⟩ :=
    listTransactions_parse_failure sampleEngine
      (samplePagedTransport
        (fun k => if k = 2 then [sampleTransfer]
          else [sampleDeposit "2015-02-05T18:52:39.127Z"]) 3 1)
      sampleExchange none 4
      { result := [sampleDeposit "2015-02-05T18:52:39.127Z", sampleTransfer,
          sampleDeposit "2015-02-05T18:52:39.127Z"]
        limitReached := true, currentPage := 4 }
      (by decide) rfl ⟨sampleTransfer, by decide, _, rfl⟩
  exact ⟨⟨e, hout⟩, by decide!⟩

/-! ## C36: the timestamp of a transaction -/

theorem toISOString_form (i : ℤ) (s : String) (h : toISOString i = some s) :
    ∃ pre : List Char,
      s.toList = pre ++ '.' :: padDigits 3 ((i % 86400000).toNat % 1000) ++ ['Z'] := by
  unfold toISOString at h
  split_ifs at h
  simp only [Option.some.injEq] at h
  rw [← h]
  exact ⟨_, rfl⟩

theorem padDigits_three : ∀ n : ℕ, n < 1000 → (padDigits 3 n).length = 3 := by decide!

/-- C36: the time `2015-03-18T17:37:39+01:00` carries a numeric offset and yet gets a
`Z` appended, because only the endings `Z` and `+0` are looked for; the date is then invalid
and printing it raises a `RangeError`, so that no timestamp is produced.  A time that ends
in `+0` or in `Z` is left as it is, and the same instant written as `2015-03-18T16:37:39Z`
is parsed to the timestamp `2015-03-18T16:37:39.000Z`. -/
theorem parseTransaction_offset_gets_marker :
    withZone "2015-03-18T17:37:39+01:00" = "2015-03-18T17:37:39+01:00Z"
    ∧ (parseTransaction sampleNodeEngine (sampleUsdDeposit "2015-03-18T17:37:39+01:00")
        true).result = .error engineRangeError
    ∧ withZone "2015-03-18T17:37:39+0" = "2015-03-18T17:37:39+0"
    ∧ withZone "2015-03-18T16:37:39Z" = "2015-03-18T16:37:39Z"
    ∧ (parseTransaction sampleNodeEngine (sampleUsdDeposit "2015-03-18T16:37:39Z")
        true).result.toOption.map (fun r => r.timestamp) = some "2015-03-18T16:37:39.000Z" := by
  have hcase : ∀ r : Except JsError Transaction,
      (match r with
        | .error e => some e
        | .ok _ => none) = some engineRangeError → r = .error engineRangeError := by
    intro r hr
    cases r with
    | error e =>
      simp only [Option.some.injEq] at hr
      rw [hr]
    | ok _ => simp at hr
  exact ⟨by decide!, hcase _ (by decide!), by decide!, by decide!, by decide!⟩

/-- The timestamp of a record: whenever `parseTransaction` returns a record, its timestamp
is the ISO 8601 rendering in UTC, with three digits of milliseconds and a trailing `Z`, of the
instant that `Date` gives to the string parsed: the remote time as it is when it ends in
`Z` or in `+0`, and with a `Z` appended in every other case, so that a time without zone
marker is read as UTC.  For the date-time forms of the language the instant does not depend
on the engine (`2015-02-04T18:52:39.127` gives `2015-02-04T18:52:39.127Z`); on an engine
that reads seven fraction digits as Node does, `2015-03-18T17:37:39.9170000` gives
`2015-03-18T17:37:39.917Z`. -/
theorem parseTransaction_timestamp (E : Engine) (t : RawTransaction) (log : Bool)
    (r : Transaction) (h : (parseTransaction E t log).result = .ok r) :
    ∃ (tm : String) (instant : ℤ),
      t.time = some tm
      ∧ E.dateParse (if tm.endsWith "Z" || tm.endsWith "+0" then tm else tm ++ "Z")
          = some instant
      ∧ (∀ i : ℤ,
          parseIsoUtc (if tm.endsWith "Z" || tm.endsWith "+0" then tm else tm ++ "Z") = some i →
          instant = i)
      ∧ toISOString instant = some r.timestamp
      ∧ (∃ pre : List Char, r.timestamp.toList
          = pre ++ '.' :: padDigits 3 ((instant % 86400000).toNat % 1000) ++ ['Z'])
      ∧ (padDigits 3 ((instant % 86400000).toNat % 1000)).length = 3
      ∧ (∀ E' : Engine,
          (parseTransaction E' (sampleUsdDeposit "2015-02-04T18:52:39.127") true
            ).result.toOption.map (fun r => r.timestamp) = some "2015-02-04T18:52:39.127Z")
      ∧ (∀ E' : Engine,
          E'.dateFallback "2015-03-18T17:37:39.9170000Z" = some 1426700259917 →
          (parseTransaction E' (sampleUsdDeposit "2015-03-18T17:37:39.9170000") true
            ).result.toOption.map (fun r => r.timestamp) = some "2015-03-18T17:37:39.917Z") := by
  obtain ⟨tm, _, _, htm, hdate, _⟩ := parseTransaction_inv E t log r h
  cases hi : E.dateParse (withZone tm) with
  | none => rw [hi] at hdate; simp at hdate
  | some instant =>
    rw [hi] at hdate
    have hiso : toISOString instant = some r.timestamp := hdate
    refine ⟨tm, instant, htm, hi, ?_, hiso, toISOString_form instant _ hiso,
      padDigits_three _ (Nat.mod_lt _ (by norm_num)), ?_, ?_⟩
    · intro i hp
      have hz : E.dateParse (withZone tm) = some i := by
        unfold Engine.dateParse
        have : parseIsoUtc (withZone tm) = some i := hp
        rw [this]
      rw [hi] at hz
      exact Option.some.inj hz
    · intro E'
      rw [parseTransaction_ok E' (sampleUsdDeposit "2015-02-04T18:52:39.127") true "deposit"
        (E'.sha256 "2015-02-04T18:52:39.127-USD") "2015-02-04T18:52:39.127"
        "2015-02-04T18:52:39.127Z" (Or.inr ⟨rfl, rfl⟩) rfl rfl (by
          have hp : parseIsoUtc (withZone "2015-02-04T18:52:39.127") = some 1423075959127 := by
            decide!
          unfold Engine.dateParse
          rw [hp]
          show toISOString 1423075959127 = some "2015-02-04T18:52:39.127Z"
          decide!)]
      rfl
    · intro E' hE
      rw [parseTransaction_ok E' (sampleUsdDeposit "2015-03-18T17:37:39.9170000") true "deposit"
        (E'.sha256 "2015-03-18T17:37:39.9170000-USD") "2015-03-18T17:37:39.9170000"
        "2015-03-18T17:37:39.917Z" (Or.inr ⟨rfl, rfl⟩) rfl rfl (by
          have hz : withZone "2015-03-18T17:37:39.9170000" = "2015-03-18T17:37:39.9170000Z" := by
            decide!
          have hp : parseIsoUtc "2015-03-18T17:37:39.9170000Z" = none := by decide!
          unfold Engine.dateParse
          rw [hz, hp]
          simp only [hE]
          show toISOString 1426700259917 = some "2015-03-18T17:37:39.917Z"
          decide!)]
      rfl

/-- The timestamp of a record, on an engine that reads the times of the exchange as Node
does: the deposit recorded at `2015-03-18T17:37:39.9170000` gets the timestamp
`2015-03-18T17:37:39.917Z`. -/
theorem parseTransaction_timestamp_witness :
    (parseTransaction sampleNodeEngine (sampleUsdDeposit "2015-03-18T17:37:39.9170000")
        true).result.toOption.map (fun r => r.timestamp) = some "2015-03-18T17:37:39.917Z"
    ∧ ∃ r : Transaction,
        (parseTransaction sampleNodeEngine (sampleUsdDeposit "2015-03-18T17:37:39.9170000")
          true).result = .ok r
        ∧ toISOString 1426700259917 = some r.timestamp := by
  obtain ⟨r, hr⟩ : ∃ r,
      (parseTransaction sampleNodeEngine (sampleUsdDeposit "2015-03-18T17:37:39.9170000")
        true).result = .ok r :=
    ⟨_, parseTransaction_ok sampleNodeEngine _ true "deposit" _ _ "2015-03-18T17:37:39.917Z"
      (Or.inr ⟨rfl, rfl⟩) rfl rfl (by decide!)⟩
  obtain ⟨tm, instant, htm, hi, _, hiso, _, _, _, hex⟩ :=
    parseTransaction_timestamp sampleNodeEngine
      (sampleUsdDeposit "2015-03-18T17:37:39.9170000") true r hr
  refine ⟨hex sampleNodeEngine (by decide!), r, hr, ?_⟩
  have h1 : tm = "2015-03-18T17:37:39.9170000" := (Option.some.inj htm).symm
  subst h1
  have h2 : sampleNodeEngine.dateParse
      (if "2015-03-18T17:37:39.9170000".endsWith "Z"
          || "2015-03-18T17:37:39.9170000".endsWith "+0"
        then "2015-03-18T17:37:39.9170000" else "2015-03-18T17:37:39.9170000" ++ "Z")
      = some 1426700259917 := by decide!
  rw [h2] at hi
  rw [← Option.some.inj hi] at hiso
  exact hiso

/-! ## Facts about the two pagination loops -/

theorem listStep_open (T : Transport) (x : ItBitExchange) (k : ℕ) (s : ListState)
    (data : FundingPage) (hs : s.limitReached = false)
    (h : T.getFundingHistory k x.walletId s.currentPage 50 = .ok data) :
    listTransactions.callAPI T x none k s
      = (.getFundingHistory x.walletId s.currentPage 50,
          .ok { result := s.result ++ data.fundingHistory
                limitReached :=
                  (pageCount data.totalNumberOfRecords data.recordsPerPage).exceededBy
                    (data.currentPageNumber + 1)
                currentPage := data.currentPageNumber + 1 }) := by
  rw [callAPI_ok T x none k s data hs h]
  unfold listTransactions.next
  have hall : data.fundingHistory.all (listTransactions.keeps none) = true :=
    List.all_eq_true.mpr (fun t _ => rfl)
  rw [if_pos hall]

theorem pageCount_reaches (N P p : ℕ) (h : ¬ (N = 0 ∧ P = 0)) :
    (!(pageCount N P).exceededBy p) = (pageCount N P).reaches p := by
  unfold pageCount
  by_cases hP : P = 0
  · have hN : N ≠ 0 := fun hN => h ⟨hN, hP⟩
    simp [hP, hN, PageCount.exceededBy, PageCount.reaches]
  · simp only [hP, if_false, PageCount.exceededBy, PageCount.reaches]
    by_cases hlt : (N + P - 1) / P < p
    · have : ¬ p ≤ (N + P - 1) / P := by omega
      simp [hlt, this]
    · have : p ≤ (N + P - 1) / P := by omega
      simp [hlt, this]

theorem reaches_iff_le_ceil (N P p : ℕ) (hP : 0 < P) :
    (pageCount N P).reaches p = true ↔ p ≤ ⌈(N : ℚ) / P⌉₊ := by
  rw [pageCount_pos N P hP, ceil_div_eq N P hP]
  simp [PageCount.reaches]

theorem listStep_next_page (T : Transport) (x : ItBitExchange) (k : ℕ) (s : ListState)
    (data : FundingPage) (hs : s.limitReached = false)
    (h : T.getFundingHistory k x.walletId s.currentPage 50 = .ok data)
    (hcount : ¬ (data.totalNumberOfRecords = 0 ∧ data.recordsPerPage = 0)) :
    ∃ s2 : ListState, (listTransactions.callAPI T x none k s).2 = .ok s2
      ∧ s2.currentPage = data.currentPageNumber + 1
      ∧ listTransactions.check s2
          = (pageCount data.totalNumberOfRecords data.recordsPerPage).reaches
              (data.currentPageNumber + 1) := by
  rw [listStep_open T x k s data hs h]
  refine ⟨_, rfl, rfl, ?_⟩
  unfold listTransactions.check
  exact pageCount_reaches _ _ _ hcount

theorem tradeStep_next_page (T : Transport) (x : ItBitExchange) (id : Option String)
    (rs re : String) (k : ℕ) (s : TradeState) (data : TradesPage)
    (h : T.getWalletTrades k x.walletId s.currentPage 50 rs re = .ok data) :
    ∃ s2 : TradeState, (getTrade.callAPI T x id rs re k s).2 = .ok s2
      ∧ s2.currentPage = data.currentPageNumber + 1
      ∧ getTrade.check s2
          = (pageCount data.totalNumberOfRecords data.recordsPerPage).reaches
              (data.currentPageNumber + 1) := by
  rw [tradeAPI_ok T x id rs re k s data h]
  exact ⟨_, rfl, rfl, rfl⟩

theorem loops_agree (TF TT : Transport) (x : ItBitExchange) (id : Option String)
    (rs re : String)
    (hsync : ∀ k p, ∃ (a : FundingPage) (b : TradesPage),
      TF.getFundingHistory k x.walletId p 50 = .ok a
      ∧ TT.getWalletTrades k x.walletId p 50 rs re = .ok b
      ∧ a.counters = b.counters
      ∧ ¬ (a.totalNumberOfRecords = 0 ∧ a.recordsPerPage = 0)) :
    ∀ (fuel j : ℕ) (sF : ListState) (sT : TradeState),
      sF.limitReached = false → sF.currentPage = sT.currentPage →
      (doWhilst (listTransactions.callAPI TF x none) listTransactions.check fuel j sF).1.filterMap
          Call.page
        = (doWhilst (getTrade.callAPI TT x id rs re) getTrade.check fuel j sT).1.filterMap
            Call.page
      ∧ (doWhilst (listTransactions.callAPI TF x none) listTransactions.check fuel j sF).2.isSome
        = (doWhilst (getTrade.callAPI TT x id rs re) getTrade.check fuel j sT).2.isSome := by
  intro fuel
  induction fuel with
  | zero => intro j sF sT _ _; exact ⟨rfl, rfl⟩
  | succ fuel ih =>
    intro j sF sT hs hp
    obtain ⟨a, b, hF, hT, hab, hcount⟩ := hsync j sF.currentPage
    have hT2 : TT.getWalletTrades j x.walletId sT.currentPage 50 rs re = .ok b := by
      rw [← hp]; exact hT
    simp only [FundingPage.counters, TradesPage.counters, Prod.mk.injEq] at hab
    obtain ⟨h1, h2, h3⟩ := hab
    rw [doWhilst, doWhilst, listStep_open TF x j sF a hs hF, tradeAPI_ok TT x id rs re j sT b hT2]
    simp only
    have hcheck : listTransactions.check
        { result := sF.result ++ a.fundingHistory
          limitReached := (pageCount a.totalNumberOfRecords a.recordsPerPage).exceededBy
            (a.currentPageNumber + 1)
          currentPage := a.currentPageNumber + 1 }
        = getTrade.check
          { tradeResults := sT.tradeResults ++
              b.tradingHistory.filter (fun e => decide (e.orderId = id))
            currentPage := b.currentPageNumber + 1
            totalPages := pageCount b.totalNumberOfRecords b.recordsPerPage } := by
      unfold listTransactions.check getTrade.check
      simp only
      rw [← h1, ← h2, ← h3]
      exact pageCount_reaches _ _ _ hcount
    rw [← hcheck]
    by_cases hc : listTransactions.check
        { result := sF.result ++ a.fundingHistory
          limitReached := (pageCount a.totalNumberOfRecords a.recordsPerPage).exceededBy
            (a.currentPageNumber + 1)
          currentPage := a.currentPageNumber + 1 } = true
    · rw [if_pos hc, if_pos hc]
      have hopen : (pageCount a.totalNumberOfRecords a.recordsPerPage).exceededBy
          (a.currentPageNumber + 1) = false := by
        simpa [listTransactions.check] using hc
      obtain ⟨i1, i2⟩ := ih (j + 1)
        { result := sF.result ++ a.fundingHistory
          limitReached := (pageCount a.totalNumberOfRecords a.recordsPerPage).exceededBy
            (a.currentPageNumber + 1)
          currentPage := a.currentPageNumber + 1 }
        { tradeResults := sT.tradeResults ++
            b.tradingHistory.filter (fun e => decide (e.orderId = id))
          currentPage := b.currentPageNumber + 1
          totalPages := pageCount b.totalNumberOfRecords b.recordsPerPage }
        hopen (by simp only; rw [h1])
      refine ⟨?_, i2⟩
      simp only [List.filterMap_cons, Call.page, hp]
      rw [i1]
    · rw [if_neg hc, if_neg hc]
      refine ⟨?_, rfl⟩
      simp only [List.filterMap_cons, List.filterMap_nil, Call.page, hp]

/-! ## C37: the two pagination loops ask for the same pages -/

theorem listLoop_empty_counters (T : Transport) (x : ItBitExchange)
    (hT : ∀ k p, ∃ data : FundingPage,
      T.getFundingHistory k x.walletId p 50 = .ok data
      ∧ data.totalNumberOfRecords = 0 ∧ data.recordsPerPage = 0) :
    ∀ (fuel j : ℕ) (s : ListState), s.limitReached = false →
      (doWhilst (listTransactions.callAPI T x none) listTransactions.check fuel j s).2 = none
      ∧ (doWhilst (listTransactions.callAPI T x none) listTransactions.check fuel j s).1.length
          = fuel := by
  intro fuel
  induction fuel with
  | zero => intro j s _; exact ⟨rfl, rfl⟩
  | succ fuel ih =>
    intro j s hs
    obtain ⟨data, hd, h1, h2⟩ := hT j s.currentPage
    rw [doWhilst, listStep_open T x j s data hs hd, h1, h2]
    have hp : (pageCount 0 0).exceededBy (data.currentPageNumber + 1) = false := rfl
    rw [hp]
    obtain ⟨i1, i2⟩ := ih (j + 1)
      { result := s.result ++ data.fundingHistory, limitReached := false
        currentPage := data.currentPageNumber + 1 } rfl
    have hc : listTransactions.check
        { result := s.result ++ data.fundingHistory, limitReached := false
          currentPage := data.currentPageNumber + 1 } = true := rfl
    simp only [hc, if_true]
    exact ⟨i1, by simp only [List.length_cons, i2]⟩

/-- C37: let every page request be answered with `totalNumberOfRecords = 0` together with
`recordsPerPage = 0`, so that the number of pages, `Math.ceil(0 / 0)`, is `NaN`.  Then the
loop of `listTransactions` without watermark never ends: whatever number `n` of iterations
is allowed, it has made `n` page requests and has not ended.  The loop of `getTrade` for a
filled order, on the same answers, asks for page 1 and ends.  In every other case the two
loops take the same decision: the test `++currentPage > totalPages` of the first is the
negation of the test `currentPage <= totalPages` of the second. -/
theorem pagination_differs_on_empty_counters (E : Engine) (TF TT : Transport)
    (x : ItBitExchange) (id : Option String) (order : RawOrder) (rs re : String)
    (hcred : checkIfCredentialsIsProvided x = none)
    (hget : TT.getOrder x.walletId id = .ok order)
    (hfilled : order.status = some "filled")
    (hrange : getTrade.timeRange E x order = some (rs, re))
    (hF : ∀ k p, ∃ data : FundingPage,
      TF.getFundingHistory k x.walletId p 50 = .ok data
      ∧ data.totalNumberOfRecords = 0 ∧ data.recordsPerPage = 0)
    (hT : ∀ k p, ∃ data : TradesPage,
      TT.getWalletTrades k x.walletId p 50 rs re = .ok data
      ∧ data.totalNumberOfRecords = 0 ∧ data.recordsPerPage = 0) :
    (∀ n : ℕ,
      (listTransactions E TF x none n).outcome = none
      ∧ (listTransactions E TF x none n).calls.length = n)
    ∧ (∀ n : ℕ,
      (getTrade E TT x (.raw id) (n + 1)).outcome.isSome = true
      ∧ (getTrade E TT x (.raw id) (n + 1)).calls
          = [.getOrder x.walletId id, .getWalletTrades x.walletId 1 50 rs re])
    ∧ (∀ N P p : ℕ, ¬ (N = 0 ∧ P = 0) →
        (!(pageCount N P).exceededBy p) = (pageCount N P).reaches p)
    ∧ (∀ p : ℕ, (pageCount 0 0).exceededBy p = false ∧ (pageCount 0 0).reaches p = false) := by
  refine ⟨?_, ?_, fun N P p h => pageCount_reaches N P p h, fun p => ⟨rfl, rfl⟩⟩
  · intro n
    obtain ⟨h1, h2⟩ := listLoop_empty_counters TF x hF n 0
      { result := [], limitReached := false, currentPage := 1 } rfl
    rw [listTransactions_run E TF x none n hcred]
    exact ⟨by simp only [h1, Option.map_none'], h2⟩
  · intro n
    obtain ⟨data, hd, h1, h2⟩ := hT 0 1
    rw [getTrade_filled_run E TT x id order rs re (n + 1) hcred hget hfilled hrange]
    have hstep : doWhilst (getTrade.callAPI TT x id rs re) getTrade.check (n + 1) 0
        { tradeResults := [], currentPage := 1, totalPages := .nan }
        = ([.getWalletTrades x.walletId 1 50 rs re],
            some (.ok { tradeResults := [] ++
                          data.tradingHistory.filter (fun e => decide (e.orderId = id))
                        currentPage := data.currentPageNumber + 1
                        totalPages := pageCount 0 0 })) := by
      rw [doWhilst, tradeAPI_ok TT x id rs re 0 _ data hd, h1, h2]
      rfl
    rw [hstep]
    exact ⟨rfl, rfl⟩

/-- C37, witness: a transport that reports `totalNumberOfRecords = 0` together with
`recordsPerPage = 0` and the page number it was asked for.  Within three iterations the loop
of `listTransactions` has asked for the pages 1, 2 and 3 and has not ended, while the loop
of `getTrade` has asked for page 1 and has ended. -/
theorem pagination_differs_on_empty_counters_witness :
    (listTransactions sampleEngine
        (sampleCountersTransport (sampleOrder "248ffda4" "filled") (fun page => page) 0 0)
        sampleExchange none 3).calls.filterMap Call.page = [1, 2, 3]
    ∧ (listTransactions sampleEngine
        (sampleCountersTransport (sampleOrder "248ffda4" "filled") (fun page => page) 0 0)
        sampleExchange none 3).outcome = none
    ∧ (getTrade sampleEngine
        (sampleCountersTransport (sampleOrder "248ffda4" "filled") (fun page => page) 0 0)
        sampleExchange (.raw (some "248ffda4")) 3).calls.filterMap Call.page = [1]
    ∧ (getTrade sampleEngine
        (sampleCountersTransport (sampleOrder "248ffda4" "filled") (fun page => page) 0 0)
        sampleExchange (.raw (some "248ffda4")) 3).outcome.isSome = true := by
  obtain ⟨h1, h2, _⟩ := pagination_differs_on_empty_counters sampleEngine
    (sampleCountersTransport (sampleOrder "248ffda4" "filled") (fun page => page) 0 0)
    (sampleCountersTransport (sampleOrder "248ffda4" "filled") (fun page => page) 0 0)
    sampleExchange (some "248ffda4") (sampleOrder "248ffda4" "filled")
    "2014-02-11T17:04:15.000Z" "2014-02-11T17:35:15.000Z"
    (by decide) rfl rfl (by decide!)
    (fun k p => ⟨⟨[], p, 0, 0⟩, rfl, rfl, rfl⟩)
    (fun k p => ⟨⟨[], p, 0, 0⟩, rfl, rfl, rfl⟩)
  refine ⟨by decide!, (h1 3).1, ?_, (h2 2).1⟩
  rw [(h2 2).2]
  rfl
/-- The two loops on other answers: let the funding history and the wallet trades answer
every page request with the same three counters, never with `totalNumberOfRecords = 0` together with
`recordsPerPage = 0`.  Then, whatever number of iterations is allowed, `listTransactions`
without watermark and the execution fetch of `getTrade` for a filled order have asked for
the same sequence of page numbers, and one has ended exactly if the other has.  In both
loops the next page is the reported `currentPageNumber + 1`, and the loop continues exactly
while that number is at most `Math.ceil(totalNumberOfRecords / recordsPerPage)` of the
latest response, which for `recordsPerPage > 0` is the ceiling of the quotient. -/
theorem pagination_same_pages (E : Engine) (TF TT : Transport) (x : ItBitExchange)
    (id : Option String) (order : RawOrder) (rs re : String) (fuel : ℕ)
    (hcred : checkIfCredentialsIsProvided x = none)
    (hget : TT.getOrder x.walletId id = .ok order)
    (hfilled : order.status = some "filled")
    (hrange : getTrade.timeRange E x order = some (rs, re))
    (hsync : ∀ k p, ∃ (a : FundingPage) (b : TradesPage),
      TF.getFundingHistory k x.walletId p 50 = .ok a
      ∧ TT.getWalletTrades k x.walletId p 50 rs re = .ok b
      ∧ a.counters = b.counters
      ∧ ¬ (a.totalNumberOfRecords = 0 ∧ a.recordsPerPage = 0)) :
    (listTransactions E TF x none fuel).calls.filterMap Call.page
        = (getTrade E TT x (.raw id) fuel).calls.filterMap Call.page
    ∧ (listTransactions E TF x none fuel).outcome.isSome
        = (getTrade E TT x (.raw id) fuel).outcome.isSome
    ∧ (∀ (k : ℕ) (s : ListState) (data : FundingPage),
        s.limitReached = false →
        TF.getFundingHistory k x.walletId s.currentPage 50 = .ok data →
        ¬ (data.totalNumberOfRecords = 0 ∧ data.recordsPerPage = 0) →
        ∃ s2 : ListState, (listTransactions.callAPI TF x none k s).2 = .ok s2
          ∧ s2.currentPage = data.currentPageNumber + 1
          ∧ listTransactions.check s2
              = (pageCount data.totalNumberOfRecords data.recordsPerPage).reaches
                  (data.currentPageNumber + 1))
    ∧ (∀ (k : ℕ) (s : TradeState) (data : TradesPage),
        TT.getWalletTrades k x.walletId s.currentPage 50 rs re = .ok data →
        ∃ s2 : TradeState, (getTrade.callAPI TT x id rs re k s).2 = .ok s2
          ∧ s2.currentPage = data.currentPageNumber + 1
          ∧ getTrade.check s2
              = (pageCount data.totalNumberOfRecords data.recordsPerPage).reaches
                  (data.currentPageNumber + 1))
    ∧ (∀ N P p : ℕ, 0 < P →
        ((pageCount N P).reaches p = true ↔ p ≤ ⌈(N : ℚ) / P⌉₊)) := by
  obtain ⟨h1, h2⟩ := loops_agree TF TT x id rs re hsync fuel 0
    { result := [], limitReached := false, currentPage := 1 }
    { tradeResults := [], currentPage := 1, totalPages := .nan } rfl rfl
  refine ⟨?_, ?_, fun k s data hs h hcount => listStep_next_page TF x k s data hs h hcount,
    fun k s data h => tradeStep_next_page TT x id rs re k s data h,
    fun N P p hP => reaches_iff_le_ceil N P p hP⟩
  · rw [listTransactions_run E TF x none fuel hcred,
      getTrade_filled_run E TT x id order rs re fuel hcred hget hfilled hrange]
    simp only [List.filterMap_cons, Call.page]
    exact h1
  · rw [listTransactions_run E TF x none fuel hcred,
      getTrade_filled_run E TT x id order rs re fuel hcred hget hfilled hrange]
    simp only [Option.isSome_map']
    exact h2

/-- The two loops on 121 records announced with 50 records per page, the page asked for
being the page reported: both loops ask for the pages 1, 2 and 3 and have ended. -/
theorem pagination_same_pages_witness :
    (listTransactions sampleEngine
        (sampleCountersTransport (sampleOrder "248ffda4" "filled") (fun page => page) 121 50)
        sampleExchange none 5).calls.filterMap Call.page = [1, 2, 3]
    ∧ (getTrade sampleEngine
        (sampleCountersTransport (sampleOrder "248ffda4" "filled") (fun page => page) 121 50)
        sampleExchange (.raw (some "248ffda4")) 5).calls.filterMap Call.page = [1, 2, 3]
    ∧ (getTrade sampleEngine
        (sampleCountersTransport (sampleOrder "248ffda4" "filled") (fun page => page) 121 50)
        sampleExchange (.raw (some "248ffda4")) 5).outcome.isSome = true := by
  obtain ⟨h1, h2, _⟩ := pagination_same_pages sampleEngine
    (sampleCountersTransport (sampleOrder "248ffda4" "filled") (fun page => page) 121 50)
    (sampleCountersTransport (sampleOrder "248ffda4" "filled") (fun page => page) 121 50)
    sampleExchange (some "248ffda4") (sampleOrder "248ffda4" "filled")
    "2014-02-11T17:04:15.000Z" "2014-02-11T17:35:15.000Z" 5
    (by decide) rfl rfl (by decide!)
    (fun k p => ⟨⟨[], p, 121, 50⟩, ⟨[], p, 121, 50⟩, rfl, rfl, rfl,
      fun h => absurd h.1 (Nat.succ_ne_zero 120)⟩)
  have hl : (listTransactions sampleEngine
      (sampleCountersTransport (sampleOrder "248ffda4" "filled") (fun page => page) 121 50)
      sampleExchange none 5).calls.filterMap Call.page = [1, 2, 3] := by decide!
  have ho : (listTransactions sampleEngine
      (sampleCountersTransport (sampleOrder "248ffda4" "filled") (fun page => page) 121 50)
      sampleExchange none 5).outcome.isSome = true := by decide!
  exact ⟨hl, by rw [← h1]; exact hl, by rw [← h2]; exact ho⟩

/-! ## C38: the page asked for next -/

theorem listLoop_page_two (T : Transport) (x : ItBitExchange)
    (hT : ∀ k p, ∃ data : FundingPage,
      T.getFundingHistory k x.walletId p 50 = .ok data
      ∧ data.currentPageNumber = 1 ∧ data.totalNumberOfRecords = 2
      ∧ data.recordsPerPage = 1) :
    ∀ (fuel j : ℕ) (s : ListState), s.limitReached = false →
      (doWhilst (listTransactions.callAPI T x none) listTransactions.check fuel j s).2 = none
      ∧ (doWhilst (listTransactions.callAPI T x none) listTransactions.check (fuel + 1) j s).1
          = .getFundingHistory x.walletId s.currentPage 50
              :: List.replicate fuel (.getFundingHistory x.walletId 2 50)
      ∧ (doWhilst (listTransactions.callAPI T x none) listTransactions.check fuel j s).1.length
          = fuel := by
  have hstep : ∀ (fuel j : ℕ) (s : ListState), s.limitReached = false →
      ∃ r : List RawTransaction,
        doWhilst (listTransactions.callAPI T x none) listTransactions.check (fuel + 1) j s
          = (.getFundingHistory x.walletId s.currentPage 50 ::
              (doWhilst (listTransactions.callAPI T x none) listTransactions.check fuel (j + 1)
                { result := r, limitReached := false, currentPage := 2 }).1,
             (doWhilst (listTransactions.callAPI T x none) listTransactions.check fuel (j + 1)
                { result := r, limitReached := false, currentPage := 2 }).2) := by
    intro fuel j s hs
    obtain ⟨data, hd, h1, h2, h3⟩ := hT j s.currentPage
    refine ⟨s.result ++ data.fundingHistory, ?_⟩
    rw [doWhilst, listStep_open T x j s data hs hd, h1, h2, h3]
    have hp : (pageCount 2 1).exceededBy (1 + 1) = false := by decide
    rw [hp]
    rfl
  intro fuel
  induction fuel with
  | zero =>
    intro j s hs
    obtain ⟨r, hr⟩ := hstep 0 j s hs
    refine ⟨rfl, ?_, rfl⟩
    rw [hr]
    rfl
  | succ fuel ih =>
    intro j s hs
    obtain ⟨r, hr⟩ := hstep fuel j s hs
    obtain ⟨r2, hr2⟩ := hstep (fuel + 1) j s hs
    obtain ⟨i1, i2, i3⟩ := ih (j + 1) { result := r, limitReached := false, currentPage := 2 } rfl
    obtain ⟨k1, k2, k3⟩ := ih (j + 1) { result := r2, limitReached := false, currentPage := 2 } rfl
    refine ⟨?_, ?_, ?_⟩
    · rw [hr]; exact i1
    · rw [hr2]
      simp only
      rw [k2, List.replicate_succ]
    · rw [hr]
      simp only [List.length_cons, i3]

/-- C38: in both pagination loops the page asked for next is the page number reported by
the response plus one, whatever page was asked for.  Hence, for a transport that answers
every request of the funding history with `currentPageNumber = 1`, `recordsPerPage = 1` and
`totalNumberOfRecords = 2`, `listTransactions` without watermark asks for page 1 and then
for page 2 at every step, and for every `n` it has made `n` page requests without having
ended when `n` iterations are allowed. -/
theorem listTransactions_repeats_page_two (E : Engine) (T : Transport) (x : ItBitExchange)
    (hcred : checkIfCredentialsIsProvided x = none)
    (hT : ∀ k p, ∃ data : FundingPage,
      T.getFundingHistory k x.walletId p 50 = .ok data
      ∧ data.currentPageNumber = 1 ∧ data.totalNumberOfRecords = 2
      ∧ data.recordsPerPage = 1) :
    (∀ n : ℕ,
      (listTransactions E T x none n).outcome = none
      ∧ (listTransactions E T x none n).calls.length = n
      ∧ (listTransactions E T x none (n + 1)).calls
          = .getFundingHistory x.walletId 1 50
              :: List.replicate n (.getFundingHistory x.walletId 2 50))
    ∧ (∀ (latest : Option Transaction) (k : ℕ) (s : ListState) (data : FundingPage),
        T.getFundingHistory k x.walletId s.currentPage 50 = .ok data →
        ∃ s2 : ListState, (listTransactions.callAPI T x latest k s).2 = .ok s2
          ∧ (s2.limitReached = false → s2.currentPage = data.currentPageNumber + 1))
    ∧ (∀ (id : Option String) (rs re : String) (k : ℕ) (s : TradeState) (data : TradesPage),
        T.getWalletTrades k x.walletId s.currentPage 50 rs re = .ok data →
        ∃ s2 : TradeState, (getTrade.callAPI T x id rs re k s).2 = .ok s2
          ∧ s2.currentPage = data.currentPageNumber + 1) := by
  refine ⟨?_, ?_, ?_⟩
  · intro n
    obtain ⟨h1, _, h3⟩ := listLoop_page_two T x hT n 0
      { result := [], limitReached := false, currentPage := 1 } rfl
    obtain ⟨_, k2, _⟩ := listLoop_page_two T x hT n 0
      { result := [], limitReached := false, currentPage := 1 } rfl
    refine ⟨?_, ?_, ?_⟩
    · rw [listTransactions_run E T x none n hcred]
      simp only [h1, Option.map_none']
    · rw [listTransactions_run E T x none n hcred]
      exact h3
    · rw [listTransactions_run E T x none (n + 1) hcred]
      exact k2
  · intro latest k s data h
    unfold listTransactions.callAPI
    simp only [h]
    split_ifs with hv
    · exact ⟨_, rfl, fun hl => absurd hl (by simp)⟩
    · exact ⟨_, rfl, fun _ => rfl⟩
  · intro id rs re k s data h
    obtain ⟨s2, e1, e2, _⟩ := tradeStep_next_page T x id rs re k s data h
    exact ⟨s2, e1, e2⟩

/-- C38, witness: with the transport that answers every request with page number 1 of 2
pages of one record, four iterations make the requests for the pages 1, 2, 2, 2 and do not
end the listing. -/
theorem listTransactions_repeats_page_two_witness :
    (listTransactions sampleEngine (samplePageTransport ⟨[], 1, 2, 1⟩) sampleExchange none
        4).outcome = none
    ∧ (listTransactions sampleEngine (samplePageTransport ⟨[], 1, 2, 1⟩) sampleExchange none
        4).calls
      = [.getFundingHistory (some "mock_walletid") 1 50,
          .getFundingHistory (some "mock_walletid") 2 50,
          .getFundingHistory (some "mock_walletid") 2 50,
          .getFundingHistory (some "mock_walletid") 2 50] := by
  obtain ⟨h, _, _⟩ := listTransactions_repeats_page_two sampleEngine
    (samplePageTransport ⟨[], 1, 2, 1⟩) sampleExchange (by decide)
    (fun _ _ => ⟨⟨[], 1, 2, 1⟩, rfl, rfl, rfl, rfl⟩)
  exact ⟨(h 4).1, (h 3).2.2⟩

/-! ## C39: an amount below the fourth decimal -/

theorem truncation_small (E : Engine) (q : ℚ) (hq1 : 1 / 10 ^ (8 : ℕ) ≤ q)
    (hq2 : q ≤ 9999 / 10 ^ (8 : ℕ)) :
    (parseIntNumber E ((JsNumber.finite 10000).mul (.finite (roundFinite q)))).div
        (.finite 10000) = .finite 0
    ∧ (parseIntNumber E ((JsNumber.finite 10000).mul (.finite (-roundFinite q)))).div
        (.finite 10000) = .finite 0 := by
  have hx1 : (1 : ℚ) / 10 ^ (9 : ℕ) ≤ roundFinite q :=
    le_trans (by decide!) (roundFinite_mono _ _ hq1)
  have hx2 : roundFinite q ≤ roundFinite (9999 / 10 ^ (8 : ℕ)) := roundFinite_mono _ _ hq2
  generalize roundFinite q = x at hx1 hx2 ⊢
  have hx0 : 0 < x := lt_of_lt_of_le (by norm_num) hx1
  have hx3 : x ≤ 1 := le_trans hx2 (by decide!)
  have hw1 : (1 : ℚ) / 10 ^ (6 : ℕ) ≤ roundFinite (10000 * x) := by
    have h1 : (1 : ℚ) / 10 ^ (5 : ℕ) ≤ 10000 * x := by
      have : (10000 : ℚ) * (1 / 10 ^ (9 : ℕ)) = 1 / 10 ^ (5 : ℕ) := by norm_num
      linarith
    exact le_trans (by decide!) (roundFinite_mono _ _ h1)
  have hw2 : roundFinite (10000 * x) < 1 := by
    have h1 : 10000 * x ≤ 10000 * roundFinite (9999 / 10 ^ (8 : ℕ)) := by linarith
    exact lt_of_le_of_lt (roundFinite_mono _ _ h1) (by decide!)
  have hwfin : roundDouble (10000 * x) = .finite (roundFinite (10000 * x)) :=
    roundDouble_finite _ (by
      rw [abs_of_pos (by linarith : (0 : ℚ) < 10000 * x)]
      exact le_trans (by linarith : 10000 * x ≤ 2 ^ (14 : ℕ))
        (pow_le_pow_right₀ (by norm_num) (by norm_num)))
  have hwneg : roundDouble (10000 * -x) = .finite (-roundFinite (10000 * x)) := by
    have h1 : (10000 : ℚ) * -x = -(10000 * x) := by ring
    rw [h1, roundDouble_finite _ (by
      rw [abs_neg, abs_of_pos (by linarith : (0 : ℚ) < 10000 * x)]
      exact le_trans (by linarith : 10000 * x ≤ 2 ^ (14 : ℕ))
        (pow_le_pow_right₀ (by norm_num) (by norm_num))), roundFinite_neg]
  generalize roundFinite (10000 * x) = w at hw1 hw2 hwfin hwneg ⊢
  have hw0 : 0 < w := lt_of_lt_of_le (by norm_num) hw1
  have hfloor : ⌊w⌋ = 0 := by
    rw [Int.floor_eq_iff]
    constructor
    · simpa using hw0.le
    · simpa using hw2
  have hbig : ¬ ((10 : ℚ) ^ (21 : ℕ) ≤ |w| ∨ |w| < 1 / (10 : ℚ) ^ (6 : ℕ)) := by
    rw [abs_of_pos hw0]
    intro h
    rcases h with h | h
    · have : (1 : ℚ) < 10 ^ (21 : ℕ) := by norm_num
      linarith
    · linarith
  have hbig2 : ¬ ((10 : ℚ) ^ (21 : ℕ) ≤ |(-w)| ∨ |(-w)| < 1 / (10 : ℚ) ^ (6 : ℕ)) := by
    rw [abs_neg]; exact hbig
  have hzero : roundDouble ((0 : ℚ) / 10000) = .finite 0 := by decide!
  constructor
  · unfold JsNumber.mul
    simp only
    rw [hwfin]
    unfold parseIntNumber
    simp only
    rw [if_neg (by linarith), if_neg hbig, if_neg (by linarith), hfloor]
    unfold JsNumber.div
    simp only
    rw [if_neg (by norm_num)]
    simpa using hzero
  · unfold JsNumber.mul
    simp only
    rw [hwneg]
    unfold parseIntNumber
    simp only
    rw [if_neg (by linarith), if_neg hbig2, if_pos (by linarith), neg_neg, hfloor]
    unfold JsNumber.div
    simp only
    rw [if_neg (by norm_num)]
    simpa using hzero

theorem amountMainUnit_small (E : Engine) (a : ℤ) (h0 : 0 < |a|) (h1 : |a| < 10000) :
    placeTrade.amountMainUnit E (.number (.finite a)) "BTC" = .finite 0 := by
  have ha : |a| < 3355443200000000 := by omega
  have h0q : (1 : ℚ) ≤ |(a : ℚ)| := by
    have : (1 : ℤ) ≤ |a| := by omega
    exact_mod_cast this
  have h1q : |(a : ℚ)| ≤ 9999 := by
    have : |a| ≤ 9999 := by omega
    exact_mod_cast this
  obtain ⟨t1, t2⟩ := truncation_small E (|(a : ℚ)| / 10 ^ (8 : ℕ))
    (div_le_div_of_nonneg_right h0q (by norm_num))
    (div_le_div_of_nonneg_right h1q (by norm_num))
  unfold placeTrade.amountMainUnit
  simp only [if_true]
  rw [toNumber_fromSmallestSubUnit a "BTC" ha, show getDecimalsForCurrency "BTC" = 8 by decide]
  rcases le_or_lt 0 a with hpos | hneg
  · have : |(a : ℚ)| = a := abs_of_nonneg (by exact_mod_cast hpos)
    rw [this] at t1
    rw [t1]
    show JsNumber.finite |(0 : ℚ)| = _
    rw [abs_zero]
  · have hq : (a : ℚ) < 0 := by exact_mod_cast hneg
    have e1 : (a : ℚ) / 10 ^ (8 : ℕ) = -(|(a : ℚ)| / 10 ^ (8 : ℕ)) := by
      rw [abs_of_neg hq]; ring
    rw [e1, roundFinite_neg, t2]
    show JsNumber.finite |(0 : ℚ)| = _
    rw [abs_zero]

/-- C39: for the base currency `BTC` and every integer base amount `a` with
`0 < |a| < 10000`, `placeTrade` with credentials and an accepted limit price does not refuse
the amount: it makes one call to the transport, `addOrder` with the side of the sign of `a`
and the amount 0.  The amount is tested against zero before it is cut to 4 decimals. -/
theorem placeTrade_submits_zero (E : Engine) (T : Transport) (x : ItBitExchange) (a : ℤ)
    (price : JsNumber) (quoteCurrency : String)
    (hc : checkIfCredentialsIsProvided x = none) (hp : price.le (.finite 0) = false)
    (h0 : 0 < |a|) (h1 : |a| < 10000) :
    (placeTrade E T x (.number (.finite a)) (.number price) "BTC" quoteCurrency).calls
      = [.addOrder x.walletId (if 0 < a then "buy" else "sell") "limit" (.finite 0)
          ((JsNumber.round ((JsNumber.finite 100).mul price)).div (.finite 100))
          ("XBT" ++ quoteCurrency)]
    ∧ (JsNumber.finite (a : ℚ)).strictEq (.finite 0) = false
    ∧ placeTrade.amountMainUnit E (.number (.finite a)) "BTC" = .finite 0 := by
  have h0z : a ≠ 0 := by
    intro h
    rw [h] at h0
    simp at h0
  have h0q : (a : ℚ) ≠ 0 := by exact_mod_cast h0z
  have ha : (JsNumber.finite (a : ℚ)).strictEq (.finite 0) = false := by
    unfold JsNumber.strictEq
    have : JsNumber.finite (a : ℚ) ≠ .finite 0 := fun h => h0q (JsNumber.finite.inj h)
    simp [this]
  have hgt : (JsNumber.finite (a : ℚ)).gt (.finite 0) = decide (0 < a) := by
    unfold JsNumber.gt JsNumber.lt
    simp
  have hsent := amountMainUnit_small E a h0 h1
  refine ⟨?_, ha, hsent⟩
  unfold placeTrade
  simp only [hc, ha, hp, hgt, hsent, decide_eq_true_eq]
  rfl

/-- C39, witness: a purchase of 9999 satoshis at 412 is submitted with the amount 0. -/
theorem placeTrade_submits_zero_witness :
    (placeTrade sampleEngine sampleEchoTransport sampleExchange (.number (.finite 9999))
        (.number (.finite 412)) "BTC" "USD").calls
      = [.addOrder sampleExchange.walletId "buy" "limit" (.finite 0)
          ((JsNumber.round ((JsNumber.finite 100).mul (.finite 412))).div (.finite 100))
          "XBTUSD"] := by
  have h := (placeTrade_submits_zero sampleEngine sampleEchoTransport sampleExchange 9999
    (.finite 412) "USD" (by decide) (by decide!) (by decide) (by decide)).1
  simpa using h

/-! ## C40: the time ranges of the settings -/

/-- C40: a time range configured as 0 is not used: when the setting is absent or 0 the
adapter uses 60000 before and 1800000 after the creation time; a configured integer other
than 0 is used as it is, and the value used is the configured one exactly when that one is
not 0.  So neither range used is 0, and the two instants that `getTrade` prints as the bounds
of its search both differ from the creation time of the order. -/
theorem time_ranges_of_settings (settings : Settings) :
    ((settings.timeRangeBeforeCreatedInMillis = none
        ∨ settings.timeRangeBeforeCreatedInMillis = some 0) →
      (ItBitExchange.create settings).timeRangeBeforeCreatedInMillis = 60000)
    ∧ ((settings.timeRangeAfterCreatedInMillis = none
        ∨ settings.timeRangeAfterCreatedInMillis = some 0) →
      (ItBitExchange.create settings).timeRangeAfterCreatedInMillis = 1800000)
    ∧ (∀ v : ℤ, settings.timeRangeBeforeCreatedInMillis = some v →
        ((ItBitExchange.create settings).timeRangeBeforeCreatedInMillis = v ↔ v ≠ 0))
    ∧ (∀ v : ℤ, settings.timeRangeAfterCreatedInMillis = some v →
        ((ItBitExchange.create settings).timeRangeAfterCreatedInMillis = v ↔ v ≠ 0))
    ∧ (ItBitExchange.create settings).timeRangeBeforeCreatedInMillis ≠ 0
    ∧ (ItBitExchange.create settings).timeRangeAfterCreatedInMillis ≠ 0
    ∧ (∀ (E : Engine) (order : RawOrder) (rs re : String),
        getTrade.timeRange E (ItBitExchange.create settings) order = some (rs, re) →
        ∃ (created start stop : ℤ),
          order.createdTime.bind E.dateParse = some created
          ∧ toISOString start = some rs ∧ toISOString stop = some re
          ∧ start ≠ created ∧ stop ≠ created) := by
  have hb : ∀ (value : Option ℤ) (fallback : ℤ), fallback ≠ 0 →
      ((value = none ∨ value = some 0) → orDefault value fallback = fallback)
      ∧ (∀ v : ℤ, value = some v → (orDefault value fallback = v ↔ v ≠ 0))
      ∧ orDefault value fallback ≠ 0 := by
    intro value fallback hf
    cases value with
    | none =>
      refine ⟨fun _ => rfl, fun v hv => by simp at hv, hf⟩
    | some w =>
      by_cases hw : w = 0
      · subst hw
        refine ⟨fun _ => by simp [orDefault], ?_, by simpa [orDefault] using hf⟩
        intro v hv
        have : v = 0 := (Option.some.inj hv).symm
        subst this
        simp [orDefault, hf]
      · refine ⟨fun h => ?_, ?_, by simp [orDefault, hw]⟩
        · rcases h with h | h
          · simp at h
          · exact absurd (Option.some.inj h) hw
        · intro v hv
          have : w = v := Option.some.inj hv
          subst this
          simp [orDefault, hw]
  obtain ⟨b1, b2, b3⟩ := hb settings.timeRangeBeforeCreatedInMillis
    DEFAULT_TIME_RANGE_BEFORE_CREATED_IN_MILLIS (by decide)
  obtain ⟨a1, a2, a3⟩ := hb settings.timeRangeAfterCreatedInMillis
    DEFAULT_TIME_RANGE_AFTER_CREATED_IN_MILLIS (by decide)
  refine ⟨b1, a1, b2, a2, b3, a3, ?_⟩
  intro E order rs re h
  obtain ⟨created, hc, hs, he⟩ := timeRange_some E _ order rs re h
  refine ⟨created, _, _, hc, hs, he, ?_, ?_⟩
  · intro heq
    have : (ItBitExchange.create settings).timeRangeBeforeCreatedInMillis = 0 := by omega
    exact b3 this
  · intro heq
    have : (ItBitExchange.create settings).timeRangeAfterCreatedInMillis = 0 := by omega
    exact a3 this

/-- C40, witness: settings that ask for the ranges 0 before and 5000 after give the
adapter the ranges 60000 and 5000. -/
theorem time_ranges_of_settings_witness :
    (ItBitExchange.create
      { key := some "mock_key", secret := some "mock_secret", walletId := some "mock_walletid"
        timeRangeBeforeCreatedInMillis := some 0
        timeRangeAfterCreatedInMillis := some 5000 }).timeRangeBeforeCreatedInMillis = 60000
    ∧ (ItBitExchange.create
      { key := some "mock_key", secret := some "mock_secret", walletId := some "mock_walletid"
        timeRangeBeforeCreatedInMillis := some 0
        timeRangeAfterCreatedInMillis := some 5000 }).timeRangeAfterCreatedInMillis = 5000 := by
  obtain ⟨h1, _, _, h4, _⟩ := time_ranges_of_settings
    { key := some "mock_key", secret := some "mock_secret", walletId := some "mock_walletid"
      timeRangeBeforeCreatedInMillis := some 0
      timeRangeAfterCreatedInMillis := some 5000 }
  exact ⟨h1 (Or.inr rfl), (h4 5000 rfl).mpr (by decide)⟩

end ItBit
